import Mathlib

/-!
# Block matching with a three-step search

A shallow embedding of the two C++ programs of the repository
(`Assignment1/Assignment1_Code/Main.cpp` and
`Assignment2/Assignement2_Code/dbon0031_Serial/Main.cpp`, both built on
`jbutil.h`) together with the properties proved about them.

Conventions of the embedding.

* C++ `int` values are mathematical integers (`Int`); signed overflow is
  undefined behaviour in C++ and lies outside the model.  `/` and `%` on
  `int` are `Int.tdiv` and `Int.tmod` (truncation towards zero); a zero
  divisor is a failure.
* A computation that can stop on a failed `assert` (the bounds checks of
  `jbutil::vector` and `jbutil::matrix`), on a division by zero or by running
  a loop for ever returns an `Option`; `none` is "no result".
* A `float` value is the rational number it stands for, or the not-a-number
  value (`FVal`).  Every `float` operation of the source rounds its exact result
  to the nearest number with a significand of 24 bits, a tie to the even
  significand (`F32`); the value of `pow`, a `double`, is rounded in the same way
  to 53 bits (`F64`).  The exponent range is not bounded: there is no overflow
  to infinity and no gradual underflow.  With samples in the range of a 32-bit
  `int` the sums of `MSE` stay below `2^90` and its non-zero results above
  `2^(-32)`, well inside the range of `float`, so that on such samples the
  values of the model are the values of the program.
* The global variables `block_width`, `block_height`, `search_vertical` and
  `search_horizontal` are the fields of an explicit `Config`.
-/

namespace BMA

/-! ## Loops -/

/-- Runs `body 0`, `body 1`, ..., `body (n-1)` in this order, threading the state
and stopping at the first failure. -/
def loopN {σ : Type} (body : Nat → σ → Option σ) : Nat → σ → Option σ
  | 0, s => some s
  | n + 1, s => (loopN body n s).bind (body n)

/-- The loop `for (int v = lo; v < hi; v++) body`. -/
def forRange {σ : Type} (lo hi : Int) (body : Int → σ → Option σ) (s : σ) : Option σ :=
  loopN (fun k => body (lo + (k : Int))) (hi - lo).toNat s

/-- Applies `body 0`, `body 1`, ..., `body (n-1)` in this order to the state: the loop
`loopN` for a body that cannot fail. -/
def foldN {σ : Type} (body : Nat → σ → σ) : Nat → σ → σ
  | 0, s => s
  | n + 1, s => body n (foldN body n s)

/-- The loop `for (int v = lo; v < hi; v++) body` for a body that cannot fail. -/
def foldRange {σ : Type} (lo hi : Int) (body : Int → σ → σ) (s : σ) : σ :=
  foldN (fun k => body (lo + (k : Int))) (hi - lo).toNat s

/-- The loop `for (int v = v0; v <= d; v = v + d) body`, as used with `v0 = -d` for
the candidate offsets.  The body never assigns `v` or `d`.  The loop does not
terminate when `d = 0`, so it is run on fuel: `none` also means that the fuel
ran out. -/
def forOffsets {σ : Type} (d : Int) (body : Int → σ → Option σ) : Nat → Int → σ → Option σ
  | 0, _, _ => none
  | fuel + 1, v, s =>
    if v ≤ d then (body v s).bind (forOffsets d body fuel (v + d)) else some s

/-- The loop `for (int v = v0; v < hi; v = v + step) body`, as used with `v0 = 0` for
the macroblock anchors of Assignment 2.  The body never assigns `v`.  The loop does not
terminate when `step <= 0` and `v0 < hi`, so it is run on fuel: `none` also means that
the fuel ran out. -/
def forStride {σ : Type} (hi step : Int) (body : Int → σ → Option σ) :
    Nat → Int → σ → Option σ
  | 0, _, _ => none
  | fuel + 1, v, s =>
    if v < hi then (body v s).bind (forStride hi step body fuel (v + step)) else some s

/-! ## `float` values -/

/-- Rounds a rational number to the nearest integer, a tie to the even one. -/
def round_even (x : ℚ) : Int :=
  if x - ⌊x⌋ < 1 / 2 then ⌊x⌋
  else if 1 / 2 < x - ⌊x⌋ then ⌊x⌋ + 1
  else if ⌊x⌋ % 2 = 0 then ⌊x⌋ else ⌊x⌋ + 1

/-- Rounds a positive rational number to the nearest binary floating-point number with a
significand of `p` bits, a tie to the even significand: with `e` the exponent of `q`
(`2^e <= q < 2^(e+1)`) the result is a multiple of `2^(e - (p - 1))`. -/
def fl_round_pos (p : Nat) (q : ℚ) : ℚ :=
  (round_even (q / 2 ^ (Int.log 2 q - ((p : Int) - 1))) : ℚ) * 2 ^ (Int.log 2 q - ((p : Int) - 1))

/-- Rounds a rational number to the nearest binary floating-point number with a
significand of `p` bits (round to nearest, ties to even; unbounded exponent). -/
def fl_round (p : Nat) (q : ℚ) : ℚ :=
  if q = 0 then 0 else if 0 < q then fl_round_pos p q else -fl_round_pos p (-q)

/-- The rounding of an exact result to `float` (IEEE 754 binary32, significand of 24
bits). -/
def F32 (q : ℚ) : ℚ := fl_round 24 q

/-- The rounding of an exact result to `double` (IEEE 754 binary64, significand of 53
bits). -/
def F64 (q : ℚ) : ℚ := fl_round 53 q

/-- A `float`: the rational number a finite `float` stands for, or the not-a-number
value produced by `0.0/0.0`.  The operations that produce a `float` round with `F32`.
Infinities are not modelled: the exponent range is not bounded (the values computed
from samples in the range of a 32-bit `int` never leave the range of `float`). -/
inductive FVal where
  | val (q : ℚ)
  | nan
  deriving DecidableEq

/-- The comparison `a < b` on `float`: false as soon as one side is not a number. -/
def FVal.lt : FVal → FVal → Bool
  | FVal.val a, FVal.val b => decide (a < b)
  | _, _ => false

/-- The constant `std::numeric_limits<float>::max()`, that is `(2 - 2^(-23)) * 2^127`. -/
def FLT_MAX : ℚ := 340282346638528859811704183484516925440

/-! ## `jbutil::image<int>` -/

/-- An image of `jbutil.h`: `chans` channel matrices, each of `rows` by `cols`
samples; `pix c i j` is the sample of channel `c`, row `i`, column `j` (only the
values at indices inside the extents are part of the image). -/
structure Image where
  chans : Nat
  rows : Nat
  cols : Nat
  pix : Int → Int → Int → Int

/-- The constructor `image(rows, cols, c)`: zero-filled channels.  A negative extent
makes the underlying `std::vector::resize` throw, which is a failure.  The model fails
on every negative extent; the source fails only when the negative extent reaches a
`resize` (with `c = 0` no matrix is resized, and with `rows = 0` no row is).  The
programs call the constructor with the extents of a loaded frame, which are not
negative. -/
def Image.new (rows cols c : Int) : Option Image :=
  if rows < 0 ∨ cols < 0 ∨ c < 0 then none
  else some ⟨c.toNat, rows.toNat, cols.toNat, fun _ _ _ => 0⟩

/-- The method `channels()`. -/
def Image.channels (im : Image) : Int := im.chans

/-- The method `get_rows()`: the row count of channel 0, or 0 without channels. -/
def Image.get_rows (im : Image) : Int := if im.channels > 0 then im.rows else 0

/-- The method `get_cols()`: the column count of channel 0, or 0 without channels. -/
def Image.get_cols (im : Image) : Int := if im.channels > 0 then im.cols else 0

/-- The asserted index conditions of `operator()(c, i, j)`. -/
def Image.inBounds (im : Image) (c i j : Int) : Prop :=
  (0 ≤ c ∧ c < im.chans) ∧ (0 ≤ i ∧ i < im.rows) ∧ (0 ≤ j ∧ j < im.cols)

instance Image.decidableInBounds (im : Image) (c i j : Int) : Decidable (im.inBounds c i j) :=
  inferInstanceAs
    (Decidable ((0 ≤ c ∧ c < im.chans) ∧ (0 ≤ i ∧ i < im.rows) ∧ (0 ≤ j ∧ j < im.cols)))

/-- Reading `im(c, i, j)`. -/
def Image.read (im : Image) (c i j : Int) : Option Int :=
  if im.inBounds c i j then some (im.pix c i j) else none

/-- The assignment `im(c, i, j) = v`. -/
def Image.write (im : Image) (c i j v : Int) : Option Image :=
  if im.inBounds c i j then
    some { im with pix := fun c' i' j' => if c' = c ∧ i' = i ∧ j' = j then v else im.pix c' i' j' }
  else none

/-! ## Code shared by the two programs -/

/-- The four global parameters of the algorithm. -/
structure Config where
  block_width : Int
  block_height : Int
  search_vertical : Int
  search_horizontal : Int

/-- Function `Set_Image_Range`: the image made of a range of `input`; the result is the
new value of the `output` argument.  The counters `count_channel`, `count_row`,
`count_col` are `channel - channel_start`, `row - row_start`, `col - col_start`. -/
def Set_Image_Range (input : Image)
    (channel_start channel_stop col_start col_stop row_start row_stop : Int) : Option Image := do
  let new_output ← Image.new (row_stop - row_start) (col_stop - col_start)
    (channel_stop - channel_start)
  forRange channel_start channel_stop (fun channel out =>
    forRange row_start row_stop (fun row out =>
      forRange col_start col_stop (fun col out => do
        let v ← input.read channel row col
        out.write (channel - channel_start) (row - row_start) (col - col_start) v) out) out)
    new_output

/-- Function `Modify_Image_Range`: copies a range of `input` into `output` at
`(output_row, output_col)`; the result is the new value of `output`.  The counters
`row_count`, `col_count` are `row - row_start`, `col - col_start`. -/
def Modify_Image_Range (input output : Image)
    (channel_start channel_stop col_start col_stop row_start row_stop output_col output_row : Int) :
    Option Image :=
  forRange channel_start channel_stop (fun channel out =>
    forRange row_start row_stop (fun row out =>
      forRange col_start col_stop (fun col out => do
        let v ← input.read channel row col
        out.write channel (output_row + (row - row_start)) (output_col + (col - col_start)) v)
        out) out)
    output

/-- The sum accumulated by the three loops of `MSE` in the `float` variable `MSE`:
the statement `MSE = MSE + float(pow(Block_1(channel,row,col) -
Block_2(channel,row,col), 2))` computes the square as a `double` (`pow` is taken to be
correctly rounded), converts it to `float` and rounds the `float` addition. -/
def MSE_sum (Block_1 Block_2 : Image) : Option ℚ :=
  forRange 0 Block_1.channels (fun channel acc =>
    forRange 0 Block_1.get_rows (fun row acc =>
      forRange 0 Block_1.get_cols (fun col acc => do
        let a ← Block_1.read channel row col
        let b ← Block_2.read channel row col
        some (F32 (acc + F32 (F64 ((((a - b : Int) : ℚ)) ^ 2))))) acc) acc)
    (0 : ℚ)

/-- Function `MSE`: the mean square error between two blocks, as the source computes it
in `float`.  The final statement `MSE = MSE / float(channels * rows * cols)` converts the
number of samples to `float` and rounds the `float` division: with no sample at all it
is `0.0/0.0`, not a number. -/
def MSE (Block_1 Block_2 : Image) : Option FVal := do
  let acc ← MSE_sum Block_1 Block_2
  let n : Int := Block_1.channels * Block_1.get_rows * Block_1.get_cols
  if n = 0 then some FVal.nan else some (FVal.val (F32 (acc / F32 (n : ℚ))))

/-- The value the three loops of `MSE` accumulate for the sample differences `d` over
`C` channels, `R` rows and `K` columns, in the order and with the roundings of the
source. -/
def Float_Sum (d : Int → Int → Int → Int) (C R K : Int) : ℚ :=
  foldRange 0 C (fun channel acc =>
    foldRange 0 R (fun row acc =>
      foldRange 0 K (fun col acc =>
        F32 (acc + F32 (F64 ((((d channel row col : Int) : ℚ)) ^ 2)))) acc) acc)
    (0 : ℚ)

/-- The value `MSE` returns for the sample differences `d` over `C` channels, `R` rows
and `K` columns with at least one sample: the accumulated sum divided by the number of
samples, in `float`. -/
def Float_Mean (d : Int → Int → Int → Int) (C R K : Int) : ℚ :=
  F32 (Float_Sum d C R K / F32 ((C * R * K : Int) : ℚ))

/-- The mean of the squared sample differences `d` over `C` channels, `R` rows and `K`
columns as a rational number, without any rounding. -/
def Mean_Square (d : Int → Int → Int → Int) (C R K : Int) : ℚ :=
  (∑ t ∈ Finset.Ico (0 : Int) C ×ˢ Finset.Ico (0 : Int) R ×ˢ Finset.Ico (0 : Int) K,
    (((d t.1 t.2.1 t.2.2 : Int) : ℚ)) ^ 2) / ((C * R * K : Int) : ℚ)

/-! ## Assignment 1 -/

namespace Assignment1

/-- The `Macroblock` struct.  The motion vector is uninitialised in the source
until `Block_Match` assigns it; it is 0 here until then. -/
structure Macroblock where
  block : Image
  block_location_x : Int
  block_location_y : Int
  search_location_x_start : Int
  search_location_x_stop : Int
  search_location_y_start : Int
  search_location_y_stop : Int
  motion_vector_x : Int
  motion_vector_y : Int

/-- Function `Set_Search_Area` of Assignment 1; the result is the new value of
`this_macroblock`. -/
def Set_Search_Area (cfg : Config) (this_macroblock : Macroblock)
    (max_cols max_rows search_horiz search_vert centre_col centre_row : Int) : Macroblock :=
  let x_start := centre_col - search_horiz
  let x_start := if x_start < 0 then 0 else x_start
  let x_stop := centre_col + cfg.block_width + search_horiz
  let x_stop := if x_stop > max_cols then max_cols else x_stop
  let y_start := centre_row - search_vert
  let y_start := if y_start < 0 then 0 else y_start
  let y_stop := centre_row + cfg.block_height + search_vert
  let y_stop := if y_stop > max_rows then max_rows else y_stop
  { this_macroblock with
    search_location_x_start := x_start
    search_location_x_stop := x_stop
    search_location_y_start := y_start
    search_location_y_stop := y_stop }

/-- Function `Set_Macroblocks`: segments `current_frame`, appending the blocks to
`macroblock_array`; the result is the new value of the array. -/
def Set_Macroblocks (cfg : Config) (current_frame : Image) (macroblock_array : List Macroblock) :
    Option (List Macroblock) :=
  if cfg.block_width = 0 ∨ cfg.block_height = 0 then none
  else
    let macroblocks_horiz := current_frame.get_cols.tdiv cfg.block_width
    let macroblocks_vert := current_frame.get_rows.tdiv cfg.block_height
    forRange 0 macroblocks_vert (fun vert arr =>
      forRange 0 macroblocks_horiz (fun horiz arr => do
        let block ← Set_Image_Range current_frame 0 current_frame.channels
          (horiz * cfg.block_width) ((horiz + 1) * cfg.block_width)
          (vert * cfg.block_height) ((vert + 1) * cfg.block_height)
        let this_macroblock : Macroblock :=
          { block := block
            block_location_x := horiz * cfg.block_width
            block_location_y := vert * cfg.block_height
            search_location_x_start := 0
            search_location_x_stop := 0
            search_location_y_start := 0
            search_location_y_stop := 0
            motion_vector_x := 0
            motion_vector_y := 0 }
        let this_macroblock := Set_Search_Area cfg this_macroblock
          current_frame.get_cols current_frame.get_rows
          cfg.search_horizontal cfg.search_vertical
          this_macroblock.block_location_x this_macroblock.block_location_y
        some (arr ++ [this_macroblock])) arr)
      macroblock_array

/-- Function `Reconstruct_Frame`: the loop over the macroblock array, in array order; the
result is the new value of `reconstructed_frame`. -/
def Reconstruct_Frame (cfg : Config) (prev_frame : Image) :
    List Macroblock → Image → Option Image
  | [], reconstructed_frame => some reconstructed_frame
  | mb :: rest, reconstructed_frame => do
    let x_start := mb.block_location_x + mb.motion_vector_x
    let x_stop := x_start + cfg.block_width
    let y_start := mb.block_location_y + mb.motion_vector_y
    let y_stop := y_start + cfg.block_height
    let r ← Modify_Image_Range prev_frame reconstructed_frame 0 reconstructed_frame.channels
      x_start x_stop y_start y_stop mb.block_location_x mb.block_location_y
    Reconstruct_Frame cfg prev_frame rest r

/-- The local variables of the per-macroblock part of `Block_Match`. -/
structure SearchState where
  this_macroblock : Macroblock
  least_MSE : FVal
  least_MSE_x : Int
  least_MSE_y : Int
  new_least_MSE_x : Int
  new_least_MSE_y : Int
  search_dist_x : Int
  search_dist_y : Int

/-- The body of the two candidate loops of `Block_Match` (lines 258-312) for the
offsets `x` and `y`; a `continue` leaves the state as it is. -/
def Try_Candidate (cfg : Config) (frame_1 : Image) (x y : Int) (st : SearchState) :
    Option SearchState :=
  let x_start := st.least_MSE_x + x
  if x_start < 0 then some st
  else
    let x_stop := x_start + cfg.block_width
    if x_stop > st.this_macroblock.search_location_x_stop then some st
    else
      let y_start := st.least_MSE_y + y
      if y_start < 0 then some st
      else
        let y_stop := y_start + cfg.block_height
        if y_stop > st.this_macroblock.search_location_y_stop then some st
        else do
          let search_block ← Set_Image_Range frame_1 0 frame_1.channels
            x_start x_stop y_start y_stop
          let current_MSE ← MSE st.this_macroblock.block search_block
          if current_MSE.lt st.least_MSE then
            some { st with
              least_MSE := current_MSE
              new_least_MSE_x := x_start
              new_least_MSE_y := y_start }
          else some st

/-- The two nested candidate loops of one step (lines 251-314). -/
def Scan_Candidates (cfg : Config) (fuel : Nat) (frame_1 : Image) (st : SearchState) :
    Option SearchState :=
  forOffsets st.search_dist_x (fun x st1 =>
    forOffsets st.search_dist_y (fun y st2 => Try_Candidate cfg frame_1 x y st2)
      fuel (-st.search_dist_y) st1)
    fuel (-st.search_dist_x) st

/-- The update of the step distances after a step (lines 322-332). -/
def Update_Search_Dist (search_count : Int) (st : SearchState) : Option SearchState :=
  if search_count = 1 then some { st with search_dist_x := 1, search_dist_y := 1 }
  else if search_count ≠ 2 then
    if st.search_dist_x.tdiv 2 = 0 ∨ st.search_dist_y.tdiv 2 = 0 then none
    else some { st with
      search_dist_x :=
        (st.search_dist_x + st.search_dist_x.tdiv 2 - 1).tdiv (st.search_dist_x.tdiv 2)
      search_dist_y :=
        (st.search_dist_y + st.search_dist_y.tdiv 2 - 1).tdiv (st.search_dist_y.tdiv 2) }
  else some st

/-- The end of one iteration of the loop over `search_count`, after the candidate
loops (lines 316-340). -/
def Finish_Step (cfg : Config) (frame_1 : Image) (search_count : Int) (st : SearchState) :
    Option SearchState := do
  let st := { st with least_MSE_x := st.new_least_MSE_x, least_MSE_y := st.new_least_MSE_y }
  let st ← Update_Search_Dist search_count st
  if search_count ≠ 2 then
    some { st with
      this_macroblock := Set_Search_Area cfg st.this_macroblock frame_1.get_cols frame_1.get_rows
        st.search_dist_y st.search_dist_x st.least_MSE_x st.least_MSE_y }
  else some st

/-- One iteration of the loop over `search_count` (lines 247-341). -/
def Search_Step (cfg : Config) (fuel : Nat) (frame_1 : Image) (search_count : Int)
    (st : SearchState) : Option SearchState := do
  let st ← Scan_Candidates cfg fuel frame_1 st
  Finish_Step cfg frame_1 search_count st

/-- The values of the local variables when the loop over `search_count` starts
(lines 234-245). -/
def Search_Init (cfg : Config) (this_macroblock : Macroblock) : SearchState :=
  { this_macroblock := this_macroblock
    least_MSE := FVal.val FLT_MAX
    least_MSE_x := this_macroblock.block_location_x
    least_MSE_y := this_macroblock.block_location_y
    new_least_MSE_x := 0
    new_least_MSE_y := 0
    search_dist_x := cfg.search_horizontal.tdiv 2
    search_dist_y := cfg.search_vertical.tdiv 2 }

/-- The three steps of the search for one macroblock (lines 234-341): the final
values of the local variables. -/
def Three_Step_Search (cfg : Config) (fuel : Nat) (frame_1 : Image) (this_macroblock : Macroblock) :
    Option SearchState :=
  forRange 0 3 (Search_Step cfg fuel frame_1) (Search_Init cfg this_macroblock)

/-- The body of the loop over the macroblocks in `Block_Match` (lines 234-356): the
macroblock written back to the array, and the final value of `least_MSE`. -/
def Match_Macroblock (cfg : Config) (fuel : Nat) (frame_1 : Image) (this_macroblock : Macroblock) :
    Option (Macroblock × FVal) := do
  let st ← Three_Step_Search cfg fuel frame_1 this_macroblock
  some ({ st.this_macroblock with
          motion_vector_x := st.least_MSE_x - st.this_macroblock.block_location_x
          motion_vector_y := st.least_MSE_y - st.this_macroblock.block_location_y },
        st.least_MSE)

/-- The loop over the macroblocks in `Block_Match` (lines 232-357), which replaces
every element of the array in turn: the new array, with the final `least_MSE` of
each macroblock. -/
def Match_All (cfg : Config) (fuel : Nat) (frame_1 : Image) :
    List Macroblock → Option (List (Macroblock × FVal))
  | [] => some []
  | mb :: rest => do
    let m ← Match_Macroblock cfg fuel frame_1 mb
    let ms ← Match_All cfg fuel frame_1 rest
    some (m :: ms)

/-- Function `Block_Match` of Assignment 1: the returned flag and the new value of
`reconstructed_frame2`. -/
def Block_Match (cfg : Config) (fuel : Nat) (frame_1 frame_2 reconstructed_frame2 : Image) :
    Option (Bool × Image) :=
  if cfg.block_width = 0 then none
  else if ¬ (frame_1.get_cols.tmod cfg.block_width = 0) then some (false, reconstructed_frame2)
  else if cfg.block_height = 0 then none
  else if ¬ (frame_1.get_rows.tmod cfg.block_height = 0) then some (false, reconstructed_frame2)
  else do
    let macroblock_array ← Set_Macroblocks cfg frame_2 []
    let matched ← Match_All cfg fuel frame_1 macroblock_array
    let r ← Reconstruct_Frame cfg frame_1 (matched.map Prod.fst) reconstructed_frame2
    some (true, r)

/-- The method `save` as far as the run is concerned: it asserts that the image has
a channel; the result is the image written to the stream.  Not modelled: the failure
"Image format not supported" for a number of channels other than 1 and 3, and the
assertion `p >= 0 && p <= m_maxval` on each sample written. -/
def save (im : Image) : Option Image :=
  if im.channels > 0 then some im else none

/-- The function `main` of Assignment 1 from the check of the parameters on (lines
395-465), given the parsed parameters and the two loaded frames.  The result is
the image saved as `Reconstructed_Frame.ppm`, or `none` inside the `Option` when
the run returns without saving.  The value returned by `Block_Match` is not
used by the source. -/
def main (cfg : Config) (fuel : Nat) (frame1 frame2 : Image) : Option (Option Image) :=
  if cfg.block_width = 0 ∨ cfg.block_height = 0 ∨ cfg.search_vertical = 0 ∨
      cfg.search_horizontal = 0 then some none
  else do
    let reconstructed_frame2 ← Image.new frame2.get_rows frame2.get_cols frame2.channels
    let res ← Block_Match cfg fuel frame1 frame2 reconstructed_frame2
    let saved ← save res.2
    some (some saved)

end Assignment1

/-! ## Assignment 2 -/

namespace Assignment2

/-- Function `Parameter_Check` of Assignment 2. -/
def Parameter_Check (cfg : Config) (frame_1 : Image) : Option Bool :=
  if cfg.block_width = 0 then none
  else if ¬ (frame_1.get_cols.tmod cfg.block_width = 0) then some false
  else if cfg.block_height = 0 then none
  else if ¬ (frame_1.get_rows.tmod cfg.block_height = 0) then some false
  else some true

/-- Function `Get_Search_Area_Start` of Assignment 2. -/
def Get_Search_Area_Start (search_dist centre_coordinate : Int) : Int :=
  let start := centre_coordinate - search_dist
  if start < 0 then 0 else start

/-- Function `Get_Search_Area_Stop` of Assignment 2. -/
def Get_Search_Area_Stop (max search_dist centre_coordinate block_distance : Int) : Int :=
  let stop := centre_coordinate + block_distance + search_dist
  if stop > max then max else stop

/-- The local variables of the body of the loop over the macroblocks in `Block_Match`
of Assignment 2 (lines 185-209): the bounds of the search area, the macroblock and
the variables of the search. -/
structure SearchState where
  search_area_x_start : Int
  search_area_x_stop : Int
  search_area_y_start : Int
  search_area_y_stop : Int
  macroblock : Image
  least_MSE : FVal
  least_MSE_x : Int
  least_MSE_y : Int
  new_least_MSE_x : Int
  new_least_MSE_y : Int
  search_dist_x : Int
  search_dist_y : Int

/-- The body of the two candidate loops of `Block_Match` of Assignment 2 (lines
216-250) for the offsets `x` and `y`; the `continue` leaves the state as it is. -/
def Try_Candidate (cfg : Config) (frame_1 : Image) (x y : Int) (st : SearchState) :
    Option SearchState :=
  let block_x_start := st.least_MSE_x + x
  let block_x_stop := block_x_start + cfg.block_width
  let block_y_start := st.least_MSE_y + y
  let block_y_stop := block_y_start + cfg.block_height
  if block_x_start < 0 ∨ block_x_stop > st.search_area_x_stop ∨ block_y_start < 0 ∨
      block_y_stop > st.search_area_y_stop then some st
  else do
    let search_block ← Set_Image_Range frame_1 0 frame_1.channels
      block_x_start block_x_stop block_y_start block_y_stop
    let current_MSE ← MSE st.macroblock search_block
    if current_MSE.lt st.least_MSE then
      some { st with
        least_MSE := current_MSE
        new_least_MSE_x := block_x_start
        new_least_MSE_y := block_y_start }
    else some st

/-- The two nested candidate loops of one step (lines 212-252). -/
def Scan_Candidates (cfg : Config) (fuel : Nat) (frame_1 : Image) (st : SearchState) :
    Option SearchState :=
  forOffsets st.search_dist_x (fun x st1 =>
    forOffsets st.search_dist_y (fun y st2 => Try_Candidate cfg frame_1 x y st2)
      fuel (-st.search_dist_y) st1)
    fuel (-st.search_dist_x) st

/-- The update of the step distances after a step (lines 258-268). -/
def Update_Search_Dist (search_count : Int) (st : SearchState) : Option SearchState :=
  if search_count = 1 then some { st with search_dist_x := 1, search_dist_y := 1 }
  else if search_count ≠ 2 then
    if st.search_dist_x.tdiv 2 = 0 ∨ st.search_dist_y.tdiv 2 = 0 then none
    else some { st with
      search_dist_x :=
        (st.search_dist_x + st.search_dist_x.tdiv 2 - 1).tdiv (st.search_dist_x.tdiv 2)
      search_dist_y :=
        (st.search_dist_y + st.search_dist_y.tdiv 2 - 1).tdiv (st.search_dist_y.tdiv 2) }
  else some st

/-- The end of one iteration of the loop over `search_count` (lines 254-279).  The
four bounds computed when `search_count != 2` are new variables declared inside that
block: they hide the bounds of the state and are dropped at the end of the block. -/
def Finish_Step (cfg : Config) (frame_1 : Image) (search_count : Int) (st : SearchState) :
    Option SearchState := do
  let st := { st with least_MSE_x := st.new_least_MSE_x, least_MSE_y := st.new_least_MSE_y }
  let st ← Update_Search_Dist search_count st
  if search_count ≠ 2 then
    let _search_area_x_start := Get_Search_Area_Start st.search_dist_x st.least_MSE_x
    let _search_area_x_stop :=
      Get_Search_Area_Stop frame_1.get_cols st.search_dist_x st.least_MSE_x cfg.block_width
    let _search_area_y_start := Get_Search_Area_Start st.search_dist_y st.least_MSE_y
    let _search_area_y_stop :=
      Get_Search_Area_Stop frame_1.get_rows st.search_dist_y st.least_MSE_y cfg.block_height
    some st
  else some st

/-- One iteration of the loop over `search_count` (lines 208-280). -/
def Search_Step (cfg : Config) (fuel : Nat) (frame_1 : Image) (search_count : Int)
    (st : SearchState) : Option SearchState := do
  let st ← Scan_Candidates cfg fuel frame_1 st
  Finish_Step cfg frame_1 search_count st

/-- The values of the local variables when the loop over `search_count` starts
(lines 185-205), given the macroblock cut out of `frame_2`. -/
def Search_Init (cfg : Config) (frame_1 macroblock : Image) (macroblock_x macroblock_y : Int) :
    SearchState :=
  { search_area_x_start := Get_Search_Area_Start cfg.search_horizontal macroblock_x
    search_area_x_stop :=
      Get_Search_Area_Stop frame_1.get_cols cfg.search_horizontal macroblock_x cfg.block_width
    search_area_y_start := Get_Search_Area_Start cfg.search_vertical macroblock_y
    search_area_y_stop :=
      Get_Search_Area_Stop frame_1.get_rows cfg.search_vertical macroblock_y cfg.block_height
    macroblock := macroblock
    least_MSE := FVal.val FLT_MAX
    least_MSE_x := macroblock_x
    least_MSE_y := macroblock_y
    new_least_MSE_x := 0
    new_least_MSE_y := 0
    search_dist_x := cfg.search_horizontal.tdiv 2
    search_dist_y := cfg.search_vertical.tdiv 2 }

/-- The search of the body of the loop over the macroblocks (lines 185-280): the
macroblock is cut out of `frame_2` and the three steps run; the result holds the
final values of the local variables. -/
def Find_Best (cfg : Config) (fuel : Nat) (frame_1 frame_2 : Image)
    (macroblock_x macroblock_y : Int) : Option SearchState := do
  let macroblock ← Set_Image_Range frame_2 0 frame_2.channels
    macroblock_x (macroblock_x + cfg.block_width) macroblock_y (macroblock_y + cfg.block_height)
  forRange 0 3 (Search_Step cfg fuel frame_1)
    (Search_Init cfg frame_1 macroblock macroblock_x macroblock_y)

/-- The body of the loop over the macroblocks (lines 185-296): the search, then the
copy of the matched region of `frame_1` into `reconstructed_frame2`; the result is the
new value of `reconstructed_frame2`. -/
def Match_Block (cfg : Config) (fuel : Nat) (frame_1 frame_2 : Image)
    (macroblock_x macroblock_y : Int) (reconstructed_frame2 : Image) : Option Image := do
  let st ← Find_Best cfg fuel frame_1 frame_2 macroblock_x macroblock_y
  let motion_vector_x := st.least_MSE_x - macroblock_x
  let motion_vector_y := st.least_MSE_y - macroblock_y
  let x_start := macroblock_x + motion_vector_x
  let x_stop := x_start + cfg.block_width
  let y_start := macroblock_y + motion_vector_y
  let y_stop := y_start + cfg.block_height
  Modify_Image_Range frame_1 reconstructed_frame2 0 reconstructed_frame2.channels
    x_start x_stop y_start y_stop macroblock_x macroblock_y

/-- Function `Block_Match` of Assignment 2: the loop over the columns of macroblocks
and, inside it, the loop over the rows of macroblocks; the result is the new value of
`reconstructed_frame2`. -/
def Block_Match (cfg : Config) (fuel : Nat) (frame_1 frame_2 reconstructed_frame2 : Image) :
    Option Image :=
  forStride frame_2.get_cols cfg.block_width (fun macroblock_x r =>
    forStride frame_2.get_rows cfg.block_height (fun macroblock_y r2 =>
      Match_Block cfg fuel frame_1 frame_2 macroblock_x macroblock_y r2) fuel 0 r)
    fuel 0 reconstructed_frame2

end Assignment2

/-! ## Predicates used to state the properties -/

namespace Assignment1

/-- The macroblock `mb` is the one `Set_Macroblocks` builds for row `vert` and column
`horiz` of the block grid of `frame`. -/
def Is_Block_At (cfg : Config) (frame : Image) (vert horiz : Int) (mb : Macroblock) : Prop :=
  (mb.block_location_x = horiz * cfg.block_width ∧
    mb.block_location_y = vert * cfg.block_height) ∧
  (mb.block.chans = frame.chans ∧ (mb.block.rows : Int) = cfg.block_height ∧
    (mb.block.cols : Int) = cfg.block_width) ∧
  (∀ a b c, (0 ≤ a ∧ a < (frame.chans : Int)) → (0 ≤ b ∧ b < cfg.block_height) →
    (0 ≤ c ∧ c < cfg.block_width) →
    mb.block.pix a b c =
      frame.pix a (vert * cfg.block_height + b) (horiz * cfg.block_width + c)) ∧
  (mb.search_location_x_start = max 0 (horiz * cfg.block_width - cfg.search_horizontal) ∧
    mb.search_location_x_stop =
      min frame.get_cols (horiz * cfg.block_width + cfg.block_width + cfg.search_horizontal) ∧
    mb.search_location_y_start = max 0 (vert * cfg.block_height - cfg.search_vertical) ∧
    mb.search_location_y_stop =
      min frame.get_rows (vert * cfg.block_height + cfg.block_height + cfg.search_vertical)) ∧
  (mb.motion_vector_x = 0 ∧ mb.motion_vector_y = 0)

/-- The candidate at offset `(x, y)` from the current best location passes the four
bounds checks of `Try_Candidate`. -/
def Cand_Valid (cfg : Config) (st : SearchState) (x y : Int) : Prop :=
  (0 ≤ st.least_MSE_x + x ∧
    st.least_MSE_x + x + cfg.block_width ≤ st.this_macroblock.search_location_x_stop) ∧
  (0 ≤ st.least_MSE_y + y ∧
    st.least_MSE_y + y + cfg.block_height ≤ st.this_macroblock.search_location_y_stop)

/-- The samples of `block` are those of the region of `frame_1` of the size of a block
whose top left corner is at column `x` and row `y`. -/
def Region_Eq (cfg : Config) (block frame_1 : Image) (x y : Int) : Prop :=
  ∀ a b c, (0 ≤ a ∧ a < (block.chans : Int)) → (0 ≤ b ∧ b < cfg.block_height) →
    (0 ≤ c ∧ c < cfg.block_width) → block.pix a b c = frame_1.pix a (y + b) (x + c)

/-- The candidate at offset `(x, y)` is compared and matches the block exactly. -/
def Cand_Hit (cfg : Config) (frame_1 : Image) (st : SearchState) (x y : Int) : Prop :=
  Cand_Valid cfg st x y ∧
    Region_Eq cfg st.this_macroblock.block frame_1 (st.least_MSE_x + x) (st.least_MSE_y + y)

/-- The conditions under which a search step cannot fail: positive block sizes, a
block of the configured size with the channels of `frame_1`, a search window that
stops inside `frame_1` and positive step distances. -/
def Search_OK (cfg : Config) (frame_1 : Image) (st : SearchState) : Prop :=
  (0 < cfg.block_width ∧ 0 < cfg.block_height) ∧
  (0 < frame_1.chans ∧ st.this_macroblock.block.chans = frame_1.chans ∧
    (st.this_macroblock.block.rows : Int) = cfg.block_height ∧
    (st.this_macroblock.block.cols : Int) = cfg.block_width) ∧
  (st.this_macroblock.search_location_x_stop ≤ frame_1.cols ∧
    st.this_macroblock.search_location_y_stop ≤ frame_1.rows) ∧
  (0 < st.search_dist_x ∧ 0 < st.search_dist_y)

/-- The state `st` with another running best. -/
def With_Best (st : SearchState) (m : FVal) (nx ny : Int) : SearchState :=
  { st with least_MSE := m, new_least_MSE_x := nx, new_least_MSE_y := ny }

/-- The candidates of a list of offsets tried in turn. -/
def Scan_List (cfg : Config) (frame_1 : Image) : List (Int × Int) → SearchState → Option SearchState
  | [], st => some st
  | o :: rest, st => (Try_Candidate cfg frame_1 o.1 o.2 st).bind (Scan_List cfg frame_1 rest)

/-- The nine offsets of a step in the order of the two candidate loops: the column
offset in the outer loop, the row offset in the inner loop. -/
def Nine_Offsets (dx dy : Int) : List (Int × Int) :=
  [(-dx, -dy), (-dx, 0), (-dx, dy), (0, -dy), (0, 0), (0, dy), (dx, -dy), (dx, 0), (dx, dy)]

end Assignment1

/-! ## Sample inputs -/

/-- A frame of one channel, 16 rows and 16 columns. -/
def frame16 : Image := ⟨1, 16, 16, fun _ i j => 16 * i + j⟩

/-- A frame of one channel, 15 rows and 16 columns. -/
def frame15 : Image := ⟨1, 15, 16, fun _ i j => 16 * i + j⟩

/-- Blocks of 8 by 8 with both radii 4. -/
def cfg8 : Config := ⟨8, 8, 4, 4⟩

/-- Blocks of one sample with both radii 4. -/
def cfg1 : Config := ⟨1, 1, 4, 4⟩

/-- A frame of one channel, 3 rows and 3 columns whose samples are all 0. -/
def flat3 : Image := ⟨1, 3, 3, fun _ _ _ => 0⟩

/-- Blocks of 2 by 2 with both radii 4. -/
def cfg2 : Config := ⟨2, 2, 4, 4⟩

/-- A frame of one channel, 2 rows and 2 columns. -/
def frame2x2 : Image := ⟨1, 2, 2, fun _ i j => 2 * i + j⟩

/-- A frame of one channel, 1 row and 1 column. -/
def frame1x1 : Image := ⟨1, 1, 1, fun _ _ _ => 7⟩

/-- The zero-filled frame of one channel, 15 rows and 16 columns. -/
def blank15 : Image := ⟨1, 15, 16, fun _ _ _ => 0⟩

/-- Blocks of one sample with both radii 8. -/
def cfgR8 : Config := ⟨1, 1, 8, 8⟩

/-- A reference frame of one channel, 19 rows and 19 columns whose samples are all
different. -/
def ref19 : Image := ⟨1, 19, 19, fun _ i j => 19 * i + j⟩

/-- The frame `ref19` translated by 8 columns: the sample at `(r, c)` is the sample of
`ref19` at `(r, c + 8)`. -/
def right19 : Image := ⟨1, 19, 19, fun a i j => ref19.pix a i (j + 8)⟩

/-- The frame `ref19` translated by 4 rows and 4 columns up and left: the sample at
`(r, c)` is the sample of `ref19` at `(r - 4, c - 4)`. -/
def upleft19 : Image := ⟨1, 19, 19, fun a i j => ref19.pix a (i + -4) (j + -4)⟩

/-- The default-constructed image `image()`: no channel. -/
def empty_image : Image := ⟨0, 0, 0, fun _ _ _ => 0⟩

/-- A block of one channel, 2 rows and 2 columns. -/
def blockA : Image := ⟨1, 2, 2, fun _ i j => 2 * i + j⟩

/-- Another block of one channel, 2 rows and 2 columns. -/
def blockB : Image := ⟨1, 2, 2, fun _ i j => i + 3 * j⟩

/-- Blocks of 8 by 8 with both radii 2. -/
def cfg8r2 : Config := ⟨8, 8, 2, 2⟩

/-- Blocks of 8 by 8 with both radii 1. -/
def cfg8r1 : Config := ⟨8, 8, 1, 1⟩

/-- The anchor of a macroblock: its `block_location_x` and `block_location_y`. -/
def Assignment1.Anchor (mb : Assignment1.Macroblock) : Int × Int :=
  (mb.block_location_x, mb.block_location_y)

/-- The sample at row `i` and column `j` lies in the destination region of a block
anchored at `p`: `block_width` columns from `p.1`, `block_height` rows from `p.2`. -/
def Assignment1.Covers (cfg : Config) (p : Int × Int) (i j : Int) : Prop :=
  (p.1 ≤ j ∧ j < p.1 + cfg.block_width) ∧ (p.2 ≤ i ∧ i < p.2 + cfg.block_height)

/-- The destination regions of the blocks anchored at `p` and `q` share no sample. -/
def Assignment1.Disjoint_Dest (cfg : Config) (p q : Int × Int) : Prop :=
  ∀ i j, ¬ (Assignment1.Covers cfg p i j ∧ Assignment1.Covers cfg q i j)

/-- The source region of a macroblock, displaced by its motion vector, lies inside
the reference frame. -/
def Assignment1.Source_In (cfg : Config) (prev_frame : Image) (mb : Assignment1.Macroblock) :
    Prop :=
  (0 ≤ mb.block_location_x + mb.motion_vector_x ∧
    mb.block_location_x + mb.motion_vector_x + cfg.block_width ≤ prev_frame.cols) ∧
  (0 ≤ mb.block_location_y + mb.motion_vector_y ∧
    mb.block_location_y + mb.motion_vector_y + cfg.block_height ≤ prev_frame.rows)

/-- The destination region of a macroblock lies inside the output frame. -/
def Assignment1.Dest_In (cfg : Config) (out : Image) (mb : Assignment1.Macroblock) : Prop :=
  (0 ≤ mb.block_location_x ∧ mb.block_location_x + cfg.block_width ≤ out.cols) ∧
  (0 ≤ mb.block_location_y ∧ mb.block_location_y + cfg.block_height ≤ out.rows)

/-- An output frame of one channel, 16 rows and 16 columns whose samples are all 0. -/
def blank16 : Image := ⟨1, 16, 16, fun _ _ _ => 0⟩

/-- The macroblock `mb` with the motion vector that points to the top left corner
of the reference frame. -/
def Aim_Origin (mb : Assignment1.Macroblock) : Assignment1.Macroblock :=
  { mb with motion_vector_x := -mb.block_location_x
            motion_vector_y := -mb.block_location_y }

/-- The distortion `Try_Candidate` computes for the candidate region of `frame_1` with
top left corner at column `x` and row `y`: the `float` value of `MSE` on `block` and the
block cut out by `Set_Image_Range`. -/
def Assignment1.Cand_MSE (cfg : Config) (block frame_1 : Image) (x y : Int) : ℚ :=
  Float_Mean (fun channel row col =>
    block.pix channel row col - frame_1.pix channel (y + row) (x + col))
    block.chans cfg.block_height cfg.block_width

/-- The mean square error between `block` and the region of `frame_1` with top left
corner at column `x` and row `y` as a rational number, without any rounding. -/
def Assignment1.Exact_MSE (cfg : Config) (block frame_1 : Image) (x y : Int) : ℚ :=
  Mean_Square (fun channel row col =>
    block.pix channel row col - frame_1.pix channel (y + row) (x + col))
    block.chans cfg.block_height cfg.block_width

/-- The distortion of the candidate at offset `o` from the current best location. -/
def Assignment1.Offset_MSE (cfg : Config) (frame_1 : Image) (st : Assignment1.SearchState)
    (o : Int × Int) : ℚ :=
  Assignment1.Cand_MSE cfg st.this_macroblock.block frame_1
    (st.least_MSE_x + o.1) (st.least_MSE_y + o.2)

/-- A reference frame of one channel, one row and 6 columns with the samples
3, 9, 2, 9, 1, 0. -/
def ref6 : Image :=
  ⟨1, 1, 6, fun _ _ j =>
    if j = 0 then 3 else if j = 2 then 2 else if j = 4 then 1 else if j = 5 then 0 else 9⟩

/-- A target frame of one channel, one row and 6 columns whose samples are all 0. -/
def tgt6 : Image := ⟨1, 1, 6, fun _ _ _ => 0⟩

/-- The sum of the three step distances of a search with the given radius: the first is
half the radius, the second comes from the recurrence, the third is 1. -/
def Assignment1.Reach (radius : Int) : Int :=
  radius.tdiv 2 +
    (radius.tdiv 2 + (radius.tdiv 2).tdiv 2 - 1).tdiv ((radius.tdiv 2).tdiv 2) + 1

/-- A macroblock at the origin that holds the frame `flat3`; all other fields are 0. -/
def block_flat3 : Assignment1.Macroblock := ⟨flat3, 0, 0, 0, 0, 0, 0, 0, 0⟩

/-- The block of the configured size with top left corner at column `x` and row `y`
passes the four bounds checks of the candidate loops in state `st`. -/
def Assignment1.Win_Has (cfg : Config) (st : Assignment1.SearchState) (x y : Int) : Prop :=
  (0 ≤ x ∧ x + cfg.block_width ≤ st.this_macroblock.search_location_x_stop) ∧
  (0 ≤ y ∧ y + cfg.block_height ≤ st.this_macroblock.search_location_y_stop)

/-- The block of the configured size with top left corner at column `x` and row `y`
lies inside the search window of state `st` on all four sides. -/
def Assignment1.In_Window (cfg : Config) (st : Assignment1.SearchState) (x y : Int) : Prop :=
  (st.this_macroblock.search_location_x_start ≤ x ∧
    x + cfg.block_width ≤ st.this_macroblock.search_location_x_stop) ∧
  (st.this_macroblock.search_location_y_start ≤ y ∧
    y + cfg.block_height ≤ st.this_macroblock.search_location_y_stop)

/-- The best location of `st2`, the state after a step that started in `st`, is one of
the candidates compared in that step, and its distortion is at most the distortion of
every candidate compared in that step.  The distortion of a candidate is the `float`
value `MSE` returns for it (`Offset_MSE`). -/
def Assignment1.Step_Best (cfg : Config) (frame_1 : Image)
    (st st2 : Assignment1.SearchState) : Prop :=
  ∃ o ∈ Assignment1.Nine_Offsets st.search_dist_x st.search_dist_y,
    Assignment1.Cand_Valid cfg st o.1 o.2 ∧
    (st2.least_MSE_x = st.least_MSE_x + o.1 ∧ st2.least_MSE_y = st.least_MSE_y + o.2) ∧
    st2.least_MSE = FVal.val (Assignment1.Offset_MSE cfg frame_1 st o) ∧
    ∀ o2 ∈ Assignment1.Nine_Offsets st.search_dist_x st.search_dist_y,
      Assignment1.Cand_Valid cfg st o2.1 o2.2 →
      Assignment1.Offset_MSE cfg frame_1 st o ≤ Assignment1.Offset_MSE cfg frame_1 st o2

/-- Blocks of 8 by 8 with vertical radius 4 and horizontal radius 6. -/
def cfg8u : Config := ⟨8, 8, 4, 6⟩

/-- The start bounds of the window of `st` are 0 or at most the best location minus
the step distance, on each axis. -/
def Assignment1.Start_Tight (st : Assignment1.SearchState) : Prop :=
  (0 ≤ st.this_macroblock.search_location_x_start ∧
    (st.this_macroblock.search_location_x_start = 0 ∨
      st.this_macroblock.search_location_x_start ≤ st.least_MSE_x - st.search_dist_x)) ∧
  (0 ≤ st.this_macroblock.search_location_y_start ∧
    (st.this_macroblock.search_location_y_start = 0 ∨
      st.this_macroblock.search_location_y_start ≤ st.least_MSE_y - st.search_dist_y))

/-- The state of the search of Assignment 2 for the macroblock anchored at `(ax, ay)`,
read as a state of the search of Assignment 1: the macroblock and the bounds of the
search area become the fields of `this_macroblock`. -/
def To_A1 (ax ay : Int) (st : Assignment2.SearchState) : Assignment1.SearchState :=
  { this_macroblock :=
      { block := st.macroblock
        block_location_x := ax
        block_location_y := ay
        search_location_x_start := st.search_area_x_start
        search_location_x_stop := st.search_area_x_stop
        search_location_y_start := st.search_area_y_start
        search_location_y_stop := st.search_area_y_stop
        motion_vector_x := 0
        motion_vector_y := 0 }
    least_MSE := st.least_MSE
    least_MSE_x := st.least_MSE_x
    least_MSE_y := st.least_MSE_y
    new_least_MSE_x := st.new_least_MSE_x
    new_least_MSE_y := st.new_least_MSE_y
    search_dist_x := st.search_dist_x
    search_dist_y := st.search_dist_y }

/-- The test of the candidate loops of Assignment 2 that skips the candidate at
offset `(x, y)`. -/
def Assignment2.Skipped (cfg : Config) (st : Assignment2.SearchState) (x y : Int) : Prop :=
  st.least_MSE_x + x < 0 ∨
  st.least_MSE_x + x + cfg.block_width > st.search_area_x_stop ∨
  st.least_MSE_y + y < 0 ∨
  st.least_MSE_y + y + cfg.block_height > st.search_area_y_stop

/-- The state `st` of Assignment 2 with another running best. -/
def Assignment2.With_Best (st : Assignment2.SearchState) (m : FVal) (nx ny : Int) :
    Assignment2.SearchState :=
  { st with least_MSE := m, new_least_MSE_x := nx, new_least_MSE_y := ny }


/-- A reference frame of one channel, 8 rows and 16 columns. -/
def ref8x16 : Image := ⟨1, 8, 16, fun _ i j => 16 * i + j⟩


/-- The blocks `b1` and `b2` have the same number of channels and hold the same samples
at every channel, row and column of a block of the configured size. -/
def Block_Agree (cfg : Config) (b1 b2 : Image) : Prop :=
  b1.chans = b2.chans ∧
  ∀ a b c, (0 ≤ a ∧ a < (b1.chans : Int)) → (0 ≤ b ∧ b < cfg.block_height) →
    (0 ≤ c ∧ c < cfg.block_width) → b1.pix a b c = b2.pix a b c

/-- The stop bounds of the window of `st` cut off no candidate of the step that lies
inside `frame_1`: on each axis the bound is the extent of the frame, or it is at least
the stop of the candidate one step distance after the best location. -/
def Assignment1.Stop_Free (cfg : Config) (frame_1 : Image) (st : Assignment1.SearchState) :
    Prop :=
  (st.this_macroblock.search_location_x_stop = frame_1.cols ∨
    st.least_MSE_x + st.search_dist_x + cfg.block_width ≤
      st.this_macroblock.search_location_x_stop) ∧
  (st.this_macroblock.search_location_y_stop = frame_1.rows ∨
    st.least_MSE_y + st.search_dist_y + cfg.block_height ≤
      st.this_macroblock.search_location_y_stop)

/-- The search of Assignment 1 in state `s` and the search of Assignment 2 in state `t`
have the same least distortion, best location, running best and step distances. -/
def Same_Run (s : Assignment1.SearchState) (t : Assignment2.SearchState) : Prop :=
  s.least_MSE = t.least_MSE ∧
  (s.least_MSE_x = t.least_MSE_x ∧ s.least_MSE_y = t.least_MSE_y) ∧
  (s.new_least_MSE_x = t.new_least_MSE_x ∧ s.new_least_MSE_y = t.new_least_MSE_y) ∧
  (s.search_dist_x = t.search_dist_x ∧ s.search_dist_y = t.search_dist_y)

/-- The candidate at offset `(x, y)` from the best location of `st` lies inside
`frame_1`. -/
def Assignment1.Cand_In_Frame (cfg : Config) (frame_1 : Image) (st : Assignment1.SearchState)
    (x y : Int) : Prop :=
  (0 ≤ st.least_MSE_x + x ∧ st.least_MSE_x + x + cfg.block_width ≤ frame_1.cols) ∧
  (0 ≤ st.least_MSE_y + y ∧ st.least_MSE_y + y + cfg.block_height ≤ frame_1.rows)


/-- The state of the output frame `r` of `Block_Match` of Assignment 2 when the loops
over the macroblocks stand at column `H` and row `V` of the block grid, started on the
output frame `r0`: the blocks of the columns before `H`, and of column `H` in the rows
before `V`, hold the samples of the reference frame `R` at the best location found by
`Find_Best`; every other sample is the one of `r0`. -/
def Assignment2.Painted (cfg : Config) (fuel : Nat) (R T r0 : Image) (H V : Int)
    (r : Image) : Prop :=
  (r.chans = r0.chans ∧ r.rows = r0.rows ∧ r.cols = r0.cols) ∧
  (∀ h v, (0 ≤ h ∧ 0 ≤ v ∧ v < T.get_rows.tdiv cfg.block_height) →
    (h < H ∨ (h = H ∧ v < V)) →
    ∃ st, Assignment2.Find_Best cfg fuel R T (h * cfg.block_width) (v * cfg.block_height) =
        some st ∧
      ∀ a i j, (0 ≤ a ∧ a < (r0.chans : Int)) →
        Assignment1.Covers cfg (h * cfg.block_width, v * cfg.block_height) i j →
        r.pix a i j = R.pix a (i + (st.least_MSE_y - v * cfg.block_height))
          (j + (st.least_MSE_x - h * cfg.block_width))) ∧
  (∀ a i j, (¬ (0 ≤ a ∧ a < (r0.chans : Int)) ∨
      ∀ h v, (0 ≤ h ∧ 0 ≤ v ∧ v < T.get_rows.tdiv cfg.block_height) →
        (h < H ∨ (h = H ∧ v < V)) →
        ¬ Assignment1.Covers cfg (h * cfg.block_width, v * cfg.block_height) i j) →
    r.pix a i j = r0.pix a i j)


/-- Blocks of 8 by 8 with both radii 8. -/
def cfg8s8 : Config := ⟨8, 8, 8, 8⟩


/-- The rule of a step for ties, between the state `st` a step starts in and the state
`st2` it ends in.  Either no compared candidate is strictly below the least distortion
`st` holds, and the step keeps that least distortion and ends at the running best of
`st`; or the step ends at the candidate at place `i` of the scan order, which is
compared, strictly below the least distortion of `st`, at most every compared candidate
of the step, and strictly below every compared candidate at a place before `i`.  The
distortion of a candidate is the `float` value `MSE` returns for it (`Offset_MSE`). -/
def Assignment1.Tie_Rule (cfg : Config) (frame_1 : Image) (st st2 : Assignment1.SearchState) :
    Prop :=
  (st2.least_MSE = st.least_MSE ∧
    (st2.least_MSE_x = st.new_least_MSE_x ∧ st2.least_MSE_y = st.new_least_MSE_y) ∧
    ∀ o ∈ Assignment1.Nine_Offsets st.search_dist_x st.search_dist_y,
      Assignment1.Cand_Valid cfg st o.1 o.2 →
      (FVal.val (Assignment1.Offset_MSE cfg frame_1 st o)).lt st.least_MSE = false) ∨
  ∃ (i : Nat) (o : Int × Int),
    (Assignment1.Nine_Offsets st.search_dist_x st.search_dist_y)[i]? = some o ∧
    Assignment1.Cand_Valid cfg st o.1 o.2 ∧
    (FVal.val (Assignment1.Offset_MSE cfg frame_1 st o)).lt st.least_MSE = true ∧
    st2.least_MSE = FVal.val (Assignment1.Offset_MSE cfg frame_1 st o) ∧
    (st2.least_MSE_x = st.least_MSE_x + o.1 ∧ st2.least_MSE_y = st.least_MSE_y + o.2) ∧
    (∀ o2 ∈ Assignment1.Nine_Offsets st.search_dist_x st.search_dist_y,
      Assignment1.Cand_Valid cfg st o2.1 o2.2 →
      Assignment1.Offset_MSE cfg frame_1 st o ≤ Assignment1.Offset_MSE cfg frame_1 st o2) ∧
    (∀ (j : Nat) (o2 : Int × Int), j < i →
      (Assignment1.Nine_Offsets st.search_dist_x st.search_dist_y)[j]? = some o2 →
      Assignment1.Cand_Valid cfg st o2.1 o2.2 →
      Assignment1.Offset_MSE cfg frame_1 st o < Assignment1.Offset_MSE cfg frame_1 st o2)


/-! ## `image<int>::load` of `jbutil.h` -/

/-- An input stream (`std::istream`): the bytes not yet read and the state bits
`eofbit` and `failbit`. -/
structure IStream where
  bytes : List Nat
  eofbit : Bool
  failbit : Bool

/-- The test `good()`: neither `eofbit` nor `failbit` is set. -/
def IStream.good (s : IStream) : Bool := !s.eofbit && !s.failbit

/-- The member `get()`: the next byte; at the end of the input, or on a stream that is
not good, `EOF` (-1) with `failbit` set. -/
def IStream.get (s : IStream) : Int × IStream :=
  if s.good then
    match s.bytes with
    | [] => (-1, { s with eofbit := true, failbit := true })
    | b :: rest => ((b : Int), { s with bytes := rest })
  else (-1, { s with failbit := true })

/-- The bytes before the first line feed (byte 10), the bytes after it, and whether
there is a line feed. -/
def split_line : List Nat → List Nat × List Nat × Bool
  | [] => ([], [], false)
  | b :: rest =>
    if b = 10 then ([], rest, true)
    else ((b :: (split_line rest).1), (split_line rest).2.1, (split_line rest).2.2)

/-- The call `std::getline(sin, line)`: the new stream and the new value of `line`.  On
a stream that is not good `line` is left as it is and `failbit` is set; otherwise the
line feed is read and dropped, and reaching the end of the input sets `eofbit`, and
`failbit` too when no byte was read. -/
def getline (s : IStream) (line : List Nat) : IStream × List Nat :=
  if s.good then
    if (split_line s.bytes).2.2 then
      ({ s with bytes := (split_line s.bytes).2.1 }, (split_line s.bytes).1)
    else
      ({ bytes := [], eofbit := true, failbit := (split_line s.bytes).1.isEmpty },
        (split_line s.bytes).1)
  else ({ s with failbit := true }, line)

/-- The white space of the C locale: space, tab, line feed, vertical tab, form feed,
carriage return. -/
def is_space (b : Nat) : Bool := b == 32 || (9 ≤ b && b ≤ 13)

/-- The decimal digits. -/
def is_digit (b : Nat) : Bool := 48 ≤ b && b ≤ 57

/-- The bytes after the leading white space. -/
def skip_space : List Nat → List Nat
  | [] => []
  | b :: rest => if is_space b then skip_space rest else b :: rest

/-- The leading decimal digits read into `acc`: the value, the number of digits read
and the bytes left. -/
def take_digits : List Nat → Nat → Nat → Nat × Nat × List Nat
  | [], acc, n => (acc, n, [])
  | b :: rest, acc, n =>
    if is_digit b then take_digits rest (10 * acc + (b - 48)) (n + 1) else (acc, n, b :: rest)

/-- The largest value of `int`. -/
def INT_MAX : Int := 2147483647

/-- The least value of `int`. -/
def INT_MIN : Int := -2147483648

/-- The extraction `s >> v` of an `int`: the new stream and the value written to `v`,
`none` when `v` is left as it is (the stream is not good, or only white space is
left).  Without a digit 0 is written and `failbit` is set; a value outside the range of
`int` writes the nearest bound and sets `failbit`; reading up to the end of the input
sets `eofbit`. -/
def IStream.read_int (s : IStream) : IStream × Option Int :=
  if s.good then
    match skip_space s.bytes with
    | [] => ({ bytes := [], eofbit := true, failbit := true }, none)
    | b :: rest =>
      let body := if b = 45 ∨ b = 43 then rest else b :: rest
      let r := take_digits body 0 0
      let v : Int := if b = 45 then -(r.1 : Int) else (r.1 : Int)
      if r.2.1 = 0 then
        ({ bytes := r.2.2, eofbit := r.2.2.isEmpty, failbit := true }, some 0)
      else if v > INT_MAX then
        ({ bytes := r.2.2, eofbit := r.2.2.isEmpty, failbit := true }, some INT_MAX)
      else if v < INT_MIN then
        ({ bytes := r.2.2, eofbit := r.2.2.isEmpty, failbit := true }, some INT_MIN)
      else ({ bytes := r.2.2, eofbit := r.2.2.isEmpty, failbit := false }, some v)
  else ({ s with failbit := true }, none)

/-- A `std::istringstream` on the bytes of a string. -/
def istringstream (str : List Nat) : IStream := ⟨str, false, false⟩

/-- The two tests of `load` on the descriptor (lines 442-451): the number of channels
and the flag `binary`. -/
def load_format (descriptor : Int) : Int × Bool :=
  let chan : Int := if descriptor = 3 ∨ descriptor = 6 then 3 else 1
  let binary : Bool := if descriptor ≥ 4 ∨ descriptor ≤ 6 then true else false
  (chan, binary)

/-- The loop `do std::getline(sin, line); while (line.size() == 0 || line[0] == '#')`
of `load` (lines 453-456).  At the end of the input `line` stays as it is, so the loop
does not terminate when that line is empty or a comment: it is run on fuel, and `none`
means that the fuel ran out. -/
def skip_comments : Nat → IStream → List Nat → Option (IStream × List Nat)
  | 0, _, _ => none
  | fuel + 1, sin, line =>
    if (getline sin line).2.length = 0 ∨ (getline sin line).2.head? = some 35 then
      skip_comments fuel (getline sin line).1 (getline sin line).2
    else some (getline sin line)

/-- The body of the three loops of `load` that read the image data (lines 475-496), for
row `i`, column `j` and channel `c`: the new stream and image.  A byte read at the end
of the input is -1, which fails the assertion on the sample. -/
def load_sample (binary : Bool) (m_maxval : Int) (i j c : Int) (st : IStream × Image) :
    Option (IStream × Image) :=
  if binary then
    let p := st.1.get
    let p2 : Int × IStream :=
      if m_maxval > 255 then (p.1 * 256 + p.2.get.1, p.2.get.2) else p
    if p2.1 ≥ 0 ∧ p2.1 ≤ m_maxval then (st.2.write c i j p2.1).map (fun im => (p2.2, im))
    else none
  else
    let r := st.1.read_int
    let v : Int := r.2.getD (st.2.pix c i j)
    if v ≥ 0 ∧ v ≤ m_maxval then (st.2.write c i j v).map (fun im => (r.1, im))
    else none

/-- The method `load` of `image<int>` on an image built by the default constructor, whose
`m_maxval` is 255; the result is the new value of the image.  A failed assertion, a
thrown exception and the use of a variable that no extraction has written are
failures; so is a negative extent, as in `Image.new` (an image without rows and with a
negative column count is not represented). -/
def Image.load (fuel : Nat) (sin : IStream) : Option Image :=
  if sin.failbit then none
  else
    let r1 := getline sin []
    if r1.2.head? ≠ some 80 then none
    else
      match (istringstream r1.2.tail).read_int.2 with
      | none => none
      | some descriptor =>
        if ¬ (descriptor ≥ 1 ∧ descriptor ≤ 6) then none
        else
          let chan := (load_format descriptor).1
          let binary := (load_format descriptor).2
          match skip_comments fuel r1.1 r1.2 with
          | none => none
          | some r2 =>
            let rc := (istringstream r2.2).read_int
            match rc.2, rc.1.read_int.2 with
            | some cols, some rows =>
              let hdr : Option (IStream × Int) :=
                if descriptor = 1 ∨ descriptor = 4 then
                  if binary then none else some (r2.1, 1)
                else
                  some ((getline r2.1 r2.2).1,
                    ((istringstream (getline r2.1 r2.2).2).read_int.2).getD 255)
              match hdr with
              | none => none
              | some (sin3, m_maxval) =>
                match Image.new rows cols chan with
                | none => none
                | some im0 =>
                  match forRange 0 rows (fun i st1 =>
                      forRange 0 cols (fun j st2 =>
                        forRange 0 chan (fun c st3 => load_sample binary m_maxval i j c st3)
                          st2) st1) (sin3, im0) with
                  | none => none
                  | some st => if st.1.failbit then none else some st.2
            | _, _ => none

/-- The bytes of the plain (ASCII) greymap file `P2`, `2 1`, `255`, `7 9`, one line
each. -/
def pgm_ascii : IStream :=
  ⟨[80, 50, 10, 50, 32, 49, 10, 50, 53, 53, 10, 55, 32, 57, 10], false, false⟩

/-- The bytes of the plain (ASCII) bitmap file `P1`, `2 1`, `0 1`, one line each. -/
def pbm_ascii : IStream :=
  ⟨[80, 49, 10, 50, 32, 49, 10, 48, 32, 49, 10], false, false⟩

/-- The bytes of the raw (binary) greymap file `P5`, `2 1`, `255`, one line each,
followed by the two bytes 7 and 9. -/
def pgm_raw : IStream :=
  ⟨[80, 53, 10, 50, 32, 49, 10, 50, 53, 53, 10, 7, 9], false, false⟩

/-- A block of one channel and one row with the three samples 1, 0, 0. -/
def block100 : Image := ⟨1, 1, 3, fun _ _ j => if j = 0 then 1 else 0⟩

/-- A block of one channel and one row with the three samples 0, 0, 0. -/
def block000 : Image := ⟨1, 1, 3, fun _ _ _ => 0⟩

/-- Function `Modify_Image_Range` with a record of its stores: the same loops, run on the
output image together with the list of the indices `(channel, row, col)` of the samples
of the output assigned so far, in the order of the assignments.  Every execution of the
statement `output(channel, output_row+row_count, output_col+col_count) = input(channel,
row, col)` appends the index it assigns. -/
def Modify_Image_Range_log (input : Image) (output : Image × List (Int × Int × Int))
    (channel_start channel_stop col_start col_stop row_start row_stop output_col output_row : Int) :
    Option (Image × List (Int × Int × Int)) :=
  forRange channel_start channel_stop (fun channel st =>
    forRange row_start row_stop (fun row st =>
      forRange col_start col_stop (fun col st => do
        let v ← input.read channel row col
        let out ← st.1.write channel (output_row + (row - row_start))
          (output_col + (col - col_start)) v
        some (out, st.2 ++ [(channel, output_row + (row - row_start),
          output_col + (col - col_start))]))
        st) st)
    output

/-- Function `Reconstruct_Frame` with a record of its stores: the same loop over the
macroblock array, with `Modify_Image_Range_log` in the place of `Modify_Image_Range`. -/
def Assignment1.Reconstruct_Frame_log (cfg : Config) (prev_frame : Image) :
    List Assignment1.Macroblock → Image × List (Int × Int × Int) →
      Option (Image × List (Int × Int × Int))
  | [], reconstructed_frame => some reconstructed_frame
  | mb :: rest, reconstructed_frame => do
    let x_start := mb.block_location_x + mb.motion_vector_x
    let x_stop := x_start + cfg.block_width
    let y_start := mb.block_location_y + mb.motion_vector_y
    let y_stop := y_start + cfg.block_height
    let r ← Modify_Image_Range_log prev_frame reconstructed_frame 0
      reconstructed_frame.1.channels
      x_start x_stop y_start y_stop mb.block_location_x mb.block_location_y
    Assignment1.Reconstruct_Frame_log cfg prev_frame rest r

/-- The step of `Block_Match` that starts in state `st` and ends in state `st2` compares
the candidate at offset `(0, 0)`: the offset is one of the nine offsets and passes the
four bounds checks; the two candidate loops run the four earlier offsets, then
`Try_Candidate` at offset `(0, 0)` on the state these leave, then the four later offsets;
`Try_Candidate` at offset `(0, 0)` computes the distortion of the candidate and compares
it with the running best, whatever running best the earlier candidates left; and the
least distortion at the end of the step is a number not above the distortion of that
candidate. -/
def Assignment1.Centre_Compared (cfg : Config) (fuel : Nat) (frame_1 : Image)
    (st st2 : Assignment1.SearchState) : Prop :=
  ((0 : Int), (0 : Int)) ∈ Assignment1.Nine_Offsets st.search_dist_x st.search_dist_y ∧
  Assignment1.Cand_Valid cfg st 0 0 ∧
  (∃ (m : FVal) (nx ny : Int),
    Assignment1.Scan_List cfg frame_1
      [(-st.search_dist_x, -st.search_dist_y), (-st.search_dist_x, 0),
        (-st.search_dist_x, st.search_dist_y), (0, -st.search_dist_y)] st =
      some (Assignment1.With_Best st m nx ny) ∧
    Assignment1.Scan_Candidates cfg fuel frame_1 st =
      (Assignment1.Try_Candidate cfg frame_1 0 0 (Assignment1.With_Best st m nx ny)).bind
        (Assignment1.Scan_List cfg frame_1
          [(0, st.search_dist_y), (st.search_dist_x, -st.search_dist_y),
            (st.search_dist_x, 0), (st.search_dist_x, st.search_dist_y)])) ∧
  (∀ (m : FVal) (nx ny : Int),
    Assignment1.Try_Candidate cfg frame_1 0 0 (Assignment1.With_Best st m nx ny) =
      some (if (FVal.val (Assignment1.Offset_MSE cfg frame_1 st (0, 0))).lt m then
        Assignment1.With_Best st (FVal.val (Assignment1.Offset_MSE cfg frame_1 st (0, 0)))
          (st.least_MSE_x + 0) (st.least_MSE_y + 0)
      else Assignment1.With_Best st m nx ny)) ∧
  ∃ q : ℚ, st2.least_MSE = FVal.val q ∧ q ≤ Assignment1.Offset_MSE cfg frame_1 st (0, 0)

/-- A reference frame of three channels, one row and 7 columns: every pixel is
`(8192, 1, 0)` except the one at column 4, which is `(8192, 0, 0)`. -/
def tie_ref : Image :=
  ⟨3, 1, 7, fun c _ j => if c = 0 then 8192 else if c = 1 then (if j = 4 then 0 else 1) else 0⟩

/-- A target frame of three channels, one row and 7 columns whose samples are all 0. -/
def tie_tgt : Image := ⟨3, 1, 7, fun _ _ _ => 0⟩

/-! ## Loop rules -/

theorem loopN_spec {σ : Type} (body : Nat → σ → Option σ) (Inv : Nat → σ → Prop) (n : Nat) (s : σ)
    (h0 : Inv 0 s)
    (hstep : ∀ k t, k < n → Inv k t → ∃ t', body k t = some t' ∧ Inv (k + 1) t') :
    ∃ s', loopN body n s = some s' ∧ Inv n s' := by
  induction n with
  | zero => exact ⟨s, rfl, h0⟩
  | succ m ih =>
    obtain ⟨t, ht, hI⟩ := ih (fun k t hk hi => hstep k t (Nat.lt_succ_of_lt hk) hi)
    obtain ⟨t', ht', hI'⟩ := hstep m t (Nat.lt_succ_self m) hI
    exact ⟨t', by simp [loopN, ht, ht'], hI'⟩

theorem forRange_spec {σ : Type} (lo hi : Int) (body : Int → σ → Option σ) (Inv : Int → σ → Prop)
    (s : σ) (hle : lo ≤ hi) (h0 : Inv lo s)
    (hstep : ∀ v t, lo ≤ v → v < hi → Inv v t → ∃ t', body v t = some t' ∧ Inv (v + 1) t') :
    ∃ s', forRange lo hi body s = some s' ∧ Inv hi s' := by
  have key := loopN_spec (fun k => body (lo + (k : Int))) (fun k t => Inv (lo + (k : Int)) t)
    (hi - lo).toNat s (by simpa using h0)
    (by
      intro k t hk hI
      have hk' : (k : Int) < hi - lo := by omega
      obtain ⟨t', ht', hI'⟩ := hstep (lo + k) t (by omega) (by omega) hI
      refine ⟨t', ht', ?_⟩
      have e : lo + ((k + 1 : Nat) : Int) = lo + (k : Int) + 1 := by push_cast; ring
      show Inv (lo + ((k + 1 : Nat) : Int)) t'
      rw [e]; exact hI')
  obtain ⟨s', hs', hI⟩ := key
  refine ⟨s', hs', ?_⟩
  have e : lo + (((hi - lo).toNat : Nat) : Int) = hi := by
    rw [Int.toNat_of_nonneg (by omega)]; ring
  rw [e] at hI; exact hI

theorem forRange_empty {σ : Type} (lo hi : Int) (body : Int → σ → Option σ) (s : σ)
    (h : hi ≤ lo) : forRange lo hi body s = some s := by
  have e : (hi - lo).toNat = 0 := by omega
  simp [forRange, e, loopN]

/-! ## The search window (C9, C10) -/

/-- C9: for all integer inputs `Set_Search_Area` sets the column range of the search
window to `max 0 (centre_col - search_horiz)` and
`min max_cols (centre_col + block_width + search_horiz)` and the row range to
`max 0 (centre_row - search_vert)` and
`min max_rows (centre_row + block_height + search_vert)`; `Get_Search_Area_Start`
and `Get_Search_Area_Stop` of Assignment 2 return the same values on each axis. -/
theorem C9_search_area_clamped (cfg : Config) (mb : Assignment1.Macroblock)
    (max_cols max_rows search_horiz search_vert centre_col centre_row : Int) :
    ((Assignment1.Set_Search_Area cfg mb max_cols max_rows search_horiz search_vert
        centre_col centre_row).search_location_x_start = max 0 (centre_col - search_horiz) ∧
     (Assignment1.Set_Search_Area cfg mb max_cols max_rows search_horiz search_vert
        centre_col centre_row).search_location_x_stop =
        min max_cols (centre_col + cfg.block_width + search_horiz) ∧
     (Assignment1.Set_Search_Area cfg mb max_cols max_rows search_horiz search_vert
        centre_col centre_row).search_location_y_start = max 0 (centre_row - search_vert) ∧
     (Assignment1.Set_Search_Area cfg mb max_cols max_rows search_horiz search_vert
        centre_col centre_row).search_location_y_stop =
        min max_rows (centre_row + cfg.block_height + search_vert)) ∧
    (Assignment2.Get_Search_Area_Start search_horiz centre_col =
        max 0 (centre_col - search_horiz) ∧
     Assignment2.Get_Search_Area_Stop max_cols search_horiz centre_col cfg.block_width =
        min max_cols (centre_col + cfg.block_width + search_horiz) ∧
     Assignment2.Get_Search_Area_Start search_vert centre_row =
        max 0 (centre_row - search_vert) ∧
     Assignment2.Get_Search_Area_Stop max_rows search_vert centre_row cfg.block_height =
        min max_rows (centre_row + cfg.block_height + search_vert)) := by
  simp only [Assignment1.Set_Search_Area, Assignment2.Get_Search_Area_Start,
    Assignment2.Get_Search_Area_Stop]
  refine ⟨⟨?_, ?_, ?_, ?_⟩, ?_, ?_, ?_, ?_⟩ <;> split_ifs <;> omega

/-- C10: for every centre position and every radius the window computed by
`Set_Search_Area` (and the start returned by `Get_Search_Area_Start`) has both
starts at least 0; for the block anchored at `(0,0)` both starts are 0 for every
non-negative radius (the radii are given as natural numbers). -/
theorem C10_search_area_start_nonneg (cfg : Config) (mb : Assignment1.Macroblock)
    (max_cols max_rows search_horiz search_vert centre_col centre_row : Int) (rh rv : Nat) :
    (0 ≤ (Assignment1.Set_Search_Area cfg mb max_cols max_rows search_horiz search_vert
        centre_col centre_row).search_location_x_start ∧
     0 ≤ (Assignment1.Set_Search_Area cfg mb max_cols max_rows search_horiz search_vert
        centre_col centre_row).search_location_y_start ∧
     0 ≤ Assignment2.Get_Search_Area_Start search_horiz centre_col ∧
     0 ≤ Assignment2.Get_Search_Area_Start search_vert centre_row) ∧
    ((Assignment1.Set_Search_Area cfg mb max_cols max_rows (rh : Int) (rv : Int)
        0 0).search_location_x_start = 0 ∧
     (Assignment1.Set_Search_Area cfg mb max_cols max_rows (rh : Int) (rv : Int)
        0 0).search_location_y_start = 0 ∧
     Assignment2.Get_Search_Area_Start (rh : Int) 0 = 0 ∧
     Assignment2.Get_Search_Area_Start (rv : Int) 0 = 0) := by
  simp only [Assignment1.Set_Search_Area, Assignment2.Get_Search_Area_Start]
  refine ⟨⟨?_, ?_, ?_, ?_⟩, ?_, ?_, ?_, ?_⟩ <;> split_ifs <;> omega

/-! ## The dimension check (C4) -/

theorem tmod_eq_zero_iff_dvd (a b : Int) : a.tmod b = 0 ↔ b ∣ a :=
  ⟨Int.dvd_of_tmod_eq_zero, Int.tmod_eq_zero_of_dvd⟩

/-- The flag returned by `Block_Match` is false only through one of the two checks on
`frame_1`, which leave `reconstructed_frame2` as it is. -/
theorem Block_Match_false_iff (cfg : Config) (fuel : Nat) (frame_1 frame_2 recon r : Image)
    (hw : cfg.block_width ≠ 0) (hh : cfg.block_height ≠ 0) :
    Assignment1.Block_Match cfg fuel frame_1 frame_2 recon = some (false, r) ↔
      (¬ cfg.block_width ∣ frame_1.get_cols ∨ ¬ cfg.block_height ∣ frame_1.get_rows) ∧
        r = recon := by
  unfold Assignment1.Block_Match
  rw [if_neg hw]
  by_cases h1 : frame_1.get_cols.tmod cfg.block_width = 0
  · rw [if_neg (not_not.mpr h1), if_neg hh]
    by_cases h2 : frame_1.get_rows.tmod cfg.block_height = 0
    · rw [if_neg (not_not.mpr h2)]
      have d1 := (tmod_eq_zero_iff_dvd _ _).mp h1
      have d2 := (tmod_eq_zero_iff_dvd _ _).mp h2
      constructor
      · intro h
        exfalso
        cases hA : Assignment1.Set_Macroblocks cfg frame_2 [] with
        | none => simp [hA] at h
        | some arr =>
          cases hB : Assignment1.Match_All cfg fuel frame_1 arr with
          | none => simp [hA, hB] at h
          | some ms =>
            cases hC : Assignment1.Reconstruct_Frame cfg frame_1 (ms.map Prod.fst) recon with
            | none => simp [hA, hB, hC] at h
            | some q => simp [hA, hB, hC] at h
      · rintro ⟨h | h, _⟩
        · exact absurd d1 h
        · exact absurd d2 h
    · rw [if_pos h2]
      have d2 : ¬ cfg.block_height ∣ frame_1.get_rows := fun d =>
        h2 ((tmod_eq_zero_iff_dvd _ _).mpr d)
      constructor
      · intro h
        simp only [Option.some.injEq, Prod.mk.injEq, true_and] at h
        exact ⟨Or.inr d2, h.symm⟩
      · rintro ⟨_, rfl⟩; rfl
  · rw [if_pos h1]
    have d1 : ¬ cfg.block_width ∣ frame_1.get_cols := fun d =>
      h1 ((tmod_eq_zero_iff_dvd _ _).mpr d)
    constructor
    · intro h
      simp only [Option.some.injEq, Prod.mk.injEq, true_and] at h
      exact ⟨Or.inl d1, h.symm⟩
    · rintro ⟨_, rfl⟩; rfl

theorem Parameter_Check_eq (cfg : Config) (frame_1 : Image)
    (hw : cfg.block_width ≠ 0) (hh : cfg.block_height ≠ 0) :
    Assignment2.Parameter_Check cfg frame_1 =
      some (decide (cfg.block_width ∣ frame_1.get_cols ∧ cfg.block_height ∣ frame_1.get_rows)) := by
  unfold Assignment2.Parameter_Check
  rw [if_neg hw]
  by_cases h1 : frame_1.get_cols.tmod cfg.block_width = 0
  · rw [if_neg (not_not.mpr h1), if_neg hh]
    by_cases h2 : frame_1.get_rows.tmod cfg.block_height = 0
    · rw [if_neg (not_not.mpr h2)]
      have d1 := (tmod_eq_zero_iff_dvd _ _).mp h1
      have d2 := (tmod_eq_zero_iff_dvd _ _).mp h2
      simp [d1, d2]
    · rw [if_pos h2]
      have d2 : ¬ cfg.block_height ∣ frame_1.get_rows := fun d =>
        h2 ((tmod_eq_zero_iff_dvd _ _).mpr d)
      simp [d2]
  · rw [if_pos h1]
    have d1 : ¬ cfg.block_width ∣ frame_1.get_cols := fun d =>
      h1 ((tmod_eq_zero_iff_dvd _ _).mpr d)
    simp [d1]

/-- C4: with non-zero block sizes, `Block_Match` of Assignment 1 returns false
exactly when the column count of the frame is not a multiple of `block_width` or
its row count is not a multiple of `block_height`, and `Parameter_Check` of
Assignment 2 always returns, with false in exactly the same case; a frame of 15
columns (or 15 rows) by 16 is rejected with blocks of 8 by 8 and a frame of 16 by 16
is accepted. -/
theorem C4_dimension_check (cfg : Config) (fuel : Nat) (frame_1 frame_2 recon : Image)
    (pix : Int → Int → Int → Int) (sv sh : Int)
    (hw : cfg.block_width ≠ 0) (hh : cfg.block_height ≠ 0) :
    ((∃ r, Assignment1.Block_Match cfg fuel frame_1 frame_2 recon = some (false, r)) ↔
      (¬ cfg.block_width ∣ frame_1.get_cols ∨ ¬ cfg.block_height ∣ frame_1.get_rows)) ∧
    ((∃ b, Assignment2.Parameter_Check cfg frame_1 = some b) ∧
     (Assignment2.Parameter_Check cfg frame_1 = some false ↔
      (¬ cfg.block_width ∣ frame_1.get_cols ∨ ¬ cfg.block_height ∣ frame_1.get_rows))) ∧
    (Assignment1.Block_Match ⟨8, 8, sv, sh⟩ fuel ⟨1, 16, 15, pix⟩ frame_2 recon =
        some (false, recon) ∧
     Assignment1.Block_Match ⟨8, 8, sv, sh⟩ fuel ⟨1, 15, 16, pix⟩ frame_2 recon =
        some (false, recon) ∧
     Assignment2.Parameter_Check ⟨8, 8, sv, sh⟩ ⟨1, 16, 15, pix⟩ = some false ∧
     Assignment2.Parameter_Check ⟨8, 8, sv, sh⟩ ⟨1, 15, 16, pix⟩ = some false) ∧
    ((∀ r, Assignment1.Block_Match ⟨8, 8, sv, sh⟩ fuel ⟨1, 16, 16, pix⟩ frame_2 recon ≠
        some (false, r)) ∧
     Assignment2.Parameter_Check ⟨8, 8, sv, sh⟩ ⟨1, 16, 16, pix⟩ = some true) := by
  have e8 : (8 : Int) ≠ 0 := by decide
  refine ⟨?_, ⟨?_, ?_⟩, ⟨?_, ?_, ?_, ?_⟩, ?_, ?_⟩
  · constructor
    · rintro ⟨r, hr⟩
      exact ((Block_Match_false_iff cfg fuel frame_1 frame_2 recon r hw hh).mp hr).1
    · intro h
      exact ⟨recon, (Block_Match_false_iff cfg fuel frame_1 frame_2 recon recon hw hh).mpr
        ⟨h, rfl⟩⟩
  · exact ⟨_, Parameter_Check_eq cfg frame_1 hw hh⟩
  · rw [Parameter_Check_eq cfg frame_1 hw hh]
    simp only [Option.some.injEq, decide_eq_false_iff_not]
    tauto
  · exact (Block_Match_false_iff ⟨8, 8, sv, sh⟩ fuel _ frame_2 recon recon e8 e8).mpr
      ⟨Or.inl (by simp [Image.get_cols, Image.channels]; decide), rfl⟩
  · exact (Block_Match_false_iff ⟨8, 8, sv, sh⟩ fuel _ frame_2 recon recon e8 e8).mpr
      ⟨Or.inr (by simp [Image.get_rows, Image.channels]; decide), rfl⟩
  · rw [Parameter_Check_eq _ _ e8 e8]
    simp [Image.get_cols, Image.get_rows, Image.channels]; decide
  · rw [Parameter_Check_eq _ _ e8 e8]
    simp [Image.get_cols, Image.get_rows, Image.channels]; decide
  · intro r hr
    have := ((Block_Match_false_iff ⟨8, 8, sv, sh⟩ fuel _ frame_2 recon r e8 e8).mp hr).1
    simp [Image.get_cols, Image.get_rows, Image.channels] at this
    revert this; decide
  · rw [Parameter_Check_eq _ _ e8 e8]
    simp [Image.get_cols, Image.get_rows, Image.channels]; decide

/-- Witness of C4: blocks of 8 by 8 on a frame of 16 by 16. -/
theorem C4_dimension_check_witness :
    ((8 : Int) ≠ 0 ∧ (8 : Int) ≠ 0) ∧
    (Assignment2.Parameter_Check ⟨8, 8, 4, 4⟩ frame16 = some false ↔
      (¬ (8 : Int) ∣ frame16.get_cols ∨ ¬ (8 : Int) ∣ frame16.get_rows)) :=
  ⟨⟨by decide, by decide⟩,
   (C4_dimension_check ⟨8, 8, 4, 4⟩ 4 frame16 frame16 frame16 (fun _ _ _ => 0) 4 4
      (by decide) (by decide)).2.1.2⟩

/-- Rule for three nested counting loops: `P W s` relates the state `s` to the set `W`
of index triples already visited. -/
theorem for3_spec {σ : Type} (c0 c1 r0 r1 k0 k1 : Int) (body : Int → Int → Int → σ → Option σ)
    (P : (Int → Int → Int → Prop) → σ → Prop) (s0 : σ)
    (hc : c0 ≤ c1) (hr : r0 ≤ r1) (hk : k0 ≤ k1)
    (h0 : P (fun _ _ _ => False) s0)
    (hstep : ∀ W s ch r k, c0 ≤ ch → ch < c1 → r0 ≤ r → r < r1 → k0 ≤ k → k < k1 →
      ¬ W ch r k → P W s →
      ∃ s', body ch r k s = some s' ∧ P (fun a b c => W a b c ∨ (a = ch ∧ b = r ∧ c = k)) s') :
    ∃ s', forRange c0 c1 (fun ch s => forRange r0 r1 (fun r s =>
            forRange k0 k1 (fun k s => body ch r k s) s) s) s0 = some s' ∧
      P (fun a b c => (c0 ≤ a ∧ a < c1) ∧ (r0 ≤ b ∧ b < r1) ∧ (k0 ≤ c ∧ c < k1)) s' := by
  have key := forRange_spec c0 c1
    (fun ch s => forRange r0 r1 (fun r s => forRange k0 k1 (fun k s => body ch r k s) s) s)
    (fun v s => P (fun a b c => (c0 ≤ a ∧ a < v) ∧ (r0 ≤ b ∧ b < r1) ∧ (k0 ≤ c ∧ c < k1)) s)
    s0 hc
    (by
      have e : (fun (a b c : Int) => (c0 ≤ a ∧ a < c0) ∧ (r0 ≤ b ∧ b < r1) ∧ (k0 ≤ c ∧ c < k1))
          = (fun _ _ _ => False) := by
        funext a b c; apply propext; constructor
        · rintro ⟨⟨h1, h2⟩, _⟩; omega
        · intro h; exact h.elim
      show P _ s0
      rw [e]; exact h0)
    (by
      intro ch s hch0 hch1 hP
      have mid := forRange_spec r0 r1
        (fun r s => forRange k0 k1 (fun k s => body ch r k s) s)
        (fun w s => P (fun a b c => ((c0 ≤ a ∧ a < ch) ∧ (r0 ≤ b ∧ b < r1) ∧ (k0 ≤ c ∧ c < k1)) ∨
            (a = ch ∧ (r0 ≤ b ∧ b < w) ∧ (k0 ≤ c ∧ c < k1))) s)
        s hr
        (by
          have e : (fun (a b c : Int) =>
              ((c0 ≤ a ∧ a < ch) ∧ (r0 ≤ b ∧ b < r1) ∧ (k0 ≤ c ∧ c < k1)) ∨
              (a = ch ∧ (r0 ≤ b ∧ b < r0) ∧ (k0 ≤ c ∧ c < k1)))
              = (fun a b c => (c0 ≤ a ∧ a < ch) ∧ (r0 ≤ b ∧ b < r1) ∧ (k0 ≤ c ∧ c < k1)) := by
            funext a b c; apply propext; constructor
            · rintro (h | ⟨_, ⟨h1, h2⟩, _⟩)
              · exact h
              · omega
            · intro h; exact Or.inl h
          show P _ s
          rw [e]; exact hP)
        (by
          intro r t hr0 hr1 hPr
          have inn := forRange_spec k0 k1 (fun k s => body ch r k s)
            (fun x s => P (fun a b c =>
              (((c0 ≤ a ∧ a < ch) ∧ (r0 ≤ b ∧ b < r1) ∧ (k0 ≤ c ∧ c < k1)) ∨
                (a = ch ∧ (r0 ≤ b ∧ b < r) ∧ (k0 ≤ c ∧ c < k1))) ∨
              (a = ch ∧ b = r ∧ (k0 ≤ c ∧ c < x))) s)
            t hk
            (by
              have e : (fun (a b c : Int) =>
                  (((c0 ≤ a ∧ a < ch) ∧ (r0 ≤ b ∧ b < r1) ∧ (k0 ≤ c ∧ c < k1)) ∨
                    (a = ch ∧ (r0 ≤ b ∧ b < r) ∧ (k0 ≤ c ∧ c < k1))) ∨
                  (a = ch ∧ b = r ∧ (k0 ≤ c ∧ c < k0)))
                  = (fun a b c =>
                    ((c0 ≤ a ∧ a < ch) ∧ (r0 ≤ b ∧ b < r1) ∧ (k0 ≤ c ∧ c < k1)) ∨
                    (a = ch ∧ (r0 ≤ b ∧ b < r) ∧ (k0 ≤ c ∧ c < k1))) := by
                funext a b c; apply propext; constructor
                · rintro (h | ⟨_, _, h1, h2⟩)
                  · exact h
                  · omega
                · intro h; exact Or.inl h
              show P _ t
              rw [e]; exact hPr)
            (by
              intro k u hk0 hk1 hPk
              obtain ⟨u', hu', hP'⟩ := hstep _ u ch r k hch0 hch1 hr0 hr1 hk0 hk1
                (by
                  rintro ((⟨⟨_, h⟩, _⟩ | ⟨_, ⟨_, h⟩, _⟩) | ⟨_, _, _, h⟩) <;> omega)
                hPk
              refine ⟨u', hu', ?_⟩
              have e : (fun (a b c : Int) =>
                  ((((c0 ≤ a ∧ a < ch) ∧ (r0 ≤ b ∧ b < r1) ∧ (k0 ≤ c ∧ c < k1)) ∨
                    (a = ch ∧ (r0 ≤ b ∧ b < r) ∧ (k0 ≤ c ∧ c < k1))) ∨
                  (a = ch ∧ b = r ∧ (k0 ≤ c ∧ c < k))) ∨ (a = ch ∧ b = r ∧ c = k))
                  = (fun a b c =>
                  (((c0 ≤ a ∧ a < ch) ∧ (r0 ≤ b ∧ b < r1) ∧ (k0 ≤ c ∧ c < k1)) ∨
                    (a = ch ∧ (r0 ≤ b ∧ b < r) ∧ (k0 ≤ c ∧ c < k1))) ∨
                  (a = ch ∧ b = r ∧ (k0 ≤ c ∧ c < k + 1))) := by
                funext a b c; apply propext; constructor
                · rintro ((h | ⟨h1, h2, h3, h4⟩) | ⟨h1, h2, h3⟩)
                  · exact Or.inl h
                  · exact Or.inr ⟨h1, h2, h3, by omega⟩
                  · exact Or.inr ⟨h1, h2, by omega, by omega⟩
                · rintro (h | ⟨h1, h2, h3, h4⟩)
                  · exact Or.inl (Or.inl h)
                  · by_cases hck : c = k
                    · exact Or.inr ⟨h1, h2, hck⟩
                    · exact Or.inl (Or.inr ⟨h1, h2, h3, by omega⟩)
              show P _ u'
              rw [← e]; exact hP')
          obtain ⟨t', ht', hPt⟩ := inn
          refine ⟨t', ht', ?_⟩
          have e : (fun (a b c : Int) =>
              (((c0 ≤ a ∧ a < ch) ∧ (r0 ≤ b ∧ b < r1) ∧ (k0 ≤ c ∧ c < k1)) ∨
                (a = ch ∧ (r0 ≤ b ∧ b < r) ∧ (k0 ≤ c ∧ c < k1))) ∨
              (a = ch ∧ b = r ∧ (k0 ≤ c ∧ c < k1)))
              = (fun a b c =>
                ((c0 ≤ a ∧ a < ch) ∧ (r0 ≤ b ∧ b < r1) ∧ (k0 ≤ c ∧ c < k1)) ∨
                (a = ch ∧ (r0 ≤ b ∧ b < r + 1) ∧ (k0 ≤ c ∧ c < k1))) := by
            funext a b c; apply propext; constructor
            · rintro ((h | ⟨h1, ⟨h2, h3⟩, h4⟩) | ⟨h1, h2, h3⟩)
              · exact Or.inl h
              · exact Or.inr ⟨h1, ⟨h2, by omega⟩, h4⟩
              · exact Or.inr ⟨h1, ⟨by omega, by omega⟩, h3⟩
            · rintro (h | ⟨h1, ⟨h2, h3⟩, h4⟩)
              · exact Or.inl (Or.inl h)
              · by_cases hbr : b = r
                · exact Or.inr ⟨h1, hbr, h4⟩
                · exact Or.inl (Or.inr ⟨h1, ⟨h2, by omega⟩, h4⟩)
          show P _ t'
          rw [← e]; exact hPt)
      obtain ⟨s', hs', hPs⟩ := mid
      refine ⟨s', hs', ?_⟩
      have e : (fun (a b c : Int) =>
          ((c0 ≤ a ∧ a < ch) ∧ (r0 ≤ b ∧ b < r1) ∧ (k0 ≤ c ∧ c < k1)) ∨
            (a = ch ∧ (r0 ≤ b ∧ b < r1) ∧ (k0 ≤ c ∧ c < k1)))
          = (fun a b c => (c0 ≤ a ∧ a < ch + 1) ∧ (r0 ≤ b ∧ b < r1) ∧ (k0 ≤ c ∧ c < k1)) := by
        funext a b c; apply propext; constructor
        · rintro (⟨⟨h1, h2⟩, h3⟩ | ⟨h1, h2⟩)
          · exact ⟨⟨h1, by omega⟩, h3⟩
          · exact ⟨⟨by omega, by omega⟩, h2⟩
        · rintro ⟨⟨h1, h2⟩, h3⟩
          by_cases hac : a = ch
          · exact Or.inr ⟨hac, h3⟩
          · exact Or.inl ⟨⟨h1, by omega⟩, h3⟩
      show P _ s'
      rw [← e]; exact hPs)
  exact key

/-! ## Copying a range of samples -/

/-- The three loops shared by `Set_Image_Range` and `Modify_Image_Range`: when every
read and every write is inside the extents, the loops end, the extents of the
output are kept, every sample of the range is copied and every other sample of
the output is left as it was. -/
theorem copy_loops_spec (input out0 : Image) (c0 c1 r0 r1 k0 k1 : Int) (fc fr fk : Int → Int)
    (hc : c0 ≤ c1) (hr : r0 ≤ r1) (hk : k0 ≤ k1)
    (ifc : Function.Injective fc) (ifr : Function.Injective fr) (ifk : Function.Injective fk)
    (hb : ∀ a b c, (c0 ≤ a ∧ a < c1) → (r0 ≤ b ∧ b < r1) → (k0 ≤ c ∧ c < k1) →
      input.inBounds a b c ∧ out0.inBounds (fc a) (fr b) (fk c)) :
    ∃ out, forRange c0 c1 (fun channel out => forRange r0 r1 (fun row out =>
        forRange k0 k1 (fun col out => do
          let v ← input.read channel row col
          out.write (fc channel) (fr row) (fk col) v) out) out) out0 = some out ∧
      (out.chans = out0.chans ∧ out.rows = out0.rows ∧ out.cols = out0.cols) ∧
      (∀ a b c, (c0 ≤ a ∧ a < c1) → (r0 ≤ b ∧ b < r1) → (k0 ≤ c ∧ c < k1) →
        out.pix (fc a) (fr b) (fk c) = input.pix a b c) ∧
      (∀ x y z, (∀ a b c, (c0 ≤ a ∧ a < c1) → (r0 ≤ b ∧ b < r1) → (k0 ≤ c ∧ c < k1) →
        ¬ (fc a = x ∧ fr b = y ∧ fk c = z)) → out.pix x y z = out0.pix x y z) := by
  have key := for3_spec c0 c1 r0 r1 k0 k1
    (fun channel row col out => do
      let v ← input.read channel row col
      out.write (fc channel) (fr row) (fk col) v)
    (fun W out => (out.chans = out0.chans ∧ out.rows = out0.rows ∧ out.cols = out0.cols) ∧
      (∀ a b c, W a b c → out.pix (fc a) (fr b) (fk c) = input.pix a b c) ∧
      (∀ x y z, (∀ a b c, W a b c → ¬ (fc a = x ∧ fr b = y ∧ fk c = z)) →
        out.pix x y z = out0.pix x y z))
    out0 hc hr hk
    ⟨⟨rfl, rfl, rfl⟩, fun _ _ _ h => h.elim, fun _ _ _ _ => rfl⟩
    (by
      intro W out ch r k h1 h2 h3 h4 h5 h6 _ hP
      obtain ⟨⟨d1, d2, d3⟩, hW, hO⟩ := hP
      obtain ⟨hin, hout⟩ := hb ch r k ⟨h1, h2⟩ ⟨h3, h4⟩ ⟨h5, h6⟩
      have hout' : out.inBounds (fc ch) (fr r) (fk k) := by
        unfold Image.inBounds at hout ⊢
        rw [d1, d2, d3]; exact hout
      refine ⟨{ out with pix := fun c' i' j' =>
          if (c' = fc ch ∧ i' = fr r ∧ j' = fk k) then input.pix ch r k else out.pix c' i' j' },
        ?_, ⟨d1, d2, d3⟩, ?_, ?_⟩
      · simp [Image.read, Image.write, hin, hout']
      · intro a b c hw
        show (if fc a = fc ch ∧ fr b = fr r ∧ fk c = fk k then input.pix ch r k
          else out.pix (fc a) (fr b) (fk c)) = input.pix a b c
        by_cases he : fc a = fc ch ∧ fr b = fr r ∧ fk c = fk k
        · rw [if_pos he, ifc he.1, ifr he.2.1, ifk he.2.2]
        · rw [if_neg he]
          rcases hw with hw | ⟨e1, e2, e3⟩
          · exact hW a b c hw
          · exact absurd ⟨by rw [e1], by rw [e2], by rw [e3]⟩ he
      · intro x y z hx
        show (if x = fc ch ∧ y = fr r ∧ z = fk k then input.pix ch r k else out.pix x y z)
          = out0.pix x y z
        have hne : ¬ (x = fc ch ∧ y = fr r ∧ z = fk k) := by
          rintro ⟨e1, e2, e3⟩
          exact hx ch r k (Or.inr ⟨rfl, rfl, rfl⟩) ⟨e1.symm, e2.symm, e3.symm⟩
        rw [if_neg hne]
        exact hO x y z (fun a b c hw => hx a b c (Or.inl hw)))
  obtain ⟨out, ho, hd, hW, hO⟩ := key
  exact ⟨out, ho, hd, fun a b c ha hb' hc' => hW a b c ⟨ha, hb', hc'⟩,
    fun x y z hx => hO x y z (fun a b c hw => hx a b c hw.1 hw.2.1 hw.2.2)⟩

/-- Function `Set_Image_Range` on a range inside the extents of the input: it returns
an image with the extents of the range that holds the samples of the range. -/
theorem Set_Image_Range_spec (input : Image)
    (channel_start channel_stop col_start col_stop row_start row_stop : Int)
    (hc : 0 ≤ channel_start ∧ channel_start ≤ channel_stop ∧ channel_stop ≤ input.chans)
    (hr : 0 ≤ row_start ∧ row_start ≤ row_stop ∧ row_stop ≤ input.rows)
    (hk : 0 ≤ col_start ∧ col_start ≤ col_stop ∧ col_stop ≤ input.cols) :
    ∃ out, Set_Image_Range input channel_start channel_stop col_start col_stop
        row_start row_stop = some out ∧
      ((out.chans : Int) = channel_stop - channel_start ∧ (out.rows : Int) = row_stop - row_start ∧
        (out.cols : Int) = col_stop - col_start) ∧
      (∀ a b c, (0 ≤ a ∧ a < channel_stop - channel_start) → (0 ≤ b ∧ b < row_stop - row_start) →
        (0 ≤ c ∧ c < col_stop - col_start) →
        out.pix a b c = input.pix (channel_start + a) (row_start + b) (col_start + c)) := by
  have hnew : Image.new (row_stop - row_start) (col_stop - col_start)
      (channel_stop - channel_start) = some ⟨(channel_stop - channel_start).toNat,
        (row_stop - row_start).toNat, (col_stop - col_start).toNat, fun _ _ _ => 0⟩ := by
    unfold Image.new
    rw [if_neg (by omega)]
  obtain ⟨out, ho, ⟨d1, d2, d3⟩, hW, _⟩ := copy_loops_spec input
    ⟨(channel_stop - channel_start).toNat, (row_stop - row_start).toNat,
      (col_stop - col_start).toNat, fun _ _ _ => 0⟩
    channel_start channel_stop row_start row_stop col_start col_stop
    (fun channel => channel - channel_start) (fun row => row - row_start)
    (fun col => col - col_start) hc.2.1 hr.2.1 hk.2.1
    (fun a b h => by simpa using h) (fun a b h => by simpa using h)
    (fun a b h => by simpa using h)
    (by
      intro a b c ha hb hc'
      refine ⟨⟨⟨by omega, by omega⟩, ⟨by omega, by omega⟩, ⟨by omega, by omega⟩⟩, ?_⟩
      show (0 ≤ a - channel_start ∧ a - channel_start < ((channel_stop - channel_start).toNat : Int)) ∧
        (0 ≤ b - row_start ∧ b - row_start < ((row_stop - row_start).toNat : Int)) ∧
        (0 ≤ c - col_start ∧ c - col_start < ((col_stop - col_start).toNat : Int))
      omega)
  refine ⟨out, ?_, ⟨?_, ?_, ?_⟩, ?_⟩
  · unfold Set_Image_Range
    rw [hnew]
    exact ho
  · rw [d1]; show (((channel_stop - channel_start).toNat : Nat) : Int) = _; omega
  · rw [d2]; show (((row_stop - row_start).toNat : Nat) : Int) = _; omega
  · rw [d3]; show (((col_stop - col_start).toNat : Nat) : Int) = _; omega
  · intro a b c ha hb hc'
    have := hW (channel_start + a) (row_start + b) (col_start + c) (by omega) (by omega) (by omega)
    simpa using this

/-- Function `Modify_Image_Range` on ranges inside the extents of both images: it returns
`output` with the destination range replaced by the samples of the source range. -/
theorem Modify_Image_Range_spec (input output : Image)
    (channel_start channel_stop col_start col_stop row_start row_stop output_col output_row : Int)
    (hc : 0 ≤ channel_start ∧ channel_start ≤ channel_stop ∧ channel_stop ≤ input.chans ∧
      channel_stop ≤ output.chans)
    (hr : 0 ≤ row_start ∧ row_start ≤ row_stop ∧ row_stop ≤ input.rows)
    (hk : 0 ≤ col_start ∧ col_start ≤ col_stop ∧ col_stop ≤ input.cols)
    (hor : 0 ≤ output_row ∧ output_row + (row_stop - row_start) ≤ output.rows)
    (hoc : 0 ≤ output_col ∧ output_col + (col_stop - col_start) ≤ output.cols) :
    ∃ out, Modify_Image_Range input output channel_start channel_stop col_start col_stop
        row_start row_stop output_col output_row = some out ∧
      (out.chans = output.chans ∧ out.rows = output.rows ∧ out.cols = output.cols) ∧
      (∀ x y z, out.pix x y z =
        if (channel_start ≤ x ∧ x < channel_stop) ∧
            (output_row ≤ y ∧ y < output_row + (row_stop - row_start)) ∧
            (output_col ≤ z ∧ z < output_col + (col_stop - col_start)) then
          input.pix x (row_start + (y - output_row)) (col_start + (z - output_col))
        else output.pix x y z) := by
  obtain ⟨out, ho, hd, hW, hO⟩ := copy_loops_spec input output
    channel_start channel_stop row_start row_stop col_start col_stop
    (fun channel => channel) (fun row => output_row + (row - row_start))
    (fun col => output_col + (col - col_start)) hc.2.1 hr.2.1 hk.2.1
    (fun a b h => h) (fun a b h => by simpa using h) (fun a b h => by simpa using h)
    (by
      intro a b c ha hb hc'
      refine ⟨⟨⟨by omega, by omega⟩, ⟨by omega, by omega⟩, ⟨by omega, by omega⟩⟩, ?_⟩
      show (0 ≤ a ∧ a < (output.chans : Int)) ∧
        (0 ≤ output_row + (b - row_start) ∧ output_row + (b - row_start) < (output.rows : Int)) ∧
        (0 ≤ output_col + (c - col_start) ∧ output_col + (c - col_start) < (output.cols : Int))
      omega)
  refine ⟨out, ho, hd, ?_⟩
  intro x y z
  by_cases h : (channel_start ≤ x ∧ x < channel_stop) ∧
      (output_row ≤ y ∧ y < output_row + (row_stop - row_start)) ∧
      (output_col ≤ z ∧ z < output_col + (col_stop - col_start))
  · rw [if_pos h]
    have := hW x (row_start + (y - output_row)) (col_start + (z - output_col))
      h.1 (by omega) (by omega)
    simpa using this
  · rw [if_neg h]
    apply hO
    rintro a b c ha hb hc' ⟨e1, e2, e3⟩
    apply h
    have e1' : a = x := e1
    have e2' : output_row + (b - row_start) = y := e2
    have e3' : output_col + (c - col_start) = z := e3
    exact ⟨by omega, by omega, by omega⟩

/-! ## Rounding -/

theorem round_even_of_near (x : ℚ) (k : Int) (h1 : (k : ℚ) - 1 / 2 < x)
    (h2 : x < (k : ℚ) + 1 / 2) : round_even x = k := by
  unfold round_even
  rcases le_or_lt (k : ℚ) x with h | h
  · have hf : ⌊x⌋ = k := Int.floor_eq_iff.mpr ⟨h, by linarith⟩
    rw [hf, if_pos (by linarith)]
  · have hf : ⌊x⌋ = k - 1 :=
      Int.floor_eq_iff.mpr ⟨by push_cast; linarith, by push_cast; linarith⟩
    rw [hf, if_neg (by push_cast; linarith), if_pos (by push_cast; linarith)]
    ring

theorem round_even_intCast (n : Int) : round_even (n : ℚ) = n :=
  round_even_of_near _ n (by linarith) (by linarith)

theorem round_even_bounds (x : ℚ) : ⌊x⌋ ≤ round_even x ∧ round_even x ≤ ⌊x⌋ + 1 := by
  unfold round_even
  split_ifs <;> constructor <;> omega

theorem round_even_mono {x y : ℚ} (h : x ≤ y) : round_even x ≤ round_even y := by
  have hf := Int.floor_mono h
  rcases lt_or_eq_of_le hf with hlt | heq
  · have h1 := (round_even_bounds x).2
    have h2 := (round_even_bounds y).1
    omega
  · unfold round_even
    rw [← heq]
    split_ifs <;> first | omega | (exfalso; linarith)

theorem log_bounds (q : ℚ) (hq : 0 < q) :
    (2 : ℚ) ^ Int.log 2 q ≤ q ∧ q < (2 : ℚ) ^ (Int.log 2 q + 1) := by
  constructor
  · have := Int.zpow_log_le_self (b := 2) (by norm_num) hq
    exact_mod_cast this
  · have := Int.lt_zpow_succ_log_self (b := 2) (by norm_num) q
    exact_mod_cast this

theorem log_eq_of_bounds (q : ℚ) (e : Int) (h1 : (2 : ℚ) ^ e ≤ q) (h2 : q < (2 : ℚ) ^ (e + 1)) :
    Int.log 2 q = e := by
  have hq : 0 < q := lt_of_lt_of_le (by positivity) h1
  have a : e ≤ Int.log 2 q := by
    apply (Int.zpow_le_iff_le_log (b := 2) (by norm_num) hq).mp
    exact_mod_cast h1
  have b : Int.log 2 q < e + 1 := by
    apply (Int.lt_zpow_iff_log_lt (b := 2) (by norm_num) hq).mp
    exact_mod_cast h2
  omega

/-- The significand of a positive number scaled to `p` bits lies between `2^(p-1)` and
`2^p`. -/
theorem scaled_bounds (p : Nat) (hp : 1 ≤ p) (q : ℚ) (hq : 0 < q) :
    (((2 : Int) ^ (p - 1) : Int) : ℚ) ≤ q / 2 ^ (Int.log 2 q - ((p : Int) - 1)) ∧
    q / 2 ^ (Int.log 2 q - ((p : Int) - 1)) < (((2 : Int) ^ p : Int) : ℚ) := by
  obtain ⟨h1, h2⟩ := log_bounds q hq
  have hu : (0 : ℚ) < 2 ^ (Int.log 2 q - ((p : Int) - 1)) := by positivity
  have e1 : (((2 : Int) ^ (p - 1) : Int) : ℚ) * 2 ^ (Int.log 2 q - ((p : Int) - 1)) =
      2 ^ Int.log 2 q := by
    push_cast
    rw [← zpow_natCast, ← zpow_add₀ (by norm_num)]
    congr 1
    have : ((p - 1 : Nat) : Int) = (p : Int) - 1 := by omega
    rw [this]; ring
  have e2 : (((2 : Int) ^ p : Int) : ℚ) * 2 ^ (Int.log 2 q - ((p : Int) - 1)) =
      2 ^ (Int.log 2 q + 1) := by
    push_cast
    rw [← zpow_natCast, ← zpow_add₀ (by norm_num)]
    congr 1
    ring
  constructor
  · rw [le_div_iff₀ hu, e1]; exact h1
  · rw [div_lt_iff₀ hu, e2]; exact h2

theorem fl_round_pos_bounds (p : Nat) (hp : 1 ≤ p) (q : ℚ) (hq : 0 < q) :
    (2 : ℚ) ^ Int.log 2 q ≤ fl_round_pos p q ∧
    fl_round_pos p q ≤ (2 : ℚ) ^ (Int.log 2 q + 1) := by
  obtain ⟨s1, s2⟩ := scaled_bounds p hp q hq
  have hu : (0 : ℚ) < 2 ^ (Int.log 2 q - ((p : Int) - 1)) := by positivity
  have r1 : ((2 : Int) ^ (p - 1) : Int) ≤
      round_even (q / 2 ^ (Int.log 2 q - ((p : Int) - 1))) := by
    have := round_even_mono s1
    rwa [round_even_intCast] at this
  have r2 : round_even (q / 2 ^ (Int.log 2 q - ((p : Int) - 1))) ≤ ((2 : Int) ^ p : Int) := by
    have := round_even_mono s2.le
    rwa [round_even_intCast] at this
  have e1 : (((2 : Int) ^ (p - 1) : Int) : ℚ) * 2 ^ (Int.log 2 q - ((p : Int) - 1)) =
      2 ^ Int.log 2 q := by
    push_cast
    rw [← zpow_natCast, ← zpow_add₀ (by norm_num)]
    congr 1
    have : ((p - 1 : Nat) : Int) = (p : Int) - 1 := by omega
    rw [this]; ring
  have e2 : (((2 : Int) ^ p : Int) : ℚ) * 2 ^ (Int.log 2 q - ((p : Int) - 1)) =
      2 ^ (Int.log 2 q + 1) := by
    push_cast
    rw [← zpow_natCast, ← zpow_add₀ (by norm_num)]
    congr 1
    ring
  unfold fl_round_pos
  constructor
  · rw [← e1]
    exact mul_le_mul_of_nonneg_right (by exact_mod_cast r1) hu.le
  · rw [← e2]
    exact mul_le_mul_of_nonneg_right (by exact_mod_cast r2) hu.le

theorem fl_round_pos_mono (p : Nat) (hp : 1 ≤ p) (q1 q2 : ℚ) (h1 : 0 < q1) (h : q1 ≤ q2) :
    fl_round_pos p q1 ≤ fl_round_pos p q2 := by
  have h2 : 0 < q2 := lt_of_lt_of_le h1 h
  have hl := Int.log_mono_right (b := 2) h1 h
  rcases lt_or_eq_of_le hl with hlt | heq
  · have a := (fl_round_pos_bounds p hp q1 h1).2
    have b := (fl_round_pos_bounds p hp q2 h2).1
    have c : (2 : ℚ) ^ (Int.log 2 q1 + 1) ≤ 2 ^ Int.log 2 q2 :=
      zpow_le_zpow_right₀ (by norm_num) (by omega)
    linarith
  · unfold fl_round_pos
    rw [← heq]
    have hu : (0 : ℚ) < 2 ^ (Int.log 2 q1 - ((p : Int) - 1)) := by positivity
    apply mul_le_mul_of_nonneg_right _ hu.le
    have := round_even_mono (div_le_div_of_nonneg_right h hu.le)
    exact_mod_cast this

theorem fl_round_zero (p : Nat) : fl_round p 0 = 0 := by
  unfold fl_round; rw [if_pos rfl]

theorem fl_round_of_pos (p : Nat) (q : ℚ) (hq : 0 < q) : fl_round p q = fl_round_pos p q := by
  unfold fl_round; rw [if_neg (ne_of_gt hq), if_pos hq]

theorem fl_round_pos_pos (p : Nat) (hp : 1 ≤ p) (q : ℚ) (hq : 0 < q) : 0 < fl_round p q := by
  rw [fl_round_of_pos p q hq]
  exact lt_of_lt_of_le (by positivity) (fl_round_pos_bounds p hp q hq).1

theorem fl_round_nonneg (p : Nat) (hp : 1 ≤ p) (q : ℚ) (hq : 0 ≤ q) : 0 ≤ fl_round p q := by
  rcases eq_or_lt_of_le hq with h | h
  · rw [← h, fl_round_zero]
  · exact (fl_round_pos_pos p hp q h).le

theorem fl_round_eq_zero_iff (p : Nat) (hp : 1 ≤ p) (q : ℚ) (hq : 0 ≤ q) :
    fl_round p q = 0 ↔ q = 0 := by
  constructor
  · intro h
    by_contra hne
    have := fl_round_pos_pos p hp q (lt_of_le_of_ne hq (Ne.symm hne))
    linarith
  · rintro rfl
    exact fl_round_zero p

theorem fl_round_mono (p : Nat) (hp : 1 ≤ p) (q1 q2 : ℚ) (h1 : 0 ≤ q1) (h : q1 ≤ q2) :
    fl_round p q1 ≤ fl_round p q2 := by
  rcases eq_or_lt_of_le h1 with h0 | h0
  · rw [← h0, fl_round_zero]
    exact fl_round_nonneg p hp q2 (le_trans h1 h)
  · rw [fl_round_of_pos p q1 h0, fl_round_of_pos p q2 (lt_of_lt_of_le h0 h)]
    exact fl_round_pos_mono p hp q1 q2 h0 h

/-- The value of the rounding of a number `q` in the binade of `2^e` that is nearer than
half a unit in the last place to the representable number `k * 2^(e - (p - 1))`. -/
theorem fl_round_near (p : Nat) (q : ℚ) (e k : Int)
    (h1 : (2 : ℚ) ^ e ≤ q) (h2 : q < (2 : ℚ) ^ (e + 1))
    (hlo : ((k : ℚ) - 1 / 2) * 2 ^ (e - ((p : Int) - 1)) < q)
    (hhi : q < ((k : ℚ) + 1 / 2) * 2 ^ (e - ((p : Int) - 1))) :
    fl_round p q = (k : ℚ) * 2 ^ (e - ((p : Int) - 1)) := by
  have hq : 0 < q := lt_of_lt_of_le (by positivity) h1
  have hl := log_eq_of_bounds q e h1 h2
  have hu : (0 : ℚ) < 2 ^ (e - ((p : Int) - 1)) := by positivity
  rw [fl_round_of_pos p q hq]
  unfold fl_round_pos
  rw [hl, round_even_of_near _ k (by rw [lt_div_iff₀ hu]; exact hlo)
    (by rw [div_lt_iff₀ hu]; exact hhi)]

theorem F32_third : F32 (1 / 3) = 11184811 / 33554432 := by
  have := fl_round_near 24 (1 / 3) (-2) 11184811 (by norm_num) (by norm_num) (by norm_num)
    (by norm_num)
  unfold F32
  rw [this]
  norm_num

/-- A number that is a multiple of the unit in the last place of its binade is not
changed by the rounding. -/
theorem fl_round_exact (p : Nat) (q : ℚ) (e k : Int)
    (h1 : (2 : ℚ) ^ e ≤ q) (h2 : q < (2 : ℚ) ^ (e + 1))
    (hq : q = (k : ℚ) * 2 ^ (e - ((p : Int) - 1))) : fl_round p q = q := by
  have hu : (0 : ℚ) < 2 ^ (e - ((p : Int) - 1)) := by positivity
  rw [fl_round_near p q e k h1 h2 (by rw [hq]; exact mul_lt_mul_of_pos_right (by linarith) hu)
    (by rw [hq]; exact mul_lt_mul_of_pos_right (by linarith) hu)]
  exact hq.symm

/-- An integer from 0 to `2^p` is not changed by the rounding to `p` bits. -/
theorem fl_round_int (p : Nat) (hp : 1 ≤ p) (n : Int) (h0 : 0 ≤ n) (hn : n ≤ 2 ^ p) :
    fl_round p (n : ℚ) = n := by
  rcases eq_or_lt_of_le h0 with h | h
  · rw [← h]; simp [fl_round_zero]
  have hq : (0 : ℚ) < (n : ℚ) := by exact_mod_cast h
  obtain ⟨b1, b2⟩ := log_bounds (n : ℚ) hq
  have he0 : 0 ≤ Int.log 2 (n : ℚ) := by
    apply (Int.zpow_le_iff_le_log (b := 2) (by norm_num) hq).mp
    have : (1 : ℚ) ≤ n := by exact_mod_cast h
    simpa using this
  have hep : Int.log 2 (n : ℚ) ≤ p := by
    have hle : (n : ℚ) ≤ ((2 : Nat) : ℚ) ^ ((p : Nat) : Int) := by
      rw [zpow_natCast]; exact_mod_cast hn
    have := Int.log_mono_right (b := 2) hq hle
    rwa [Int.log_zpow (by norm_num)] at this
  rcases lt_or_eq_of_le hep with hlt | heq
  · apply fl_round_exact p (n : ℚ) (Int.log 2 (n : ℚ))
      (n * 2 ^ ((p : Int) - 1 - Int.log 2 (n : ℚ)).toNat) b1 b2
    push_cast
    rw [← zpow_natCast (2 : ℚ), Int.toNat_of_nonneg (by omega), mul_assoc,
      ← zpow_add₀ (by norm_num)]
    have : (p : Int) - 1 - Int.log 2 (n : ℚ) + (Int.log 2 (n : ℚ) - ((p : Int) - 1)) = 0 := by
      ring
    rw [this, zpow_zero, mul_one]
  · have hn2 : (n : ℚ) = 2 ^ (p : Int) := by
      apply le_antisymm
      · rw [zpow_natCast]; exact_mod_cast hn
      · rw [← heq]; exact b1
    apply fl_round_exact p (n : ℚ) (Int.log 2 (n : ℚ)) (2 ^ (p - 1)) b1 b2
    rw [heq, hn2]
    push_cast
    rw [← zpow_natCast (2 : ℚ), ← zpow_add₀ (by norm_num)]
    congr 1
    have : ((p - 1 : Nat) : Int) = (p : Int) - 1 := by omega
    rw [this]; ring

theorem F32_zero : F32 0 = 0 := fl_round_zero 24

theorem F64_zero : F64 0 = 0 := fl_round_zero 53

theorem F32_nonneg (q : ℚ) (hq : 0 ≤ q) : 0 ≤ F32 q := fl_round_nonneg 24 (by norm_num) q hq

theorem F64_nonneg (q : ℚ) (hq : 0 ≤ q) : 0 ≤ F64 q := fl_round_nonneg 53 (by norm_num) q hq

theorem F32_pos (q : ℚ) (hq : 0 < q) : 0 < F32 q := fl_round_pos_pos 24 (by norm_num) q hq

theorem F32_eq_zero_iff (q : ℚ) (hq : 0 ≤ q) : F32 q = 0 ↔ q = 0 :=
  fl_round_eq_zero_iff 24 (by norm_num) q hq

theorem F64_eq_zero_iff (q : ℚ) (hq : 0 ≤ q) : F64 q = 0 ↔ q = 0 :=
  fl_round_eq_zero_iff 53 (by norm_num) q hq

theorem F32_mono (q1 q2 : ℚ) (h1 : 0 ≤ q1) (h : q1 ≤ q2) : F32 q1 ≤ F32 q2 :=
  fl_round_mono 24 (by norm_num) q1 q2 h1 h

theorem F64_mono (q1 q2 : ℚ) (h1 : 0 ≤ q1) (h : q1 ≤ q2) : F64 q1 ≤ F64 q2 :=
  fl_round_mono 53 (by norm_num) q1 q2 h1 h

/-- A `float` holds every integer from 0 to `2^24`. -/
theorem F32_int (n : Int) (h0 : 0 ≤ n) (hn : n ≤ 2 ^ 24) : F32 (n : ℚ) = n :=
  fl_round_int 24 (by norm_num) n h0 hn

/-- A `double` holds every integer from 0 to `2^53`. -/
theorem F64_int (n : Int) (h0 : 0 ≤ n) (hn : n ≤ 2 ^ 53) : F64 (n : ℚ) = n :=
  fl_round_int 53 (by norm_num) n h0 hn

theorem F32_one : F32 1 = 1 := by
  have := F32_int 1 (by norm_num) (by norm_num)
  simpa using this

theorem F32_two_pow_64 : F32 (2 ^ 64) = 2 ^ 64 :=
  fl_round_exact 24 _ 64 (2 ^ 23) (by norm_num) (by norm_num) (by norm_num)

theorem F64_two_pow_64 : F64 (2 ^ 64) = 2 ^ 64 :=
  fl_round_exact 53 _ 64 (2 ^ 52) (by norm_num) (by norm_num) (by norm_num)

theorem F32_two_pow_89 : F32 (2 ^ 89) = 2 ^ 89 :=
  fl_round_exact 24 _ 89 (2 ^ 23) (by norm_num) (by norm_num) (by norm_num)

/-- The sum of `2^89` and `2^64` is rounded to `2^89`: an accumulator of `MSE` never
exceeds `2^89` when the squares are at most `2^64`. -/
theorem F32_saturates : F32 (2 ^ 89 + 2 ^ 64) = 2 ^ 89 := by
  have := fl_round_near 24 (2 ^ 89 + 2 ^ 64) 89 (2 ^ 23) (by norm_num) (by norm_num)
    (by norm_num) (by norm_num)
  unfold F32
  rw [this]
  norm_num
/-! ## Loops that cannot fail -/

theorem loopN_some {σ : Type} (g : Nat → σ → σ) (n : Nat) (s : σ) :
    loopN (fun k t => some (g k t)) n s = some (foldN g n s) := by
  induction n with
  | zero => rfl
  | succ m ih => simp [loopN, foldN, ih]

theorem forRange_some {σ : Type} (lo hi : Int) (g : Int → σ → σ) (s : σ) :
    forRange lo hi (fun v t => some (g v t)) s = some (foldRange lo hi g s) := by
  unfold forRange foldRange
  exact loopN_some (fun k => g (lo + (k : Int))) _ s

theorem loopN_congr {σ : Type} (f g : Nat → σ → Option σ) (n : Nat) (s : σ)
    (h : ∀ k t, k < n → f k t = g k t) : loopN f n s = loopN g n s := by
  induction n with
  | zero => rfl
  | succ m ih =>
    simp only [loopN]
    rw [ih (fun k t hk => h k t (Nat.lt_succ_of_lt hk))]
    cases loopN g m s with
    | none => rfl
    | some t => exact h m t (Nat.lt_succ_self m)

theorem forRange_congr {σ : Type} (lo hi : Int) (f g : Int → σ → Option σ) (s : σ)
    (h : ∀ v t, lo ≤ v → v < hi → f v t = g v t) : forRange lo hi f s = forRange lo hi g s := by
  unfold forRange
  apply loopN_congr
  intro k t hk
  exact h (lo + k) t (by omega) (by omega)

theorem foldN_congr {σ : Type} (f g : Nat → σ → σ) (n : Nat) (s : σ)
    (h : ∀ k t, k < n → f k t = g k t) : foldN f n s = foldN g n s := by
  induction n with
  | zero => rfl
  | succ m ih =>
    simp only [foldN]
    rw [ih (fun k t hk => h k t (Nat.lt_succ_of_lt hk))]
    exact h m _ (Nat.lt_succ_self m)

theorem foldRange_congr {σ : Type} (lo hi : Int) (f g : Int → σ → σ) (s : σ)
    (h : ∀ v t, lo ≤ v → v < hi → f v t = g v t) :
    foldRange lo hi f s = foldRange lo hi g s := by
  unfold foldRange
  apply foldN_congr
  intro k t hk
  exact h (lo + k) t (by omega) (by omega)

/-- Three nested counting loops with a body that cannot fail, as for `for3_spec`. -/
theorem fold3_spec {σ : Type} (c0 c1 r0 r1 k0 k1 : Int) (g : Int → Int → Int → σ → σ)
    (P : (Int → Int → Int → Prop) → σ → Prop) (s0 : σ)
    (hc : c0 ≤ c1) (hr : r0 ≤ r1) (hk : k0 ≤ k1)
    (h0 : P (fun _ _ _ => False) s0)
    (hstep : ∀ W s ch r k, c0 ≤ ch → ch < c1 → r0 ≤ r → r < r1 → k0 ≤ k → k < k1 →
      ¬ W ch r k → P W s →
      P (fun a b c => W a b c ∨ (a = ch ∧ b = r ∧ c = k)) (g ch r k s)) :
    P (fun a b c => (c0 ≤ a ∧ a < c1) ∧ (r0 ≤ b ∧ b < r1) ∧ (k0 ≤ c ∧ c < k1))
      (foldRange c0 c1 (fun ch s => foldRange r0 r1 (fun r s =>
        foldRange k0 k1 (fun k s => g ch r k s) s) s) s0) := by
  obtain ⟨s', hs', hP⟩ := for3_spec c0 c1 r0 r1 k0 k1 (fun ch r k s => some (g ch r k s)) P s0
    hc hr hk h0 (fun W s ch r k a1 a2 a3 a4 a5 a6 hn hp =>
      ⟨_, rfl, hstep W s ch r k a1 a2 a3 a4 a5 a6 hn hp⟩)
  simp only [forRange_some] at hs'
  rw [Option.some.injEq] at hs'
  rw [hs']
  exact hP

/-! ## The value accumulated by `MSE` -/

/-- The `float` value of a squared difference is not negative, and it is 0 only for the
difference 0. -/
theorem sq_term (d : Int) :
    0 ≤ F32 (F64 (((d : Int) : ℚ) ^ 2)) ∧ (F32 (F64 (((d : Int) : ℚ) ^ 2)) = 0 ↔ d = 0) := by
  have h0 : (0 : ℚ) ≤ ((d : Int) : ℚ) ^ 2 := sq_nonneg _
  have h1 := F64_nonneg _ h0
  refine ⟨F32_nonneg _ h1, ?_⟩
  rw [F32_eq_zero_iff _ h1, F64_eq_zero_iff _ h0]
  constructor
  · intro h
    have : ((d : Int) : ℚ) = 0 := by simpa using h
    exact_mod_cast this
  · rintro rfl
    simp

/-- The `float` value of a square of at most `2^24` is the square. -/
theorem sq_term_exact (d : Int) (h : d ^ 2 ≤ 2 ^ 24) :
    F32 (F64 (((d : Int) : ℚ) ^ 2)) = ((d ^ 2 : Int) : ℚ) := by
  have e : ((d : Int) : ℚ) ^ 2 = ((d ^ 2 : Int) : ℚ) := by push_cast; rfl
  rw [e, F64_int _ (sq_nonneg d) (by omega), F32_int _ (sq_nonneg d) h]

/-- The `float` value of a square of at most `2^64` is at most `2^64`. -/
theorem sq_term_le (d : Int) (h : ((d : Int) : ℚ) ^ 2 ≤ 2 ^ 64) :
    F32 (F64 (((d : Int) : ℚ) ^ 2)) ≤ 2 ^ 64 := by
  have h0 : (0 : ℚ) ≤ ((d : Int) : ℚ) ^ 2 := sq_nonneg _
  have h1 := F64_mono _ _ h0 h
  rw [F64_two_pow_64] at h1
  have h2 := F32_mono _ _ (F64_nonneg _ h0) h1
  rwa [F32_two_pow_64] at h2

/-- The accumulated sum is not negative, and it is 0 exactly when every difference
is 0. -/
theorem Float_Sum_zero_iff (d : Int → Int → Int → Int) (C R K : Int)
    (hC : 0 ≤ C) (hR : 0 ≤ R) (hK : 0 ≤ K) :
    0 ≤ Float_Sum d C R K ∧
    (Float_Sum d C R K = 0 ↔
      ∀ a b c, (0 ≤ a ∧ a < C) → (0 ≤ b ∧ b < R) → (0 ≤ c ∧ c < K) → d a b c = 0) := by
  have key := fold3_spec 0 C 0 R 0 K
    (fun ch r k (acc : ℚ) => F32 (acc + F32 (F64 (((d ch r k : Int) : ℚ) ^ 2))))
    (fun W acc => 0 ≤ acc ∧ (acc = 0 ↔ ∀ a b c, W a b c → d a b c = 0))
    0 hC hR hK ⟨le_refl _, by simp⟩
    (by
      intro W acc ch r k _ _ _ _ _ _ _ hP
      obtain ⟨hn, hz⟩ := hP
      obtain ⟨tn, tz⟩ := sq_term (d ch r k)
      have hs : (0 : ℚ) ≤ acc + F32 (F64 (((d ch r k : Int) : ℚ) ^ 2)) := add_nonneg hn tn
      refine ⟨F32_nonneg _ hs, ?_⟩
      rw [F32_eq_zero_iff _ hs]
      constructor
      · intro h
        have ha : acc = 0 := by linarith
        have ht : F32 (F64 (((d ch r k : Int) : ℚ) ^ 2)) = 0 := by linarith
        intro a b c hw
        rcases hw with hw | ⟨rfl, rfl, rfl⟩
        · exact hz.mp ha a b c hw
        · exact tz.mp ht
      · intro h
        have ha : acc = 0 := hz.mpr (fun a b c hw => h a b c (Or.inl hw))
        have ht : F32 (F64 (((d ch r k : Int) : ℚ) ^ 2)) = 0 :=
          tz.mpr (h ch r k (Or.inr ⟨rfl, rfl, rfl⟩))
        rw [ha, ht, add_zero])
  refine ⟨key.1, ?_⟩
  show Float_Sum d C R K = 0 ↔ _
  constructor
  · intro h a b c ha hb hc
    exact key.2.mp h a b c ⟨ha, hb, hc⟩
  · intro h
    exact key.2.mpr (fun a b c hw => h a b c hw.1 hw.2.1 hw.2.2)

/-- The accumulated sum is at most `2^89` when every squared difference is at most
`2^64`. -/
theorem Float_Sum_le (d : Int → Int → Int → Int) (C R K : Int)
    (hC : 0 ≤ C) (hR : 0 ≤ R) (hK : 0 ≤ K)
    (hd : ∀ a b c, (0 ≤ a ∧ a < C) → (0 ≤ b ∧ b < R) → (0 ≤ c ∧ c < K) →
      ((d a b c : Int) : ℚ) ^ 2 ≤ 2 ^ 64) :
    Float_Sum d C R K ≤ 2 ^ 89 := by
  have key := fold3_spec 0 C 0 R 0 K
    (fun ch r k (acc : ℚ) => F32 (acc + F32 (F64 (((d ch r k : Int) : ℚ) ^ 2))))
    (fun _ acc => 0 ≤ acc ∧ acc ≤ 2 ^ 89)
    0 hC hR hK ⟨le_refl _, by norm_num⟩
    (by
      intro W acc ch r k a1 a2 a3 a4 a5 a6 _ hP
      obtain ⟨hn, hle⟩ := hP
      obtain ⟨tn, _⟩ := sq_term (d ch r k)
      have tl := sq_term_le (d ch r k) (hd ch r k ⟨a1, a2⟩ ⟨a3, a4⟩ ⟨a5, a6⟩)
      have hs : (0 : ℚ) ≤ acc + F32 (F64 (((d ch r k : Int) : ℚ) ^ 2)) := add_nonneg hn tn
      refine ⟨F32_nonneg _ hs, ?_⟩
      have := F32_mono _ ((2 : ℚ) ^ 89 + 2 ^ 64) hs (by linarith)
      rwa [F32_saturates] at this)
  exact key.2

/-- The accumulated sum is the sum of the squared differences when that sum is at most
`2^24`: no addition is rounded. -/
theorem Float_Sum_exact (d : Int → Int → Int → Int) (C R K : Int)
    (hC : 0 ≤ C) (hR : 0 ≤ R) (hK : 0 ≤ K)
    (hs : (∑ t ∈ Finset.Ico (0 : Int) C ×ˢ Finset.Ico (0 : Int) R ×ˢ Finset.Ico (0 : Int) K,
      d t.1 t.2.1 t.2.2 ^ 2) ≤ 2 ^ 24) :
    Float_Sum d C R K =
      ∑ t ∈ Finset.Ico (0 : Int) C ×ˢ Finset.Ico (0 : Int) R ×ˢ Finset.Ico (0 : Int) K,
        (((d t.1 t.2.1 t.2.2 : Int) : ℚ)) ^ 2 := by
  have key := fold3_spec 0 C 0 R 0 K
    (fun ch r k (acc : ℚ) => F32 (acc + F32 (F64 (((d ch r k : Int) : ℚ) ^ 2))))
    (fun W acc => (∀ a b c, W a b c → (0 ≤ a ∧ a < C) ∧ (0 ≤ b ∧ b < R) ∧ (0 ≤ c ∧ c < K)) ∧
      ∀ F : Finset (Int × Int × Int), (∀ t, t ∈ F ↔ W t.1 t.2.1 t.2.2) →
        acc = ((∑ t ∈ F, d t.1 t.2.1 t.2.2 ^ 2 : Int) : ℚ))
    0 hC hR hK
    ⟨fun _ _ _ h => h.elim, by
      intro F hF
      have : F = ∅ := Finset.eq_empty_of_forall_not_mem (fun t ht => (hF t).mp ht)
      rw [this, Finset.sum_empty]
      simp⟩
    (by
      intro W acc ch r k a1 a2 a3 a4 a5 a6 hnW hP
      obtain ⟨hin, hP⟩ := hP
      have hin2 : ∀ a b c, (W a b c ∨ (a = ch ∧ b = r ∧ c = k)) →
          (0 ≤ a ∧ a < C) ∧ (0 ≤ b ∧ b < R) ∧ (0 ≤ c ∧ c < K) := by
        intro a b c hw
        rcases hw with hw | ⟨rfl, rfl, rfl⟩
        · exact hin a b c hw
        · exact ⟨⟨a1, a2⟩, ⟨a3, a4⟩, ⟨a5, a6⟩⟩
      refine ⟨hin2, ?_⟩
      intro F hF
      have hmem : (ch, r, k) ∈ F := (hF (ch, r, k)).mpr (Or.inr ⟨rfl, rfl, rfl⟩)
      have hE := hP (F.erase (ch, r, k)) (by
        intro t
        rw [Finset.mem_erase, hF t]
        constructor
        · rintro ⟨hne, hw | ⟨e1, e2, e3⟩⟩
          · exact hw
          · exact absurd (Prod.ext e1 (Prod.ext e2 e3)) hne
        · intro hw
          refine ⟨?_, Or.inl hw⟩
          rintro rfl
          exact hnW hw)
      have hsplit : (∑ t ∈ F, d t.1 t.2.1 t.2.2 ^ 2) =
          (∑ t ∈ F.erase (ch, r, k), d t.1 t.2.1 t.2.2 ^ 2) + d ch r k ^ 2 :=
        (Finset.sum_erase_add F (fun t => d t.1 t.2.1 t.2.2 ^ 2) hmem).symm
      have hsub : F ⊆ Finset.Ico (0 : Int) C ×ˢ Finset.Ico (0 : Int) R ×ˢ
          Finset.Ico (0 : Int) K := by
        intro t ht
        simp only [Finset.mem_product, Finset.mem_Ico]
        exact hin2 t.1 t.2.1 t.2.2 ((hF t).mp ht)
      have hle : (∑ t ∈ F, d t.1 t.2.1 t.2.2 ^ 2) ≤ 2 ^ 24 :=
        le_trans (Finset.sum_le_sum_of_subset_of_nonneg hsub (fun t _ _ => sq_nonneg _)) hs
      have hnn : 0 ≤ ∑ t ∈ F.erase (ch, r, k), d t.1 t.2.1 t.2.2 ^ 2 :=
        Finset.sum_nonneg (fun t _ => sq_nonneg _)
      have hd2 : d ch r k ^ 2 ≤ 2 ^ 24 := by
        have := sq_nonneg (d ch r k)
        omega
      show F32 (acc + F32 (F64 (((d ch r k : Int) : ℚ) ^ 2))) = _
      rw [sq_term_exact _ hd2, hE, ← Int.cast_add, ← hsplit]
      exact F32_int _ (Finset.sum_nonneg (fun t _ => sq_nonneg _)) hle)
  have := key.2 (Finset.Ico (0 : Int) C ×ˢ Finset.Ico (0 : Int) R ×ˢ Finset.Ico (0 : Int) K)
    (by intro t; simp only [Finset.mem_product, Finset.mem_Ico])
  show Float_Sum d C R K = _
  rw [show Float_Sum d C R K = _ from this]
  push_cast
  rfl

/-- The accumulated sum depends only on the squares of the differences inside the
ranges. -/
theorem Float_Sum_congr (d1 d2 : Int → Int → Int → Int) (C R K : Int)
    (h : ∀ a b c, (0 ≤ a ∧ a < C) → (0 ≤ b ∧ b < R) → (0 ≤ c ∧ c < K) →
      d1 a b c ^ 2 = d2 a b c ^ 2) :
    Float_Sum d1 C R K = Float_Sum d2 C R K := by
  unfold Float_Sum
  apply foldRange_congr
  intro a s1 a1 a2
  apply foldRange_congr
  intro b s2 b1 b2
  apply foldRange_congr
  intro c s3 c1 c2
  have e : (((d1 a b c : Int) : ℚ)) ^ 2 = (((d2 a b c : Int) : ℚ)) ^ 2 := by
    have := h a b c ⟨a1, a2⟩ ⟨b1, b2⟩ ⟨c1, c2⟩
    exact_mod_cast this
  rw [e]

/-- The three loops of `MSE` accumulate `Float_Sum` of the sample differences, provided
`Block_2` is at least as large as `Block_1`. -/
theorem MSE_sum_spec (Block_1 Block_2 : Image)
    (hd : Block_1.chans ≤ Block_2.chans ∧ Block_1.rows ≤ Block_2.rows ∧
      Block_1.cols ≤ Block_2.cols) :
    MSE_sum Block_1 Block_2 = some
      (Float_Sum (fun channel row col =>
        Block_1.pix channel row col - Block_2.pix channel row col)
        Block_1.channels Block_1.get_rows Block_1.get_cols) := by
  have hrw' : Block_1.get_rows ≤ Block_1.rows := by
    unfold Image.get_rows; split_ifs <;> omega
  have hcl' : Block_1.get_cols ≤ Block_1.cols := by
    unfold Image.get_cols; split_ifs <;> omega
  unfold MSE_sum Float_Sum
  rw [← forRange_some]
  apply forRange_congr
  intro ch s1 a1 a2
  rw [← forRange_some]
  apply forRange_congr
  intro r s2 b1 b2
  rw [← forRange_some]
  apply forRange_congr
  intro k s3 c1 c2
  have hb1 : Block_1.inBounds ch r k := by
    unfold Image.channels at a2
    exact ⟨⟨a1, a2⟩, ⟨b1, by omega⟩, ⟨c1, by omega⟩⟩
  have hb2 : Block_2.inBounds ch r k := by
    unfold Image.channels at a2
    exact ⟨⟨a1, by omega⟩, ⟨b1, by omega⟩, ⟨c1, by omega⟩⟩
  simp [Image.read, hb1, hb2]

/-- Function `MSE` when `Block_2` is at least as large as `Block_1`: the accumulated sum
divided by the number of samples, in `float`; not a number when `Block_1` has no
sample. -/
theorem MSE_formula (Block_1 Block_2 : Image)
    (hd : Block_1.chans ≤ Block_2.chans ∧ Block_1.rows ≤ Block_2.rows ∧
      Block_1.cols ≤ Block_2.cols) :
    MSE Block_1 Block_2 = some
      (if Block_1.channels * Block_1.get_rows * Block_1.get_cols = 0 then FVal.nan
       else FVal.val (Float_Mean (fun channel row col =>
        Block_1.pix channel row col - Block_2.pix channel row col)
        Block_1.channels Block_1.get_rows Block_1.get_cols)) := by
  unfold MSE
  rw [MSE_sum_spec Block_1 Block_2 hd]
  simp only [Option.some_bind, Option.bind_eq_bind]
  split_ifs <;> rfl

/-- The value of `MSE` for at least one sample is not negative, and it is 0 exactly when
every difference is 0. -/
theorem Float_Mean_zero_iff (d : Int → Int → Int → Int) (C R K : Int)
    (hC : 0 < C) (hR : 0 < R) (hK : 0 < K) :
    0 ≤ Float_Mean d C R K ∧
    (Float_Mean d C R K = 0 ↔
      ∀ a b c, (0 ≤ a ∧ a < C) → (0 ≤ b ∧ b < R) → (0 ≤ c ∧ c < K) → d a b c = 0) := by
  obtain ⟨sn, sz⟩ := Float_Sum_zero_iff d C R K hC.le hR.le hK.le
  have hn : (0 : ℚ) < ((C * R * K : Int) : ℚ) := by
    exact_mod_cast Int.mul_pos (Int.mul_pos hC hR) hK
  have hf := F32_pos _ hn
  have hq : 0 ≤ Float_Sum d C R K / F32 ((C * R * K : Int) : ℚ) := div_nonneg sn hf.le
  unfold Float_Mean
  refine ⟨F32_nonneg _ hq, ?_⟩
  rw [F32_eq_zero_iff _ hq, div_eq_zero_iff, ← sz]
  constructor
  · rintro (h | h)
    · exact h
    · exact absurd h (ne_of_gt hf)
  · intro h
    exact Or.inl h

/-- The number of samples, at least 1, is at least 1 as a `float`. -/
theorem F32_count (n : Int) (hn : 0 < n) : 1 ≤ F32 ((n : Int) : ℚ) := by
  have h1 : (1 : ℚ) ≤ ((n : Int) : ℚ) := by exact_mod_cast hn
  have := F32_mono 1 _ (by norm_num) h1
  rwa [F32_one] at this

/-- The value of `MSE` is at most `2^89` when every squared difference is at most
`2^64`. -/
theorem Float_Mean_le (d : Int → Int → Int → Int) (C R K : Int)
    (hC : 0 < C) (hR : 0 < R) (hK : 0 < K)
    (hd : ∀ a b c, (0 ≤ a ∧ a < C) → (0 ≤ b ∧ b < R) → (0 ≤ c ∧ c < K) →
      ((d a b c : Int) : ℚ) ^ 2 ≤ 2 ^ 64) :
    Float_Mean d C R K ≤ 2 ^ 89 := by
  obtain ⟨sn, _⟩ := Float_Sum_zero_iff d C R K hC.le hR.le hK.le
  have sl := Float_Sum_le d C R K hC.le hR.le hK.le hd
  have hc := F32_count (C * R * K) (Int.mul_pos (Int.mul_pos hC hR) hK)
  have hq : Float_Sum d C R K / F32 ((C * R * K : Int) : ℚ) ≤ 2 ^ 89 := by
    rw [div_le_iff₀ (by linarith)]
    nlinarith
  have := F32_mono _ _ (div_nonneg sn (by linarith)) hq
  rw [F32_two_pow_89] at this
  exact this

/-- The value of `MSE` is the mean of the squared differences rounded to `float` once,
when the sum of the squared differences and the number of samples are at most `2^24`. -/
theorem Float_Mean_exact (d : Int → Int → Int → Int) (C R K : Int)
    (hC : 0 ≤ C) (hR : 0 ≤ R) (hK : 0 ≤ K)
    (hs : (∑ t ∈ Finset.Ico (0 : Int) C ×ˢ Finset.Ico (0 : Int) R ×ˢ Finset.Ico (0 : Int) K,
      d t.1 t.2.1 t.2.2 ^ 2) ≤ 2 ^ 24)
    (hn : C * R * K ≤ 2 ^ 24) :
    Float_Mean d C R K = F32 (Mean_Square d C R K) := by
  unfold Float_Mean Mean_Square
  rw [Float_Sum_exact d C R K hC hR hK hs,
    F32_int _ (Int.mul_nonneg (Int.mul_nonneg hC hR) hK) hn]

/-- The value of `MSE` depends only on the squares of the differences inside the
ranges. -/
theorem Float_Mean_congr (d1 d2 : Int → Int → Int → Int) (C R K : Int)
    (h : ∀ a b c, (0 ≤ a ∧ a < C) → (0 ≤ b ∧ b < R) → (0 ≤ c ∧ c < K) →
      d1 a b c ^ 2 = d2 a b c ^ 2) :
    Float_Mean d1 C R K = Float_Mean d2 C R K := by
  unfold Float_Mean
  rw [Float_Sum_congr d1 d2 C R K h]

/-- The value of `MSE` for a single sample whose squared difference is at most `2^24`
is that square. -/
theorem Float_Mean_unit (d : Int → Int → Int → Int) (h : d 0 0 0 ^ 2 ≤ 2 ^ 24) :
    Float_Mean d 1 1 1 = (((d 0 0 0 : Int) : ℚ)) ^ 2 := by
  have e : Float_Sum d 1 1 1 = F32 (0 + F32 (F64 ((((d 0 0 0 : Int) : ℚ)) ^ 2))) := by
    simp [Float_Sum, foldRange, foldN]
  unfold Float_Mean
  rw [e, sq_term_exact _ h, zero_add, F32_int _ (sq_nonneg _) h]
  have e1 : (((1 * 1 * 1 : Int) : Int) : ℚ) = 1 := by norm_num
  rw [e1, F32_one, div_one, F32_int _ (sq_nonneg _) h]
  push_cast
  rfl

/-! ## The distortion metric -/

/-- Function `MSE` on a non-empty block and a block at least as large: the result is
a number, it is not negative, and it is 0 exactly when the two blocks hold the same
samples. -/
theorem MSE_spec (Block_1 Block_2 : Image)
    (hne : 0 < Block_1.chans ∧ 0 < Block_1.rows ∧ 0 < Block_1.cols)
    (hd : Block_1.chans ≤ Block_2.chans ∧ Block_1.rows ≤ Block_2.rows ∧
      Block_1.cols ≤ Block_2.cols) :
    ∃ q : ℚ, MSE Block_1 Block_2 = some (FVal.val q) ∧ 0 ≤ q ∧
      (q = 0 ↔ ∀ a b c, (0 ≤ a ∧ a < (Block_1.chans : Int)) → (0 ≤ b ∧ b < (Block_1.rows : Int)) →
        (0 ≤ c ∧ c < (Block_1.cols : Int)) → Block_1.pix a b c = Block_2.pix a b c) := by
  have hch : Block_1.channels = Block_1.chans := rfl
  have hch0 : Block_1.channels > 0 := by rw [hch]; omega
  have hrw : Block_1.get_rows = Block_1.rows := by
    unfold Image.get_rows; rw [if_pos hch0]
  have hcl : Block_1.get_cols = Block_1.cols := by
    unfold Image.get_cols; rw [if_pos hch0]
  have hn : (Block_1.channels * Block_1.get_rows * Block_1.get_cols : Int) > 0 := by
    rw [hch, hrw, hcl]
    exact_mod_cast Nat.mul_pos (Nat.mul_pos hne.1 hne.2.1) hne.2.2
  have hM : MSE Block_1 Block_2 = some (FVal.val (Float_Mean (fun channel row col =>
      Block_1.pix channel row col - Block_2.pix channel row col)
      Block_1.channels Block_1.get_rows Block_1.get_cols)) := by
    rw [MSE_formula Block_1 Block_2 hd, if_neg (by omega)]
  obtain ⟨fn, fz⟩ := Float_Mean_zero_iff (fun channel row col =>
      Block_1.pix channel row col - Block_2.pix channel row col)
      Block_1.channels Block_1.get_rows Block_1.get_cols
      (by rw [hch]; omega) (by rw [hrw]; omega) (by rw [hcl]; omega)
  refine ⟨_, hM, fn, ?_⟩
  rw [fz, hch, hrw, hcl]
  constructor
  · intro h a b c ha hb hc
    have := h a b c ha hb hc
    simp only at this
    omega
  · intro h a b c ha hb hc
    have := h a b c ha hb hc
    show Block_1.pix a b c - Block_2.pix a b c = 0
    omega

/-! ## Segmentation (C7, C8) -/

theorem get_rows_nonneg (im : Image) : 0 ≤ im.get_rows := by
  unfold Image.get_rows; split_ifs <;> omega

theorem get_cols_nonneg (im : Image) : 0 ≤ im.get_cols := by
  unfold Image.get_cols; split_ifs <;> omega

theorem get_rows_le (im : Image) : im.get_rows ≤ im.rows := by
  unfold Image.get_rows; split_ifs <;> omega

theorem get_cols_le (im : Image) : im.get_cols ≤ im.cols := by
  unfold Image.get_cols; split_ifs <;> omega

theorem chans_pos_of_get_cols (im : Image) (h : 0 < im.get_cols) : 0 < im.chans := by
  unfold Image.get_cols Image.channels at h
  split_ifs at h with h1
  · omega
  · omega

theorem chans_pos_of_get_rows (im : Image) (h : 0 < im.get_rows) : 0 < im.chans := by
  unfold Image.get_rows Image.channels at h
  split_ifs at h with h1
  · omega
  · omega

/-- Truncated division of a non-negative extent by a positive block size: the
quotient `q` is the number of whole blocks. -/
theorem tdiv_block (n b : Int) (hn : 0 ≤ n) (hb : 0 < b) :
    0 ≤ n.tdiv b ∧ n.tdiv b * b ≤ n ∧ n < (n.tdiv b + 1) * b := by
  rw [Int.tdiv_eq_ediv hn hb.le]
  refine ⟨Int.ediv_nonneg hn hb.le, Int.ediv_mul_le n (ne_of_gt hb), ?_⟩
  have := Int.lt_ediv_add_one_mul_self n hb
  linarith

theorem mul_succ_le_of_lt (h q b : Int) (hb : 0 < b) (hq : h < q) : (h + 1) * b ≤ q * b := by
  have : h + 1 ≤ q := by omega
  exact Int.mul_le_mul_of_nonneg_right this hb.le

/-- Function `Set_Macroblocks` with positive block sizes: it always returns, and appends
one block for every position of the block grid, row by row. -/
theorem Set_Macroblocks_spec (cfg : Config) (frame : Image) (arr0 : List Assignment1.Macroblock)
    (hw : 0 < cfg.block_width) (hh : 0 < cfg.block_height) :
    ∃ blocks, Assignment1.Set_Macroblocks cfg frame arr0 = some (arr0 ++ blocks) ∧
      (blocks.length : Int) =
        frame.get_rows.tdiv cfg.block_height * frame.get_cols.tdiv cfg.block_width ∧
      ∀ (k : Nat) (mb : Assignment1.Macroblock), blocks[k]? = some mb →
        ∃ vert horiz, (0 ≤ vert ∧ vert < frame.get_rows.tdiv cfg.block_height) ∧
          (0 ≤ horiz ∧ horiz < frame.get_cols.tdiv cfg.block_width) ∧
          (k : Int) = vert * frame.get_cols.tdiv cfg.block_width + horiz ∧
          Assignment1.Is_Block_At cfg frame vert horiz mb := by
  obtain ⟨hnh0, hnh1, _⟩ := tdiv_block frame.get_cols cfg.block_width (get_cols_nonneg frame) hw
  obtain ⟨hnv0, hnv1, _⟩ := tdiv_block frame.get_rows cfg.block_height (get_rows_nonneg frame) hh
  generalize hnh : frame.get_cols.tdiv cfg.block_width = nh at *
  generalize hnv : frame.get_rows.tdiv cfg.block_height = nv at *
  -- the body of the inner loop builds the block of its grid position
  have hbody : ∀ vert horiz, (0 ≤ vert ∧ vert < nv) → (0 ≤ horiz ∧ horiz < nh) →
      ∃ blk mbn, Set_Image_Range frame 0 frame.channels
          (horiz * cfg.block_width) ((horiz + 1) * cfg.block_width)
          (vert * cfg.block_height) ((vert + 1) * cfg.block_height) = some blk ∧
        Assignment1.Set_Search_Area cfg
            { block := blk
              block_location_x := horiz * cfg.block_width
              block_location_y := vert * cfg.block_height
              search_location_x_start := 0
              search_location_x_stop := 0
              search_location_y_start := 0
              search_location_y_stop := 0
              motion_vector_x := 0
              motion_vector_y := 0 }
            frame.get_cols frame.get_rows cfg.search_horizontal cfg.search_vertical
            (horiz * cfg.block_width) (vert * cfg.block_height) = mbn ∧
        Assignment1.Is_Block_At cfg frame vert horiz mbn := by
    intro vert horiz hv hz
    have h1 := mul_succ_le_of_lt horiz nh cfg.block_width hw hz.2
    have h2 := mul_succ_le_of_lt vert nv cfg.block_height hh hv.2
    have h3 : 0 ≤ horiz * cfg.block_width := Int.mul_nonneg hz.1 hw.le
    have h4 : 0 ≤ vert * cfg.block_height := Int.mul_nonneg hv.1 hh.le
    have e1 : (horiz + 1) * cfg.block_width = horiz * cfg.block_width + cfg.block_width := by ring
    have e2 : (vert + 1) * cfg.block_height = vert * cfg.block_height + cfg.block_height := by ring
    have hcl := get_cols_le frame
    have hrw := get_rows_le frame
    obtain ⟨blk, hblk, ⟨d1, d2, d3⟩, hpix⟩ := Set_Image_Range_spec frame 0 frame.channels
      (horiz * cfg.block_width) ((horiz + 1) * cfg.block_width)
      (vert * cfg.block_height) ((vert + 1) * cfg.block_height)
      ⟨le_refl _, by unfold Image.channels; omega, by unfold Image.channels; omega⟩
      ⟨h4, by omega, by omega⟩ ⟨h3, by omega, by omega⟩
    refine ⟨blk, _, hblk, rfl, ⟨rfl, rfl⟩, ⟨?_, ?_, ?_⟩, ?_, ⟨?_, ?_, ?_, ?_⟩, ⟨rfl, rfl⟩⟩
    · unfold Image.channels at d1
      show blk.chans = frame.chans
      omega
    · show (blk.rows : Int) = cfg.block_height
      omega
    · show (blk.cols : Int) = cfg.block_width
      omega
    · intro a b c ha hb hc
      show blk.pix a b c = _
      have := hpix a b c (by unfold Image.channels; omega) (by omega) (by omega)
      rw [this]; simp
    · simp only [Assignment1.Set_Search_Area]; split_ifs <;> omega
    · simp only [Assignment1.Set_Search_Area]; split_ifs <;> omega
    · simp only [Assignment1.Set_Search_Area]; split_ifs <;> omega
    · simp only [Assignment1.Set_Search_Area]; split_ifs <;> omega
  have outer := forRange_spec 0 nv
    (fun vert arr => forRange 0 nh (fun horiz arr => do
        let block ← Set_Image_Range frame 0 frame.channels
          (horiz * cfg.block_width) ((horiz + 1) * cfg.block_width)
          (vert * cfg.block_height) ((vert + 1) * cfg.block_height)
        let this_macroblock : Assignment1.Macroblock :=
          { block := block
            block_location_x := horiz * cfg.block_width
            block_location_y := vert * cfg.block_height
            search_location_x_start := 0
            search_location_x_stop := 0
            search_location_y_start := 0
            search_location_y_stop := 0
            motion_vector_x := 0
            motion_vector_y := 0 }
        let this_macroblock := Assignment1.Set_Search_Area cfg this_macroblock
          frame.get_cols frame.get_rows
          cfg.search_horizontal cfg.search_vertical
          this_macroblock.block_location_x this_macroblock.block_location_y
        some (arr ++ [this_macroblock])) arr)
    (fun v arr => ∃ blocks, arr = arr0 ++ blocks ∧ (blocks.length : Int) = v * nh ∧
      ∀ (k : Nat) (mb : Assignment1.Macroblock), blocks[k]? = some mb →
        ∃ vert horiz, (0 ≤ vert ∧ vert < v) ∧ (0 ≤ horiz ∧ horiz < nh) ∧
          (k : Int) = vert * nh + horiz ∧ Assignment1.Is_Block_At cfg frame vert horiz mb)
    arr0 hnv0
    ⟨[], by simp, by simp, by intro k mb h; simp at h⟩
    (by
      intro vert arr hv0 hv1 hI
      obtain ⟨blocks, rfl, hlen, hall⟩ := hI
      have inner := forRange_spec 0 nh
        (fun horiz arr => do
          let block ← Set_Image_Range frame 0 frame.channels
            (horiz * cfg.block_width) ((horiz + 1) * cfg.block_width)
            (vert * cfg.block_height) ((vert + 1) * cfg.block_height)
          let this_macroblock : Assignment1.Macroblock :=
            { block := block
              block_location_x := horiz * cfg.block_width
              block_location_y := vert * cfg.block_height
              search_location_x_start := 0
              search_location_x_stop := 0
              search_location_y_start := 0
              search_location_y_stop := 0
              motion_vector_x := 0
              motion_vector_y := 0 }
          let this_macroblock := Assignment1.Set_Search_Area cfg this_macroblock
            frame.get_cols frame.get_rows
            cfg.search_horizontal cfg.search_vertical
            this_macroblock.block_location_x this_macroblock.block_location_y
          some (arr ++ [this_macroblock]))
        (fun h arr => ∃ bl, arr = arr0 ++ bl ∧ (bl.length : Int) = vert * nh + h ∧
          ∀ (k : Nat) (mb : Assignment1.Macroblock), bl[k]? = some mb →
            ∃ v' h', (0 ≤ v' ∧ v' < vert + 1) ∧ (0 ≤ h' ∧ h' < nh) ∧
              (v' = vert → h' < h) ∧
              (k : Int) = v' * nh + h' ∧ Assignment1.Is_Block_At cfg frame v' h' mb)
        (arr0 ++ blocks) hnh0
        ⟨blocks, rfl, by omega, by
          intro k mb hk
          obtain ⟨v', h', hv', hh', hk', hB⟩ := hall k mb hk
          exact ⟨v', h', ⟨hv'.1, by omega⟩, hh', fun e => by omega, hk', hB⟩⟩
        (by
          intro horiz arr hz0 hz1 hJ
          obtain ⟨bl, rfl, hlen', hall'⟩ := hJ
          obtain ⟨blk, mbn, hblk, hmbn, hIs⟩ := hbody vert horiz ⟨hv0, hv1⟩ ⟨hz0, hz1⟩
          refine ⟨(arr0 ++ bl) ++ [mbn],
            by simp only [hblk, Option.some_bind, Option.bind_eq_bind, hmbn], ?_⟩
          refine ⟨bl ++ [mbn], by simp, by simp; omega, ?_⟩
          intro k mb hk
          by_cases hlt : k < bl.length
          · rw [List.getElem?_append_left hlt] at hk
            obtain ⟨v', h', hv', hh', hvh, hk', hB⟩ := hall' k mb hk
            exact ⟨v', h', hv', hh', fun e => by have := hvh e; omega, hk', hB⟩
          · rw [List.getElem?_append_right (by omega)] at hk
            have hk0 : k - bl.length = 0 := by
              by_contra hne
              have : k - bl.length ≥ 1 := by omega
              rw [List.getElem?_eq_none (by simp; omega)] at hk
              exact Option.noConfusion hk
            rw [hk0] at hk
            simp only [List.getElem?_cons_zero, Option.some.injEq] at hk
            subst hk
            exact ⟨vert, horiz, ⟨hv0, by omega⟩, ⟨hz0, hz1⟩, fun _ => by omega, by omega, hIs⟩)
      obtain ⟨arr', harr', bl, rfl, hlen', hall'⟩ := inner
      refine ⟨_, harr', bl, rfl, by rw [hlen']; ring, ?_⟩
      intro k mb hk
      obtain ⟨v', h', hv', hh', _, hk', hB⟩ := hall' k mb hk
      exact ⟨v', h', hv', hh', hk', hB⟩)
  obtain ⟨arr, harr, blocks, rfl, hlen, hall⟩ := outer
  refine ⟨blocks, ?_, hlen, hall⟩
  unfold Assignment1.Set_Macroblocks
  rw [if_neg (by omega)]
  simp only [hnh, hnv]
  exact harr

theorem grid_index (k vert horiz nh : Int) (hz : 0 ≤ horiz ∧ horiz < nh)
    (hk : k = vert * nh + horiz) : k / nh = vert ∧ k % nh = horiz := by
  have hpos : 0 < nh := by omega
  exact (Int.ediv_emod_unique hpos).mpr ⟨by rw [hk]; ring, hz.1, hz.2⟩

/-- C7: for every frame and positive block size, `Set_Macroblocks` called on an empty
array returns exactly `(rows / block_height) * (cols / block_width)` blocks in row-major
order: with `nh = cols / block_width`, the block at index `k` has
`block_location_x = (k mod nh) * block_width` and
`block_location_y = (k / nh) * block_height`. -/
theorem C7_segmentation_row_major (cfg : Config) (frame : Image)
    (hw : 0 < cfg.block_width) (hh : 0 < cfg.block_height) :
    ∃ blocks, Assignment1.Set_Macroblocks cfg frame [] = some blocks ∧
      (blocks.length : Int) =
        (frame.get_rows / cfg.block_height) * (frame.get_cols / cfg.block_width) ∧
      ∀ (k : Nat) (mb : Assignment1.Macroblock), blocks[k]? = some mb →
        mb.block_location_x = ((k : Int) % (frame.get_cols / cfg.block_width)) * cfg.block_width ∧
        mb.block_location_y = ((k : Int) / (frame.get_cols / cfg.block_width)) * cfg.block_height := by
  obtain ⟨blocks, hb, hlen, hall⟩ := Set_Macroblocks_spec cfg frame [] hw hh
  rw [Int.tdiv_eq_ediv (get_rows_nonneg frame) hh.le,
    Int.tdiv_eq_ediv (get_cols_nonneg frame) hw.le] at hlen
  refine ⟨blocks, by simpa using hb, hlen, ?_⟩
  intro k mb hk
  obtain ⟨vert, horiz, _, hz, hkk, hIs⟩ := hall k mb hk
  rw [Int.tdiv_eq_ediv (get_cols_nonneg frame) hw.le] at hz hkk
  obtain ⟨e1, e2⟩ := grid_index k vert horiz _ hz hkk
  rw [e1, e2]
  exact hIs.1

/-- Witness of C7: a frame of 16 by 16 with blocks of 8 by 8 gives 4 blocks. -/
theorem C7_segmentation_row_major_witness :
    ((0 : Int) < 8 ∧ (0 : Int) < 8) ∧
    ∃ blocks, Assignment1.Set_Macroblocks ⟨8, 8, 4, 4⟩ frame16 [] = some blocks ∧
      blocks.length = 4 := by
  refine ⟨⟨by decide, by decide⟩, ?_⟩
  obtain ⟨blocks, hb, hlen, _⟩ :=
    C7_segmentation_row_major ⟨8, 8, 4, 4⟩ frame16 (by decide) (by decide)
  refine ⟨blocks, hb, ?_⟩
  have e : (frame16.get_rows / 8) * (frame16.get_cols / 8) = 4 := by decide
  have h4 : (blocks.length : Int) = 4 := by rw [hlen]; exact e
  exact_mod_cast h4

/-- C8: for every frame and every positive block size, also one that does not divide
the extents of the frame, `Set_Macroblocks` returns and every block it creates lies
inside the frame, `block_location_x + block_width <= cols` and
`block_location_y + block_height <= rows`, and holds exactly `block_height` rows and
`block_width` columns of samples. -/
theorem C8_no_partial_blocks (cfg : Config) (frame : Image)
    (hw : 0 < cfg.block_width) (hh : 0 < cfg.block_height) :
    ∃ blocks, Assignment1.Set_Macroblocks cfg frame [] = some blocks ∧
      ∀ mb ∈ blocks,
        (0 ≤ mb.block_location_x ∧ mb.block_location_x + cfg.block_width ≤ frame.get_cols) ∧
        (0 ≤ mb.block_location_y ∧ mb.block_location_y + cfg.block_height ≤ frame.get_rows) ∧
        mb.block.get_rows = cfg.block_height ∧ mb.block.get_cols = cfg.block_width ∧
        mb.block.channels = frame.channels := by
  obtain ⟨blocks, hb, _, hall⟩ := Set_Macroblocks_spec cfg frame [] hw hh
  obtain ⟨_, hnh1, _⟩ := tdiv_block frame.get_cols cfg.block_width (get_cols_nonneg frame) hw
  obtain ⟨_, hnv1, _⟩ := tdiv_block frame.get_rows cfg.block_height (get_rows_nonneg frame) hh
  refine ⟨blocks, by simpa using hb, ?_⟩
  intro mb hmem
  obtain ⟨k, hk⟩ := List.mem_iff_getElem?.mp hmem
  obtain ⟨vert, horiz, hv, hz, _, hIs⟩ := hall k mb hk
  obtain ⟨⟨ex, ey⟩, ⟨dc, dr, dk⟩, _⟩ := hIs
  have h1 := mul_succ_le_of_lt horiz _ cfg.block_width hw hz.2
  have h2 := mul_succ_le_of_lt vert _ cfg.block_height hh hv.2
  have h3 : 0 ≤ horiz * cfg.block_width := Int.mul_nonneg hz.1 hw.le
  have h4 : 0 ≤ vert * cfg.block_height := Int.mul_nonneg hv.1 hh.le
  have e1 : (horiz + 1) * cfg.block_width = horiz * cfg.block_width + cfg.block_width := by ring
  have e2 : (vert + 1) * cfg.block_height = vert * cfg.block_height + cfg.block_height := by ring
  have hcp : 0 < frame.chans := chans_pos_of_get_cols frame (by omega)
  have hbc : mb.block.channels > 0 := by unfold Image.channels; omega
  refine ⟨⟨by omega, by omega⟩, ⟨by omega, by omega⟩, ?_, ?_, ?_⟩
  · unfold Image.get_rows; rw [if_pos hbc]; exact dr
  · unfold Image.get_cols; rw [if_pos hbc]; exact dk
  · unfold Image.channels; omega

/-- Witness of C8: blocks of 8 by 8 on a frame of 15 rows, which 8 does not divide. -/
theorem C8_no_partial_blocks_witness :
    ((0 : Int) < 8 ∧ (0 : Int) < 8) ∧
    ∃ blocks, Assignment1.Set_Macroblocks ⟨8, 8, 4, 4⟩ frame15 [] = some blocks ∧
      ∀ mb ∈ blocks,
        (0 ≤ mb.block_location_x ∧ mb.block_location_x + 8 ≤ frame15.get_cols) ∧
        (0 ≤ mb.block_location_y ∧ mb.block_location_y + 8 ≤ frame15.get_rows) ∧
        mb.block.get_rows = 8 ∧ mb.block.get_cols = 8 ∧
        mb.block.channels = frame15.channels :=
  ⟨⟨by decide, by decide⟩, C8_no_partial_blocks ⟨8, 8, 4, 4⟩ frame15 (by decide) (by decide)⟩

/-! ## One candidate -/

theorem FVal_lt_val (a b : ℚ) : (FVal.val a).lt (FVal.val b) = decide (a < b) := rfl

/-- Function `Try_Candidate` when a step cannot fail: a candidate that fails a bounds
check leaves the state as it is; otherwise the candidate is compared, its distortion
`q` is not negative and is 0 exactly when its region equals the block, and it becomes
the running best when `q` is below the least distortion so far. -/
theorem Try_Candidate_spec (cfg : Config) (frame_1 : Image) (x y : Int)
    (st : Assignment1.SearchState) (hOK : Assignment1.Search_OK cfg frame_1 st) :
    (¬ Assignment1.Cand_Valid cfg st x y →
      Assignment1.Try_Candidate cfg frame_1 x y st = some st) ∧
    (Assignment1.Cand_Valid cfg st x y →
      ∃ q : ℚ, 0 ≤ q ∧
        (q = 0 ↔ Assignment1.Region_Eq cfg st.this_macroblock.block frame_1
          (st.least_MSE_x + x) (st.least_MSE_y + y)) ∧
        Assignment1.Try_Candidate cfg frame_1 x y st =
          some (if (FVal.val q).lt st.least_MSE then
            Assignment1.With_Best st (FVal.val q) (st.least_MSE_x + x) (st.least_MSE_y + y)
          else st)) := by
  obtain ⟨⟨hw, hh⟩, ⟨hc, dc, dr, dk⟩, ⟨hsx, hsy⟩, _⟩ := hOK
  constructor
  · intro hnv
    unfold Assignment1.Cand_Valid at hnv
    simp only [Assignment1.Try_Candidate]
    by_cases h1 : st.least_MSE_x + x < 0
    · rw [if_pos h1]
    · rw [if_neg h1]
      by_cases h2 : st.least_MSE_x + x + cfg.block_width >
          st.this_macroblock.search_location_x_stop
      · rw [if_pos h2]
      · rw [if_neg h2]
        by_cases h3 : st.least_MSE_y + y < 0
        · rw [if_pos h3]
        · rw [if_neg h3]
          by_cases h4 : st.least_MSE_y + y + cfg.block_height >
              st.this_macroblock.search_location_y_stop
          · rw [if_pos h4]
          · exfalso; apply hnv
            exact ⟨⟨by omega, by omega⟩, ⟨by omega, by omega⟩⟩
  · rintro ⟨⟨v1, v2⟩, ⟨v3, v4⟩⟩
    obtain ⟨sb, hsb, ⟨e1, e2, e3⟩, hpix⟩ := Set_Image_Range_spec frame_1 0 frame_1.channels
      (st.least_MSE_x + x) (st.least_MSE_x + x + cfg.block_width)
      (st.least_MSE_y + y) (st.least_MSE_y + y + cfg.block_height)
      ⟨le_refl _, by unfold Image.channels; omega, by unfold Image.channels; omega⟩
      ⟨v3, by omega, by omega⟩ ⟨v1, by omega, by omega⟩
    unfold Image.channels at e1
    have hne : 0 < st.this_macroblock.block.chans ∧ 0 < st.this_macroblock.block.rows ∧
        0 < st.this_macroblock.block.cols := ⟨by omega, by omega, by omega⟩
    have hd : st.this_macroblock.block.chans ≤ sb.chans ∧
        st.this_macroblock.block.rows ≤ sb.rows ∧ st.this_macroblock.block.cols ≤ sb.cols :=
      ⟨by omega, by omega, by omega⟩
    obtain ⟨q, hq, hq0, hqz⟩ := MSE_spec st.this_macroblock.block sb hne hd
    refine ⟨q, hq0, ?_, ?_⟩
    · rw [hqz]
      unfold Assignment1.Region_Eq
      constructor
      · intro h a b c ha hb hc'
        rw [h a b c ha (by omega) (by omega),
          hpix a b c (by unfold Image.channels; omega) (by omega) (by omega)]
        simp
      · intro h a b c ha hb hc'
        rw [h a b c ha (by omega) (by omega),
          hpix a b c (by unfold Image.channels; omega) (by omega) (by omega)]
        simp
    · simp only [Assignment1.Try_Candidate]
      rw [if_neg (by omega), if_neg (by omega), if_neg (by omega), if_neg (by omega)]
      simp only [hsb, hq, Option.some_bind, Option.bind_eq_bind]
      split_ifs <;> rfl

/-! ## The candidate loops of a step -/

theorem forOffsets_three {σ : Type} (d : Int) (body : Int → σ → Option σ) (fuel : Nat) (s : σ)
    (hd : 0 < d) (hf : 4 ≤ fuel) :
    forOffsets d body fuel (-d) s =
      ((body (-d) s).bind (body 0)).bind (body d) := by
  obtain ⟨f, rfl⟩ : ∃ f, fuel = f + 4 := ⟨fuel - 4, by omega⟩
  have e0 : -d + d = 0 := by ring
  have e1 : (0 : Int) + d = d := by ring
  simp only [forOffsets]
  rw [if_pos (by omega), e0]
  cases h1 : body (-d) s with
  | none => rfl
  | some s1 =>
    simp only [Option.some_bind]
    rw [if_pos (by omega), e1]
    cases h2 : body 0 s1 with
    | none => rfl
    | some s2 =>
      simp only [Option.some_bind]
      rw [if_pos (le_refl d)]
      cases h3 : body d s2 with
      | none => rfl
      | some s3 =>
        simp only [Option.some_bind]
        rw [if_neg (by omega)]

/-- The loop on offsets never ends when the step distance is 0. -/
theorem forOffsets_zero_diverges {σ : Type} (body : Int → σ → Option σ) (fuel : Nat) (s : σ)
    (hbody : ∀ v t, ∃ t', body v t = some t') :
    forOffsets 0 body fuel 0 s = none := by
  induction fuel generalizing s with
  | zero => rfl
  | succ f ih =>
    obtain ⟨t', ht'⟩ := hbody 0 s
    simp only [forOffsets]
    rw [if_pos (le_refl 0), ht']
    simpa using ih t'

/-- With positive step distances and enough fuel the two candidate loops try the nine
offsets in order. -/
theorem Scan_Candidates_eq (cfg : Config) (fuel : Nat) (frame_1 : Image)
    (st : Assignment1.SearchState) (hx : 0 < st.search_dist_x) (hy : 0 < st.search_dist_y)
    (hf : 4 ≤ fuel) :
    Assignment1.Scan_Candidates cfg fuel frame_1 st =
      Assignment1.Scan_List cfg frame_1
        (Assignment1.Nine_Offsets st.search_dist_x st.search_dist_y) st := by
  unfold Assignment1.Scan_Candidates
  rw [forOffsets_three _ _ fuel st hx hf]
  simp only [forOffsets_three _ _ fuel _ hy hf]
  simp only [Assignment1.Nine_Offsets, Assignment1.Scan_List]
  cases Assignment1.Try_Candidate cfg frame_1 (-st.search_dist_x) (-st.search_dist_y) st <;>
    simp [Option.bind_assoc]

theorem With_Best_self (st : Assignment1.SearchState) :
    Assignment1.With_Best st st.least_MSE st.new_least_MSE_x st.new_least_MSE_y = st := by
  cases st; rfl

theorem Scan_List_append (cfg : Config) (frame_1 : Image) (l1 l2 : List (Int × Int))
    (st : Assignment1.SearchState) :
    Assignment1.Scan_List cfg frame_1 (l1 ++ l2) st =
      (Assignment1.Scan_List cfg frame_1 l1 st).bind (Assignment1.Scan_List cfg frame_1 l2) := by
  induction l1 generalizing st with
  | nil => simp [Assignment1.Scan_List]
  | cons o rest ih =>
    simp only [List.cons_append, Assignment1.Scan_List]
    cases Assignment1.Try_Candidate cfg frame_1 o.1 o.2 st with
    | none => rfl
    | some s1 => simpa using ih s1

/-- One candidate never fails and changes the running best only. -/
theorem Try_Candidate_gen (cfg : Config) (frame_1 : Image) (x y : Int)
    (st : Assignment1.SearchState) (hOK : Assignment1.Search_OK cfg frame_1 st)
    (m0 : FVal) (nx0 ny0 : Int) :
    ∃ m nx ny, Assignment1.Try_Candidate cfg frame_1 x y (Assignment1.With_Best st m0 nx0 ny0) =
      some (Assignment1.With_Best st m nx ny) := by
  have hOK' : Assignment1.Search_OK cfg frame_1 (Assignment1.With_Best st m0 nx0 ny0) := hOK
  obtain ⟨h1, h2⟩ := Try_Candidate_spec cfg frame_1 x y _ hOK'
  by_cases hv : Assignment1.Cand_Valid cfg (Assignment1.With_Best st m0 nx0 ny0) x y
  · obtain ⟨q, _, _, hq⟩ := h2 hv
    rw [hq]
    split_ifs
    · exact ⟨_, _, _, rfl⟩
    · exact ⟨m0, nx0, ny0, rfl⟩
  · rw [h1 hv]
    exact ⟨m0, nx0, ny0, rfl⟩

/-- The candidate loops never fail and change the running best only. -/
theorem Scan_List_gen (cfg : Config) (frame_1 : Image) (l : List (Int × Int))
    (st : Assignment1.SearchState) (hOK : Assignment1.Search_OK cfg frame_1 st)
    (m0 : FVal) (nx0 ny0 : Int) :
    ∃ m nx ny, Assignment1.Scan_List cfg frame_1 l (Assignment1.With_Best st m0 nx0 ny0) =
      some (Assignment1.With_Best st m nx ny) := by
  induction l generalizing m0 nx0 ny0 with
  | nil => exact ⟨m0, nx0, ny0, rfl⟩
  | cons o rest ih =>
    obtain ⟨m1, nx1, ny1, h1⟩ := Try_Candidate_gen cfg frame_1 o.1 o.2 st hOK m0 nx0 ny0
    obtain ⟨m, nx, ny, h⟩ := ih m1 nx1 ny1
    exact ⟨m, nx, ny, by simp only [Assignment1.Scan_List, h1, Option.some_bind, h]⟩

/-- Once the least distortion is 0 no candidate replaces the running best. -/
theorem Scan_List_zero (cfg : Config) (frame_1 : Image) (l : List (Int × Int))
    (st : Assignment1.SearchState) (hOK : Assignment1.Search_OK cfg frame_1 st)
    (hz : st.least_MSE = FVal.val 0) :
    Assignment1.Scan_List cfg frame_1 l st = some st := by
  induction l with
  | nil => rfl
  | cons o rest ih =>
    obtain ⟨h1, h2⟩ := Try_Candidate_spec cfg frame_1 o.1 o.2 st hOK
    have hT : Assignment1.Try_Candidate cfg frame_1 o.1 o.2 st = some st := by
      by_cases hv : Assignment1.Cand_Valid cfg st o.1 o.2
      · obtain ⟨q, hq0, _, hq⟩ := h2 hv
        rw [hq, hz, FVal_lt_val, if_neg]
        simp only [decide_eq_true_eq, not_lt]
        exact hq0
      · exact h1 hv
    simp only [Assignment1.Scan_List, hT, Option.some_bind, ih]

/-- While no candidate matches the block exactly the least distortion stays
positive. -/
theorem Scan_List_pos (cfg : Config) (frame_1 : Image) (l : List (Int × Int))
    (st : Assignment1.SearchState) (hOK : Assignment1.Search_OK cfg frame_1 st)
    (hmiss : ∀ o ∈ l, ¬ Assignment1.Cand_Hit cfg frame_1 st o.1 o.2)
    (q0 : ℚ) (nx0 ny0 : Int) (hq0 : 0 < q0) :
    ∃ q nx ny, 0 < q ∧
      Assignment1.Scan_List cfg frame_1 l (Assignment1.With_Best st (FVal.val q0) nx0 ny0) =
        some (Assignment1.With_Best st (FVal.val q) nx ny) := by
  induction l generalizing q0 nx0 ny0 with
  | nil => exact ⟨q0, nx0, ny0, hq0, rfl⟩
  | cons o rest ih =>
    have hOK' : Assignment1.Search_OK cfg frame_1
        (Assignment1.With_Best st (FVal.val q0) nx0 ny0) := hOK
    obtain ⟨h1, h2⟩ := Try_Candidate_spec cfg frame_1 o.1 o.2 _ hOK'
    have hrest : ∀ o' ∈ rest, ¬ Assignment1.Cand_Hit cfg frame_1 st o'.1 o'.2 :=
      fun o' ho' => hmiss o' (List.mem_cons_of_mem _ ho')
    have hstep : ∃ q1 nx1 ny1, 0 < q1 ∧
        Assignment1.Try_Candidate cfg frame_1 o.1 o.2
          (Assignment1.With_Best st (FVal.val q0) nx0 ny0) =
          some (Assignment1.With_Best st (FVal.val q1) nx1 ny1) := by
      by_cases hv : Assignment1.Cand_Valid cfg (Assignment1.With_Best st (FVal.val q0) nx0 ny0)
          o.1 o.2
      · obtain ⟨q, hq, hqz, hT⟩ := h2 hv
        have hqne : q ≠ 0 := fun h0 =>
          hmiss o (List.mem_cons_self _ _) ⟨hv, hqz.mp h0⟩
        have hqpos : 0 < q := lt_of_le_of_ne hq (Ne.symm hqne)
        rw [hT]
        split_ifs
        · exact ⟨q, _, _, hqpos, rfl⟩
        · exact ⟨q0, nx0, ny0, hq0, rfl⟩
      · exact ⟨q0, nx0, ny0, hq0, h1 hv⟩
    obtain ⟨q1, nx1, ny1, hq1, hT⟩ := hstep
    obtain ⟨q, nx, ny, hq, h⟩ := ih hrest q1 nx1 ny1 hq1
    exact ⟨q, nx, ny, hq, by simp only [Assignment1.Scan_List, hT, Option.some_bind, h]⟩

/-- The first candidate, in scan order, that is compared and matches the block
exactly becomes the running best, with distortion 0, and stays it. -/
theorem Scan_List_first_hit (cfg : Config) (frame_1 : Image) (l1 l2 : List (Int × Int))
    (o : Int × Int) (st : Assignment1.SearchState)
    (hOK : Assignment1.Search_OK cfg frame_1 st)
    (q0 : ℚ) (hq0 : 0 < q0) (hst : st.least_MSE = FVal.val q0)
    (hmiss : ∀ o' ∈ l1, ¬ Assignment1.Cand_Hit cfg frame_1 st o'.1 o'.2)
    (hhit : Assignment1.Cand_Hit cfg frame_1 st o.1 o.2) :
    Assignment1.Scan_List cfg frame_1 (l1 ++ o :: l2) st =
      some (Assignment1.With_Best st (FVal.val 0) (st.least_MSE_x + o.1)
        (st.least_MSE_y + o.2)) := by
  rw [Scan_List_append]
  have hself : st =
      Assignment1.With_Best st (FVal.val q0) st.new_least_MSE_x st.new_least_MSE_y := by
    rw [← hst]; exact (With_Best_self st).symm
  obtain ⟨q, nx, ny, hq, h1⟩ := Scan_List_pos cfg frame_1 l1 st hOK hmiss q0
    st.new_least_MSE_x st.new_least_MSE_y hq0
  rw [← hself] at h1
  rw [h1]
  simp only [Option.some_bind, Assignment1.Scan_List]
  have hOK' : Assignment1.Search_OK cfg frame_1 (Assignment1.With_Best st (FVal.val q) nx ny) :=
    hOK
  obtain ⟨_, h2⟩ := Try_Candidate_spec cfg frame_1 o.1 o.2 _ hOK'
  obtain ⟨q', _, hqz, hT⟩ := h2 hhit.1
  have hq'0 : q' = 0 := hqz.mpr hhit.2
  subst hq'0
  rw [hT]
  have hlt : (FVal.val (0 : ℚ)).lt (Assignment1.With_Best st (FVal.val q) nx ny).least_MSE
      = true := by
    show (FVal.val (0 : ℚ)).lt (FVal.val q) = true
    rw [FVal_lt_val]; simpa using hq
  rw [if_pos hlt]
  simp only [Option.some_bind]
  exact Scan_List_zero cfg frame_1 l2 _ hOK rfl

theorem exists_first_of_mem {α : Type} (P : α → Prop) (l : List α)
    (h : ∃ o ∈ l, P o) :
    ∃ l1 o l2, l = l1 ++ o :: l2 ∧ P o ∧ ∀ o' ∈ l1, ¬ P o' := by
  induction l with
  | nil => obtain ⟨o, ho, _⟩ := h; simp at ho
  | cons a rest ih =>
    by_cases ha : P a
    · exact ⟨[], a, rest, rfl, ha, by simp⟩
    · obtain ⟨o, ho, hP⟩ := h
      have hrest : ∃ o ∈ rest, P o := by
        rcases List.mem_cons.mp ho with rfl | hmem
        · exact absurd hP ha
        · exact ⟨o, hmem, hP⟩
      obtain ⟨l1, o', l2, hl, hP', hmiss⟩ := ih hrest
      refine ⟨a :: l1, o', l2, by rw [hl]; rfl, hP', ?_⟩
      intro o'' ho''
      rcases List.mem_cons.mp ho'' with rfl | hmem
      · exact ha
      · exact hmiss o'' hmem

/-! ## The end of a step -/

theorem next_dist_pos (d : Int) (hd : 2 ≤ d) :
    d.tdiv 2 ≠ 0 ∧ 0 < (d + d.tdiv 2 - 1).tdiv (d.tdiv 2) := by
  have e : d.tdiv 2 = d / 2 := Int.tdiv_eq_ediv (by omega) (by omega)
  rw [e]
  have h1 : 1 ≤ d / 2 := by omega
  refine ⟨by omega, ?_⟩
  rw [Int.tdiv_eq_ediv (by omega) (by omega)]
  have : 1 ≤ (d + d / 2 - 1) / (d / 2) :=
    Int.le_ediv_of_mul_le (by omega) (by omega)
  omega

theorem Set_Search_Area_stop_le (cfg : Config) (mb : Assignment1.Macroblock)
    (max_cols max_rows sh sv cx cy : Int) :
    (Assignment1.Set_Search_Area cfg mb max_cols max_rows sh sv cx cy).search_location_x_stop
      ≤ max_cols ∧
    (Assignment1.Set_Search_Area cfg mb max_cols max_rows sh sv cx cy).search_location_y_stop
      ≤ max_rows := by
  simp only [Assignment1.Set_Search_Area]
  constructor <;> split_ifs <;> omega

/-- The end of a step never fails when the step could not fail (and, after the first
step, the step distances are at least 2); it moves the best location to the running
best and keeps the least distortion, the running best and the block. -/
theorem Finish_Step_spec (cfg : Config) (frame_1 : Image) (n : Int)
    (st : Assignment1.SearchState) (hOK : Assignment1.Search_OK cfg frame_1 st)
    (hn : n = 0 ∨ n = 1 ∨ n = 2)
    (hd : n = 0 → 2 ≤ st.search_dist_x ∧ 2 ≤ st.search_dist_y) :
    ∃ st', Assignment1.Finish_Step cfg frame_1 n st = some st' ∧
      Assignment1.Search_OK cfg frame_1 st' ∧
      st'.least_MSE = st.least_MSE ∧
      (st'.least_MSE_x = st.new_least_MSE_x ∧ st'.least_MSE_y = st.new_least_MSE_y) ∧
      (st'.new_least_MSE_x = st.new_least_MSE_x ∧ st'.new_least_MSE_y = st.new_least_MSE_y) ∧
      (st'.this_macroblock.block = st.this_macroblock.block ∧
        st'.this_macroblock.block_location_x = st.this_macroblock.block_location_x ∧
        st'.this_macroblock.block_location_y = st.this_macroblock.block_location_y) := by
  obtain ⟨hsz, hblk, hstop, hdist⟩ := hOK
  have hgc := get_cols_le frame_1
  have hgr := get_rows_le frame_1
  rcases hn with rfl | rfl | rfl
  · obtain ⟨hdx, hdy⟩ := hd rfl
    obtain ⟨hx1, hx2⟩ := next_dist_pos st.search_dist_x hdx
    obtain ⟨hy1, hy2⟩ := next_dist_pos st.search_dist_y hdy
    have hF : Assignment1.Finish_Step cfg frame_1 0 st = some
        { this_macroblock := Assignment1.Set_Search_Area cfg st.this_macroblock
            frame_1.get_cols frame_1.get_rows
            ((st.search_dist_y + st.search_dist_y.tdiv 2 - 1).tdiv (st.search_dist_y.tdiv 2))
            ((st.search_dist_x + st.search_dist_x.tdiv 2 - 1).tdiv (st.search_dist_x.tdiv 2))
            st.new_least_MSE_x st.new_least_MSE_y
          least_MSE := st.least_MSE
          least_MSE_x := st.new_least_MSE_x
          least_MSE_y := st.new_least_MSE_y
          new_least_MSE_x := st.new_least_MSE_x
          new_least_MSE_y := st.new_least_MSE_y
          search_dist_x :=
            (st.search_dist_x + st.search_dist_x.tdiv 2 - 1).tdiv (st.search_dist_x.tdiv 2)
          search_dist_y :=
            (st.search_dist_y + st.search_dist_y.tdiv 2 - 1).tdiv (st.search_dist_y.tdiv 2) } := by
      simp only [Assignment1.Finish_Step, Assignment1.Update_Search_Dist]
      rw [if_neg (by decide), if_pos (by decide), if_neg (by
        rintro (h | h)
        · exact hx1 h
        · exact hy1 h)]
      simp only [Option.some_bind, Option.bind_eq_bind]
      rw [if_pos (by decide)]
    have hS := Set_Search_Area_stop_le cfg st.this_macroblock frame_1.get_cols frame_1.get_rows
        ((st.search_dist_y + st.search_dist_y.tdiv 2 - 1).tdiv (st.search_dist_y.tdiv 2))
        ((st.search_dist_x + st.search_dist_x.tdiv 2 - 1).tdiv (st.search_dist_x.tdiv 2))
        st.new_least_MSE_x st.new_least_MSE_y
    exact ⟨_, hF, ⟨hsz, hblk, ⟨le_trans hS.1 hgc, le_trans hS.2 hgr⟩, ⟨hx2, hy2⟩⟩, rfl,
      ⟨rfl, rfl⟩, ⟨rfl, rfl⟩, ⟨rfl, rfl, rfl⟩⟩
  · have hF : Assignment1.Finish_Step cfg frame_1 1 st = some
        { this_macroblock := Assignment1.Set_Search_Area cfg st.this_macroblock
            frame_1.get_cols frame_1.get_rows 1 1 st.new_least_MSE_x st.new_least_MSE_y
          least_MSE := st.least_MSE
          least_MSE_x := st.new_least_MSE_x
          least_MSE_y := st.new_least_MSE_y
          new_least_MSE_x := st.new_least_MSE_x
          new_least_MSE_y := st.new_least_MSE_y
          search_dist_x := 1
          search_dist_y := 1 } := by
      simp only [Assignment1.Finish_Step, Assignment1.Update_Search_Dist]
      simp
    have hS := Set_Search_Area_stop_le cfg st.this_macroblock frame_1.get_cols frame_1.get_rows
        1 1 st.new_least_MSE_x st.new_least_MSE_y
    have h01 : (0 : Int) < 1 := by decide
    exact ⟨_, hF, ⟨hsz, hblk, ⟨le_trans hS.1 hgc, le_trans hS.2 hgr⟩, ⟨h01, h01⟩⟩,
      rfl, ⟨rfl, rfl⟩, ⟨rfl, rfl⟩, ⟨rfl, rfl, rfl⟩⟩
  · have hF : Assignment1.Finish_Step cfg frame_1 2 st = some
        { st with least_MSE_x := st.new_least_MSE_x, least_MSE_y := st.new_least_MSE_y } := by
      simp only [Assignment1.Finish_Step, Assignment1.Update_Search_Dist]
      simp
    exact ⟨_, hF, ⟨hsz, hblk, hstop, hdist⟩, rfl, ⟨rfl, rfl⟩, ⟨rfl, rfl⟩, ⟨rfl, rfl, rfl⟩⟩

/-! ## The three steps -/

/-- A search step never fails (radii of at least 4 make the first step distances at
least 2); it keeps the block and its location. -/
theorem Search_Step_gen (cfg : Config) (fuel : Nat) (frame_1 : Image) (n : Int)
    (st : Assignment1.SearchState) (hOK : Assignment1.Search_OK cfg frame_1 st)
    (hn : n = 0 ∨ n = 1 ∨ n = 2)
    (hd : n = 0 → 2 ≤ st.search_dist_x ∧ 2 ≤ st.search_dist_y) (hf : 4 ≤ fuel) :
    ∃ st', Assignment1.Search_Step cfg fuel frame_1 n st = some st' ∧
      Assignment1.Search_OK cfg frame_1 st' ∧
      (st'.this_macroblock.block = st.this_macroblock.block ∧
        st'.this_macroblock.block_location_x = st.this_macroblock.block_location_x ∧
        st'.this_macroblock.block_location_y = st.this_macroblock.block_location_y) := by
  obtain ⟨m, nx, ny, hscan⟩ := Scan_List_gen cfg frame_1
    (Assignment1.Nine_Offsets st.search_dist_x st.search_dist_y) st hOK
    st.least_MSE st.new_least_MSE_x st.new_least_MSE_y
  rw [With_Best_self] at hscan
  have hOK1 : Assignment1.Search_OK cfg frame_1 (Assignment1.With_Best st m nx ny) := hOK
  obtain ⟨st', hF, hOK', _, _, _, hk⟩ := Finish_Step_spec cfg frame_1 n _ hOK1 hn hd
  refine ⟨st', ?_, hOK', hk⟩
  unfold Assignment1.Search_Step
  rw [Scan_Candidates_eq cfg fuel frame_1 st hOK.2.2.2.1 hOK.2.2.2.2 hf, hscan]
  exact hF

/-- A search step that starts with least distortion 0 keeps the running best and makes
it the best location. -/
theorem Search_Step_zero (cfg : Config) (fuel : Nat) (frame_1 : Image) (n : Int)
    (st : Assignment1.SearchState) (hOK : Assignment1.Search_OK cfg frame_1 st)
    (hz : st.least_MSE = FVal.val 0)
    (hn : n = 0 ∨ n = 1 ∨ n = 2)
    (hd : n = 0 → 2 ≤ st.search_dist_x ∧ 2 ≤ st.search_dist_y) (hf : 4 ≤ fuel) :
    ∃ st', Assignment1.Search_Step cfg fuel frame_1 n st = some st' ∧
      Assignment1.Search_OK cfg frame_1 st' ∧
      st'.least_MSE = FVal.val 0 ∧
      (st'.least_MSE_x = st.new_least_MSE_x ∧ st'.least_MSE_y = st.new_least_MSE_y) ∧
      (st'.new_least_MSE_x = st.new_least_MSE_x ∧ st'.new_least_MSE_y = st.new_least_MSE_y) ∧
      (st'.this_macroblock.block = st.this_macroblock.block ∧
        st'.this_macroblock.block_location_x = st.this_macroblock.block_location_x ∧
        st'.this_macroblock.block_location_y = st.this_macroblock.block_location_y) := by
  have hscan := Scan_List_zero cfg frame_1
    (Assignment1.Nine_Offsets st.search_dist_x st.search_dist_y) st hOK hz
  obtain ⟨st', hF, hOK', hm, hl, hnl, hk⟩ := Finish_Step_spec cfg frame_1 n st hOK hn hd
  refine ⟨st', ?_, hOK', by rw [hm, hz], hl, hnl, hk⟩
  unfold Assignment1.Search_Step
  rw [Scan_Candidates_eq cfg fuel frame_1 st hOK.2.2.2.1 hOK.2.2.2.2 hf, hscan]
  exact hF

/-- The first step, when some candidate matches the block exactly: the first such
candidate in scan order becomes the best location, with least distortion 0. -/
theorem Search_Step_first_hit (cfg : Config) (fuel : Nat) (frame_1 : Image)
    (st : Assignment1.SearchState) (hOK : Assignment1.Search_OK cfg frame_1 st)
    (hd : 2 ≤ st.search_dist_x ∧ 2 ≤ st.search_dist_y) (hf : 4 ≤ fuel)
    (q0 : ℚ) (hq0 : 0 < q0) (hst : st.least_MSE = FVal.val q0)
    (l1 l2 : List (Int × Int)) (o : Int × Int)
    (hl : Assignment1.Nine_Offsets st.search_dist_x st.search_dist_y = l1 ++ o :: l2)
    (hmiss : ∀ o' ∈ l1, ¬ Assignment1.Cand_Hit cfg frame_1 st o'.1 o'.2)
    (hhit : Assignment1.Cand_Hit cfg frame_1 st o.1 o.2) :
    ∃ st', Assignment1.Search_Step cfg fuel frame_1 0 st = some st' ∧
      Assignment1.Search_OK cfg frame_1 st' ∧
      st'.least_MSE = FVal.val 0 ∧
      (st'.new_least_MSE_x = st.least_MSE_x + o.1 ∧
        st'.new_least_MSE_y = st.least_MSE_y + o.2) ∧
      (st'.this_macroblock.block = st.this_macroblock.block ∧
        st'.this_macroblock.block_location_x = st.this_macroblock.block_location_x ∧
        st'.this_macroblock.block_location_y = st.this_macroblock.block_location_y) := by
  have hscan := Scan_List_first_hit cfg frame_1 l1 l2 o st hOK q0 hq0 hst hmiss hhit
  rw [← hl] at hscan
  have hOK1 : Assignment1.Search_OK cfg frame_1
      (Assignment1.With_Best st (FVal.val 0) (st.least_MSE_x + o.1) (st.least_MSE_y + o.2)) :=
    hOK
  obtain ⟨st', hF, hOK', hm, _, hnl, hk⟩ :=
    Finish_Step_spec cfg frame_1 0 _ hOK1 (Or.inl rfl) (fun _ => hd)
  refine ⟨st', ?_, hOK', hm, hnl, hk⟩
  unfold Assignment1.Search_Step
  rw [Scan_Candidates_eq cfg fuel frame_1 st hOK.2.2.2.1 hOK.2.2.2.2 hf, hscan]
  exact hF

theorem forRange_three {σ : Type} (body : Int → σ → Option σ) (s : σ) :
    forRange 0 3 body s = ((body 0 s).bind (body 1)).bind (body 2) := by
  have e : ((3 : Int) - 0).toNat = 3 := by decide
  unfold forRange
  rw [e]
  simp [loopN]

theorem first_dist (r : Int) (hr : 4 ≤ r) : 2 ≤ r.tdiv 2 := by
  rw [Int.tdiv_eq_ediv (by omega) (by omega)]; omega

theorem FLT_MAX_pos : (0 : ℚ) < FLT_MAX := by
  unfold FLT_MAX; norm_num

/-- The three steps never fail for radii of at least 4 and keep the block and its
location. -/
theorem Three_Step_Search_gen (cfg : Config) (fuel : Nat) (frame_1 : Image)
    (mb : Assignment1.Macroblock)
    (hOK : Assignment1.Search_OK cfg frame_1 (Assignment1.Search_Init cfg mb))
    (hsh : 4 ≤ cfg.search_horizontal) (hsv : 4 ≤ cfg.search_vertical) (hf : 4 ≤ fuel) :
    ∃ st, Assignment1.Three_Step_Search cfg fuel frame_1 mb = some st ∧
      (st.this_macroblock.block = mb.block ∧
        st.this_macroblock.block_location_x = mb.block_location_x ∧
        st.this_macroblock.block_location_y = mb.block_location_y) := by
  obtain ⟨s1, h1, ok1, k1⟩ := Search_Step_gen cfg fuel frame_1 0 _ hOK (Or.inl rfl)
    (fun _ => ⟨first_dist _ hsh, first_dist _ hsv⟩) hf
  obtain ⟨s2, h2, ok2, k2⟩ := Search_Step_gen cfg fuel frame_1 1 s1 ok1 (Or.inr (Or.inl rfl))
    (fun h => absurd h (by decide)) hf
  obtain ⟨s3, h3, _, k3⟩ := Search_Step_gen cfg fuel frame_1 2 s2 ok2 (Or.inr (Or.inr rfl))
    (fun h => absurd h (by decide)) hf
  refine ⟨s3, ?_, ?_⟩
  · unfold Assignment1.Three_Step_Search
    rw [forRange_three, h1, Option.some_bind, h2, Option.some_bind, h3]
  · obtain ⟨a1, a2, a3⟩ := k1
    obtain ⟨b1, b2, b3⟩ := k2
    obtain ⟨c1, c2, c3⟩ := k3
    exact ⟨by rw [c1, b1, a1]; rfl, by rw [c2, b2, a2]; rfl, by rw [c3, b3, a3]; rfl⟩

/-- The three steps when a first-step candidate matches the block exactly: the search
stops at the first such candidate in scan order, with least distortion 0. -/
theorem Three_Step_Search_first_hit (cfg : Config) (fuel : Nat) (frame_1 : Image)
    (mb : Assignment1.Macroblock)
    (hOK : Assignment1.Search_OK cfg frame_1 (Assignment1.Search_Init cfg mb))
    (hsh : 4 ≤ cfg.search_horizontal) (hsv : 4 ≤ cfg.search_vertical) (hf : 4 ≤ fuel)
    (l1 l2 : List (Int × Int)) (o : Int × Int)
    (hl : Assignment1.Nine_Offsets (cfg.search_horizontal.tdiv 2) (cfg.search_vertical.tdiv 2)
      = l1 ++ o :: l2)
    (hmiss : ∀ o' ∈ l1,
      ¬ Assignment1.Cand_Hit cfg frame_1 (Assignment1.Search_Init cfg mb) o'.1 o'.2)
    (hhit : Assignment1.Cand_Hit cfg frame_1 (Assignment1.Search_Init cfg mb) o.1 o.2) :
    ∃ st, Assignment1.Three_Step_Search cfg fuel frame_1 mb = some st ∧
      st.least_MSE = FVal.val 0 ∧
      (st.least_MSE_x = mb.block_location_x + o.1 ∧
        st.least_MSE_y = mb.block_location_y + o.2) ∧
      (st.this_macroblock.block = mb.block ∧
        st.this_macroblock.block_location_x = mb.block_location_x ∧
        st.this_macroblock.block_location_y = mb.block_location_y) := by
  obtain ⟨s1, h1, ok1, z1, n1, k1⟩ := Search_Step_first_hit cfg fuel frame_1 _ hOK
    ⟨first_dist _ hsh, first_dist _ hsv⟩ hf FLT_MAX FLT_MAX_pos rfl l1 l2 o hl hmiss hhit
  obtain ⟨s2, h2, ok2, z2, _, n2, k2⟩ := Search_Step_zero cfg fuel frame_1 1 s1 ok1 z1
    (Or.inr (Or.inl rfl)) (fun h => absurd h (by decide)) hf
  obtain ⟨s3, h3, _, z3, l3, _, k3⟩ := Search_Step_zero cfg fuel frame_1 2 s2 ok2 z2
    (Or.inr (Or.inr rfl)) (fun h => absurd h (by decide)) hf
  refine ⟨s3, ?_, z3, ?_, ?_⟩
  · unfold Assignment1.Three_Step_Search
    rw [forRange_three, h1, Option.some_bind, h2, Option.some_bind, h3]
  · rw [l3.1, l3.2, n2.1, n2.2, n1.1, n1.2]
    exact ⟨rfl, rfl⟩
  · obtain ⟨a1, a2, a3⟩ := k1
    obtain ⟨b1, b2, b3⟩ := k2
    obtain ⟨c1, c2, c3⟩ := k3
    exact ⟨by rw [c1, b1, a1]; rfl, by rw [c2, b2, a2]; rfl, by rw [c3, b3, a3]; rfl⟩

/-! ## Matching one macroblock and all macroblocks -/

/-- Function `Match_Macroblock` never fails for radii of at least 4; the macroblock
written back keeps its block and its location. -/
theorem Match_Macroblock_gen (cfg : Config) (fuel : Nat) (frame_1 : Image)
    (mb : Assignment1.Macroblock)
    (hOK : Assignment1.Search_OK cfg frame_1 (Assignment1.Search_Init cfg mb))
    (hsh : 4 ≤ cfg.search_horizontal) (hsv : 4 ≤ cfg.search_vertical) (hf : 4 ≤ fuel) :
    ∃ m v, Assignment1.Match_Macroblock cfg fuel frame_1 mb = some (m, v) ∧
      (m.block = mb.block ∧ m.block_location_x = mb.block_location_x ∧
        m.block_location_y = mb.block_location_y) := by
  obtain ⟨st, h, k⟩ := Three_Step_Search_gen cfg fuel frame_1 mb hOK hsh hsv hf
  have hM : Assignment1.Match_Macroblock cfg fuel frame_1 mb = some
      ({ st.this_macroblock with
          motion_vector_x := st.least_MSE_x - st.this_macroblock.block_location_x
          motion_vector_y := st.least_MSE_y - st.this_macroblock.block_location_y },
        st.least_MSE) := by
    simp only [Assignment1.Match_Macroblock, h, Option.some_bind, Option.bind_eq_bind]
  exact ⟨_, _, hM, k⟩

/-- Function `Match_Macroblock` when a first-step candidate matches the block exactly:
the motion vector is the offset of the first such candidate in scan order and the
final least distortion is 0. -/
theorem Match_Macroblock_first_hit (cfg : Config) (fuel : Nat) (frame_1 : Image)
    (mb : Assignment1.Macroblock)
    (hOK : Assignment1.Search_OK cfg frame_1 (Assignment1.Search_Init cfg mb))
    (hsh : 4 ≤ cfg.search_horizontal) (hsv : 4 ≤ cfg.search_vertical) (hf : 4 ≤ fuel)
    (l1 l2 : List (Int × Int)) (o : Int × Int)
    (hl : Assignment1.Nine_Offsets (cfg.search_horizontal.tdiv 2) (cfg.search_vertical.tdiv 2)
      = l1 ++ o :: l2)
    (hmiss : ∀ o' ∈ l1,
      ¬ Assignment1.Cand_Hit cfg frame_1 (Assignment1.Search_Init cfg mb) o'.1 o'.2)
    (hhit : Assignment1.Cand_Hit cfg frame_1 (Assignment1.Search_Init cfg mb) o.1 o.2) :
    ∃ m, Assignment1.Match_Macroblock cfg fuel frame_1 mb = some (m, FVal.val 0) ∧
      (m.motion_vector_x = o.1 ∧ m.motion_vector_y = o.2) ∧
      (m.block = mb.block ∧ m.block_location_x = mb.block_location_x ∧
        m.block_location_y = mb.block_location_y) := by
  obtain ⟨st, h, hz, ⟨hx, hy⟩, k⟩ :=
    Three_Step_Search_first_hit cfg fuel frame_1 mb hOK hsh hsv hf l1 l2 o hl hmiss hhit
  have hM : Assignment1.Match_Macroblock cfg fuel frame_1 mb = some
      ({ st.this_macroblock with
          motion_vector_x := st.least_MSE_x - st.this_macroblock.block_location_x
          motion_vector_y := st.least_MSE_y - st.this_macroblock.block_location_y },
        FVal.val 0) := by
    simp only [Assignment1.Match_Macroblock, h, Option.some_bind, Option.bind_eq_bind, hz]
  refine ⟨_, hM, ⟨?_, ?_⟩, k⟩
  · show st.least_MSE_x - st.this_macroblock.block_location_x = o.1
    rw [hx, k.2.1]; ring
  · show st.least_MSE_y - st.this_macroblock.block_location_y = o.2
    rw [hy, k.2.2]; ring

/-- The loop over the macroblocks returns when every macroblock can be matched, and
its result holds the result of `Match_Macroblock` for each macroblock, in order. -/
theorem Match_All_spec (cfg : Config) (fuel : Nat) (frame_1 : Image)
    (blocks : List Assignment1.Macroblock)
    (h : ∀ mb ∈ blocks, ∃ r, Assignment1.Match_Macroblock cfg fuel frame_1 mb = some r) :
    ∃ ms, Assignment1.Match_All cfg fuel frame_1 blocks = some ms ∧
      ms.length = blocks.length ∧
      ∀ (k : Nat) (mb : Assignment1.Macroblock), blocks[k]? = some mb →
        ∃ r, ms[k]? = some r ∧ Assignment1.Match_Macroblock cfg fuel frame_1 mb = some r := by
  induction blocks with
  | nil => exact ⟨[], rfl, rfl, by intro k mb hk; simp at hk⟩
  | cons b rest ih =>
    obtain ⟨r, hr⟩ := h b (List.mem_cons_self _ _)
    obtain ⟨ms, hms, hlen, hall⟩ := ih (fun mb hmb => h mb (List.mem_cons_of_mem _ hmb))
    refine ⟨r :: ms, by simp only [Assignment1.Match_All, hr, hms, Option.some_bind,
      Option.bind_eq_bind], by simp [hlen], ?_⟩
    intro k mb hk
    cases k with
    | zero =>
      simp only [List.getElem?_cons_zero, Option.some.injEq] at hk
      subst hk
      exact ⟨r, by simp, hr⟩
    | succ k' =>
      simp only [List.getElem?_cons_succ] at hk
      obtain ⟨r', hr', hM⟩ := hall k' mb hk
      exact ⟨r', by simpa using hr', hM⟩

/-- A macroblock built by `Set_Macroblocks` from a frame with the extents of `frame_1`
can be searched without failure. -/
theorem Search_OK_of_block (cfg : Config) (frame_1 frame_2 : Image) (vert horiz : Int)
    (mb : Assignment1.Macroblock)
    (hw : 0 < cfg.block_width) (hh : 0 < cfg.block_height)
    (hsh : 4 ≤ cfg.search_horizontal) (hsv : 4 ≤ cfg.search_vertical)
    (hch : 0 < frame_2.chans)
    (hext : frame_1.chans = frame_2.chans ∧ frame_1.rows = frame_2.rows ∧
      frame_1.cols = frame_2.cols)
    (hIs : Assignment1.Is_Block_At cfg frame_2 vert horiz mb) :
    Assignment1.Search_OK cfg frame_1 (Assignment1.Search_Init cfg mb) := by
  obtain ⟨_, ⟨dc, dr, dk⟩, _, ⟨_, hxs, _, hys⟩, _⟩ := hIs
  have hgc := get_cols_le frame_2
  have hgr := get_rows_le frame_2
  refine ⟨⟨hw, hh⟩, ⟨by omega, by show mb.block.chans = frame_1.chans; omega, dr, dk⟩,
    ⟨?_, ?_⟩, ⟨?_, ?_⟩⟩
  · show mb.search_location_x_stop ≤ (frame_1.cols : Int)
    rw [hxs, hext.2.2]
    exact le_trans (min_le_left _ _) hgc
  · show mb.search_location_y_stop ≤ (frame_1.rows : Int)
    rw [hys, hext.2.1]
    exact le_trans (min_le_left _ _) hgr
  · show 0 < cfg.search_horizontal.tdiv 2
    have := first_dist _ hsh; omega
  · show 0 < cfg.search_vertical.tdiv 2
    have := first_dist _ hsv; omega

/-! ## Reconstruction -/

/-- Function `Reconstruct_Frame` when every displaced block lies inside the reference
frame and every block inside the output: it returns; if the displaced region of every
block holds the samples that `G` gives for the place of the block, then the output
agrees with `G` wherever a block lies and wherever it agreed before; samples that no
block covers are left as they were. -/
theorem Reconstruct_Frame_spec (cfg : Config) (prev : Image) (G : Int → Int → Int → Int)
    (l : List Assignment1.Macroblock) (r0 : Image)
    (hw : 0 < cfg.block_width) (hh : 0 < cfg.block_height)
    (hch : r0.chans ≤ prev.chans)
    (hin : ∀ mb ∈ l,
      (0 ≤ mb.block_location_x + mb.motion_vector_x ∧
        mb.block_location_x + mb.motion_vector_x + cfg.block_width ≤ prev.cols) ∧
      (0 ≤ mb.block_location_y + mb.motion_vector_y ∧
        mb.block_location_y + mb.motion_vector_y + cfg.block_height ≤ prev.rows) ∧
      (0 ≤ mb.block_location_x ∧ mb.block_location_x + cfg.block_width ≤ r0.cols) ∧
      (0 ≤ mb.block_location_y ∧ mb.block_location_y + cfg.block_height ≤ r0.rows))
    (hG : ∀ mb ∈ l, ∀ a b c, (0 ≤ a ∧ a < (r0.chans : Int)) → (0 ≤ b ∧ b < cfg.block_height) →
      (0 ≤ c ∧ c < cfg.block_width) →
      prev.pix a (mb.block_location_y + mb.motion_vector_y + b)
        (mb.block_location_x + mb.motion_vector_x + c) =
      G a (mb.block_location_y + b) (mb.block_location_x + c)) :
    ∃ r, Assignment1.Reconstruct_Frame cfg prev l r0 = some r ∧
      (r.chans = r0.chans ∧ r.rows = r0.rows ∧ r.cols = r0.cols) ∧
      (∀ a i j, (0 ≤ a ∧ a < (r0.chans : Int)) →
        (r0.pix a i j = G a i j ∨
          ∃ mb ∈ l, (mb.block_location_x ≤ j ∧ j < mb.block_location_x + cfg.block_width) ∧
            (mb.block_location_y ≤ i ∧ i < mb.block_location_y + cfg.block_height)) →
        r.pix a i j = G a i j) ∧
      (∀ a i j,
        (∀ mb ∈ l, ¬ ((mb.block_location_x ≤ j ∧ j < mb.block_location_x + cfg.block_width) ∧
            (mb.block_location_y ≤ i ∧ i < mb.block_location_y + cfg.block_height))) →
        r.pix a i j = r0.pix a i j) := by
  induction l generalizing r0 with
  | nil =>
    refine ⟨r0, rfl, ⟨rfl, rfl, rfl⟩, ?_, fun _ _ _ _ => rfl⟩
    intro a i j _ h
    rcases h with h | ⟨mb, hmb, _⟩
    · exact h
    · simp at hmb
  | cons mb rest ih =>
    obtain ⟨⟨i1, i2⟩, ⟨i3, i4⟩, ⟨i5, i6⟩, ⟨i7, i8⟩⟩ := hin mb (List.mem_cons_self _ _)
    obtain ⟨r1, hr1, ⟨d1, d2, d3⟩, hpix⟩ := Modify_Image_Range_spec prev r0 0 r0.channels
      (mb.block_location_x + mb.motion_vector_x)
      (mb.block_location_x + mb.motion_vector_x + cfg.block_width)
      (mb.block_location_y + mb.motion_vector_y)
      (mb.block_location_y + mb.motion_vector_y + cfg.block_height)
      mb.block_location_x mb.block_location_y
      ⟨le_refl _, by unfold Image.channels; omega, by unfold Image.channels; omega,
        by unfold Image.channels; omega⟩
      ⟨i3, by omega, by omega⟩ ⟨i1, by omega, by omega⟩
      ⟨i7, by omega⟩ ⟨i5, by omega⟩
    obtain ⟨r, hr, ⟨e1, e2, e3⟩, hcov, hunt⟩ := ih r1 (by omega)
      (by
        intro mb' hmb'
        have := hin mb' (List.mem_cons_of_mem _ hmb')
        rw [d2, d3]; exact this)
      (by
        intro mb' hmb' a b c ha hb hc
        exact hG mb' (List.mem_cons_of_mem _ hmb') a b c (by omega) hb hc)
    refine ⟨r, ?_, ⟨by omega, by omega, by omega⟩, ?_, ?_⟩
    · simp only [Assignment1.Reconstruct_Frame, hr1, Option.some_bind, Option.bind_eq_bind]
      exact hr
    · intro a i j ha h
      apply hcov a i j (by omega)
      by_cases hrest : ∃ mb' ∈ rest,
          (mb'.block_location_x ≤ j ∧ j < mb'.block_location_x + cfg.block_width) ∧
          (mb'.block_location_y ≤ i ∧ i < mb'.block_location_y + cfg.block_height)
      · exact Or.inr hrest
      · left
        rw [hpix a i j]
        by_cases hm : (mb.block_location_x ≤ j ∧ j < mb.block_location_x + cfg.block_width) ∧
            (mb.block_location_y ≤ i ∧ i < mb.block_location_y + cfg.block_height)
        · rw [if_pos ⟨by unfold Image.channels; omega, by omega, by omega⟩]
          have := hG mb (List.mem_cons_self _ _) a (i - mb.block_location_y)
            (j - mb.block_location_x) ha (by omega) (by omega)
          have ey : mb.block_location_y + (i - mb.block_location_y) = i := by ring
          have ex : mb.block_location_x + (j - mb.block_location_x) = j := by ring
          rw [ey, ex] at this
          exact this
        · rw [if_neg (by
            rintro ⟨_, hy, hx⟩
            exact hm ⟨by omega, by omega⟩)]
          rcases h with h | ⟨mb', hmb', hc'⟩
          · exact h
          · rcases List.mem_cons.mp hmb' with rfl | hmem
            · exact absurd hc' hm
            · exact absurd ⟨mb', hmem, hc'⟩ hrest
    · intro a i j hnone
      rw [hunt a i j (fun mb' hmb' => hnone mb' (List.mem_cons_of_mem _ hmb')), hpix a i j]
      rw [if_neg]
      rintro ⟨_, hy, hx⟩
      exact hnone mb (List.mem_cons_self _ _) ⟨by omega, by omega⟩

/-! ## Identical frames (C1, C2) -/

theorem Nine_Offsets_centre (dx dy : Int) :
    Assignment1.Nine_Offsets dx dy =
      [(-dx, -dy), (-dx, 0), (-dx, dy), (0, -dy)] ++ (0, 0) :: [(0, dy), (dx, -dy), (dx, 0),
        (dx, dy)] := rfl

/-- A block cut out of the reference frame itself matches at offset `(0, 0)`. -/
theorem centre_hit (cfg : Config) (F : Image) (vert horiz : Int) (mb : Assignment1.Macroblock)
    (hw : 0 < cfg.block_width) (hh : 0 < cfg.block_height)
    (hsh : 4 ≤ cfg.search_horizontal) (hsv : 4 ≤ cfg.search_vertical)
    (hv : 0 ≤ vert ∧ vert < F.get_rows.tdiv cfg.block_height)
    (hz : 0 ≤ horiz ∧ horiz < F.get_cols.tdiv cfg.block_width)
    (hIs : Assignment1.Is_Block_At cfg F vert horiz mb) :
    Assignment1.Cand_Hit cfg F (Assignment1.Search_Init cfg mb) 0 0 := by
  obtain ⟨⟨ex, ey⟩, ⟨dc, _, _⟩, hpix, ⟨_, hxs, _, hys⟩, _⟩ := hIs
  obtain ⟨_, hnh1, _⟩ := tdiv_block F.get_cols cfg.block_width (get_cols_nonneg F) hw
  obtain ⟨_, hnv1, _⟩ := tdiv_block F.get_rows cfg.block_height (get_rows_nonneg F) hh
  have h1 := mul_succ_le_of_lt horiz _ cfg.block_width hw hz.2
  have h2 := mul_succ_le_of_lt vert _ cfg.block_height hh hv.2
  have h3 : 0 ≤ horiz * cfg.block_width := Int.mul_nonneg hz.1 hw.le
  have h4 : 0 ≤ vert * cfg.block_height := Int.mul_nonneg hv.1 hh.le
  have e1 : (horiz + 1) * cfg.block_width = horiz * cfg.block_width + cfg.block_width := by ring
  have e2 : (vert + 1) * cfg.block_height = vert * cfg.block_height + cfg.block_height := by ring
  refine ⟨⟨⟨?_, ?_⟩, ⟨?_, ?_⟩⟩, ?_⟩
  · show 0 ≤ mb.block_location_x + 0
    omega
  · show mb.block_location_x + 0 + cfg.block_width ≤ mb.search_location_x_stop
    rw [hxs, ex]
    apply le_min <;> omega
  · show 0 ≤ mb.block_location_y + 0
    omega
  · show mb.block_location_y + 0 + cfg.block_height ≤ mb.search_location_y_stop
    rw [hys, ey]
    apply le_min <;> omega
  · intro a b c ha hb hc
    show mb.block.pix a b c = F.pix a (mb.block_location_y + 0 + b) (mb.block_location_x + 0 + c)
    have ha' : 0 ≤ a ∧ a < (mb.block.chans : Int) := ha
    rw [dc] at ha'
    rw [hpix a b c ha' hb hc, ex, ey]
    simp

/-- Matching a block cut out of the reference frame itself: the search ends with least
distortion 0 at the first first-step candidate, in scan order, that is compared and
equals the block; this is the block's own place when none of the four candidates
scanned before it is such a candidate. -/
theorem Match_Macroblock_identity (cfg : Config) (fuel : Nat) (F : Image) (vert horiz : Int)
    (mb : Assignment1.Macroblock)
    (hw : 0 < cfg.block_width) (hh : 0 < cfg.block_height)
    (hsh : 4 ≤ cfg.search_horizontal) (hsv : 4 ≤ cfg.search_vertical) (hf : 4 ≤ fuel)
    (hv : 0 ≤ vert ∧ vert < F.get_rows.tdiv cfg.block_height)
    (hz : 0 ≤ horiz ∧ horiz < F.get_cols.tdiv cfg.block_width)
    (hIs : Assignment1.Is_Block_At cfg F vert horiz mb) :
    ∃ m, Assignment1.Match_Macroblock cfg fuel F mb = some (m, FVal.val 0) ∧
      (m.block = mb.block ∧ m.block_location_x = mb.block_location_x ∧
        m.block_location_y = mb.block_location_y) ∧
      Assignment1.Cand_Hit cfg F (Assignment1.Search_Init cfg mb)
        m.motion_vector_x m.motion_vector_y ∧
      ((∀ o ∈ [(-(cfg.search_horizontal.tdiv 2), -(cfg.search_vertical.tdiv 2)),
            (-(cfg.search_horizontal.tdiv 2), 0),
            (-(cfg.search_horizontal.tdiv 2), cfg.search_vertical.tdiv 2),
            (0, -(cfg.search_vertical.tdiv 2))],
          ¬ Assignment1.Cand_Hit cfg F (Assignment1.Search_Init cfg mb) o.1 o.2) →
        m.motion_vector_x = 0 ∧ m.motion_vector_y = 0) := by
  obtain ⟨_, hnh1, _⟩ := tdiv_block F.get_cols cfg.block_width (get_cols_nonneg F) hw
  have hgc : 0 < F.get_cols := by
    have := mul_succ_le_of_lt horiz _ cfg.block_width hw hz.2
    have h3 : 0 ≤ horiz * cfg.block_width := Int.mul_nonneg hz.1 hw.le
    have e1 : (horiz + 1) * cfg.block_width = horiz * cfg.block_width + cfg.block_width := by
      ring
    omega
  have hch : 0 < F.chans := chans_pos_of_get_cols F hgc
  have hOK := Search_OK_of_block cfg F F vert horiz mb hw hh hsh hsv hch ⟨rfl, rfl, rfl⟩ hIs
  have hc := centre_hit cfg F vert horiz mb hw hh hsh hsv hv hz hIs
  obtain ⟨l1, o, l2, hl, hhit, hmiss⟩ := exists_first_of_mem
    (fun o : Int × Int => Assignment1.Cand_Hit cfg F (Assignment1.Search_Init cfg mb) o.1 o.2)
    (Assignment1.Nine_Offsets (cfg.search_horizontal.tdiv 2) (cfg.search_vertical.tdiv 2))
    ⟨(0, 0), by simp [Assignment1.Nine_Offsets], hc⟩
  obtain ⟨m, hm, ⟨mx, my⟩, hk⟩ :=
    Match_Macroblock_first_hit cfg fuel F mb hOK hsh hsv hf l1 l2 o hl hmiss hhit
  refine ⟨m, hm, hk, by rw [mx, my]; exact hhit, ?_⟩
  intro hfour
  obtain ⟨m', hm', hmv, _⟩ := Match_Macroblock_first_hit cfg fuel F mb hOK hsh hsv hf
    _ _ (0, 0) (Nine_Offsets_centre _ _) hfour hc
  rw [hm] at hm'
  have : m = m' := by
    have := Option.some.inj hm'
    exact (Prod.mk.inj this).1
  rw [this]
  exact hmv

/-- C2 (amended): for every frame `F` and every configuration with positive block
sizes and both radii at least 4, with reference = target = `F` the segmentation and
the matching of every block return, and every block ends with least distortion 0 at
a motion vector whose reference region is compared in the first step and equals the
block; the motion vector is `(0, 0)` when none of the four first-step candidates
scanned before the centre is compared and equals the block. -/
theorem C2_identical_frames_zero_distortion (cfg : Config) (fuel : Nat) (F : Image)
    (hw : 0 < cfg.block_width) (hh : 0 < cfg.block_height)
    (hsh : 4 ≤ cfg.search_horizontal) (hsv : 4 ≤ cfg.search_vertical) (hf : 4 ≤ fuel) :
    ∃ blocks ms, Assignment1.Set_Macroblocks cfg F [] = some blocks ∧
      Assignment1.Match_All cfg fuel F blocks = some ms ∧
      ms.length = blocks.length ∧
      ∀ (k : Nat) (mb : Assignment1.Macroblock), blocks[k]? = some mb →
        ∃ m, ms[k]? = some (m, FVal.val 0) ∧
          Assignment1.Cand_Hit cfg F (Assignment1.Search_Init cfg mb)
            m.motion_vector_x m.motion_vector_y ∧
          ((∀ o ∈ [(-(cfg.search_horizontal.tdiv 2), -(cfg.search_vertical.tdiv 2)),
                (-(cfg.search_horizontal.tdiv 2), 0),
                (-(cfg.search_horizontal.tdiv 2), cfg.search_vertical.tdiv 2),
                (0, -(cfg.search_vertical.tdiv 2))],
              ¬ Assignment1.Cand_Hit cfg F (Assignment1.Search_Init cfg mb) o.1 o.2) →
            m.motion_vector_x = 0 ∧ m.motion_vector_y = 0) := by
  obtain ⟨blocks, hb, _, hall⟩ := Set_Macroblocks_spec cfg F [] hw hh
  obtain ⟨ms, hms, hlen, hget⟩ := Match_All_spec cfg fuel F blocks (by
    intro mb hmem
    obtain ⟨k, hk⟩ := List.mem_iff_getElem?.mp hmem
    obtain ⟨vert, horiz, hv, hz, _, hIs⟩ := hall k mb hk
    obtain ⟨m, hm, _⟩ :=
      Match_Macroblock_identity cfg fuel F vert horiz mb hw hh hsh hsv hf hv hz hIs
    exact ⟨_, hm⟩)
  refine ⟨blocks, ms, by simpa using hb, hms, hlen, ?_⟩
  intro k mb hk
  obtain ⟨vert, horiz, hv, hz, _, hIs⟩ := hall k mb hk
  obtain ⟨m, hm, _, hhit, hzero⟩ :=
    Match_Macroblock_identity cfg fuel F vert horiz mb hw hh hsh hsv hf hv hz hIs
  obtain ⟨r, hr, hM⟩ := hget k mb hk
  rw [hm] at hM
  have : r = (m, FVal.val 0) := (Option.some.inj hM).symm
  rw [this] at hr
  exact ⟨m, hr, hhit, hzero⟩

/-- Every position of the block grid has its block in the array built by
`Set_Macroblocks`. -/
theorem Set_Macroblocks_cover (cfg : Config) (frame : Image)
    (hw : 0 < cfg.block_width) (hh : 0 < cfg.block_height) :
    ∃ blocks, Assignment1.Set_Macroblocks cfg frame [] = some blocks ∧
      (∀ (k : Nat) (mb : Assignment1.Macroblock), blocks[k]? = some mb →
        ∃ vert horiz, (0 ≤ vert ∧ vert < frame.get_rows.tdiv cfg.block_height) ∧
          (0 ≤ horiz ∧ horiz < frame.get_cols.tdiv cfg.block_width) ∧
          (k : Int) = vert * frame.get_cols.tdiv cfg.block_width + horiz ∧
          Assignment1.Is_Block_At cfg frame vert horiz mb) ∧
      (∀ vert horiz, (0 ≤ vert ∧ vert < frame.get_rows.tdiv cfg.block_height) →
        (0 ≤ horiz ∧ horiz < frame.get_cols.tdiv cfg.block_width) →
        ∃ mb : Assignment1.Macroblock,
          blocks[(vert * frame.get_cols.tdiv cfg.block_width + horiz).toNat]? = some mb ∧
          Assignment1.Is_Block_At cfg frame vert horiz mb) := by
  obtain ⟨blocks, hb, hlen, hall⟩ := Set_Macroblocks_spec cfg frame [] hw hh
  refine ⟨blocks, by simpa using hb, hall, ?_⟩
  intro vert horiz hv hz
  generalize frame.get_cols.tdiv cfg.block_width = nh at *
  generalize frame.get_rows.tdiv cfg.block_height = nv at *
  have h1 : (vert + 1) * nh ≤ nv * nh :=
    Int.mul_le_mul_of_nonneg_right (by omega) (by omega)
  have h2 : 0 ≤ vert * nh := Int.mul_nonneg hv.1 (by omega)
  have e1 : (vert + 1) * nh = vert * nh + nh := by ring
  have hklt : (vert * nh + horiz).toNat < blocks.length := by omega
  refine ⟨blocks[(vert * nh + horiz).toNat], ?_, ?_⟩
  · exact List.getElem?_eq_getElem hklt
  · obtain ⟨v', h', hv', hz', hk', hIs⟩ := hall (vert * nh + horiz).toNat
      blocks[(vert * nh + horiz).toNat] (List.getElem?_eq_getElem hklt)
    have hk'' : vert * nh + horiz = v' * nh + h' := by omega
    obtain ⟨a1, a2⟩ := grid_index (vert * nh + horiz) vert horiz nh hz rfl
    obtain ⟨b1, b2⟩ := grid_index (vert * nh + horiz) v' h' nh hz' hk''
    have ev : v' = vert := by rw [← b1, a1]
    have eh : h' = horiz := by rw [← b2, a2]
    rw [ev, eh] at hIs
    exact hIs

/-- C1: for every frame `F` whose row and column counts are multiples of the block
height and width, and every configuration with positive block sizes and both radii at
least 4, `Block_Match` of Assignment 1 called with reference = target = `F` (and an
output frame of the extents of `F`) returns true and leaves the reconstructed frame
equal to `F` at every channel, row and column. -/
theorem C1_identical_frames_reconstruct (cfg : Config) (fuel : Nat) (F recon : Image)
    (hw : 0 < cfg.block_width) (hh : 0 < cfg.block_height)
    (hsh : 4 ≤ cfg.search_horizontal) (hsv : 4 ≤ cfg.search_vertical) (hf : 4 ≤ fuel)
    (hdw : cfg.block_width ∣ F.get_cols) (hdh : cfg.block_height ∣ F.get_rows)
    (hrec : recon.chans = F.chans ∧ recon.rows = F.rows ∧ recon.cols = F.cols) :
    ∃ r, Assignment1.Block_Match cfg fuel F F recon = some (true, r) ∧
      (r.chans = F.chans ∧ r.rows = F.rows ∧ r.cols = F.cols) ∧
      ∀ a i j, (0 ≤ a ∧ a < (F.chans : Int)) → (0 ≤ i ∧ i < (F.rows : Int)) →
        (0 ≤ j ∧ j < (F.cols : Int)) → r.pix a i j = F.pix a i j := by
  obtain ⟨blocks, hb, hall, hcover⟩ := Set_Macroblocks_cover cfg F hw hh
  obtain ⟨_, hnh1, _⟩ := tdiv_block F.get_cols cfg.block_width (get_cols_nonneg F) hw
  obtain ⟨_, hnv1, _⟩ := tdiv_block F.get_rows cfg.block_height (get_rows_nonneg F) hh
  have hgc := get_cols_le F
  have hgr := get_rows_le F
  obtain ⟨ms, hms, hlen, hget⟩ := Match_All_spec cfg fuel F blocks (by
    intro mb hmem
    obtain ⟨k, hk⟩ := List.mem_iff_getElem?.mp hmem
    obtain ⟨vert, horiz, hv, hz, _, hIs⟩ := hall k mb hk
    obtain ⟨m, hm, _⟩ :=
      Match_Macroblock_identity cfg fuel F vert horiz mb hw hh hsh hsv hf hv hz hIs
    exact ⟨_, hm⟩)
  -- what is known of every matched macroblock
  have hfacts : ∀ m ∈ ms.map Prod.fst, ∃ mb vert horiz,
      (0 ≤ vert ∧ vert < F.get_rows.tdiv cfg.block_height) ∧
      (0 ≤ horiz ∧ horiz < F.get_cols.tdiv cfg.block_width) ∧
      Assignment1.Is_Block_At cfg F vert horiz mb ∧
      (m.block_location_x = mb.block_location_x ∧ m.block_location_y = mb.block_location_y) ∧
      Assignment1.Cand_Hit cfg F (Assignment1.Search_Init cfg mb)
        m.motion_vector_x m.motion_vector_y := by
    intro m hm
    obtain ⟨r, hr, rfl⟩ := List.mem_map.mp hm
    obtain ⟨k, hk⟩ := List.mem_iff_getElem?.mp hr
    have hklt : k < blocks.length := by
      rw [← hlen]
      by_contra hge
      rw [List.getElem?_eq_none (by omega)] at hk
      exact Option.noConfusion hk
    have hbk : blocks[k]? = some blocks[k] := List.getElem?_eq_getElem hklt
    obtain ⟨vert, horiz, hv, hz, _, hIs⟩ := hall k _ hbk
    obtain ⟨m0, hm0, hloc, hhit, _⟩ :=
      Match_Macroblock_identity cfg fuel F vert horiz _ hw hh hsh hsv hf hv hz hIs
    obtain ⟨r', hr', hM⟩ := hget k _ hbk
    rw [hk] at hr'
    rw [hm0] at hM
    have e : r = (m0, FVal.val 0) := by
      rw [Option.some.inj hr']; exact (Option.some.inj hM).symm
    subst e
    exact ⟨blocks[k], vert, horiz, hv, hz, hIs, ⟨hloc.2.1, hloc.2.2⟩, hhit⟩
  obtain ⟨r, hr, hdims, hcov, _⟩ := Reconstruct_Frame_spec cfg F F.pix (ms.map Prod.fst) recon
    hw hh (by omega)
    (by
      intro m hm
      obtain ⟨mb, vert, horiz, hv, hz, hIs, ⟨lx, ly⟩, ⟨⟨⟨v1, v2⟩, ⟨v3, v4⟩⟩, _⟩⟩ := hfacts m hm
      obtain ⟨⟨ex, ey⟩, _, _, ⟨_, hxs, _, hys⟩, _⟩ := hIs
      have v1' : 0 ≤ mb.block_location_x + m.motion_vector_x := v1
      have v2' : mb.block_location_x + m.motion_vector_x + cfg.block_width ≤
          mb.search_location_x_stop := v2
      have v3' : 0 ≤ mb.block_location_y + m.motion_vector_y := v3
      have v4' : mb.block_location_y + m.motion_vector_y + cfg.block_height ≤
          mb.search_location_y_stop := v4
      have s1 : mb.search_location_x_stop ≤ F.get_cols := by rw [hxs]; exact min_le_left _ _
      have s2 : mb.search_location_y_stop ≤ F.get_rows := by rw [hys]; exact min_le_left _ _
      have h1 := mul_succ_le_of_lt horiz _ cfg.block_width hw hz.2
      have h2 := mul_succ_le_of_lt vert _ cfg.block_height hh hv.2
      have h3 : 0 ≤ horiz * cfg.block_width := Int.mul_nonneg hz.1 hw.le
      have h4 : 0 ≤ vert * cfg.block_height := Int.mul_nonneg hv.1 hh.le
      have e1 : (horiz + 1) * cfg.block_width = horiz * cfg.block_width + cfg.block_width := by
        ring
      have e2 : (vert + 1) * cfg.block_height = vert * cfg.block_height + cfg.block_height := by
        ring
      rw [lx, ly, hrec.2.1, hrec.2.2]
      exact ⟨⟨v1', by omega⟩, ⟨v3', by omega⟩, ⟨by omega, by omega⟩, ⟨by omega, by omega⟩⟩)
    (by
      intro m hm a b c ha hb hc
      obtain ⟨mb, vert, horiz, hv, hz, hIs, ⟨lx, ly⟩, ⟨_, hreg⟩⟩ := hfacts m hm
      obtain ⟨⟨ex, ey⟩, ⟨dc, _, _⟩, hpix, _⟩ := hIs
      have ha' : 0 ≤ a ∧ a < (F.chans : Int) := by omega
      have hreg' := hreg a b c (by
        show 0 ≤ a ∧ a < (mb.block.chans : Int)
        rw [dc]; exact ha') hb hc
      have hreg'' : mb.block.pix a b c =
          F.pix a (mb.block_location_y + m.motion_vector_y + b)
            (mb.block_location_x + m.motion_vector_x + c) := hreg'
      rw [lx, ly, ← hreg'', hpix a b c ha' hb hc, ex, ey])
  refine ⟨r, ?_, ⟨by omega, by omega, by omega⟩, ?_⟩
  · unfold Assignment1.Block_Match
    rw [if_neg (by omega), if_neg (not_not.mpr ((tmod_eq_zero_iff_dvd _ _).mpr hdw)),
      if_neg (by omega), if_neg (not_not.mpr ((tmod_eq_zero_iff_dvd _ _).mpr hdh))]
    simp only [hb, hms, hr, Option.some_bind, Option.bind_eq_bind]
  · intro a i j ha hi hj
    apply hcov a i j (by omega)
    right
    have hchp : F.channels > 0 := by unfold Image.channels; omega
    have egr : F.get_rows = F.rows := by unfold Image.get_rows; rw [if_pos hchp]
    have egc : F.get_cols = F.cols := by unfold Image.get_cols; rw [if_pos hchp]
    have eqr : F.get_rows.tdiv cfg.block_height = F.get_rows / cfg.block_height :=
      Int.tdiv_eq_ediv (get_rows_nonneg F) hh.le
    have eqc : F.get_cols.tdiv cfg.block_width = F.get_cols / cfg.block_width :=
      Int.tdiv_eq_ediv (get_cols_nonneg F) hw.le
    have hmr : F.get_rows / cfg.block_height * cfg.block_height = F.get_rows :=
      Int.ediv_mul_cancel hdh
    have hmc : F.get_cols / cfg.block_width * cfg.block_width = F.get_cols :=
      Int.ediv_mul_cancel hdw
    have hv : 0 ≤ i / cfg.block_height ∧ i / cfg.block_height < F.get_rows.tdiv cfg.block_height := by
      refine ⟨Int.ediv_nonneg hi.1 hh.le, ?_⟩
      rw [eqr]
      apply Int.ediv_lt_of_lt_mul hh
      rw [hmr, egr]; exact hi.2
    have hz : 0 ≤ j / cfg.block_width ∧ j / cfg.block_width < F.get_cols.tdiv cfg.block_width := by
      refine ⟨Int.ediv_nonneg hj.1 hw.le, ?_⟩
      rw [eqc]
      apply Int.ediv_lt_of_lt_mul hw
      rw [hmc, egc]; exact hj.2
    obtain ⟨mb, hk, hIs⟩ := hcover _ _ hv hz
    obtain ⟨r', hr', hM⟩ := hget _ mb hk
    obtain ⟨m0, hm0, hloc, _⟩ := Match_Macroblock_identity cfg fuel F _ _ mb hw hh hsh hsv hf
      hv hz hIs
    rw [hm0] at hM
    have e : r' = (m0, FVal.val 0) := (Option.some.inj hM).symm
    subst e
    refine ⟨m0, List.mem_map.mpr ⟨(m0, FVal.val 0), List.mem_iff_getElem?.mpr ⟨_, hr'⟩, rfl⟩, ?_⟩
    obtain ⟨⟨ex, ey⟩, _⟩ := hIs
    rw [hloc.2.1, hloc.2.2, ex, ey]
    have q1 := Int.ediv_mul_le j (ne_of_gt hw)
    have q2 := Int.lt_ediv_add_one_mul_self j hw
    have q3 := Int.ediv_mul_le i (ne_of_gt hh)
    have q4 := Int.lt_ediv_add_one_mul_self i hh
    have e1 : (j / cfg.block_width + 1) * cfg.block_width =
        j / cfg.block_width * cfg.block_width + cfg.block_width := by ring
    have e2 : (i / cfg.block_height + 1) * cfg.block_height =
        i / cfg.block_height * cfg.block_height + cfg.block_height := by ring
    exact ⟨⟨q1, by omega⟩, ⟨q3, by omega⟩⟩

/-- Witness of C1: the frame of 16 by 16 with blocks of 8 by 8 and radii 4. -/
theorem C1_identical_frames_reconstruct_witness :
    ((0 : Int) < cfg8.block_width ∧ (0 : Int) < cfg8.block_height ∧
      4 ≤ cfg8.search_horizontal ∧ 4 ≤ cfg8.search_vertical ∧
      cfg8.block_width ∣ frame16.get_cols ∧ cfg8.block_height ∣ frame16.get_rows) ∧
    ∃ r, Assignment1.Block_Match cfg8 4 frame16 frame16 frame16 = some (true, r) ∧
      (r.chans = frame16.chans ∧ r.rows = frame16.rows ∧ r.cols = frame16.cols) ∧
      ∀ a i j, (0 ≤ a ∧ a < (frame16.chans : Int)) → (0 ≤ i ∧ i < (frame16.rows : Int)) →
        (0 ≤ j ∧ j < (frame16.cols : Int)) → r.pix a i j = frame16.pix a i j :=
  ⟨⟨by decide, by decide, by decide, by decide, by decide, by decide⟩,
    C1_identical_frames_reconstruct cfg8 4 frame16 frame16 (by decide) (by decide) (by decide)
      (by decide) (le_refl 4) (by decide) (by decide) ⟨rfl, rfl, rfl⟩⟩

/-- Witness of C2 (amended): the frame of 16 by 16 with blocks of 8 by 8 and radii 4. -/
theorem C2_identical_frames_zero_distortion_witness :
    ((0 : Int) < cfg8.block_width ∧ (0 : Int) < cfg8.block_height ∧
      4 ≤ cfg8.search_horizontal ∧ 4 ≤ cfg8.search_vertical) ∧
    ∃ blocks ms, Assignment1.Set_Macroblocks cfg8 frame16 [] = some blocks ∧
      Assignment1.Match_All cfg8 4 frame16 blocks = some ms ∧
      ms.length = blocks.length ∧
      ∀ (k : Nat) (mb : Assignment1.Macroblock), blocks[k]? = some mb →
        ∃ m, ms[k]? = some (m, FVal.val 0) ∧
          Assignment1.Cand_Hit cfg8 frame16 (Assignment1.Search_Init cfg8 mb)
            m.motion_vector_x m.motion_vector_y ∧
          ((∀ o ∈ [(-(cfg8.search_horizontal.tdiv 2), -(cfg8.search_vertical.tdiv 2)),
                (-(cfg8.search_horizontal.tdiv 2), 0),
                (-(cfg8.search_horizontal.tdiv 2), cfg8.search_vertical.tdiv 2),
                (0, -(cfg8.search_vertical.tdiv 2))],
              ¬ Assignment1.Cand_Hit cfg8 frame16 (Assignment1.Search_Init cfg8 mb) o.1 o.2) →
            m.motion_vector_x = 0 ∧ m.motion_vector_y = 0) :=
  ⟨⟨by decide, by decide, by decide, by decide⟩,
    C2_identical_frames_zero_distortion cfg8 4 frame16 (by decide) (by decide) (by decide)
      (by decide) (le_refl 4)⟩

/-- Counterexample to C2 as stated: on the frame of 3 by 3 whose samples are all 0,
with blocks of one sample and radii 4 (the extents are multiples of the block size),
the block at column 2, row 2 (index 8) ends with least distortion 0 but with the
motion vector `(-2, -2)`, the first candidate scanned, not `(0, 0)`. -/
theorem C2_counterexample_flat_frame :
    (cfg1.block_width ∣ flat3.get_cols ∧ cfg1.block_height ∣ flat3.get_rows ∧
      4 ≤ cfg1.search_horizontal ∧ 4 ≤ cfg1.search_vertical) ∧
    ∃ blocks ms m, Assignment1.Set_Macroblocks cfg1 flat3 [] = some blocks ∧
      Assignment1.Match_All cfg1 4 flat3 blocks = some ms ∧
      ms[8]? = some (m, FVal.val 0) ∧
      (m.block_location_x = 2 ∧ m.block_location_y = 2) ∧
      (m.motion_vector_x = -2 ∧ m.motion_vector_y = -2) := by
  refine ⟨⟨by decide, by decide, by decide, by decide⟩, ?_⟩
  have hw : (0 : Int) < cfg1.block_width := by decide
  have hh : (0 : Int) < cfg1.block_height := by decide
  have hsh : 4 ≤ cfg1.search_horizontal := by decide
  have hsv : 4 ≤ cfg1.search_vertical := by decide
  obtain ⟨blocks, hb, hall, hcover⟩ := Set_Macroblocks_cover cfg1 flat3 hw hh
  obtain ⟨ms, hms, _, hget⟩ := Match_All_spec cfg1 4 flat3 blocks (by
    intro mb hmem
    obtain ⟨k, hk⟩ := List.mem_iff_getElem?.mp hmem
    obtain ⟨vert, horiz, hv, hz, _, hIs⟩ := hall k mb hk
    obtain ⟨m, hm, _⟩ :=
      Match_Macroblock_identity cfg1 4 flat3 vert horiz mb hw hh hsh hsv (le_refl 4) hv hz hIs
    exact ⟨_, hm⟩)
  obtain ⟨mb, hk, hIs⟩ := hcover 2 2 (by decide) (by decide)
  have e8 : (2 * flat3.get_cols.tdiv cfg1.block_width + 2).toNat = 8 := by decide
  rw [e8] at hk
  have hOK := Search_OK_of_block cfg1 flat3 flat3 2 2 mb hw hh hsh hsv (by decide)
    ⟨rfl, rfl, rfl⟩ hIs
  obtain ⟨⟨ex, ey⟩, ⟨dc, _, _⟩, hpix, ⟨_, hxs, _, hys⟩, _⟩ := hIs
  have ex' : mb.block_location_x = 2 := by rw [ex]; decide
  have ey' : mb.block_location_y = 2 := by rw [ey]; decide
  have hxs' : mb.search_location_x_stop = 3 := by rw [hxs]; decide
  have hys' : mb.search_location_y_stop = 3 := by rw [hys]; decide
  have hhit : Assignment1.Cand_Hit cfg1 flat3 (Assignment1.Search_Init cfg1 mb) (-2) (-2) := by
    refine ⟨⟨⟨?_, ?_⟩, ⟨?_, ?_⟩⟩, ?_⟩
    · show 0 ≤ mb.block_location_x + -2
      omega
    · show mb.block_location_x + -2 + cfg1.block_width ≤ mb.search_location_x_stop
      rw [ex', hxs']; decide
    · show 0 ≤ mb.block_location_y + -2
      omega
    · show mb.block_location_y + -2 + cfg1.block_height ≤ mb.search_location_y_stop
      rw [ey', hys']; decide
    · intro a b c ha hb hc
      have ha' : 0 ≤ a ∧ a < (mb.block.chans : Int) := ha
      rw [dc] at ha'
      show mb.block.pix a b c = 0
      rw [hpix a b c ha' hb hc]
      rfl
  obtain ⟨m, hm, hmv, hloc⟩ := Match_Macroblock_first_hit cfg1 4 flat3 mb hOK hsh hsv
    (le_refl 4) [] [(-2, 0), (-2, 2), (0, -2), (0, 0), (0, 2), (2, -2), (2, 0), (2, 2)]
    (-2, -2) (by decide) (by intro o ho; simp at ho) hhit
  obtain ⟨r, hr, hM⟩ := hget 8 mb hk
  rw [hm] at hM
  have e : r = (m, FVal.val 0) := (Option.some.inj hM).symm
  subst e
  exact ⟨blocks, ms, m, hb, hms, hr, ⟨by rw [hloc.2.1, ex'], by rw [hloc.2.2, ey']⟩, hmv⟩

/-! ## A failed dimension check (C5, C6) -/

/-- C5, the code at a failing input: with blocks of 8 by 8 and a frame of 15 rows by
16 columns, `Block_Match` returns false and leaves the zero-filled
`reconstructed_frame2` untouched, and `main` of Assignment 1, which does not look at
the returned flag, goes on to save that zero-filled frame. -/
theorem C5_main_saves_after_failed_check :
    Image.new frame15.get_rows frame15.get_cols frame15.channels = some blank15 ∧
    Assignment1.Block_Match cfg8 4 frame15 frame15 blank15 = some (false, blank15) ∧
    Assignment1.main cfg8 4 frame15 frame15 = some (some blank15) := by
  have hnew : Image.new frame15.get_rows frame15.get_cols frame15.channels = some blank15 := by
    rfl
  have hbm : Assignment1.Block_Match cfg8 4 frame15 frame15 blank15 = some (false, blank15) :=
    (Block_Match_false_iff cfg8 4 frame15 frame15 blank15 blank15 (by decide) (by decide)).mpr
      ⟨Or.inr (by decide), rfl⟩
  refine ⟨hnew, hbm, ?_⟩
  unfold Assignment1.main
  rw [if_neg (by decide), hnew]
  simp only [Option.some_bind, Option.bind_eq_bind, hbm]
  rfl

/-- Counterexample to C6 as stated: with blocks of 8 by 8, a reference frame of 16 by
16 and a target frame of 15 rows, which 8 does not divide, `Block_Match` does not
return false, for any fuel and output frame; and with blocks of 2 by 2, a reference
frame of 2 by 2 and a target frame of 1 by 1 it returns true. -/
theorem C6_counterexample_target_unchecked :
    (¬ cfg8.block_height ∣ frame15.get_rows ∧
      ∀ fuel recon r, Assignment1.Block_Match cfg8 fuel frame16 frame15 recon ≠
        some (false, r)) ∧
    (¬ cfg2.block_width ∣ frame1x1.get_cols ∧
      Assignment1.Block_Match cfg2 4 frame2x2 frame1x1 frame1x1 = some (true, frame1x1)) := by
  refine ⟨⟨by decide, ?_⟩, ⟨by decide, ?_⟩⟩
  · intro fuel recon r h
    have := ((Block_Match_false_iff cfg8 fuel frame16 frame15 recon r (by decide)
      (by decide)).mp h).1
    revert this
    decide
  · have hS : Assignment1.Set_Macroblocks cfg2 frame1x1 [] = some [] := by
      unfold Assignment1.Set_Macroblocks
      rw [if_neg (by decide)]
      exact forRange_empty _ _ _ _ (by decide)
    unfold Assignment1.Block_Match
    rw [if_neg (by decide), if_neg (by decide), if_neg (by decide), if_neg (by decide)]
    simp only [hS, Option.some_bind, Option.bind_eq_bind, Assignment1.Match_All, List.map_nil,
      Assignment1.Reconstruct_Frame]

/-- C6 (amended): the validation covers the reference frame only: with non-zero block
sizes, for every reference frame, target frame, output frame and fuel, `Block_Match`
returns false, with the output frame untouched, exactly when `block_width` fails to
divide the column count or `block_height` the row count of the reference frame
`frame_1`; the extents of the target frame play no part. -/
theorem C6_reference_frame_validated (cfg : Config) (fuel : Nat)
    (frame_1 frame_2 recon : Image)
    (hw : cfg.block_width ≠ 0) (hh : cfg.block_height ≠ 0) :
    ((¬ cfg.block_width ∣ frame_1.get_cols ∨ ¬ cfg.block_height ∣ frame_1.get_rows) →
      Assignment1.Block_Match cfg fuel frame_1 frame_2 recon = some (false, recon)) ∧
    ((cfg.block_width ∣ frame_1.get_cols ∧ cfg.block_height ∣ frame_1.get_rows) →
      ∀ r, Assignment1.Block_Match cfg fuel frame_1 frame_2 recon ≠ some (false, r)) := by
  constructor
  · intro h
    exact (Block_Match_false_iff cfg fuel frame_1 frame_2 recon recon hw hh).mpr ⟨h, rfl⟩
  · rintro ⟨h1, h2⟩ r h
    rcases ((Block_Match_false_iff cfg fuel frame_1 frame_2 recon r hw hh).mp h).1 with h' | h'
    · exact h' h1
    · exact h' h2

/-- Witness of C6 (amended): a reference frame of 15 rows with blocks of 8 by 8. -/
theorem C6_reference_frame_validated_witness :
    (cfg8.block_width ≠ 0 ∧ cfg8.block_height ≠ 0 ∧
      (¬ cfg8.block_width ∣ frame15.get_cols ∨ ¬ cfg8.block_height ∣ frame15.get_rows)) ∧
    Assignment1.Block_Match cfg8 0 frame15 frame16 blank15 = some (false, blank15) :=
  ⟨⟨by decide, by decide, Or.inr (by decide)⟩,
    (C6_reference_frame_validated cfg8 0 frame15 frame16 blank15 (by decide) (by decide)).1
      (Or.inr (by decide))⟩

/-! ## How far the running best can move -/

/-- One candidate either keeps the running best or moves it to the candidate. -/
theorem Try_Candidate_reach (cfg : Config) (frame_1 : Image) (x y : Int)
    (st : Assignment1.SearchState) (hOK : Assignment1.Search_OK cfg frame_1 st)
    (m0 : FVal) (nx0 ny0 : Int) :
    ∃ m nx ny, Assignment1.Try_Candidate cfg frame_1 x y (Assignment1.With_Best st m0 nx0 ny0) =
        some (Assignment1.With_Best st m nx ny) ∧
      ((nx = nx0 ∧ ny = ny0) ∨ (nx = st.least_MSE_x + x ∧ ny = st.least_MSE_y + y)) := by
  have hOK' : Assignment1.Search_OK cfg frame_1 (Assignment1.With_Best st m0 nx0 ny0) := hOK
  obtain ⟨h1, h2⟩ := Try_Candidate_spec cfg frame_1 x y _ hOK'
  by_cases hv : Assignment1.Cand_Valid cfg (Assignment1.With_Best st m0 nx0 ny0) x y
  · obtain ⟨q, _, _, hq⟩ := h2 hv
    rw [hq]
    split_ifs
    · exact ⟨_, _, _, rfl, Or.inr ⟨rfl, rfl⟩⟩
    · exact ⟨m0, nx0, ny0, rfl, Or.inl ⟨rfl, rfl⟩⟩
  · rw [h1 hv]
    exact ⟨m0, nx0, ny0, rfl, Or.inl ⟨rfl, rfl⟩⟩

/-- The candidate loops either keep the running best or move it to one of the
candidates. -/
theorem Scan_List_reach (cfg : Config) (frame_1 : Image) (l : List (Int × Int))
    (st : Assignment1.SearchState) (hOK : Assignment1.Search_OK cfg frame_1 st)
    (m0 : FVal) (nx0 ny0 : Int) :
    ∃ m nx ny, Assignment1.Scan_List cfg frame_1 l (Assignment1.With_Best st m0 nx0 ny0) =
        some (Assignment1.With_Best st m nx ny) ∧
      ((nx = nx0 ∧ ny = ny0) ∨
        ∃ o ∈ l, nx = st.least_MSE_x + o.1 ∧ ny = st.least_MSE_y + o.2) := by
  induction l generalizing m0 nx0 ny0 with
  | nil => exact ⟨m0, nx0, ny0, rfl, Or.inl ⟨rfl, rfl⟩⟩
  | cons o rest ih =>
    obtain ⟨m1, nx1, ny1, h1, hr1⟩ := Try_Candidate_reach cfg frame_1 o.1 o.2 st hOK m0 nx0 ny0
    obtain ⟨m, nx, ny, h, hr⟩ := ih m1 nx1 ny1
    refine ⟨m, nx, ny, by simp only [Assignment1.Scan_List, h1, Option.some_bind, h], ?_⟩
    rcases hr with ⟨e1, e2⟩ | ⟨o', ho', e⟩
    · rcases hr1 with ⟨f1, f2⟩ | ⟨f1, f2⟩
      · exact Or.inl ⟨by rw [e1, f1], by rw [e2, f2]⟩
      · exact Or.inr ⟨o, List.mem_cons_self _ _, by rw [e1, f1], by rw [e2, f2]⟩
    · exact Or.inr ⟨o', List.mem_cons_of_mem _ ho', e⟩

theorem Nine_Offsets_bound (dx dy : Int) (hx : 0 ≤ dx) (hy : 0 ≤ dy) (o : Int × Int)
    (ho : o ∈ Assignment1.Nine_Offsets dx dy) :
    (-dx ≤ o.1 ∧ o.1 ≤ dx) ∧ (-dy ≤ o.2 ∧ o.2 ≤ dy) := by
  simp only [Assignment1.Nine_Offsets, List.mem_cons, List.mem_singleton, List.not_mem_nil,
    or_false] at ho
  rcases ho with rfl | rfl | rfl | rfl | rfl | rfl | rfl | rfl | rfl <;>
    exact ⟨⟨by simp only []; omega, by simp only []; omega⟩,
      ⟨by simp only []; omega, by simp only []; omega⟩⟩

/-- The step distances after the end of a step. -/
theorem Finish_Step_dist (cfg : Config) (frame_1 : Image) (n : Int)
    (st st' : Assignment1.SearchState)
    (h : Assignment1.Finish_Step cfg frame_1 n st = some st') :
    (n = 0 → st'.search_dist_x =
        (st.search_dist_x + st.search_dist_x.tdiv 2 - 1).tdiv (st.search_dist_x.tdiv 2) ∧
      st'.search_dist_y =
        (st.search_dist_y + st.search_dist_y.tdiv 2 - 1).tdiv (st.search_dist_y.tdiv 2)) ∧
    (n = 1 → st'.search_dist_x = 1 ∧ st'.search_dist_y = 1) := by
  constructor
  · rintro rfl
    simp only [Assignment1.Finish_Step, Assignment1.Update_Search_Dist] at h
    rw [if_neg (by decide), if_pos (by decide)] at h
    by_cases hz : st.search_dist_x.tdiv 2 = 0 ∨ st.search_dist_y.tdiv 2 = 0
    · rw [if_pos hz] at h
      simp at h
    · rw [if_neg hz] at h
      simp only [Option.some_bind, Option.bind_eq_bind] at h
      rw [if_pos (by decide)] at h
      have := Option.some.inj h
      subst this
      exact ⟨rfl, rfl⟩
  · rintro rfl
    simp only [Assignment1.Finish_Step, Assignment1.Update_Search_Dist] at h
    simp at h
    subst h
    exact ⟨rfl, rfl⟩

/-- A search step moves the best location by at most the step distance on each axis,
or, when no candidate was accepted, to the running best it started with. -/
theorem Search_Step_reach (cfg : Config) (fuel : Nat) (frame_1 : Image) (n : Int)
    (st : Assignment1.SearchState) (hOK : Assignment1.Search_OK cfg frame_1 st)
    (hn : n = 0 ∨ n = 1 ∨ n = 2)
    (hd : n = 0 → 2 ≤ st.search_dist_x ∧ 2 ≤ st.search_dist_y) (hf : 4 ≤ fuel) :
    ∃ st', Assignment1.Search_Step cfg fuel frame_1 n st = some st' ∧
      Assignment1.Search_OK cfg frame_1 st' ∧
      (st'.this_macroblock.block = st.this_macroblock.block ∧
        st'.this_macroblock.block_location_x = st.this_macroblock.block_location_x ∧
        st'.this_macroblock.block_location_y = st.this_macroblock.block_location_y) ∧
      (st'.new_least_MSE_x = st'.least_MSE_x ∧ st'.new_least_MSE_y = st'.least_MSE_y) ∧
      ((st'.least_MSE_x = st.new_least_MSE_x ∧ st'.least_MSE_y = st.new_least_MSE_y) ∨
        ((-st.search_dist_x ≤ st'.least_MSE_x - st.least_MSE_x ∧
            st'.least_MSE_x - st.least_MSE_x ≤ st.search_dist_x) ∧
          (-st.search_dist_y ≤ st'.least_MSE_y - st.least_MSE_y ∧
            st'.least_MSE_y - st.least_MSE_y ≤ st.search_dist_y))) ∧
      (n = 0 → st'.search_dist_x =
          (st.search_dist_x + st.search_dist_x.tdiv 2 - 1).tdiv (st.search_dist_x.tdiv 2) ∧
        st'.search_dist_y =
          (st.search_dist_y + st.search_dist_y.tdiv 2 - 1).tdiv (st.search_dist_y.tdiv 2)) ∧
      (n = 1 → st'.search_dist_x = 1 ∧ st'.search_dist_y = 1) := by
  obtain ⟨m, nx, ny, hscan, hreach⟩ := Scan_List_reach cfg frame_1
    (Assignment1.Nine_Offsets st.search_dist_x st.search_dist_y) st hOK
    st.least_MSE st.new_least_MSE_x st.new_least_MSE_y
  rw [With_Best_self] at hscan
  have hOK1 : Assignment1.Search_OK cfg frame_1 (Assignment1.With_Best st m nx ny) := hOK
  obtain ⟨st', hF, hOK', _, hl, hnl, hk⟩ := Finish_Step_spec cfg frame_1 n _ hOK1 hn hd
  obtain ⟨hd0, hd1⟩ := Finish_Step_dist cfg frame_1 n _ st' hF
  have hl' : st'.least_MSE_x = nx ∧ st'.least_MSE_y = ny := hl
  have hnl' : st'.new_least_MSE_x = nx ∧ st'.new_least_MSE_y = ny := hnl
  refine ⟨st', ?_, hOK', hk, ⟨by rw [hnl'.1, hl'.1], by rw [hnl'.2, hl'.2]⟩, ?_, hd0, hd1⟩
  · unfold Assignment1.Search_Step
    rw [Scan_Candidates_eq cfg fuel frame_1 st hOK.2.2.2.1 hOK.2.2.2.2 hf, hscan]
    exact hF
  · rcases hreach with ⟨e1, e2⟩ | ⟨o, ho, e1, e2⟩
    · exact Or.inl ⟨by rw [hl'.1, e1], by rw [hl'.2, e2]⟩
    · right
      obtain ⟨b1, b2⟩ := Nine_Offsets_bound st.search_dist_x st.search_dist_y
        hOK.2.2.2.1.le hOK.2.2.2.2.le o ho
      rw [hl'.1, hl'.2, e1, e2]
      exact ⟨⟨by omega, by omega⟩, ⟨by omega, by omega⟩⟩

/-- The three steps move the best location, on each axis, by at most the sum of the
three step distances from the block's place, or (when no candidate was accepted in
the first step) end within the last two step distances of coordinate 0. -/
theorem Three_Step_Search_reach (cfg : Config) (fuel : Nat) (frame_1 : Image)
    (mb : Assignment1.Macroblock)
    (hOK : Assignment1.Search_OK cfg frame_1 (Assignment1.Search_Init cfg mb))
    (hsh : 4 ≤ cfg.search_horizontal) (hsv : 4 ≤ cfg.search_vertical) (hf : 4 ≤ fuel) :
    ∃ st, Assignment1.Three_Step_Search cfg fuel frame_1 mb = some st ∧
      (st.this_macroblock.block = mb.block ∧
        st.this_macroblock.block_location_x = mb.block_location_x ∧
        st.this_macroblock.block_location_y = mb.block_location_y) ∧
      ((-(cfg.search_horizontal.tdiv 2 +
            (cfg.search_horizontal.tdiv 2 + (cfg.search_horizontal.tdiv 2).tdiv 2 - 1).tdiv
              ((cfg.search_horizontal.tdiv 2).tdiv 2) + 1) ≤ st.least_MSE_x - mb.block_location_x ∧
          st.least_MSE_x - mb.block_location_x ≤ cfg.search_horizontal.tdiv 2 +
            (cfg.search_horizontal.tdiv 2 + (cfg.search_horizontal.tdiv 2).tdiv 2 - 1).tdiv
              ((cfg.search_horizontal.tdiv 2).tdiv 2) + 1) ∨
        (-((cfg.search_horizontal.tdiv 2 + (cfg.search_horizontal.tdiv 2).tdiv 2 - 1).tdiv
              ((cfg.search_horizontal.tdiv 2).tdiv 2) + 1) ≤ st.least_MSE_x ∧
          st.least_MSE_x ≤
            (cfg.search_horizontal.tdiv 2 + (cfg.search_horizontal.tdiv 2).tdiv 2 - 1).tdiv
              ((cfg.search_horizontal.tdiv 2).tdiv 2) + 1)) := by
  obtain ⟨s1, h1, ok1, k1, n1, r1, dd1, _⟩ := Search_Step_reach cfg fuel frame_1 0 _ hOK
    (Or.inl rfl) (fun _ => ⟨first_dist _ hsh, first_dist _ hsv⟩) hf
  obtain ⟨s2, h2, ok2, k2, n2, r2, _, dd2⟩ := Search_Step_reach cfg fuel frame_1 1 s1 ok1
    (Or.inr (Or.inl rfl)) (fun h => absurd h (by decide)) hf
  obtain ⟨s3, h3, _, k3, _, r3, _, _⟩ := Search_Step_reach cfg fuel frame_1 2 s2 ok2
    (Or.inr (Or.inr rfl)) (fun h => absurd h (by decide)) hf
  refine ⟨s3, ?_, ?_, ?_⟩
  · unfold Assignment1.Three_Step_Search
    rw [forRange_three, h1, Option.some_bind, h2, Option.some_bind, h3]
  · obtain ⟨a1, a2, a3⟩ := k1
    obtain ⟨b1, b2, b3⟩ := k2
    obtain ⟨c1, c2, c3⟩ := k3
    exact ⟨by rw [c1, b1, a1]; rfl, by rw [c2, b2, a2]; rfl, by rw [c3, b3, a3]; rfl⟩
  · have e1 := (dd1 rfl).1
    have e2 := (dd2 rfl).1
    have i0 : (Assignment1.Search_Init cfg mb).search_dist_x = cfg.search_horizontal.tdiv 2 := rfl
    have i1 : (Assignment1.Search_Init cfg mb).least_MSE_x = mb.block_location_x := rfl
    have i2 : (Assignment1.Search_Init cfg mb).new_least_MSE_x = 0 := rfl
    rw [i0] at e1
    rw [i0, i1, i2] at r1
    have p1 := ok1.2.2.2.1
    have p0 : 2 ≤ cfg.search_horizontal.tdiv 2 := first_dist _ hsh
    generalize cfg.search_horizontal.tdiv 2 = d0 at *
    generalize (d0 + d0.tdiv 2 - 1).tdiv (d0.tdiv 2) = d1 at *
    rw [e1] at r2 p1
    rw [e2] at r3
    rw [n1.1] at r2
    rw [n2.1] at r3
    rcases r1 with ⟨q1, _⟩ | ⟨⟨q1, q1'⟩, _⟩ <;>
    rcases r2 with ⟨q2, _⟩ | ⟨⟨q2, q2'⟩, _⟩ <;>
    rcases r3 with ⟨q3, _⟩ | ⟨⟨q3, q3'⟩, _⟩ <;>
    first
      | (left; constructor <;> omega)
      | (right; constructor <;> omega)

/-- Function `Match_Macroblock` for radii of at least 4: the horizontal component of
the motion vector is at most the sum of the three horizontal step distances in
absolute value, unless the search ended near column 0 because no candidate was
accepted in the first step. -/
theorem Match_Macroblock_reach (cfg : Config) (fuel : Nat) (frame_1 : Image)
    (mb : Assignment1.Macroblock)
    (hOK : Assignment1.Search_OK cfg frame_1 (Assignment1.Search_Init cfg mb))
    (hsh : 4 ≤ cfg.search_horizontal) (hsv : 4 ≤ cfg.search_vertical) (hf : 4 ≤ fuel) :
    ∃ m v, Assignment1.Match_Macroblock cfg fuel frame_1 mb = some (m, v) ∧
      (m.block = mb.block ∧ m.block_location_x = mb.block_location_x ∧
        m.block_location_y = mb.block_location_y) ∧
      ((-(cfg.search_horizontal.tdiv 2 +
            (cfg.search_horizontal.tdiv 2 + (cfg.search_horizontal.tdiv 2).tdiv 2 - 1).tdiv
              ((cfg.search_horizontal.tdiv 2).tdiv 2) + 1) ≤ m.motion_vector_x ∧
          m.motion_vector_x ≤ cfg.search_horizontal.tdiv 2 +
            (cfg.search_horizontal.tdiv 2 + (cfg.search_horizontal.tdiv 2).tdiv 2 - 1).tdiv
              ((cfg.search_horizontal.tdiv 2).tdiv 2) + 1) ∨
        (-((cfg.search_horizontal.tdiv 2 + (cfg.search_horizontal.tdiv 2).tdiv 2 - 1).tdiv
              ((cfg.search_horizontal.tdiv 2).tdiv 2) + 1) ≤
            mb.block_location_x + m.motion_vector_x ∧
          mb.block_location_x + m.motion_vector_x ≤
            (cfg.search_horizontal.tdiv 2 + (cfg.search_horizontal.tdiv 2).tdiv 2 - 1).tdiv
              ((cfg.search_horizontal.tdiv 2).tdiv 2) + 1)) := by
  obtain ⟨st, h, k, hr⟩ := Three_Step_Search_reach cfg fuel frame_1 mb hOK hsh hsv hf
  have hM : Assignment1.Match_Macroblock cfg fuel frame_1 mb = some
      ({ st.this_macroblock with
          motion_vector_x := st.least_MSE_x - st.this_macroblock.block_location_x
          motion_vector_y := st.least_MSE_y - st.this_macroblock.block_location_y },
        st.least_MSE) := by
    simp only [Assignment1.Match_Macroblock, h, Option.some_bind, Option.bind_eq_bind]
  refine ⟨_, _, hM, k, ?_⟩
  show (_ ≤ st.least_MSE_x - st.this_macroblock.block_location_x ∧
      st.least_MSE_x - st.this_macroblock.block_location_x ≤ _) ∨
    (_ ≤ mb.block_location_x + (st.least_MSE_x - st.this_macroblock.block_location_x) ∧
      mb.block_location_x + (st.least_MSE_x - st.this_macroblock.block_location_x) ≤ _)
  rw [k.2.1]
  have e : mb.block_location_x + (st.least_MSE_x - mb.block_location_x) = st.least_MSE_x := by
    ring
  rw [e]
  exact hr

/-! ## A translated frame (C3) -/

theorem chans_pos_of_grid (cfg : Config) (frame : Image) (horiz : Int)
    (hw : 0 < cfg.block_width)
    (hz : 0 ≤ horiz ∧ horiz < frame.get_cols.tdiv cfg.block_width) : 0 < frame.chans := by
  obtain ⟨_, hnh1, _⟩ := tdiv_block frame.get_cols cfg.block_width (get_cols_nonneg frame) hw
  have := mul_succ_le_of_lt horiz _ cfg.block_width hw hz.2
  have h3 : 0 ≤ horiz * cfg.block_width := Int.mul_nonneg hz.1 hw.le
  have e1 : (horiz + 1) * cfg.block_width = horiz * cfg.block_width + cfg.block_width := by
    ring
  exact chans_pos_of_get_cols frame (by omega)

/-- With frames of equal extents and radii of at least 4 every macroblock of the
target frame is matched without failure. -/
theorem Match_All_total (cfg : Config) (fuel : Nat) (R T : Image)
    (blocks : List Assignment1.Macroblock)
    (hw : 0 < cfg.block_width) (hh : 0 < cfg.block_height)
    (hsh : 4 ≤ cfg.search_horizontal) (hsv : 4 ≤ cfg.search_vertical) (hf : 4 ≤ fuel)
    (hext : R.chans = T.chans ∧ R.rows = T.rows ∧ R.cols = T.cols)
    (hall : ∀ (k : Nat) (mb : Assignment1.Macroblock), blocks[k]? = some mb →
      ∃ vert horiz, (0 ≤ vert ∧ vert < T.get_rows.tdiv cfg.block_height) ∧
        (0 ≤ horiz ∧ horiz < T.get_cols.tdiv cfg.block_width) ∧
        (k : Int) = vert * T.get_cols.tdiv cfg.block_width + horiz ∧
        Assignment1.Is_Block_At cfg T vert horiz mb) :
    ∃ ms, Assignment1.Match_All cfg fuel R blocks = some ms ∧
      ms.length = blocks.length ∧
      ∀ (k : Nat) (mb : Assignment1.Macroblock), blocks[k]? = some mb →
        ∃ r, ms[k]? = some r ∧ Assignment1.Match_Macroblock cfg fuel R mb = some r := by
  apply Match_All_spec
  intro mb hmem
  obtain ⟨k, hk⟩ := List.mem_iff_getElem?.mp hmem
  obtain ⟨vert, horiz, hv, hz, _, hIs⟩ := hall k mb hk
  have hOK := Search_OK_of_block cfg R T vert horiz mb hw hh hsh hsv
    (chans_pos_of_grid cfg T horiz hw hz) hext hIs
  obtain ⟨m, v, hm, _⟩ := Match_Macroblock_gen cfg fuel R mb hOK hsh hsv hf
  exact ⟨_, hm⟩

/-- C3 (amended): for frames `R` (reference) and `T` (target) of equal extents,
positive block sizes and radii of at least 4, take the block of `T` at row `vert` and
column `horiz` of the block grid, at least radius + block size away from every frame
edge, and an offset `o` among the nine first-step offsets
`{-dx, 0, dx} x {-dy, 0, dy}` (`dx = search_horizontal/2`, `dy = search_vertical/2`)
such that the block's samples are those of `R` displaced by `o`, while for no offset
scanned before `o` in the first step they are those of `R` displaced by that offset.
Then segmentation and matching return, and that block gets the motion vector `o`
with final distortion 0. -/
theorem C3_translation_first_step (cfg : Config) (fuel : Nat) (R T : Image)
    (vert horiz : Int) (l1 l2 : List (Int × Int)) (o : Int × Int)
    (hw : 0 < cfg.block_width) (hh : 0 < cfg.block_height)
    (hsh : 4 ≤ cfg.search_horizontal) (hsv : 4 ≤ cfg.search_vertical) (hf : 4 ≤ fuel)
    (hext : R.chans = T.chans ∧ R.rows = T.rows ∧ R.cols = T.cols)
    (hv : 0 ≤ vert ∧ vert < T.get_rows.tdiv cfg.block_height)
    (hz : 0 ≤ horiz ∧ horiz < T.get_cols.tdiv cfg.block_width)
    (hl : Assignment1.Nine_Offsets (cfg.search_horizontal.tdiv 2) (cfg.search_vertical.tdiv 2)
      = l1 ++ o :: l2)
    (hint : (cfg.search_horizontal + cfg.block_width ≤ horiz * cfg.block_width ∧
        horiz * cfg.block_width + cfg.block_width + (cfg.search_horizontal + cfg.block_width)
          ≤ T.get_cols) ∧
      (cfg.search_vertical + cfg.block_height ≤ vert * cfg.block_height ∧
        vert * cfg.block_height + cfg.block_height + (cfg.search_vertical + cfg.block_height)
          ≤ T.get_rows))
    (hshift : ∀ a b c, (0 ≤ a ∧ a < (T.chans : Int)) → (0 ≤ b ∧ b < cfg.block_height) →
      (0 ≤ c ∧ c < cfg.block_width) →
      T.pix a (vert * cfg.block_height + b) (horiz * cfg.block_width + c) =
        R.pix a (vert * cfg.block_height + o.2 + b) (horiz * cfg.block_width + o.1 + c))
    (hfirst : ∀ o' ∈ l1, ¬ ∀ a b c, (0 ≤ a ∧ a < (T.chans : Int)) →
      (0 ≤ b ∧ b < cfg.block_height) → (0 ≤ c ∧ c < cfg.block_width) →
      T.pix a (vert * cfg.block_height + b) (horiz * cfg.block_width + c) =
        R.pix a (vert * cfg.block_height + o'.2 + b) (horiz * cfg.block_width + o'.1 + c)) :
    ∃ blocks ms m, Assignment1.Set_Macroblocks cfg T [] = some blocks ∧
      Assignment1.Match_All cfg fuel R blocks = some ms ∧
      ms[(vert * T.get_cols.tdiv cfg.block_width + horiz).toNat]? = some (m, FVal.val 0) ∧
      (m.block_location_x = horiz * cfg.block_width ∧
        m.block_location_y = vert * cfg.block_height) ∧
      (m.motion_vector_x = o.1 ∧ m.motion_vector_y = o.2) := by
  obtain ⟨blocks, hb, hall, hcover⟩ := Set_Macroblocks_cover cfg T hw hh
  obtain ⟨ms, hms, _, hget⟩ := Match_All_total cfg fuel R T blocks hw hh hsh hsv hf hext hall
  obtain ⟨mb, hk, hIs⟩ := hcover vert horiz hv hz
  have hOK := Search_OK_of_block cfg R T vert horiz mb hw hh hsh hsv
    (chans_pos_of_grid cfg T horiz hw hz) hext hIs
  obtain ⟨⟨ex, ey⟩, ⟨dc, _, _⟩, hpix, ⟨_, hxs, _, hys⟩, _⟩ := hIs
  have hreg : ∀ o' : Int × Int,
      Assignment1.Region_Eq cfg mb.block R (mb.block_location_x + o'.1)
        (mb.block_location_y + o'.2) ↔
      ∀ a b c, (0 ≤ a ∧ a < (T.chans : Int)) →
        (0 ≤ b ∧ b < cfg.block_height) → (0 ≤ c ∧ c < cfg.block_width) →
        T.pix a (vert * cfg.block_height + b) (horiz * cfg.block_width + c) =
          R.pix a (vert * cfg.block_height + o'.2 + b) (horiz * cfg.block_width + o'.1 + c) := by
    intro o'
    unfold Assignment1.Region_Eq
    rw [dc, ex, ey]
    constructor
    · intro h a b c ha hb hc
      rw [← hpix a b c ha hb hc]
      exact h a b c ha hb hc
    · intro h a b c ha hb hc
      rw [hpix a b c ha hb hc]
      exact h a b c ha hb hc
  have hmem : o ∈ Assignment1.Nine_Offsets (cfg.search_horizontal.tdiv 2)
      (cfg.search_vertical.tdiv 2) := by rw [hl]; simp
  have hd0x := first_dist _ hsh
  have hd0y := first_dist _ hsv
  obtain ⟨⟨b1, b2⟩, ⟨b3, b4⟩⟩ := Nine_Offsets_bound _ _ (by omega) (by omega) o hmem
  have ux : cfg.search_horizontal.tdiv 2 ≤ cfg.search_horizontal := by
    rw [Int.tdiv_eq_ediv (by omega) (by omega)]; omega
  have uy : cfg.search_vertical.tdiv 2 ≤ cfg.search_vertical := by
    rw [Int.tdiv_eq_ediv (by omega) (by omega)]; omega
  have hhit : Assignment1.Cand_Hit cfg R (Assignment1.Search_Init cfg mb) o.1 o.2 := by
    refine ⟨⟨⟨?_, ?_⟩, ⟨?_, ?_⟩⟩, (hreg o).mpr hshift⟩
    · show 0 ≤ mb.block_location_x + o.1
      omega
    · show mb.block_location_x + o.1 + cfg.block_width ≤ mb.search_location_x_stop
      rw [hxs, ex]
      apply le_min <;> omega
    · show 0 ≤ mb.block_location_y + o.2
      omega
    · show mb.block_location_y + o.2 + cfg.block_height ≤ mb.search_location_y_stop
      rw [hys, ey]
      apply le_min <;> omega
  have hmiss : ∀ o' ∈ l1,
      ¬ Assignment1.Cand_Hit cfg R (Assignment1.Search_Init cfg mb) o'.1 o'.2 := by
    intro o' ho' hh'
    exact hfirst o' ho' ((hreg o').mp hh'.2)
  obtain ⟨m, hm, hmv, hloc⟩ :=
    Match_Macroblock_first_hit cfg fuel R mb hOK hsh hsv hf l1 l2 o hl hmiss hhit
  obtain ⟨r, hr, hM⟩ := hget _ mb hk
  rw [hm] at hM
  have e : r = (m, FVal.val 0) := (Option.some.inj hM).symm
  subst e
  exact ⟨blocks, ms, m, hb, hms, hr, ⟨by rw [hloc.2.1, ex], by rw [hloc.2.2, ey]⟩, hmv⟩

/-- Witness of C3 (amended): blocks of one sample, radii 8, the reference `ref19` and
the target `upleft19`, whose block at row 9, column 9 holds the sample of `ref19` at
offset `(-4, -4)`, the first offset scanned. -/
theorem C3_translation_first_step_witness :
    ((0 : Int) < cfgR8.block_width ∧ (0 : Int) < cfgR8.block_height ∧
      4 ≤ cfgR8.search_horizontal ∧ 4 ≤ cfgR8.search_vertical ∧
      (cfgR8.search_horizontal + cfgR8.block_width ≤ 9 * cfgR8.block_width ∧
        9 * cfgR8.block_width + cfgR8.block_width +
          (cfgR8.search_horizontal + cfgR8.block_width) ≤ upleft19.get_cols) ∧
      (∀ a b c, (0 ≤ a ∧ a < (upleft19.chans : Int)) → (0 ≤ b ∧ b < cfgR8.block_height) →
        (0 ≤ c ∧ c < cfgR8.block_width) →
        upleft19.pix a (9 * cfgR8.block_height + b) (9 * cfgR8.block_width + c) =
          ref19.pix a (9 * cfgR8.block_height + (-4) + b) (9 * cfgR8.block_width + (-4) + c))) ∧
    ∃ blocks ms m, Assignment1.Set_Macroblocks cfgR8 upleft19 [] = some blocks ∧
      Assignment1.Match_All cfgR8 4 ref19 blocks = some ms ∧
      ms[180]? = some (m, FVal.val 0) ∧
      (m.block_location_x = 9 ∧ m.block_location_y = 9) ∧
      (m.motion_vector_x = -4 ∧ m.motion_vector_y = -4) := by
  have hshift : ∀ a b c, (0 ≤ a ∧ a < (upleft19.chans : Int)) →
      (0 ≤ b ∧ b < cfgR8.block_height) → (0 ≤ c ∧ c < cfgR8.block_width) →
      upleft19.pix a (9 * cfgR8.block_height + b) (9 * cfgR8.block_width + c) =
        ref19.pix a (9 * cfgR8.block_height + (-4) + b) (9 * cfgR8.block_width + (-4) + c) := by
    intro a b c _ _ _
    show 19 * (9 * 1 + b + -4) + (9 * 1 + c + -4) = 19 * (9 * 1 + -4 + b) + (9 * 1 + -4 + c)
    ring
  refine ⟨⟨by decide, by decide, by decide, by decide, by decide, hshift⟩, ?_⟩
  exact C3_translation_first_step cfgR8 4 ref19 upleft19 9 9 []
    [(-4, 0), (-4, 4), (0, -4), (0, 0), (0, 4), (4, -4), (4, 0), (4, 4)] (-4, -4)
    (by decide) (by decide) (by decide) (by decide) (le_refl 4) ⟨rfl, rfl, rfl⟩
    (by decide) (by decide) (by decide) (by decide) hshift
    (by intro o' ho'; simp at ho')

/-- Counterexample to C3 as stated: blocks of one sample, radii 8, the reference
`ref19`, whose samples are all different, and the target `right19`, which is `ref19`
translated by `(dx, dy) = (8, 0)`, with `|dx| <= search_horizontal`.  The block at row
9, column 9 is 9 = radius + block size away from every edge and its sample is that of
the reference displaced by `(8, 0)`, yet its motion vector is not `(8, 0)`: the three
step distances are 4, 2 and 1, so the search cannot move by more than 7. -/
theorem C3_counterexample_out_of_reach :
    ((4 ≤ cfgR8.search_horizontal ∧ 4 ≤ cfgR8.search_vertical ∧
        |(8 : Int)| ≤ cfgR8.search_horizontal ∧ |(0 : Int)| ≤ cfgR8.search_vertical) ∧
      (cfgR8.search_horizontal + cfgR8.block_width ≤ 9 ∧
        9 + cfgR8.block_width + (cfgR8.search_horizontal + cfgR8.block_width)
          ≤ right19.get_cols ∧
        cfgR8.search_vertical + cfgR8.block_height ≤ 9 ∧
        9 + cfgR8.block_height + (cfgR8.search_vertical + cfgR8.block_height)
          ≤ right19.get_rows) ∧
      (∀ a b c, right19.pix a (9 + b) (9 + c) = ref19.pix a (9 + b + 0) (9 + c + 8))) ∧
    ∃ blocks ms r, Assignment1.Set_Macroblocks cfgR8 right19 [] = some blocks ∧
      Assignment1.Match_All cfgR8 4 ref19 blocks = some ms ∧
      ms[180]? = some r ∧
      (r.1.block_location_x = 9 ∧ r.1.block_location_y = 9) ∧
      r.1.motion_vector_x ≠ 8 := by
  refine ⟨⟨⟨by decide, by decide, by decide, by decide⟩,
    ⟨by decide, by decide, by decide, by decide⟩, ?_⟩, ?_⟩
  · intro a b c
    show 19 * (9 + b) + (9 + c + 8) = 19 * (9 + b + 0) + (9 + c + 8)
    ring
  have hw : (0 : Int) < cfgR8.block_width := by decide
  have hh : (0 : Int) < cfgR8.block_height := by decide
  have hsh : 4 ≤ cfgR8.search_horizontal := by decide
  have hsv : 4 ≤ cfgR8.search_vertical := by decide
  obtain ⟨blocks, hb, hall, hcover⟩ := Set_Macroblocks_cover cfgR8 right19 hw hh
  obtain ⟨ms, hms, _, hget⟩ := Match_All_total cfgR8 4 ref19 right19 blocks hw hh hsh hsv
    (le_refl 4) ⟨rfl, rfl, rfl⟩ hall
  obtain ⟨mb, hk, hIs⟩ := hcover 9 9 (by decide) (by decide)
  have e180 : (9 * right19.get_cols.tdiv cfgR8.block_width + 9).toNat = 180 := by decide
  rw [e180] at hk
  have hOK := Search_OK_of_block cfgR8 ref19 right19 9 9 mb hw hh hsh hsv (by decide)
    ⟨rfl, rfl, rfl⟩ hIs
  obtain ⟨⟨ex, ey⟩, _⟩ := hIs
  have ex' : mb.block_location_x = 9 := by rw [ex]; decide
  have ey' : mb.block_location_y = 9 := by rw [ey]; decide
  obtain ⟨m, v, hm, hloc, hr⟩ := Match_Macroblock_reach cfgR8 4 ref19 mb hOK hsh hsv (le_refl 4)
  obtain ⟨r, hrk, hM⟩ := hget 180 mb hk
  rw [hm] at hM
  have e : r = (m, v) := (Option.some.inj hM).symm
  subst e
  refine ⟨blocks, ms, (m, v), hb, hms, hrk, ⟨by rw [hloc.2.1, ex'], by rw [hloc.2.2, ey']⟩, ?_⟩
  have e0 : cfgR8.search_horizontal.tdiv 2 = 4 := by decide
  have e1 : ((4 : Int) + (4 : Int).tdiv 2 - 1).tdiv ((4 : Int).tdiv 2) = 2 := by decide
  rw [e0, e1, ex'] at hr
  show m.motion_vector_x ≠ 8
  omega

/-! ## The distortion metric (C11, C12, C13) -/

theorem extents_of_pos (A : Image) (hne : 0 < A.chans) :
    A.channels = A.chans ∧ A.get_rows = A.rows ∧ A.get_cols = A.cols := by
  have hch0 : A.channels > 0 := by unfold Image.channels; omega
  refine ⟨rfl, ?_, ?_⟩
  · unfold Image.get_rows; rw [if_pos hch0]
  · unfold Image.get_cols; rw [if_pos hch0]

/-- Function `MSE` on non-empty blocks of identical extents returns the `float` value
`Float_Mean` of the sample differences. -/
theorem MSE_float_mean (A B : Image)
    (hne : 0 < A.chans ∧ 0 < A.rows ∧ 0 < A.cols)
    (hd : A.chans = B.chans ∧ A.rows = B.rows ∧ A.cols = B.cols) :
    MSE A B = some (FVal.val (Float_Mean (fun channel row col =>
      A.pix channel row col - B.pix channel row col) A.chans A.rows A.cols)) := by
  obtain ⟨e1, e2, e3⟩ := extents_of_pos A hne.1
  have hn : ((A.chans : Int) * A.rows * A.cols) ≠ 0 := by
    have : 0 < A.chans * A.rows * A.cols := Nat.mul_pos (Nat.mul_pos hne.1 hne.2.1) hne.2.2
    exact_mod_cast this.ne'
  rw [MSE_formula A B ⟨by omega, by omega, by omega⟩, e1, e2, e3, if_neg hn]

/-- Function `MSE` on non-empty blocks of identical extents returns the exact mean of the
squared differences rounded once, when the sum of the squared differences and the
number of samples are at most `2^24`. -/
theorem MSE_rounded_mean (A B : Image)
    (hne : 0 < A.chans ∧ 0 < A.rows ∧ 0 < A.cols)
    (hd : A.chans = B.chans ∧ A.rows = B.rows ∧ A.cols = B.cols)
    (hs : (∑ t ∈ Finset.Ico (0 : Int) A.chans ×ˢ Finset.Ico (0 : Int) A.rows ×ˢ
        Finset.Ico (0 : Int) A.cols, (A.pix t.1 t.2.1 t.2.2 - B.pix t.1 t.2.1 t.2.2) ^ 2) ≤
        2 ^ 24)
    (hc : (A.chans : Int) * A.rows * A.cols ≤ 2 ^ 24) :
    MSE A B = some (FVal.val (F32 (Mean_Square (fun channel row col =>
      A.pix channel row col - B.pix channel row col) A.chans A.rows A.cols))) := by
  rw [MSE_float_mean A B hne hd, Float_Mean_exact (fun channel row col =>
    A.pix channel row col - B.pix channel row col) A.chans A.rows A.cols
    (Int.natCast_nonneg _) (Int.natCast_nonneg _) (Int.natCast_nonneg _) hs hc]

/-- The squared differences of the blocks `block100` and `block000` add up to 1. -/
theorem block100_sum :
    (∑ t ∈ Finset.Ico (0 : Int) block100.chans ×ˢ Finset.Ico (0 : Int) block100.rows ×ˢ
      Finset.Ico (0 : Int) block100.cols,
      (block100.pix t.1 t.2.1 t.2.2 - block000.pix t.1 t.2.1 t.2.2) ^ 2) = 1 := by
  have e1 : Finset.Ico (0 : Int) ((block100.chans : Nat) : Int) = {0} := by decide
  have e2 : Finset.Ico (0 : Int) ((block100.rows : Nat) : Int) = {0} := by decide
  have e3 : Finset.Ico (0 : Int) ((block100.cols : Nat) : Int) = {0, 1, 2} := by decide
  rw [e1, e2, e3, Finset.sum_product, Finset.sum_singleton, Finset.sum_product,
    Finset.sum_singleton, Finset.sum_insert (by decide), Finset.sum_insert (by decide),
    Finset.sum_singleton]
  decide

/-- The squared differences of the blocks `blockA` and `blockB` add up to 6. -/
theorem blockAB_sum :
    (∑ t ∈ Finset.Ico (0 : Int) blockA.chans ×ˢ Finset.Ico (0 : Int) blockA.rows ×ˢ
      Finset.Ico (0 : Int) blockA.cols,
      (blockA.pix t.1 t.2.1 t.2.2 - blockB.pix t.1 t.2.1 t.2.2) ^ 2) = 6 := by
  have e1 : Finset.Ico (0 : Int) ((blockA.chans : Nat) : Int) = {0} := by decide
  have e2 : Finset.Ico (0 : Int) ((blockA.rows : Nat) : Int) = {0, 1} := by decide
  have e3 : Finset.Ico (0 : Int) ((blockA.cols : Nat) : Int) = {0, 1} := by decide
  rw [e1, e2, e3, Finset.sum_product, Finset.sum_singleton, Finset.sum_product,
    Finset.sum_insert (by decide), Finset.sum_singleton, Finset.sum_insert (by decide),
    Finset.sum_singleton, Finset.sum_insert (by decide), Finset.sum_singleton]
  decide

/-- Counterexample to C11 as stated: for the blocks of one row of three samples
`1, 0, 0` and `0, 0, 0` the squared differences add up to 1 and the exact mean is
`1/3`, which no `float` holds; `MSE` returns the `float` nearest to it,
`11184811 / 33554432` (printed as 0.33333334). -/
theorem C11_counterexample_one_third :
    ((0 < block100.chans ∧ 0 < block100.rows ∧ 0 < block100.cols) ∧
      (block100.chans = block000.chans ∧ block100.rows = block000.rows ∧
        block100.cols = block000.cols)) ∧
    Mean_Square (fun channel row col =>
      block100.pix channel row col - block000.pix channel row col)
      block100.chans block100.rows block100.cols = 1 / 3 ∧
    MSE block100 block000 = some (FVal.val (11184811 / 33554432)) ∧
    MSE block100 block000 ≠ some (FVal.val (Mean_Square (fun channel row col =>
      block100.pix channel row col - block000.pix channel row col)
      block100.chans block100.rows block100.cols)) := by
  have hm : Mean_Square (fun channel row col =>
      block100.pix channel row col - block000.pix channel row col)
      block100.chans block100.rows block100.cols = 1 / 3 := by
    unfold Mean_Square
    have e := block100_sum
    have e2 : (∑ t ∈ Finset.Ico (0 : Int) block100.chans ×ˢ
        Finset.Ico (0 : Int) block100.rows ×ˢ Finset.Ico (0 : Int) block100.cols,
        (((block100.pix t.1 t.2.1 t.2.2 - block000.pix t.1 t.2.1 t.2.2 : Int) : ℚ)) ^ 2) =
        ((1 : Int) : ℚ) := by
      rw [← e]
      push_cast
      rfl
    rw [e2]
    norm_num [block100]
  have hM := MSE_rounded_mean block100 block000 ⟨by decide, by decide, by decide⟩
    ⟨rfl, rfl, rfl⟩ (by rw [block100_sum]; norm_num) (by decide)
  rw [hm, F32_third] at hM
  refine ⟨⟨⟨by decide, by decide, by decide⟩, ⟨rfl, rfl, rfl⟩⟩, hm, hM, ?_⟩
  rw [hM, hm]
  intro h
  have h2 : (11184811 / 33554432 : ℚ) = 1 / 3 := FVal.val.inj (Option.some.inj h)
  norm_num at h2

/-- C11 (amended): for every pair of non-empty blocks `A` and `B` with identical channel,
row and column counts, `MSE A B` returns the `float` value `Float_Mean` of the sample
differences: the squared differences accumulated in `float` in the order of the loops,
divided in `float` by the number of samples.  When the sum of the squared differences
and the number of samples are at most `2^24`, no step before the division is rounded
and the result is the exact mean `Mean_Square` of the squared differences rounded once
to the nearest `float`. -/
theorem C11_MSE_mean_of_squares (A B : Image)
    (hne : 0 < A.chans ∧ 0 < A.rows ∧ 0 < A.cols)
    (hd : A.chans = B.chans ∧ A.rows = B.rows ∧ A.cols = B.cols) :
    MSE A B = some (FVal.val (Float_Mean (fun channel row col =>
      A.pix channel row col - B.pix channel row col) A.chans A.rows A.cols)) ∧
    ((∑ t ∈ Finset.Ico (0 : Int) A.chans ×ˢ Finset.Ico (0 : Int) A.rows ×ˢ
        Finset.Ico (0 : Int) A.cols, (A.pix t.1 t.2.1 t.2.2 - B.pix t.1 t.2.1 t.2.2) ^ 2) ≤
        2 ^ 24 →
      ((A.chans : Int) * A.rows * A.cols ≤ 2 ^ 24) →
      MSE A B = some (FVal.val (F32 (Mean_Square (fun channel row col =>
        A.pix channel row col - B.pix channel row col) A.chans A.rows A.cols)))) := by
  exact ⟨MSE_float_mean A B hne hd, fun hs hc => MSE_rounded_mean A B hne hd hs hc⟩

/-- Witness of C11 (amended): two blocks of one channel and 2 by 2 samples; the sum of
the squared differences is 6 and there are 4 samples. -/
theorem C11_MSE_mean_of_squares_witness :
    ((0 < blockA.chans ∧ 0 < blockA.rows ∧ 0 < blockA.cols) ∧
      (blockA.chans = blockB.chans ∧ blockA.rows = blockB.rows ∧ blockA.cols = blockB.cols)) ∧
    MSE blockA blockB = some (FVal.val (Float_Mean (fun channel row col =>
      blockA.pix channel row col - blockB.pix channel row col)
      blockA.chans blockA.rows blockA.cols)) ∧
    MSE blockA blockB = some (FVal.val (F32 (Mean_Square (fun channel row col =>
      blockA.pix channel row col - blockB.pix channel row col)
      blockA.chans blockA.rows blockA.cols))) :=
  ⟨⟨⟨by decide, by decide, by decide⟩, ⟨rfl, rfl, rfl⟩⟩,
    (C11_MSE_mean_of_squares blockA blockB ⟨by decide, by decide, by decide⟩
      ⟨rfl, rfl, rfl⟩).1,
    (C11_MSE_mean_of_squares blockA blockB ⟨by decide, by decide, by decide⟩
      ⟨rfl, rfl, rfl⟩).2 (by rw [blockAB_sum]; norm_num) (by decide)⟩

/-- C12: `MSE` is commutative: for every pair of blocks `A` and `B` with the same
channel, row and column counts, `MSE A B` and `MSE B A` return the same value. -/
theorem C12_MSE_commutative (A B : Image)
    (hd : A.chans = B.chans ∧ A.rows = B.rows ∧ A.cols = B.cols) :
    MSE A B = MSE B A := by
  have c1 : A.channels = B.channels := by unfold Image.channels; omega
  have c2 : A.get_rows = B.get_rows := by
    unfold Image.get_rows; rw [c1, hd.2.1]
  have c3 : A.get_cols = B.get_cols := by
    unfold Image.get_cols; rw [c1, hd.2.2]
  rw [MSE_formula A B ⟨by omega, by omega, by omega⟩,
    MSE_formula B A ⟨by omega, by omega, by omega⟩, c1, c2, c3]
  have hsum : Float_Mean (fun channel row col =>
      A.pix channel row col - B.pix channel row col) B.channels B.get_rows B.get_cols =
      Float_Mean (fun channel row col =>
      B.pix channel row col - A.pix channel row col) B.channels B.get_rows B.get_cols :=
    Float_Mean_congr _ _ _ _ _ (fun a b c _ _ _ => by ring)
  rw [hsum]

/-- Witness of C12: two blocks of one channel and 2 by 2 samples. -/
theorem C12_MSE_commutative_witness :
    (blockA.chans = blockB.chans ∧ blockA.rows = blockB.rows ∧ blockA.cols = blockB.cols) ∧
    MSE blockA blockB = MSE blockB blockA :=
  ⟨⟨rfl, rfl, rfl⟩, C12_MSE_commutative blockA blockB ⟨rfl, rfl, rfl⟩⟩

/-- Counterexample to C13 as stated: for the block without any sample (the
default-constructed image) `MSE A A` is `0.0 / 0.0`, not a number, and not 0. -/
theorem C13_counterexample_empty_block :
    MSE empty_image empty_image = some FVal.nan ∧
    MSE empty_image empty_image ≠ some (FVal.val 0) := by
  have h : MSE empty_image empty_image = some FVal.nan := by
    rw [MSE_formula empty_image empty_image ⟨le_refl _, le_refl _, le_refl _⟩]
    rfl
  refine ⟨h, ?_⟩
  rw [h]
  intro h'
  exact FVal.noConfusion (Option.some.inj h')

/-- C13 (amended): for every non-empty block `A`, `MSE A A` returns 0. -/
theorem C13_MSE_self_zero (A : Image) (hne : 0 < A.chans ∧ 0 < A.rows ∧ 0 < A.cols) :
    MSE A A = some (FVal.val 0) := by
  obtain ⟨q, hq, _, hz⟩ := MSE_spec A A hne ⟨le_refl _, le_refl _, le_refl _⟩
  have : q = 0 := hz.mpr (fun _ _ _ _ _ _ => rfl)
  rw [hq, this]

/-- Witness of C13 (amended): a block of one channel and 2 by 2 samples. -/
theorem C13_MSE_self_zero_witness :
    (0 < blockA.chans ∧ 0 < blockA.rows ∧ 0 < blockA.cols) ∧
    MSE blockA blockA = some (FVal.val 0) :=
  ⟨⟨by decide, by decide, by decide⟩, C13_MSE_self_zero blockA ⟨by decide, by decide, by decide⟩⟩

/-! ## The step distances (C19, C20) -/

/-- The recurrence of the step distance on a distance of at least 2: it gives 2 for an
even distance and 3 for an odd one. -/
theorem next_dist_value (d : Int) (hd : 2 ≤ d) :
    (d % 2 = 0 → (d + d.tdiv 2 - 1).tdiv (d.tdiv 2) = 2) ∧
    (d % 2 = 1 → (d + d.tdiv 2 - 1).tdiv (d.tdiv 2) = 3) := by
  have e : d.tdiv 2 = d / 2 := Int.tdiv_eq_ediv (by omega) (by omega)
  rw [e, Int.tdiv_eq_ediv (by omega) (by omega)]
  have h1 : 1 ≤ d / 2 := by omega
  constructor
  · intro hev
    have lo : 2 ≤ (d + d / 2 - 1) / (d / 2) := Int.le_ediv_of_mul_le (by omega) (by omega)
    have hi : (d + d / 2 - 1) / (d / 2) < 3 := Int.ediv_lt_of_lt_mul (by omega) (by omega)
    omega
  · intro hodd
    have lo : 3 ≤ (d + d / 2 - 1) / (d / 2) := Int.le_ediv_of_mul_le (by omega) (by omega)
    have hi : (d + d / 2 - 1) / (d / 2) < 4 := Int.ediv_lt_of_lt_mul (by omega) (by omega)
    omega

/-- The second step distance lies between 2 and 3, never exceeds the first one, and is
below it exactly when the first one is at least 4. -/
theorem next_dist_bounds (d : Int) (hd : 2 ≤ d) :
    (2 ≤ (d + d.tdiv 2 - 1).tdiv (d.tdiv 2) ∧ (d + d.tdiv 2 - 1).tdiv (d.tdiv 2) ≤ 3) ∧
    (d + d.tdiv 2 - 1).tdiv (d.tdiv 2) ≤ d ∧
    ((d + d.tdiv 2 - 1).tdiv (d.tdiv 2) < d ↔ 4 ≤ d) := by
  obtain ⟨hev, hodd⟩ := next_dist_value d hd
  rcases Int.emod_two_eq_zero_or_one d with h | h
  · rw [hev h]
    refine ⟨⟨by omega, by omega⟩, by omega, ?_⟩
    constructor <;> intro <;> omega
  · rw [hodd h]
    refine ⟨⟨by omega, by omega⟩, by omega, ?_⟩
    constructor <;> intro <;> omega

/-- The three steps run one after the other on the states `Search_Init`, `s1`, `s2`;
the step distances of these states, which the candidate loops of the steps use,
follow the schedule `radius/2`, the recurrence, 1. -/
theorem Three_Step_Search_dists (cfg : Config) (fuel : Nat) (frame_1 : Image)
    (mb : Assignment1.Macroblock)
    (hOK : Assignment1.Search_OK cfg frame_1 (Assignment1.Search_Init cfg mb))
    (hsh : 4 ≤ cfg.search_horizontal) (hsv : 4 ≤ cfg.search_vertical) (hf : 4 ≤ fuel) :
    ∃ s1 s2 s3,
      (Assignment1.Search_Step cfg fuel frame_1 0 (Assignment1.Search_Init cfg mb) = some s1 ∧
        Assignment1.Search_Step cfg fuel frame_1 1 s1 = some s2 ∧
        Assignment1.Search_Step cfg fuel frame_1 2 s2 = some s3 ∧
        Assignment1.Three_Step_Search cfg fuel frame_1 mb = some s3) ∧
      ((Assignment1.Search_Init cfg mb).search_dist_x = cfg.search_horizontal.tdiv 2 ∧
        s1.search_dist_x =
          (cfg.search_horizontal.tdiv 2 + (cfg.search_horizontal.tdiv 2).tdiv 2 - 1).tdiv
            ((cfg.search_horizontal.tdiv 2).tdiv 2) ∧
        s2.search_dist_x = 1) ∧
      ((Assignment1.Search_Init cfg mb).search_dist_y = cfg.search_vertical.tdiv 2 ∧
        s1.search_dist_y =
          (cfg.search_vertical.tdiv 2 + (cfg.search_vertical.tdiv 2).tdiv 2 - 1).tdiv
            ((cfg.search_vertical.tdiv 2).tdiv 2) ∧
        s2.search_dist_y = 1) := by
  obtain ⟨s1, h1, ok1, _, _, _, dd1, _⟩ := Search_Step_reach cfg fuel frame_1 0 _ hOK
    (Or.inl rfl) (fun _ => ⟨first_dist _ hsh, first_dist _ hsv⟩) hf
  obtain ⟨s2, h2, ok2, _, _, _, _, dd2⟩ := Search_Step_reach cfg fuel frame_1 1 s1 ok1
    (Or.inr (Or.inl rfl)) (fun h => absurd h (by decide)) hf
  obtain ⟨s3, h3, _⟩ := Search_Step_reach cfg fuel frame_1 2 s2 ok2
    (Or.inr (Or.inr rfl)) (fun h => absurd h (by decide)) hf
  refine ⟨s1, s2, s3, ⟨h1, h2, h3, ?_⟩, ⟨rfl, (dd1 rfl).1, (dd2 rfl).1⟩,
    ⟨rfl, (dd1 rfl).2, (dd2 rfl).2⟩⟩
  unfold Assignment1.Three_Step_Search
  rw [forRange_three, h1, Option.some_bind, h2, Option.some_bind, h3]

/-- C19: for frames of equal extents, positive block sizes and radii of at least 4,
for every block of the target frame the three search steps run on step distances that
are, horizontally, `d0 = search_horizontal / 2`, then
`d1 = (d0 + d0/2 - 1) / (d0/2)`, then 1 (integer divisions), and vertically the same
schedule from `search_vertical`. -/
theorem C19_step_distance_schedule (cfg : Config) (fuel : Nat) (R T : Image)
    (hw : 0 < cfg.block_width) (hh : 0 < cfg.block_height)
    (hsh : 4 ≤ cfg.search_horizontal) (hsv : 4 ≤ cfg.search_vertical) (hf : 4 ≤ fuel)
    (hext : R.chans = T.chans ∧ R.rows = T.rows ∧ R.cols = T.cols) :
    ∃ blocks, Assignment1.Set_Macroblocks cfg T [] = some blocks ∧
      ∀ mb ∈ blocks, ∃ s1 s2 s3,
        (Assignment1.Search_Step cfg fuel R 0 (Assignment1.Search_Init cfg mb) = some s1 ∧
          Assignment1.Search_Step cfg fuel R 1 s1 = some s2 ∧
          Assignment1.Search_Step cfg fuel R 2 s2 = some s3 ∧
          Assignment1.Three_Step_Search cfg fuel R mb = some s3) ∧
        ((Assignment1.Search_Init cfg mb).search_dist_x = cfg.search_horizontal.tdiv 2 ∧
          s1.search_dist_x =
            (cfg.search_horizontal.tdiv 2 + (cfg.search_horizontal.tdiv 2).tdiv 2 - 1).tdiv
              ((cfg.search_horizontal.tdiv 2).tdiv 2) ∧
          s2.search_dist_x = 1) ∧
        ((Assignment1.Search_Init cfg mb).search_dist_y = cfg.search_vertical.tdiv 2 ∧
          s1.search_dist_y =
            (cfg.search_vertical.tdiv 2 + (cfg.search_vertical.tdiv 2).tdiv 2 - 1).tdiv
              ((cfg.search_vertical.tdiv 2).tdiv 2) ∧
          s2.search_dist_y = 1) := by
  obtain ⟨blocks, hb, hall, _⟩ := Set_Macroblocks_cover cfg T hw hh
  refine ⟨blocks, hb, ?_⟩
  intro mb hmem
  obtain ⟨k, hk⟩ := List.mem_iff_getElem?.mp hmem
  obtain ⟨vert, horiz, hv, hz, _, hIs⟩ := hall k mb hk
  have hOK := Search_OK_of_block cfg R T vert horiz mb hw hh hsh hsv
    (chans_pos_of_grid cfg T horiz hw hz) hext hIs
  exact Three_Step_Search_dists cfg fuel R mb hOK hsh hsv hf

/-- Witness of C19: the frame of 16 by 16 with blocks of 8 by 8 and radii 4. -/
theorem C19_step_distance_schedule_witness :
    ((0 : Int) < cfg8.block_width ∧ (0 : Int) < cfg8.block_height ∧
      4 ≤ cfg8.search_horizontal ∧ 4 ≤ cfg8.search_vertical) ∧
    ∃ blocks, Assignment1.Set_Macroblocks cfg8 frame16 [] = some blocks ∧
      ∀ mb ∈ blocks, ∃ s1 s2 s3,
        (Assignment1.Search_Step cfg8 4 frame16 0 (Assignment1.Search_Init cfg8 mb) = some s1 ∧
          Assignment1.Search_Step cfg8 4 frame16 1 s1 = some s2 ∧
          Assignment1.Search_Step cfg8 4 frame16 2 s2 = some s3 ∧
          Assignment1.Three_Step_Search cfg8 4 frame16 mb = some s3) ∧
        ((Assignment1.Search_Init cfg8 mb).search_dist_x = cfg8.search_horizontal.tdiv 2 ∧
          s1.search_dist_x =
            (cfg8.search_horizontal.tdiv 2 + (cfg8.search_horizontal.tdiv 2).tdiv 2 - 1).tdiv
              ((cfg8.search_horizontal.tdiv 2).tdiv 2) ∧
          s2.search_dist_x = 1) ∧
        ((Assignment1.Search_Init cfg8 mb).search_dist_y = cfg8.search_vertical.tdiv 2 ∧
          s1.search_dist_y =
            (cfg8.search_vertical.tdiv 2 + (cfg8.search_vertical.tdiv 2).tdiv 2 - 1).tdiv
              ((cfg8.search_vertical.tdiv 2).tdiv 2) ∧
          s2.search_dist_y = 1) :=
  ⟨⟨by decide, by decide, by decide, by decide⟩,
    C19_step_distance_schedule cfg8 4 frame16 frame16 (by decide) (by decide) (by decide)
      (by decide) (le_refl 4) ⟨rfl, rfl, rfl⟩⟩

/-- Counterexample to C20 as stated: with radii 4 on the frame of 16 by 16 and blocks of
8 by 8 there are 4 blocks, and for each of them the three steps run on the horizontal
step distances 2, 2 and 1, so the first distance is not greater than the second. -/
theorem C20_counterexample_radius_four :
    ∃ blocks, Assignment1.Set_Macroblocks cfg8 frame16 [] = some blocks ∧
      blocks.length = 4 ∧
      ∀ mb ∈ blocks, ∃ s1 s2 s3,
        (Assignment1.Search_Step cfg8 4 frame16 0 (Assignment1.Search_Init cfg8 mb) = some s1 ∧
          Assignment1.Search_Step cfg8 4 frame16 1 s1 = some s2 ∧
          Assignment1.Search_Step cfg8 4 frame16 2 s2 = some s3 ∧
          Assignment1.Three_Step_Search cfg8 4 frame16 mb = some s3) ∧
        ((Assignment1.Search_Init cfg8 mb).search_dist_x = 2 ∧ s1.search_dist_x = 2 ∧
          s2.search_dist_x = 1) ∧
        ¬ ((Assignment1.Search_Init cfg8 mb).search_dist_x > s1.search_dist_x) := by
  have hw : (0 : Int) < cfg8.block_width := by decide
  have hh : (0 : Int) < cfg8.block_height := by decide
  have hsh : 4 ≤ cfg8.search_horizontal := by decide
  have hsv : 4 ≤ cfg8.search_vertical := by decide
  obtain ⟨blocks, hb, hlen, hall⟩ := Set_Macroblocks_spec cfg8 frame16 [] hw hh
  have e4 : frame16.get_rows.tdiv cfg8.block_height * frame16.get_cols.tdiv cfg8.block_width
      = 4 := by decide
  refine ⟨blocks, by simpa using hb, by rw [e4] at hlen; exact_mod_cast hlen, ?_⟩
  intro mb hmem
  obtain ⟨k, hk⟩ := List.mem_iff_getElem?.mp hmem
  obtain ⟨vert, horiz, hv, hz, _, hIs⟩ := hall k mb hk
  have hOK := Search_OK_of_block cfg8 frame16 frame16 vert horiz mb hw hh hsh hsv
    (by decide) ⟨rfl, rfl, rfl⟩ hIs
  obtain ⟨s1, s2, s3, hsteps, ⟨d0, d1, d2⟩, _⟩ :=
    Three_Step_Search_dists cfg8 4 frame16 mb hOK hsh hsv (le_refl 4)
  have e0 : cfg8.search_horizontal.tdiv 2 = 2 := by decide
  have e1 : ((2 : Int) + (2 : Int).tdiv 2 - 1).tdiv ((2 : Int).tdiv 2) = 2 := by decide
  rw [e0] at d0 d1
  rw [e1] at d1
  exact ⟨s1, s2, s3, hsteps, ⟨d0, d1, d2⟩, by rw [d0, d1]; decide⟩

/-- C20 (amended): for frames of equal extents, positive block sizes and radii of at
least 4, for every block the three step distances `d0`, `d1`, `d2` on which the steps
run satisfy `d0 >= d1 > d2 = 1` on each axis, and `d0 > d1` holds exactly when the
radius of that axis is at least 8. -/
theorem C20_step_distance_shrinks (cfg : Config) (fuel : Nat) (R T : Image)
    (hw : 0 < cfg.block_width) (hh : 0 < cfg.block_height)
    (hsh : 4 ≤ cfg.search_horizontal) (hsv : 4 ≤ cfg.search_vertical) (hf : 4 ≤ fuel)
    (hext : R.chans = T.chans ∧ R.rows = T.rows ∧ R.cols = T.cols) :
    ∃ blocks, Assignment1.Set_Macroblocks cfg T [] = some blocks ∧
      ∀ mb ∈ blocks, ∃ s1 s2 s3,
        (Assignment1.Search_Step cfg fuel R 0 (Assignment1.Search_Init cfg mb) = some s1 ∧
          Assignment1.Search_Step cfg fuel R 1 s1 = some s2 ∧
          Assignment1.Search_Step cfg fuel R 2 s2 = some s3 ∧
          Assignment1.Three_Step_Search cfg fuel R mb = some s3) ∧
        ((Assignment1.Search_Init cfg mb).search_dist_x ≥ s1.search_dist_x ∧
          s1.search_dist_x > s2.search_dist_x ∧ s2.search_dist_x = 1 ∧
          ((Assignment1.Search_Init cfg mb).search_dist_x > s1.search_dist_x ↔
            8 ≤ cfg.search_horizontal)) ∧
        ((Assignment1.Search_Init cfg mb).search_dist_y ≥ s1.search_dist_y ∧
          s1.search_dist_y > s2.search_dist_y ∧ s2.search_dist_y = 1 ∧
          ((Assignment1.Search_Init cfg mb).search_dist_y > s1.search_dist_y ↔
            8 ≤ cfg.search_vertical)) := by
  obtain ⟨blocks, hb, hall, _⟩ := Set_Macroblocks_cover cfg T hw hh
  refine ⟨blocks, hb, ?_⟩
  intro mb hmem
  obtain ⟨k, hk⟩ := List.mem_iff_getElem?.mp hmem
  obtain ⟨vert, horiz, hv, hz, _, hIs⟩ := hall k mb hk
  have hOK := Search_OK_of_block cfg R T vert horiz mb hw hh hsh hsv
    (chans_pos_of_grid cfg T horiz hw hz) hext hIs
  obtain ⟨s1, s2, s3, hsteps, ⟨x0, x1, x2⟩, ⟨y0, y1, y2⟩⟩ :=
    Three_Step_Search_dists cfg fuel R mb hOK hsh hsv hf
  have fx := first_dist _ hsh
  have fy := first_dist _ hsv
  obtain ⟨⟨bx1, _⟩, bx2, bx3⟩ := next_dist_bounds _ fx
  obtain ⟨⟨by1, _⟩, by2, by3⟩ := next_dist_bounds _ fy
  have ex : cfg.search_horizontal.tdiv 2 = cfg.search_horizontal / 2 :=
    Int.tdiv_eq_ediv (by omega) (by omega)
  have ey : cfg.search_vertical.tdiv 2 = cfg.search_vertical / 2 :=
    Int.tdiv_eq_ediv (by omega) (by omega)
  refine ⟨s1, s2, s3, hsteps, ⟨?_, ?_, x2, ?_⟩, ⟨?_, ?_, y2, ?_⟩⟩
  · rw [x0, x1]; exact bx2
  · rw [x1, x2]; omega
  · rw [x0, x1, gt_iff_lt, bx3]; omega
  · rw [y0, y1]; exact by2
  · rw [y1, y2]; omega
  · rw [y0, y1, gt_iff_lt, by3]; omega

/-- Witness of C20 (amended): blocks of one sample with radii 8 on the frame `ref19`. -/
theorem C20_step_distance_shrinks_witness :
    ((0 : Int) < cfgR8.block_width ∧ (0 : Int) < cfgR8.block_height ∧
      4 ≤ cfgR8.search_horizontal ∧ 4 ≤ cfgR8.search_vertical) ∧
    ∃ blocks, Assignment1.Set_Macroblocks cfgR8 ref19 [] = some blocks ∧
      ∀ mb ∈ blocks, ∃ s1 s2 s3,
        (Assignment1.Search_Step cfgR8 4 ref19 0 (Assignment1.Search_Init cfgR8 mb) = some s1 ∧
          Assignment1.Search_Step cfgR8 4 ref19 1 s1 = some s2 ∧
          Assignment1.Search_Step cfgR8 4 ref19 2 s2 = some s3 ∧
          Assignment1.Three_Step_Search cfgR8 4 ref19 mb = some s3) ∧
        ((Assignment1.Search_Init cfgR8 mb).search_dist_x ≥ s1.search_dist_x ∧
          s1.search_dist_x > s2.search_dist_x ∧ s2.search_dist_x = 1 ∧
          ((Assignment1.Search_Init cfgR8 mb).search_dist_x > s1.search_dist_x ↔
            8 ≤ cfgR8.search_horizontal)) ∧
        ((Assignment1.Search_Init cfgR8 mb).search_dist_y ≥ s1.search_dist_y ∧
          s1.search_dist_y > s2.search_dist_y ∧ s2.search_dist_y = 1 ∧
          ((Assignment1.Search_Init cfgR8 mb).search_dist_y > s1.search_dist_y ↔
            8 ≤ cfgR8.search_vertical)) :=
  ⟨⟨by decide, by decide, by decide, by decide⟩,
    C20_step_distance_shrinks cfgR8 4 ref19 ref19 (by decide) (by decide) (by decide)
      (by decide) (le_refl 4) ⟨rfl, rfl, rfl⟩⟩

/-! ## Small radii (C14) -/

/-- The loop on offsets with step distance 0 returns nothing, whatever the fuel and the
body: the loop variable stays at 0. -/
theorem forOffsets_zero_none {σ : Type} (body : Int → σ → Option σ) (fuel : Nat) (s : σ) :
    forOffsets 0 body fuel 0 s = none := by
  induction fuel generalizing s with
  | zero => rfl
  | succ f ih =>
    simp only [forOffsets]
    rw [if_pos (le_refl 0)]
    cases h : body 0 s with
    | none => rfl
    | some t => simpa using ih t

/-- The loop on offsets with a positive step distance needs fuel for its three
iterations and the final test. -/
theorem forOffsets_short {σ : Type} (d : Int) (body : Int → σ → Option σ) (fuel : Nat) (s : σ)
    (hd : 0 < d) (hf : fuel < 4) : forOffsets d body fuel (-d) s = none := by
  have e0 : -d + d = 0 := by ring
  have e1 : (0 : Int) + d = d := by ring
  have hn : ∀ (o : Option σ), (o.bind fun _ => (none : Option σ)) = none := by
    intro o; cases o <;> rfl
  have f0 : ∀ v t, forOffsets d body 0 v t = none := fun _ _ => rfl
  have f1 : ∀ t, forOffsets d body 1 d t = none := by
    intro t
    simp only [forOffsets]
    rw [if_pos (le_refl d)]
    exact hn _
  have f2 : ∀ t, forOffsets d body 2 0 t = none := by
    intro t
    simp only [forOffsets]
    rw [if_pos hd.le, e1]
    cases body 0 t with
    | none => rfl
    | some u => exact f1 u
  have f3 : ∀ t, forOffsets d body 3 (-d) t = none := by
    intro t
    simp only [forOffsets]
    rw [if_pos (by omega), e0]
    cases body (-d) t with
    | none => rfl
    | some u => exact f2 u
  have f1' : ∀ t, forOffsets d body 1 (-d) t = none := by
    intro t
    simp only [forOffsets]
    rw [if_pos (by omega)]
    exact hn _
  have f2' : ∀ t, forOffsets d body 2 (-d) t = none := by
    intro t
    simp only [forOffsets]
    rw [if_pos (by omega), e0]
    cases body (-d) t with
    | none => rfl
    | some u =>
      show forOffsets d body 1 0 u = none
      simp only [forOffsets]
      rw [if_pos hd.le]
      exact hn _
  rcases fuel with _ | _ | _ | _ | n
  · exact f0 _ _
  · exact f1' s
  · exact f2' s
  · exact f3 s
  · omega

/-- A macroblock built by `Set_Macroblocks` from a frame with the extents of `frame_1`
can be searched without failure as soon as the first step distances are positive. -/
theorem Search_OK_of_block_dist (cfg : Config) (frame_1 frame_2 : Image) (vert horiz : Int)
    (mb : Assignment1.Macroblock)
    (hw : 0 < cfg.block_width) (hh : 0 < cfg.block_height)
    (hdx : 0 < cfg.search_horizontal.tdiv 2) (hdy : 0 < cfg.search_vertical.tdiv 2)
    (hch : 0 < frame_2.chans)
    (hext : frame_1.chans = frame_2.chans ∧ frame_1.rows = frame_2.rows ∧
      frame_1.cols = frame_2.cols)
    (hIs : Assignment1.Is_Block_At cfg frame_2 vert horiz mb) :
    Assignment1.Search_OK cfg frame_1 (Assignment1.Search_Init cfg mb) := by
  obtain ⟨_, ⟨dc, dr, dk⟩, _, ⟨_, hxs, _, hys⟩, _⟩ := hIs
  have hgc := get_cols_le frame_2
  have hgr := get_rows_le frame_2
  refine ⟨⟨hw, hh⟩, ⟨by omega, by show mb.block.chans = frame_1.chans; omega, dr, dk⟩,
    ⟨?_, ?_⟩, ⟨hdx, hdy⟩⟩
  · show mb.search_location_x_stop ≤ (frame_1.cols : Int)
    rw [hxs, hext.2.2]
    exact le_trans (min_le_left _ _) hgc
  · show mb.search_location_y_stop ≤ (frame_1.rows : Int)
    rw [hys, hext.2.1]
    exact le_trans (min_le_left _ _) hgr

/-- The first search step divides by zero when the first horizontal step distance is
1 (radius 2 or 3): it returns nothing, whatever the fuel. -/
theorem Search_Step_dist_one (cfg : Config) (fuel : Nat) (frame_1 : Image)
    (st : Assignment1.SearchState) (hOK : Assignment1.Search_OK cfg frame_1 st)
    (hd : st.search_dist_x = 1) :
    Assignment1.Search_Step cfg fuel frame_1 0 st = none := by
  unfold Assignment1.Search_Step
  by_cases hf : 4 ≤ fuel
  · obtain ⟨m, nx, ny, hscan⟩ := Scan_List_gen cfg frame_1
      (Assignment1.Nine_Offsets st.search_dist_x st.search_dist_y) st hOK
      st.least_MSE st.new_least_MSE_x st.new_least_MSE_y
    rw [With_Best_self] at hscan
    rw [Scan_Candidates_eq cfg fuel frame_1 st hOK.2.2.2.1 hOK.2.2.2.2 hf, hscan]
    simp only [Option.some_bind, Option.bind_eq_bind, Assignment1.Finish_Step,
      Assignment1.Update_Search_Dist]
    rw [if_neg (by decide), if_pos (by decide)]
    have hz : (Assignment1.With_Best st m nx ny).search_dist_x.tdiv 2 = 0 := by
      show st.search_dist_x.tdiv 2 = 0
      rw [hd]; decide
    rw [if_pos (Or.inl hz)]
    rfl
  · unfold Assignment1.Scan_Candidates
    rw [forOffsets_short _ _ fuel st hOK.2.2.2.1 (by omega)]
    rfl

/-- The candidate loops of a step never end when the horizontal step distance is 0
(radius 1): they return nothing, whatever the fuel. -/
theorem Scan_Candidates_dist_zero (cfg : Config) (fuel : Nat) (frame_1 : Image)
    (st : Assignment1.SearchState) (hd : st.search_dist_x = 0) :
    Assignment1.Scan_Candidates cfg fuel frame_1 st = none := by
  unfold Assignment1.Scan_Candidates
  rw [hd]
  exact forOffsets_zero_none _ fuel st

/-- When the first search step of every macroblock returns nothing, so does
`Block_Match` on a frame that passes the dimension check and has a macroblock. -/
theorem Block_Match_none_of_first (cfg : Config) (fuel : Nat) (F recon : Image)
    (hw : 0 < cfg.block_width) (hh : 0 < cfg.block_height)
    (hdw : cfg.block_width ∣ F.get_cols) (hdh : cfg.block_height ∣ F.get_rows)
    (hne : 0 < F.get_rows.tdiv cfg.block_height * F.get_cols.tdiv cfg.block_width)
    (hfail : ∀ mb vert horiz, Assignment1.Is_Block_At cfg F vert horiz mb →
      (0 ≤ horiz ∧ horiz < F.get_cols.tdiv cfg.block_width) →
      Assignment1.Search_Step cfg fuel F 0 (Assignment1.Search_Init cfg mb) = none) :
    Assignment1.Block_Match cfg fuel F F recon = none := by
  obtain ⟨blocks, hb, hlen, hall⟩ := Set_Macroblocks_spec cfg F [] hw hh
  have hb' : Assignment1.Set_Macroblocks cfg F [] = some blocks := by simpa using hb
  cases hbl : blocks with
  | nil =>
    rw [hbl] at hlen
    have h0 : ((([] : List Assignment1.Macroblock).length : Nat) : Int) = 0 := rfl
    rw [h0] at hlen
    rw [← hlen] at hne
    exact absurd hne (lt_irrefl 0)
  | cons mb rest =>
    rw [hbl] at hall hb'
    obtain ⟨vert, horiz, _, hz, _, hIs⟩ := hall 0 mb (by simp)
    have h0 := hfail mb vert horiz hIs hz
    have hT : Assignment1.Three_Step_Search cfg fuel F mb = none := by
      unfold Assignment1.Three_Step_Search
      rw [forRange_three, h0]
      rfl
    have hM : Assignment1.Match_Macroblock cfg fuel F mb = none := by
      unfold Assignment1.Match_Macroblock
      rw [hT]; rfl
    have hA : Assignment1.Match_All cfg fuel F (mb :: rest) = none := by
      simp only [Assignment1.Match_All, hM]
      rfl
    unfold Assignment1.Block_Match
    rw [if_neg (by omega), if_neg (not_not.mpr ((tmod_eq_zero_iff_dvd _ _).mpr hdw)),
      if_neg (by omega), if_neg (not_not.mpr ((tmod_eq_zero_iff_dvd _ _).mpr hdh))]
    simp only [hb', hA, Option.some_bind, Option.bind_eq_bind]
    rfl

/-- C14, the code at two failing inputs: on the frame of 16 by 16 with blocks of 8 by
8, all four parameters positive, `Block_Match` returns nothing, whatever the fuel:
with radii 2 the first step distance is 1 and the recurrence divides by `1/2 = 0`
after the first step; with radii 1 the first step distance is 0 and the first
candidate loop never ends. -/
theorem C14_small_radii_fail :
    (∀ fuel recon, Assignment1.Block_Match cfg8r2 fuel frame16 frame16 recon = none) ∧
    (∀ fuel recon, Assignment1.Block_Match cfg8r1 fuel frame16 frame16 recon = none) ∧
    (∀ st : Assignment1.SearchState, st.search_dist_x = 1 →
      Assignment1.Update_Search_Dist 0 st = none) ∧
    (∀ fuel (st : Assignment1.SearchState), st.search_dist_x = 0 →
      Assignment1.Scan_Candidates cfg8r1 fuel frame16 st = none) := by
  refine ⟨?_, ?_, ?_, ?_⟩
  · intro fuel recon
    apply Block_Match_none_of_first cfg8r2 fuel frame16 recon (by decide) (by decide)
      (by decide) (by decide) (by decide)
    intro mb vert horiz hIs hz
    have hOK := Search_OK_of_block_dist cfg8r2 frame16 frame16 vert horiz mb (by decide)
      (by decide) (by decide) (by decide) (by decide) ⟨rfl, rfl, rfl⟩ hIs
    have hd : (Assignment1.Search_Init cfg8r2 mb).search_dist_x = 1 := by
      show cfg8r2.search_horizontal.tdiv 2 = 1
      decide
    exact Search_Step_dist_one cfg8r2 fuel frame16 _ hOK hd
  · intro fuel recon
    apply Block_Match_none_of_first cfg8r1 fuel frame16 recon (by decide) (by decide)
      (by decide) (by decide) (by decide)
    intro mb vert horiz _ _
    unfold Assignment1.Search_Step
    have hd : (Assignment1.Search_Init cfg8r1 mb).search_dist_x = 0 := by
      show cfg8r1.search_horizontal.tdiv 2 = 0
      decide
    rw [Scan_Candidates_dist_zero cfg8r1 fuel frame16 _ hd]
    rfl
  · intro st hd
    simp only [Assignment1.Update_Search_Dist]
    rw [if_neg (by decide), if_pos (by decide)]
    have hz : st.search_dist_x.tdiv 2 = 0 := by rw [hd]; decide
    rw [if_pos (Or.inl hz)]
  · intro fuel st hd
    exact Scan_Candidates_dist_zero cfg8r1 fuel frame16 st hd

/-! ## Reconstruction from disjoint blocks (C15, C16, C18) -/

theorem Disjoint_Dest_symm (cfg : Config) (p q : Int × Int)
    (h : Assignment1.Disjoint_Dest cfg p q) : Assignment1.Disjoint_Dest cfg q p :=
  fun i j hc => h i j ⟨hc.2, hc.1⟩

/-- Function `Reconstruct_Frame` on blocks with pairwise disjoint destination regions:
it returns, every sample of a destination region holds the sample of the displaced
source region, and every other sample is the one of the output frame passed in. -/
theorem Reconstruct_Frame_exact (cfg : Config) (prev : Image)
    (l : List Assignment1.Macroblock) (r0 : Image)
    (hw : 0 < cfg.block_width) (hh : 0 < cfg.block_height)
    (hch : r0.chans ≤ prev.chans)
    (hsrc : ∀ mb ∈ l, Assignment1.Source_In cfg prev mb)
    (hdst : ∀ mb ∈ l, Assignment1.Dest_In cfg r0 mb)
    (hdis : List.Pairwise
      (fun a b => Assignment1.Disjoint_Dest cfg (Assignment1.Anchor a) (Assignment1.Anchor b)) l) :
    ∃ r, Assignment1.Reconstruct_Frame cfg prev l r0 = some r ∧
      (r.chans = r0.chans ∧ r.rows = r0.rows ∧ r.cols = r0.cols) ∧
      (∀ mb ∈ l, ∀ a i j, (0 ≤ a ∧ a < (r0.chans : Int)) →
        Assignment1.Covers cfg (Assignment1.Anchor mb) i j →
        r.pix a i j = prev.pix a (i + mb.motion_vector_y) (j + mb.motion_vector_x)) ∧
      (∀ a i j, (¬ (0 ≤ a ∧ a < (r0.chans : Int)) ∨
          ∀ mb ∈ l, ¬ Assignment1.Covers cfg (Assignment1.Anchor mb) i j) →
        r.pix a i j = r0.pix a i j) := by
  induction l generalizing r0 with
  | nil =>
    refine ⟨r0, rfl, ⟨rfl, rfl, rfl⟩, ?_, fun _ _ _ _ => rfl⟩
    intro mb hmb
    simp at hmb
  | cons mb rest ih =>
    obtain ⟨⟨i1, i2⟩, ⟨i3, i4⟩⟩ := hsrc mb (List.mem_cons_self _ _)
    obtain ⟨⟨i5, i6⟩, ⟨i7, i8⟩⟩ := hdst mb (List.mem_cons_self _ _)
    obtain ⟨hhead, htail⟩ := List.pairwise_cons.mp hdis
    obtain ⟨r1, hr1, ⟨d1, d2, d3⟩, hpix⟩ := Modify_Image_Range_spec prev r0 0 r0.channels
      (mb.block_location_x + mb.motion_vector_x)
      (mb.block_location_x + mb.motion_vector_x + cfg.block_width)
      (mb.block_location_y + mb.motion_vector_y)
      (mb.block_location_y + mb.motion_vector_y + cfg.block_height)
      mb.block_location_x mb.block_location_y
      ⟨le_refl _, by unfold Image.channels; omega, by unfold Image.channels; omega,
        by unfold Image.channels; omega⟩
      ⟨i3, by omega, by omega⟩ ⟨i1, by omega, by omega⟩
      ⟨i7, by omega⟩ ⟨i5, by omega⟩
    obtain ⟨r, hr, ⟨e1, e2, e3⟩, hcov, hunt⟩ := ih r1 (by omega)
      (fun mb' hmb' => hsrc mb' (List.mem_cons_of_mem _ hmb'))
      (by
        intro mb' hmb'
        have := hdst mb' (List.mem_cons_of_mem _ hmb')
        unfold Assignment1.Dest_In at this ⊢
        rw [d2, d3]; exact this)
      htail
    -- the samples written for `mb` itself
    have hmbpix : ∀ a i j, (0 ≤ a ∧ a < (r0.chans : Int)) →
        Assignment1.Covers cfg (Assignment1.Anchor mb) i j →
        r1.pix a i j = prev.pix a (i + mb.motion_vector_y) (j + mb.motion_vector_x) := by
      intro a i j ha hc
      obtain ⟨⟨c1, c2⟩, ⟨c3, c4⟩⟩ := hc
      have c1' : mb.block_location_x ≤ j := c1
      have c2' : j < mb.block_location_x + cfg.block_width := c2
      have c3' : mb.block_location_y ≤ i := c3
      have c4' : i < mb.block_location_y + cfg.block_height := c4
      rw [hpix a i j, if_pos ⟨by unfold Image.channels; omega, by omega, by omega⟩]
      have ey : mb.block_location_y + mb.motion_vector_y + (i - mb.block_location_y) =
          i + mb.motion_vector_y := by ring
      have ex : mb.block_location_x + mb.motion_vector_x + (j - mb.block_location_x) =
          j + mb.motion_vector_x := by ring
      rw [ey, ex]
    have hother : ∀ a i j, (¬ (0 ≤ a ∧ a < (r0.chans : Int)) ∨
        ¬ Assignment1.Covers cfg (Assignment1.Anchor mb) i j) →
        r1.pix a i j = r0.pix a i j := by
      intro a i j h
      rw [hpix a i j, if_neg]
      rintro ⟨hc, hy, hx⟩
      rcases h with h | h
      · apply h
        unfold Image.channels at hc
        omega
      · apply h
        exact ⟨⟨by show mb.block_location_x ≤ j; omega,
            by show j < mb.block_location_x + cfg.block_width; omega⟩,
          ⟨by show mb.block_location_y ≤ i; omega,
            by show i < mb.block_location_y + cfg.block_height; omega⟩⟩
    refine ⟨r, ?_, ⟨by omega, by omega, by omega⟩, ?_, ?_⟩
    · simp only [Assignment1.Reconstruct_Frame, hr1, Option.some_bind, Option.bind_eq_bind]
      exact hr
    · intro mb' hmb' a i j ha hc
      rcases List.mem_cons.mp hmb' with rfl | hmem
      · rw [hunt a i j (Or.inr (fun b hb hcb => hhead b hb i j ⟨hc, hcb⟩))]
        exact hmbpix a i j ha hc
      · exact hcov mb' hmem a i j (by omega) hc
    · intro a i j h
      have h1 : r.pix a i j = r1.pix a i j := by
        apply hunt
        rcases h with h | h
        · left; intro hc; apply h; omega
        · right; intro b hb; exact h b (List.mem_cons_of_mem _ hb)
      rw [h1]
      apply hother
      rcases h with h | h
      · exact Or.inl h
      · exact Or.inr (h mb (List.mem_cons_self _ _))

/-- Two positions of a grid of step `w` whose cells share a coordinate are equal. -/
theorem block_index_unique (w a b j : Int) (hw : 0 < w)
    (ha : a * w ≤ j ∧ j < a * w + w) (hb : b * w ≤ j ∧ j < b * w + w) : a = b := by
  by_contra hne
  rcases lt_or_gt_of_ne hne with h | h
  · have := mul_succ_le_of_lt a b w hw h
    have e : (a + 1) * w = a * w + w := by ring
    omega
  · have := mul_succ_le_of_lt b a w hw h
    have e : (b + 1) * w = b * w + w := by ring
    omega

/-- The blocks built by `Set_Macroblocks` lie inside the frame and their destination
regions are pairwise disjoint. -/
theorem Set_Macroblocks_disjoint (cfg : Config) (frame : Image)
    (blocks : List Assignment1.Macroblock)
    (hw : 0 < cfg.block_width) (hh : 0 < cfg.block_height)
    (hb : Assignment1.Set_Macroblocks cfg frame [] = some blocks) :
    (∀ mb ∈ blocks, Assignment1.Dest_In cfg frame mb) ∧
    List.Pairwise
      (fun p q => Assignment1.Disjoint_Dest cfg p q) (blocks.map Assignment1.Anchor) := by
  obtain ⟨blocks', hb', _, hall⟩ := Set_Macroblocks_spec cfg frame [] hw hh
  have hbe : blocks' = blocks := by
    have h1 : Assignment1.Set_Macroblocks cfg frame [] = some blocks' := by simpa using hb'
    rw [hb] at h1
    exact (Option.some.inj h1).symm
  rw [hbe] at hall
  obtain ⟨_, hnh1, _⟩ := tdiv_block frame.get_cols cfg.block_width (get_cols_nonneg frame) hw
  obtain ⟨_, hnv1, _⟩ := tdiv_block frame.get_rows cfg.block_height (get_rows_nonneg frame) hh
  have hgc := get_cols_le frame
  have hgr := get_rows_le frame
  constructor
  · intro mb hmem
    obtain ⟨k, hk⟩ := List.mem_iff_getElem?.mp hmem
    obtain ⟨vert, horiz, hv, hz, _, hIs⟩ := hall k mb hk
    obtain ⟨⟨ex, ey⟩, _⟩ := hIs
    have h1 := mul_succ_le_of_lt horiz _ cfg.block_width hw hz.2
    have h2 := mul_succ_le_of_lt vert _ cfg.block_height hh hv.2
    have h3 : 0 ≤ horiz * cfg.block_width := Int.mul_nonneg hz.1 hw.le
    have h4 : 0 ≤ vert * cfg.block_height := Int.mul_nonneg hv.1 hh.le
    have e1 : (horiz + 1) * cfg.block_width = horiz * cfg.block_width + cfg.block_width := by ring
    have e2 : (vert + 1) * cfg.block_height = vert * cfg.block_height + cfg.block_height := by ring
    exact ⟨⟨by omega, by omega⟩, ⟨by omega, by omega⟩⟩
  · rw [List.pairwise_map, List.pairwise_iff_getElem]
    intro k1 k2 hk1 hk2 hlt i j hc
    obtain ⟨⟨⟨a1, a2⟩, ⟨a3, a4⟩⟩, ⟨⟨b1, b2⟩, ⟨b3, b4⟩⟩⟩ := hc
    obtain ⟨v1, z1, _, hz1, hkk1, hIs1⟩ := hall k1 blocks[k1] (List.getElem?_eq_getElem hk1)
    obtain ⟨v2, z2, _, hz2, hkk2, hIs2⟩ := hall k2 blocks[k2] (List.getElem?_eq_getElem hk2)
    obtain ⟨⟨ex1, ey1⟩, _⟩ := hIs1
    obtain ⟨⟨ex2, ey2⟩, _⟩ := hIs2
    have a1' : blocks[k1].block_location_x ≤ j := a1
    have a2' : j < blocks[k1].block_location_x + cfg.block_width := a2
    have a3' : blocks[k1].block_location_y ≤ i := a3
    have a4' : i < blocks[k1].block_location_y + cfg.block_height := a4
    have b1' : blocks[k2].block_location_x ≤ j := b1
    have b2' : j < blocks[k2].block_location_x + cfg.block_width := b2
    have b3' : blocks[k2].block_location_y ≤ i := b3
    have b4' : i < blocks[k2].block_location_y + cfg.block_height := b4
    have hz : z1 = z2 := block_index_unique cfg.block_width z1 z2 j hw
      ⟨by omega, by omega⟩ ⟨by omega, by omega⟩
    have hv : v1 = v2 := block_index_unique cfg.block_height v1 v2 i hh
      ⟨by omega, by omega⟩ ⟨by omega, by omega⟩
    rw [hz, hv] at hkk1
    have : (k1 : Int) = k2 := by rw [hkk1, hkk2]
    omega

/-- An array with the anchors of the array built by `Set_Macroblocks`, in the same
order, has its destination regions inside the frame and pairwise disjoint. -/
theorem same_anchors_disjoint (cfg : Config) (frame : Image)
    (blocks l : List Assignment1.Macroblock)
    (hw : 0 < cfg.block_width) (hh : 0 < cfg.block_height)
    (hb : Assignment1.Set_Macroblocks cfg frame [] = some blocks)
    (hl : l.map Assignment1.Anchor = blocks.map Assignment1.Anchor) :
    (∀ mb ∈ l, Assignment1.Dest_In cfg frame mb) ∧
    List.Pairwise
      (fun a b => Assignment1.Disjoint_Dest cfg (Assignment1.Anchor a) (Assignment1.Anchor b))
      l := by
  obtain ⟨hin, hp⟩ := Set_Macroblocks_disjoint cfg frame blocks hw hh hb
  constructor
  · intro mb hmem
    have h1 : Assignment1.Anchor mb ∈ l.map Assignment1.Anchor := List.mem_map_of_mem _ hmem
    rw [hl] at h1
    obtain ⟨mb', hmem', he⟩ := List.mem_map.mp h1
    have hx : mb'.block_location_x = mb.block_location_x := congrArg Prod.fst he
    have hy : mb'.block_location_y = mb.block_location_y := congrArg Prod.snd he
    have := hin mb' hmem'
    unfold Assignment1.Dest_In at this ⊢
    rw [hx, hy] at this
    exact this
  · rw [← hl, List.pairwise_map] at hp
    exact hp

/-- Function `Reconstruct_Frame` on two arrays with the same blocks in different orders
and pairwise disjoint destination regions returns the same frame. -/
theorem Reconstruct_Frame_perm (cfg : Config) (prev : Image)
    (l l2 : List Assignment1.Macroblock) (r0 : Image)
    (hw : 0 < cfg.block_width) (hh : 0 < cfg.block_height)
    (hch : r0.chans ≤ prev.chans)
    (hsrc : ∀ mb ∈ l, Assignment1.Source_In cfg prev mb)
    (hdst : ∀ mb ∈ l, Assignment1.Dest_In cfg r0 mb)
    (hdis : List.Pairwise
      (fun a b => Assignment1.Disjoint_Dest cfg (Assignment1.Anchor a) (Assignment1.Anchor b)) l)
    (hperm : l2.Perm l) :
    ∃ r, Assignment1.Reconstruct_Frame cfg prev l r0 = some r ∧
      Assignment1.Reconstruct_Frame cfg prev l2 r0 = some r := by
  have hdis2 : List.Pairwise
      (fun a b => Assignment1.Disjoint_Dest cfg (Assignment1.Anchor a) (Assignment1.Anchor b))
      l2 :=
    (List.Perm.pairwise_iff (fun {a b} h => Disjoint_Dest_symm cfg _ _ h) hperm).mpr hdis
  obtain ⟨r, hr, ⟨c1, c2, c3⟩, hcov, hunt⟩ :=
    Reconstruct_Frame_exact cfg prev l r0 hw hh hch hsrc hdst hdis
  obtain ⟨r2, hr2, ⟨e1, e2, e3⟩, hcov2, hunt2⟩ :=
    Reconstruct_Frame_exact cfg prev l2 r0 hw hh hch
      (fun mb hmb => hsrc mb (hperm.mem_iff.mp hmb))
      (fun mb hmb => hdst mb (hperm.mem_iff.mp hmb)) hdis2
  refine ⟨r, hr, ?_⟩
  rw [hr2]
  have hpix : r2.pix = r.pix := by
    funext a i j
    by_cases hc : (0 ≤ a ∧ a < (r0.chans : Int)) ∧
        ∃ mb ∈ l, Assignment1.Covers cfg (Assignment1.Anchor mb) i j
    · obtain ⟨ha, mb, hmb, hcv⟩ := hc
      rw [hcov mb hmb a i j ha hcv, hcov2 mb (hperm.mem_iff.mpr hmb) a i j ha hcv]
    · have hno : ¬ (0 ≤ a ∧ a < (r0.chans : Int)) ∨
          ∀ mb ∈ l, ¬ Assignment1.Covers cfg (Assignment1.Anchor mb) i j := by
        by_cases ha : 0 ≤ a ∧ a < (r0.chans : Int)
        · right
          intro mb hmb hcv
          exact hc ⟨ha, mb, hmb, hcv⟩
        · exact Or.inl ha
      rw [hunt a i j hno, hunt2 a i j]
      rcases hno with h | h
      · exact Or.inl h
      · exact Or.inr (fun mb hmb => h mb (hperm.mem_iff.mp hmb))
  cases r with
  | mk rc rr rk rp =>
    cases r2 with
    | mk sc sr sk sp =>
      simp only at c1 c2 c3 e1 e2 e3 hpix
      subst hpix
      congr 2 <;> omega

/-- The sample array `blocks.map Aim_Origin` keeps the anchors, and on the frame of 16
by 16 with blocks of 8 by 8 all its source regions are the top left block. -/
theorem Aim_Origin_facts (blocks : List Assignment1.Macroblock) :
    (blocks.map Aim_Origin).map Assignment1.Anchor = blocks.map Assignment1.Anchor ∧
    ∀ mb ∈ blocks.map Aim_Origin, Assignment1.Source_In cfg8 frame16 mb := by
  constructor
  · rw [List.map_map]
    rfl
  · intro mb hmb
    obtain ⟨m, _, rfl⟩ := List.mem_map.mp hmb
    have ex : (Aim_Origin m).block_location_x + (Aim_Origin m).motion_vector_x = 0 := by
      show m.block_location_x + -m.block_location_x = 0
      ring
    have ey : (Aim_Origin m).block_location_y + (Aim_Origin m).motion_vector_y = 0 := by
      show m.block_location_y + -m.block_location_y = 0
      ring
    unfold Assignment1.Source_In
    rw [ex, ey]
    decide

/-- C15: for the array built by `Set_Macroblocks` on a frame, with any motion vectors
whose displaced source regions lie inside the reference frame, and an output frame
with the extents of that frame and no more channels than the reference frame,
`Reconstruct_Frame` returns an output frame of the same extents in which, for every
block `b`, channel `ch`, `0 <= i < block_height` and `0 <= j < block_width`,
`out(ch, b.y + i, b.x + j) = ref(ch, b.y + b.motion_vector_y + i, b.x + b.motion_vector_x + j)`.
The extents need not be multiples of the block size. -/
theorem C15_reconstruct_displaced (cfg : Config) (frame ref out0 : Image)
    (blocks l : List Assignment1.Macroblock)
    (hw : 0 < cfg.block_width) (hh : 0 < cfg.block_height)
    (hb : Assignment1.Set_Macroblocks cfg frame [] = some blocks)
    (hl : l.map Assignment1.Anchor = blocks.map Assignment1.Anchor)
    (hout : out0.chans = frame.chans ∧ out0.rows = frame.rows ∧ out0.cols = frame.cols)
    (hch : frame.chans ≤ ref.chans)
    (hsrc : ∀ mb ∈ l, Assignment1.Source_In cfg ref mb) :
    ∃ out, Assignment1.Reconstruct_Frame cfg ref l out0 = some out ∧
      (out.chans = out0.chans ∧ out.rows = out0.rows ∧ out.cols = out0.cols) ∧
      ∀ b ∈ l, ∀ ch i j, (0 ≤ ch ∧ ch < out0.channels) →
        (0 ≤ i ∧ i < cfg.block_height) → (0 ≤ j ∧ j < cfg.block_width) →
        out.pix ch (b.block_location_y + i) (b.block_location_x + j) =
          ref.pix ch (b.block_location_y + b.motion_vector_y + i)
            (b.block_location_x + b.motion_vector_x + j) := by
  obtain ⟨hdst, hdis⟩ := same_anchors_disjoint cfg frame blocks l hw hh hb hl
  obtain ⟨out, ho, hd, hcov, _⟩ := Reconstruct_Frame_exact cfg ref l out0 hw hh (by omega) hsrc
    (by
      intro mb hmb
      have := hdst mb hmb
      unfold Assignment1.Dest_In at this ⊢
      rw [hout.2.1, hout.2.2]
      exact this)
    hdis
  refine ⟨out, ho, hd, ?_⟩
  intro b hbm ch i j hc hi hj
  have hcv : Assignment1.Covers cfg (Assignment1.Anchor b) (b.block_location_y + i)
      (b.block_location_x + j) :=
    ⟨⟨by show b.block_location_x ≤ b.block_location_x + j; omega,
        by show b.block_location_x + j < b.block_location_x + cfg.block_width; omega⟩,
      ⟨by show b.block_location_y ≤ b.block_location_y + i; omega,
        by show b.block_location_y + i < b.block_location_y + cfg.block_height; omega⟩⟩
  rw [hcov b hbm ch (b.block_location_y + i) (b.block_location_x + j) hc hcv]
  have ey : b.block_location_y + i + b.motion_vector_y =
      b.block_location_y + b.motion_vector_y + i := by ring
  have ex : b.block_location_x + j + b.motion_vector_x =
      b.block_location_x + b.motion_vector_x + j := by ring
  rw [ey, ex]

/-- Witness of C15: the four blocks of the frame of 16 by 16, each with the motion
vector that points to the top left block of the reference frame. -/
theorem C15_reconstruct_displaced_witness :
    ∃ blocks, Assignment1.Set_Macroblocks cfg8 frame16 [] = some blocks ∧
      ∃ out, Assignment1.Reconstruct_Frame cfg8 frame16 (blocks.map Aim_Origin) blank16 =
          some out ∧
        (out.chans = blank16.chans ∧ out.rows = blank16.rows ∧ out.cols = blank16.cols) ∧
        ∀ b ∈ blocks.map Aim_Origin, ∀ ch i j, (0 ≤ ch ∧ ch < blank16.channels) →
          (0 ≤ i ∧ i < cfg8.block_height) → (0 ≤ j ∧ j < cfg8.block_width) →
          out.pix ch (b.block_location_y + i) (b.block_location_x + j) =
            frame16.pix ch (b.block_location_y + b.motion_vector_y + i)
              (b.block_location_x + b.motion_vector_x + j) := by
  obtain ⟨blocks, hb, _⟩ := Set_Macroblocks_cover cfg8 frame16 (by decide) (by decide)
  exact ⟨blocks, hb, C15_reconstruct_displaced cfg8 frame16 frame16 blank16 blocks
    (blocks.map Aim_Origin) (by decide) (by decide) hb (Aim_Origin_facts blocks).1
    ⟨rfl, rfl, rfl⟩ (le_refl _) (Aim_Origin_facts blocks).2⟩

/-- When the extents of the frame are multiples of the block size, every sample
position `(i, j)` of the frame lies in the destination region of exactly one entry of
the array built by `Set_Macroblocks`. -/
theorem Set_Macroblocks_exactly_one (cfg : Config) (frame : Image)
    (hw : 0 < cfg.block_width) (hh : 0 < cfg.block_height)
    (hdw : cfg.block_width ∣ frame.get_cols) (hdh : cfg.block_height ∣ frame.get_rows) :
    ∃ blocks, Assignment1.Set_Macroblocks cfg frame [] = some blocks ∧
      ∀ i j, (0 ≤ i ∧ i < frame.get_rows) → (0 ≤ j ∧ j < frame.get_cols) →
        ∃! k : Nat, ∃ mb, blocks[k]? = some mb ∧
          Assignment1.Covers cfg (Assignment1.Anchor mb) i j := by
  obtain ⟨blocks, hb, hall, hcover⟩ := Set_Macroblocks_cover cfg frame hw hh
  refine ⟨blocks, hb, ?_⟩
  intro i j hi hj
  have hgc : frame.get_cols.tdiv cfg.block_width * cfg.block_width = frame.get_cols := by
    rw [Int.tdiv_eq_ediv (get_cols_nonneg frame) hw.le]
    exact Int.ediv_mul_cancel hdw
  have hgr : frame.get_rows.tdiv cfg.block_height * cfg.block_height = frame.get_rows := by
    rw [Int.tdiv_eq_ediv (get_rows_nonneg frame) hh.le]
    exact Int.ediv_mul_cancel hdh
  have hj1 : j / cfg.block_width * cfg.block_width ≤ j := Int.ediv_mul_le j (ne_of_gt hw)
  have hj2 := Int.lt_ediv_add_one_mul_self j hw
  have hi1 : i / cfg.block_height * cfg.block_height ≤ i := Int.ediv_mul_le i (ne_of_gt hh)
  have hi2 := Int.lt_ediv_add_one_mul_self i hh
  have ej : (j / cfg.block_width + 1) * cfg.block_width =
      j / cfg.block_width * cfg.block_width + cfg.block_width := by ring
  have ei : (i / cfg.block_height + 1) * cfg.block_height =
      i / cfg.block_height * cfg.block_height + cfg.block_height := by ring
  have hz : 0 ≤ j / cfg.block_width ∧ j / cfg.block_width < frame.get_cols.tdiv cfg.block_width :=
    ⟨Int.ediv_nonneg hj.1 hw.le, Int.ediv_lt_of_lt_mul hw (by rw [hgc]; exact hj.2)⟩
  have hv : 0 ≤ i / cfg.block_height ∧
      i / cfg.block_height < frame.get_rows.tdiv cfg.block_height :=
    ⟨Int.ediv_nonneg hi.1 hh.le, Int.ediv_lt_of_lt_mul hh (by rw [hgr]; exact hi.2)⟩
  obtain ⟨mb, hk, hIs⟩ := hcover _ _ hv hz
  obtain ⟨⟨ex, ey⟩, _⟩ := hIs
  refine ⟨_, ⟨mb, hk, ⟨⟨?_, ?_⟩, ⟨?_, ?_⟩⟩⟩, ?_⟩
  · show mb.block_location_x ≤ j
    omega
  · show j < mb.block_location_x + cfg.block_width
    omega
  · show mb.block_location_y ≤ i
    omega
  · show i < mb.block_location_y + cfg.block_height
    omega
  · rintro k2 ⟨mb2, hk2, ⟨⟨b1, b2⟩, ⟨b3, b4⟩⟩⟩
    obtain ⟨v2, z2, hv2, hz2, hkk2, ⟨⟨ex2, ey2⟩, _⟩⟩ := hall k2 mb2 hk2
    have b1' : mb2.block_location_x ≤ j := b1
    have b2' : j < mb2.block_location_x + cfg.block_width := b2
    have b3' : mb2.block_location_y ≤ i := b3
    have b4' : i < mb2.block_location_y + cfg.block_height := b4
    have e1 : z2 = j / cfg.block_width := block_index_unique cfg.block_width _ _ j hw
      ⟨by omega, by omega⟩ ⟨by omega, by omega⟩
    have e2 : v2 = i / cfg.block_height := block_index_unique cfg.block_height _ _ i hh
      ⟨by omega, by omega⟩ ⟨by omega, by omega⟩
    rw [e1, e2] at hkk2
    have hnn : 0 ≤ i / cfg.block_height * frame.get_cols.tdiv cfg.block_width +
        j / cfg.block_width := by rw [← hkk2]; exact Int.natCast_nonneg k2
    omega

/-! ## The stores of `Reconstruct_Frame` (C16) -/

/-- A loop on a state with an added component does to the other component what the loop
without the added component does. -/
theorem loopN_map {σ τ : Type} (π : σ → τ) (f : Nat → σ → Option σ) (g : Nat → τ → Option τ)
    (h : ∀ k s, (f k s).map π = g k (π s)) (n : Nat) (s : σ) :
    (loopN f n s).map π = loopN g n (π s) := by
  induction n with
  | zero => rfl
  | succ m ih =>
    simp only [loopN]
    cases hf : loopN f m s with
    | none =>
      rw [hf] at ih
      rw [← ih]
      rfl
    | some t =>
      rw [hf] at ih
      rw [← ih]
      exact h m t

theorem forRange_map {σ τ : Type} (π : σ → τ) (lo hi : Int) (f : Int → σ → Option σ)
    (g : Int → τ → Option τ) (h : ∀ v s, (f v s).map π = g v (π s)) (s : σ) :
    (forRange lo hi f s).map π = forRange lo hi g (π s) := by
  unfold forRange
  exact loopN_map π _ _ (fun k s => h (lo + k) s) _ s

/-- Function `Modify_Image_Range_log` does to the output image what `Modify_Image_Range`
does, whether it returns or not. -/
theorem Modify_Image_Range_log_fst (input : Image) (st : Image × List (Int × Int × Int))
    (channel_start channel_stop col_start col_stop row_start row_stop output_col output_row : Int) :
    (Modify_Image_Range_log input st channel_start channel_stop col_start col_stop
      row_start row_stop output_col output_row).map Prod.fst =
    Modify_Image_Range input st.1 channel_start channel_stop col_start col_stop
      row_start row_stop output_col output_row := by
  unfold Modify_Image_Range_log Modify_Image_Range
  apply forRange_map
  intro ch s1
  apply forRange_map
  intro r s2
  apply forRange_map
  intro k s3
  cases h1 : input.read ch r k with
  | none => simp
  | some v =>
    cases h2 : s3.1.write ch (output_row + (r - row_start)) (output_col + (k - col_start)) v with
    | none => simp [h2]
    | some o => simp [h2]

/-- Function `Reconstruct_Frame_log` does to the output frame what `Reconstruct_Frame`
does, whether it returns or not. -/
theorem Reconstruct_Frame_log_fst (cfg : Config) (prev : Image)
    (l : List Assignment1.Macroblock) (st : Image × List (Int × Int × Int)) :
    (Assignment1.Reconstruct_Frame_log cfg prev l st).map Prod.fst =
      Assignment1.Reconstruct_Frame cfg prev l st.1 := by
  induction l generalizing st with
  | nil => rfl
  | cons mb rest ih =>
    simp only [Assignment1.Reconstruct_Frame_log, Assignment1.Reconstruct_Frame]
    have h := Modify_Image_Range_log_fst prev st 0 st.1.channels
      (mb.block_location_x + mb.motion_vector_x)
      (mb.block_location_x + mb.motion_vector_x + cfg.block_width)
      (mb.block_location_y + mb.motion_vector_y)
      (mb.block_location_y + mb.motion_vector_y + cfg.block_height)
      mb.block_location_x mb.block_location_y
    cases hm : Modify_Image_Range_log prev st 0 st.1.channels
      (mb.block_location_x + mb.motion_vector_x)
      (mb.block_location_x + mb.motion_vector_x + cfg.block_width)
      (mb.block_location_y + mb.motion_vector_y)
      (mb.block_location_y + mb.motion_vector_y + cfg.block_height)
      mb.block_location_x mb.block_location_y with
    | none =>
      rw [hm] at h
      rw [← h]
      rfl
    | some r =>
      rw [hm] at h
      rw [← h]
      simp only [Option.map_some', Option.some_bind, Option.bind_eq_bind]
      exact ih r

/-- Function `Modify_Image_Range_log` on ranges inside the extents of both images: it
returns, the extents of the output are kept, and it appends to the record each index of
the destination range once and no other index. -/
theorem Modify_Image_Range_log_spec (input : Image) (st0 : Image × List (Int × Int × Int))
    (channel_start channel_stop col_start col_stop row_start row_stop output_col output_row : Int)
    (hc : 0 ≤ channel_start ∧ channel_start ≤ channel_stop ∧ channel_stop ≤ input.chans ∧
      channel_stop ≤ st0.1.chans)
    (hr : 0 ≤ row_start ∧ row_start ≤ row_stop ∧ row_stop ≤ input.rows)
    (hk : 0 ≤ col_start ∧ col_start ≤ col_stop ∧ col_stop ≤ input.cols)
    (hor : 0 ≤ output_row ∧ output_row + (row_stop - row_start) ≤ st0.1.rows)
    (hoc : 0 ≤ output_col ∧ output_col + (col_stop - col_start) ≤ st0.1.cols) :
    ∃ st, Modify_Image_Range_log input st0 channel_start channel_stop col_start col_stop
        row_start row_stop output_col output_row = some st ∧
      (st.1.chans = st0.1.chans ∧ st.1.rows = st0.1.rows ∧ st.1.cols = st0.1.cols) ∧
      (∀ x y z, (channel_start ≤ x ∧ x < channel_stop) →
        (output_row ≤ y ∧ y < output_row + (row_stop - row_start)) →
        (output_col ≤ z ∧ z < output_col + (col_stop - col_start)) →
        st.2.count (x, y, z) = st0.2.count (x, y, z) + 1) ∧
      (∀ x y z, ¬ ((channel_start ≤ x ∧ x < channel_stop) ∧
        (output_row ≤ y ∧ y < output_row + (row_stop - row_start)) ∧
        (output_col ≤ z ∧ z < output_col + (col_stop - col_start))) →
        st.2.count (x, y, z) = st0.2.count (x, y, z)) := by
  have key := for3_spec channel_start channel_stop row_start row_stop col_start col_stop
    (fun channel row col (st : Image × List (Int × Int × Int)) => do
      let v ← input.read channel row col
      let out ← st.1.write channel (output_row + (row - row_start))
        (output_col + (col - col_start)) v
      some (out, st.2 ++ [(channel, output_row + (row - row_start),
        output_col + (col - col_start))]))
    (fun W st => (st.1.chans = st0.1.chans ∧ st.1.rows = st0.1.rows ∧ st.1.cols = st0.1.cols) ∧
      ∀ x y z, (W x (row_start + (y - output_row)) (col_start + (z - output_col)) →
          st.2.count (x, y, z) = st0.2.count (x, y, z) + 1) ∧
        (¬ W x (row_start + (y - output_row)) (col_start + (z - output_col)) →
          st.2.count (x, y, z) = st0.2.count (x, y, z)))
    st0 hc.2.1 hr.2.1 hk.2.1
    ⟨⟨rfl, rfl, rfl⟩, fun _ _ _ => ⟨fun h => h.elim, fun _ => rfl⟩⟩
    (by
      intro W st ch r k h1 h2 h3 h4 h5 h6 hnW hP
      obtain ⟨⟨d1, d2, d3⟩, hcount⟩ := hP
      have hin : input.inBounds ch r k := ⟨⟨by omega, by omega⟩, ⟨by omega, by omega⟩,
        ⟨by omega, by omega⟩⟩
      have hout : st.1.inBounds ch (output_row + (r - row_start))
          (output_col + (k - col_start)) := by
        unfold Image.inBounds
        rw [d1, d2, d3]
        exact ⟨⟨by omega, by omega⟩, ⟨by omega, by omega⟩, ⟨by omega, by omega⟩⟩
      obtain ⟨o, ho⟩ : ∃ o, st.1.write ch (output_row + (r - row_start))
          (output_col + (k - col_start)) (input.pix ch r k) = some o ∧
          (o.chans = st.1.chans ∧ o.rows = st.1.rows ∧ o.cols = st.1.cols) := by
        unfold Image.write
        rw [if_pos hout]
        exact ⟨_, rfl, rfl, rfl, rfl⟩
      refine ⟨(o, st.2 ++ [(ch, output_row + (r - row_start), output_col + (k - col_start))]),
        ?_, ⟨by rw [ho.2.1, d1], by rw [ho.2.2.1, d2], by rw [ho.2.2.2, d3]⟩, ?_⟩
      · simp [Image.read, hin, ho.1]
      · intro x y z
        obtain ⟨c1, c2⟩ := hcount x y z
        show (_ → (st.2 ++ [(ch, output_row + (r - row_start),
            output_col + (k - col_start))]).count (x, y, z) = _) ∧
          (_ → (st.2 ++ [(ch, output_row + (r - row_start),
            output_col + (k - col_start))]).count (x, y, z) = _)
        rw [List.count_append]
        by_cases he : (ch, output_row + (r - row_start), output_col + (k - col_start)) = (x, y, z)
        · have e1 : ch = x := congrArg Prod.fst he
          have e2 : output_row + (r - row_start) = y := congrArg (fun t => t.2.1) he
          have e3 : output_col + (k - col_start) = z := congrArg (fun t => t.2.2) he
          have er : row_start + (y - output_row) = r := by omega
          have ek : col_start + (z - output_col) = k := by omega
          rw [he, List.count_singleton_self]
          constructor
          · intro _
            rw [c2 (by rw [er, ek, ← e1]; exact hnW)]
          · intro hn
            exact absurd (Or.inr ⟨e1.symm, er, ek⟩) hn
        · have hc0 : [(ch, output_row + (r - row_start),
              output_col + (k - col_start))].count (x, y, z) = 0 := by
            rw [List.count_eq_zero]
            intro hm
            exact he (List.mem_singleton.mp hm).symm
          rw [hc0, add_zero]
          constructor
          · intro hw
            rcases hw with hw | ⟨e1, e2, e3⟩
            · exact c1 hw
            · exfalso
              apply he
              have e2' : output_row + (r - row_start) = y := by omega
              have e3' : output_col + (k - col_start) = z := by omega
              rw [e1, e2', e3']
          · intro hn
            exact c2 (fun hw => hn (Or.inl hw)))
  obtain ⟨st, hs, hd, hcount⟩ := key
  refine ⟨st, hs, hd, ?_, ?_⟩
  · intro x y z hx hy hz
    exact (hcount x y z).1 ⟨hx, ⟨by omega, by omega⟩, ⟨by omega, by omega⟩⟩
  · intro x y z hn
    apply (hcount x y z).2
    rintro ⟨hx, hy, hz⟩
    exact hn ⟨hx, ⟨by omega, by omega⟩, ⟨by omega, by omega⟩⟩

/-- Function `Reconstruct_Frame_log` on blocks with pairwise disjoint destination regions
inside the output frame: it returns, the extents of the output are kept, and the
record gains each index of a destination region once and no other index. -/
theorem Reconstruct_Frame_log_spec (cfg : Config) (prev : Image)
    (l : List Assignment1.Macroblock) (st0 : Image × List (Int × Int × Int))
    (hw : 0 < cfg.block_width) (hh : 0 < cfg.block_height)
    (hch : st0.1.chans ≤ prev.chans)
    (hsrc : ∀ mb ∈ l, Assignment1.Source_In cfg prev mb)
    (hdst : ∀ mb ∈ l, Assignment1.Dest_In cfg st0.1 mb)
    (hdis : List.Pairwise
      (fun a b => Assignment1.Disjoint_Dest cfg (Assignment1.Anchor a) (Assignment1.Anchor b)) l) :
    ∃ st, Assignment1.Reconstruct_Frame_log cfg prev l st0 = some st ∧
      (st.1.chans = st0.1.chans ∧ st.1.rows = st0.1.rows ∧ st.1.cols = st0.1.cols) ∧
      (∀ a i j, (0 ≤ a ∧ a < (st0.1.chans : Int)) →
        (∃ mb ∈ l, Assignment1.Covers cfg (Assignment1.Anchor mb) i j) →
        st.2.count (a, i, j) = st0.2.count (a, i, j) + 1) ∧
      (∀ a i j, (¬ (0 ≤ a ∧ a < (st0.1.chans : Int)) ∨
          ∀ mb ∈ l, ¬ Assignment1.Covers cfg (Assignment1.Anchor mb) i j) →
        st.2.count (a, i, j) = st0.2.count (a, i, j)) := by
  induction l generalizing st0 with
  | nil =>
    refine ⟨st0, rfl, ⟨rfl, rfl, rfl⟩, ?_, fun _ _ _ _ => rfl⟩
    rintro a i j _ ⟨mb, hmb, _⟩
    simp at hmb
  | cons mb rest ih =>
    obtain ⟨⟨i1, i2⟩, ⟨i3, i4⟩⟩ := hsrc mb (List.mem_cons_self _ _)
    obtain ⟨⟨i5, i6⟩, ⟨i7, i8⟩⟩ := hdst mb (List.mem_cons_self _ _)
    obtain ⟨hhead, htail⟩ := List.pairwise_cons.mp hdis
    obtain ⟨s1, hs1, ⟨d1, d2, d3⟩, hin, hout⟩ := Modify_Image_Range_log_spec prev st0 0
      st0.1.channels
      (mb.block_location_x + mb.motion_vector_x)
      (mb.block_location_x + mb.motion_vector_x + cfg.block_width)
      (mb.block_location_y + mb.motion_vector_y)
      (mb.block_location_y + mb.motion_vector_y + cfg.block_height)
      mb.block_location_x mb.block_location_y
      ⟨le_refl _, by unfold Image.channels; omega, by unfold Image.channels; omega,
        by unfold Image.channels; omega⟩
      ⟨i3, by omega, by omega⟩ ⟨i1, by omega, by omega⟩
      ⟨i7, by omega⟩ ⟨i5, by omega⟩
    obtain ⟨st, hst, ⟨e1, e2, e3⟩, hcov, hunt⟩ := ih s1 (by omega)
      (fun mb' hmb' => hsrc mb' (List.mem_cons_of_mem _ hmb'))
      (by
        intro mb' hmb'
        have := hdst mb' (List.mem_cons_of_mem _ hmb')
        unfold Assignment1.Dest_In at this ⊢
        rw [d2, d3]; exact this)
      htail
    -- the indices recorded for `mb` itself
    have hmbin : ∀ a i j, (0 ≤ a ∧ a < (st0.1.chans : Int)) →
        Assignment1.Covers cfg (Assignment1.Anchor mb) i j →
        s1.2.count (a, i, j) = st0.2.count (a, i, j) + 1 := by
      intro a i j ha hc
      obtain ⟨⟨c1, c2⟩, ⟨c3, c4⟩⟩ := hc
      have c1' : mb.block_location_x ≤ j := c1
      have c2' : j < mb.block_location_x + cfg.block_width := c2
      have c3' : mb.block_location_y ≤ i := c3
      have c4' : i < mb.block_location_y + cfg.block_height := c4
      exact hin a i j (by unfold Image.channels; omega) (by omega) (by omega)
    have hother : ∀ a i j, (¬ (0 ≤ a ∧ a < (st0.1.chans : Int)) ∨
        ¬ Assignment1.Covers cfg (Assignment1.Anchor mb) i j) →
        s1.2.count (a, i, j) = st0.2.count (a, i, j) := by
      intro a i j h
      apply hout
      rintro ⟨hc, hy, hx⟩
      rcases h with h | h
      · apply h
        unfold Image.channels at hc
        omega
      · apply h
        exact ⟨⟨by show mb.block_location_x ≤ j; omega,
            by show j < mb.block_location_x + cfg.block_width; omega⟩,
          ⟨by show mb.block_location_y ≤ i; omega,
            by show i < mb.block_location_y + cfg.block_height; omega⟩⟩
    refine ⟨st, ?_, ⟨by omega, by omega, by omega⟩, ?_, ?_⟩
    · simp only [Assignment1.Reconstruct_Frame_log, hs1, Option.some_bind, Option.bind_eq_bind]
      exact hst
    · rintro a i j ha ⟨mb', hmb', hc⟩
      rcases List.mem_cons.mp hmb' with rfl | hmem
      · rw [hunt a i j (Or.inr (fun b hb hcb => hhead b hb i j ⟨hc, hcb⟩))]
        exact hmbin a i j ha hc
      · rw [hcov a i j (by omega) ⟨mb', hmem, hc⟩]
        rw [hother a i j (Or.inr (fun hcm =>
          hhead mb' hmem i j ⟨hcm, hc⟩))]
    · intro a i j h
      have h1 : st.2.count (a, i, j) = s1.2.count (a, i, j) := by
        apply hunt
        rcases h with h | h
        · left; intro hc; apply h; omega
        · right; intro b hb; exact h b (List.mem_cons_of_mem _ hb)
      rw [h1]
      apply hother
      rcases h with h | h
      · exact Or.inl h
      · exact Or.inr (h mb (List.mem_cons_self _ _))

/-- C16: when the extents of the frame are multiples of the block size, every sample
position `(i, j)` of the frame lies in the destination region of exactly one entry of
the array built by `Set_Macroblocks`, so that `Reconstruct_Frame` writes every output
sample exactly once: for the array with any motion vectors whose displaced source regions
lie inside the reference frame, and an output frame with the extents of the frame,
`Reconstruct_Frame_log` (the loops of `Reconstruct_Frame` with a record of the stores)
returns the output frame that `Reconstruct_Frame` returns together with a record in
which the index of every sample of the output frame occurs exactly once and no other
index occurs. -/
theorem C16_exactly_one_block (cfg : Config) (frame ref out0 : Image)
    (hw : 0 < cfg.block_width) (hh : 0 < cfg.block_height)
    (hdw : cfg.block_width ∣ frame.get_cols) (hdh : cfg.block_height ∣ frame.get_rows)
    (hout : out0.chans = frame.chans ∧ out0.rows = frame.rows ∧ out0.cols = frame.cols)
    (hch : frame.chans ≤ ref.chans) :
    ∃ blocks, Assignment1.Set_Macroblocks cfg frame [] = some blocks ∧
      (∀ i j, (0 ≤ i ∧ i < frame.get_rows) → (0 ≤ j ∧ j < frame.get_cols) →
        ∃! k : Nat, ∃ mb, blocks[k]? = some mb ∧
          Assignment1.Covers cfg (Assignment1.Anchor mb) i j) ∧
      ∀ l : List Assignment1.Macroblock,
        l.map Assignment1.Anchor = blocks.map Assignment1.Anchor →
        (∀ mb ∈ l, Assignment1.Source_In cfg ref mb) →
        ∃ out log, Assignment1.Reconstruct_Frame_log cfg ref l (out0, []) = some (out, log) ∧
          Assignment1.Reconstruct_Frame cfg ref l out0 = some out ∧
          (∀ ch i j, out0.inBounds ch i j → log.count (ch, i, j) = 1) ∧
          (∀ e ∈ log, out0.inBounds e.1 e.2.1 e.2.2) := by
  obtain ⟨blocks, hb, hone⟩ := Set_Macroblocks_exactly_one cfg frame hw hh hdw hdh
  refine ⟨blocks, hb, hone, ?_⟩
  intro l hl hsrc
  obtain ⟨hdst, hdis⟩ := same_anchors_disjoint cfg frame blocks l hw hh hb hl
  have hdst0 : ∀ mb ∈ l, Assignment1.Dest_In cfg out0 mb := by
    intro mb hmb
    have := hdst mb hmb
    unfold Assignment1.Dest_In at this ⊢
    rw [hout.2.1, hout.2.2]
    exact this
  obtain ⟨st, hst, _, hin, hother⟩ := Reconstruct_Frame_log_spec cfg ref l (out0, [])
    hw hh (by show out0.chans ≤ ref.chans; omega) hsrc hdst0 hdis
  have hfst := Reconstruct_Frame_log_fst cfg ref l (out0, [])
  rw [hst] at hfst
  refine ⟨st.1, st.2, hst, hfst.symm, ?_, ?_⟩
  · rintro ch i j ⟨hc, hi, hj⟩
    have hpos : 0 < frame.chans := by omega
    obtain ⟨_, e2, e3⟩ := extents_of_pos frame hpos
    obtain ⟨k, ⟨mb, hk, hcov⟩, _⟩ := hone i j (by rw [e2]; omega) (by rw [e3]; omega)
    have hmem : Assignment1.Anchor mb ∈ l.map Assignment1.Anchor := by
      rw [hl]
      exact List.mem_map_of_mem _ (List.mem_iff_getElem?.mpr ⟨k, hk⟩)
    obtain ⟨mb2, hmb2, ha⟩ := List.mem_map.mp hmem
    have := hin ch i j hc ⟨mb2, hmb2, by rw [ha]; exact hcov⟩
    simpa using this
  · intro e he
    by_contra hnb
    have hz : st.2.count (e.1, e.2.1, e.2.2) = 0 := by
      have := hother e.1 e.2.1 e.2.2 (by
        by_contra hcon
        rw [not_or] at hcon
        obtain ⟨hc, hex⟩ := hcon
        have hc' : 0 ≤ e.1 ∧ e.1 < (out0.chans : Int) := not_not.mp hc
        rw [not_forall] at hex
        obtain ⟨mb, hex⟩ := hex
        rw [Classical.not_imp] at hex
        obtain ⟨hmb, hcov⟩ := hex
        have hcov' := not_not.mp hcov
        obtain ⟨⟨i5, i6⟩, ⟨i7, i8⟩⟩ := hdst0 mb hmb
        obtain ⟨⟨c1, c2⟩, ⟨c3, c4⟩⟩ := hcov'
        have c1' : mb.block_location_x ≤ e.2.2 := c1
        have c2' : e.2.2 < mb.block_location_x + cfg.block_width := c2
        have c3' : mb.block_location_y ≤ e.2.1 := c3
        have c4' : e.2.1 < mb.block_location_y + cfg.block_height := c4
        exact hnb ⟨hc', ⟨by omega, by omega⟩, ⟨by omega, by omega⟩⟩)
      simpa using this
    have hmem : (e.1, e.2.1, e.2.2) ∈ st.2 := he
    exact absurd hz (Nat.pos_iff_ne_zero.mp (List.count_pos_iff.mpr hmem))

/-- Witness of C16: the frame of 16 by 16 with blocks of 8 by 8, reconstructed from
itself into the blank output frame with the motion vectors that point to the top left
block. -/
theorem C16_exactly_one_block_witness :
    (((0 : Int) < cfg8.block_width ∧ (0 : Int) < cfg8.block_height ∧
      cfg8.block_width ∣ frame16.get_cols ∧ cfg8.block_height ∣ frame16.get_rows) ∧
      (blank16.chans = frame16.chans ∧ blank16.rows = frame16.rows ∧
        blank16.cols = frame16.cols) ∧ frame16.chans ≤ frame16.chans) ∧
    ∃ blocks, Assignment1.Set_Macroblocks cfg8 frame16 [] = some blocks ∧
      (∀ i j, (0 ≤ i ∧ i < frame16.get_rows) → (0 ≤ j ∧ j < frame16.get_cols) →
        ∃! k : Nat, ∃ mb, blocks[k]? = some mb ∧
          Assignment1.Covers cfg8 (Assignment1.Anchor mb) i j) ∧
      ∃ out log, Assignment1.Reconstruct_Frame_log cfg8 frame16 (blocks.map Aim_Origin)
            (blank16, []) = some (out, log) ∧
          Assignment1.Reconstruct_Frame cfg8 frame16 (blocks.map Aim_Origin) blank16 =
            some out ∧
          (∀ ch i j, blank16.inBounds ch i j → log.count (ch, i, j) = 1) ∧
          (∀ e ∈ log, blank16.inBounds e.1 e.2.1 e.2.2) := by
  obtain ⟨blocks, hb, hone, hrec⟩ := C16_exactly_one_block cfg8 frame16 frame16 blank16
    (by decide) (by decide) (by decide) (by decide) ⟨rfl, rfl, rfl⟩ (le_refl _)
  exact ⟨⟨⟨by decide, by decide, by decide, by decide⟩, ⟨rfl, rfl, rfl⟩, le_refl _⟩,
    blocks, hb, hone,
    hrec (blocks.map Aim_Origin) (Aim_Origin_facts blocks).1 (Aim_Origin_facts blocks).2⟩

/-- C18: for the array built by `Set_Macroblocks` on a frame, with any motion vectors
whose displaced source regions lie inside the reference frame, `Reconstruct_Frame`
returns the same output frame for the array and for every permutation of it. -/
theorem C18_reconstruct_any_order (cfg : Config) (frame ref out0 : Image)
    (blocks l l2 : List Assignment1.Macroblock)
    (hw : 0 < cfg.block_width) (hh : 0 < cfg.block_height)
    (hb : Assignment1.Set_Macroblocks cfg frame [] = some blocks)
    (hl : l.map Assignment1.Anchor = blocks.map Assignment1.Anchor)
    (hout : out0.chans = frame.chans ∧ out0.rows = frame.rows ∧ out0.cols = frame.cols)
    (hch : frame.chans ≤ ref.chans)
    (hsrc : ∀ mb ∈ l, Assignment1.Source_In cfg ref mb)
    (hperm : l2.Perm l) :
    ∃ out, Assignment1.Reconstruct_Frame cfg ref l out0 = some out ∧
      Assignment1.Reconstruct_Frame cfg ref l2 out0 = some out := by
  obtain ⟨hdst, hdis⟩ := same_anchors_disjoint cfg frame blocks l hw hh hb hl
  exact Reconstruct_Frame_perm cfg ref l l2 out0 hw hh (by omega) hsrc
    (by
      intro mb hmb
      have := hdst mb hmb
      unfold Assignment1.Dest_In at this ⊢
      rw [hout.2.1, hout.2.2]
      exact this)
    hdis hperm

/-- Witness of C18: the four blocks of the frame of 16 by 16, each aimed at the top
left block of the reference frame, processed in array order and in reverse order. -/
theorem C18_reconstruct_any_order_witness :
    ∃ blocks, Assignment1.Set_Macroblocks cfg8 frame16 [] = some blocks ∧
      ∃ out, Assignment1.Reconstruct_Frame cfg8 frame16 (blocks.map Aim_Origin) blank16 =
          some out ∧
        Assignment1.Reconstruct_Frame cfg8 frame16 (blocks.map Aim_Origin).reverse blank16 =
          some out := by
  obtain ⟨blocks, hb, _⟩ := Set_Macroblocks_cover cfg8 frame16 (by decide) (by decide)
  exact ⟨blocks, hb, C18_reconstruct_any_order cfg8 frame16 frame16 blank16 blocks
    (blocks.map Aim_Origin) (blocks.map Aim_Origin).reverse (by decide) (by decide) hb
    (Aim_Origin_facts blocks).1 ⟨rfl, rfl, rfl⟩ (le_refl _) (Aim_Origin_facts blocks).2
    (List.reverse_perm _)⟩

/-! ## The least distortion of a step -/

/-- Function `Try_Candidate` on a candidate that passes the bounds checks: the
distortion compared with the running best is `Cand_MSE`. -/
theorem Try_Candidate_exact (cfg : Config) (frame_1 : Image) (x y : Int)
    (st : Assignment1.SearchState) (hOK : Assignment1.Search_OK cfg frame_1 st)
    (hv : Assignment1.Cand_Valid cfg st x y) :
    Assignment1.Try_Candidate cfg frame_1 x y st =
      some (if (FVal.val (Assignment1.Offset_MSE cfg frame_1 st (x, y))).lt st.least_MSE then
        Assignment1.With_Best st (FVal.val (Assignment1.Offset_MSE cfg frame_1 st (x, y)))
          (st.least_MSE_x + x) (st.least_MSE_y + y)
      else st) := by
  obtain ⟨⟨hw, hh⟩, ⟨hc, dc, dr, dk⟩, ⟨hsx, hsy⟩, _⟩ := hOK
  obtain ⟨⟨v1, v2⟩, ⟨v3, v4⟩⟩ := hv
  obtain ⟨sb, hsb, ⟨e1, e2, e3⟩, hpix⟩ := Set_Image_Range_spec frame_1 0 frame_1.channels
    (st.least_MSE_x + x) (st.least_MSE_x + x + cfg.block_width)
    (st.least_MSE_y + y) (st.least_MSE_y + y + cfg.block_height)
    ⟨le_refl _, by unfold Image.channels; omega, by unfold Image.channels; omega⟩
    ⟨v3, by omega, by omega⟩ ⟨v1, by omega, by omega⟩
  unfold Image.channels at e1
  have hd : st.this_macroblock.block.chans ≤ sb.chans ∧
      st.this_macroblock.block.rows ≤ sb.rows ∧ st.this_macroblock.block.cols ≤ sb.cols :=
    ⟨by omega, by omega, by omega⟩
  obtain ⟨x1, x2, x3⟩ := extents_of_pos st.this_macroblock.block (by omega)
  have hn : st.this_macroblock.block.channels * st.this_macroblock.block.get_rows *
      st.this_macroblock.block.get_cols ≠ 0 := by
    rw [x1, x2, x3, dr, dk]
    have h1 : (0 : Int) < st.this_macroblock.block.chans := by omega
    exact ne_of_gt (Int.mul_pos (Int.mul_pos h1 hh) hw)
  have hM := MSE_formula st.this_macroblock.block sb hd
  rw [if_neg hn] at hM
  have hq : MSE st.this_macroblock.block sb =
      some (FVal.val (Assignment1.Offset_MSE cfg frame_1 st (x, y))) := by
    rw [hM]
    unfold Assignment1.Offset_MSE Assignment1.Cand_MSE
    rw [x1, x2, x3, dr, dk]
    refine congrArg (fun q => some (FVal.val q)) ?_
    apply Float_Mean_congr
    intro a b c ha hb hc'
    show (st.this_macroblock.block.pix a b c - sb.pix a b c) ^ 2 = _
    rw [hpix a b c (by unfold Image.channels; omega) (by omega) (by omega)]
    simp
  simp only [Assignment1.Try_Candidate]
  rw [if_neg (by omega), if_neg (by omega), if_neg (by omega), if_neg (by omega)]
  simp only [hsb, hq, Option.some_bind, Option.bind_eq_bind]
  split_ifs <;> rfl

/-- The candidate loops on a list of offsets: the running best is kept when no
compared candidate is below it, and otherwise moves to a compared candidate below it;
in both cases no compared candidate of the list is below the final least distortion. -/
theorem Scan_List_min (cfg : Config) (frame_1 : Image) (l : List (Int × Int))
    (st : Assignment1.SearchState) (hOK : Assignment1.Search_OK cfg frame_1 st)
    (m0 : FVal) (nx0 ny0 : Int) :
    ∃ m nx ny, Assignment1.Scan_List cfg frame_1 l (Assignment1.With_Best st m0 nx0 ny0) =
        some (Assignment1.With_Best st m nx ny) ∧
      ((m = m0 ∧ nx = nx0 ∧ ny = ny0) ∨
        ∃ o ∈ l, Assignment1.Cand_Valid cfg st o.1 o.2 ∧
          m = FVal.val (Assignment1.Offset_MSE cfg frame_1 st o) ∧
          (nx = st.least_MSE_x + o.1 ∧ ny = st.least_MSE_y + o.2) ∧
          (FVal.val (Assignment1.Offset_MSE cfg frame_1 st o)).lt m0 = true) ∧
      (∀ o ∈ l, Assignment1.Cand_Valid cfg st o.1 o.2 →
        (FVal.val (Assignment1.Offset_MSE cfg frame_1 st o)).lt m = false) := by
  induction l generalizing m0 nx0 ny0 with
  | nil =>
    exact ⟨m0, nx0, ny0, rfl, Or.inl ⟨rfl, rfl, rfl⟩, by intro o ho; simp at ho⟩
  | cons o rest ih =>
    have hOK' : Assignment1.Search_OK cfg frame_1 (Assignment1.With_Best st m0 nx0 ny0) := hOK
    by_cases hv : Assignment1.Cand_Valid cfg st o.1 o.2
    · have hT := Try_Candidate_exact cfg frame_1 o.1 o.2 _ hOK' hv
      have hQ : Assignment1.Offset_MSE cfg frame_1 (Assignment1.With_Best st m0 nx0 ny0)
          (o.1, o.2) = Assignment1.Offset_MSE cfg frame_1 st o := rfl
      rw [hQ] at hT
      by_cases hlt : (FVal.val (Assignment1.Offset_MSE cfg frame_1 st o)).lt m0 = true
      · have hlt' : (FVal.val (Assignment1.Offset_MSE cfg frame_1 st o)).lt
            (Assignment1.With_Best st m0 nx0 ny0).least_MSE = true := hlt
        rw [if_pos hlt'] at hT
        have hT' : Assignment1.Try_Candidate cfg frame_1 o.1 o.2
            (Assignment1.With_Best st m0 nx0 ny0) =
            some (Assignment1.With_Best st (FVal.val (Assignment1.Offset_MSE cfg frame_1 st o))
              (st.least_MSE_x + o.1) (st.least_MSE_y + o.2)) := hT
        obtain ⟨m, nx, ny, h, hcase, hmin⟩ := ih
          (FVal.val (Assignment1.Offset_MSE cfg frame_1 st o))
          (st.least_MSE_x + o.1) (st.least_MSE_y + o.2)
        refine ⟨m, nx, ny, by simp only [Assignment1.Scan_List, hT', Option.some_bind, h], ?_, ?_⟩
        · right
          rcases hcase with ⟨e1, e2, e3⟩ | ⟨o', ho', hv', e1, e2, hlt2⟩
          · exact ⟨o, List.mem_cons_self _ _, hv, e1, ⟨e2, e3⟩, hlt⟩
          · refine ⟨o', List.mem_cons_of_mem _ ho', hv', e1, e2, ?_⟩
            cases m0 with
            | nan => exact absurd hlt (by simp [FVal.lt])
            | val a =>
              rw [FVal_lt_val, decide_eq_true_eq] at hlt hlt2 ⊢
              exact lt_trans hlt2 hlt
        · intro o' ho' hv'
          rcases List.mem_cons.mp ho' with rfl | hmem
          · rcases hcase with ⟨e1, _, _⟩ | ⟨o2, _, _, e1, _, hlt2⟩
            · rw [e1, FVal_lt_val, decide_eq_false_iff_not]
              exact lt_irrefl _
            · rw [e1, FVal_lt_val, decide_eq_false_iff_not]
              rw [FVal_lt_val, decide_eq_true_eq] at hlt2
              exact not_lt.mpr hlt2.le
          · exact hmin o' hmem hv'
      · have hlt' : ¬ (FVal.val (Assignment1.Offset_MSE cfg frame_1 st o)).lt
            (Assignment1.With_Best st m0 nx0 ny0).least_MSE = true := hlt
        rw [if_neg hlt'] at hT
        obtain ⟨m, nx, ny, h, hcase, hmin⟩ := ih m0 nx0 ny0
        refine ⟨m, nx, ny, by simp only [Assignment1.Scan_List, hT, Option.some_bind, h], ?_, ?_⟩
        · rcases hcase with h1 | ⟨o', ho', r⟩
          · exact Or.inl h1
          · exact Or.inr ⟨o', List.mem_cons_of_mem _ ho', r⟩
        · intro o' ho' hv'
          rcases List.mem_cons.mp ho' with rfl | hmem
          · rcases hcase with ⟨e1, _, _⟩ | ⟨o2, _, _, e1, _, hlt2⟩
            · rw [e1]
              exact Bool.eq_false_iff.mpr hlt
            · rw [e1, FVal_lt_val, decide_eq_false_iff_not]
              cases m0 with
              | nan => exact absurd hlt2 (by simp [FVal.lt])
              | val a =>
                rw [FVal_lt_val, decide_eq_true_eq] at hlt hlt2
                exact not_lt.mpr (le_of_lt (lt_of_lt_of_le hlt2 (not_lt.mp hlt)))
          · exact hmin o' hmem hv'
    · have hT : Assignment1.Try_Candidate cfg frame_1 o.1 o.2
          (Assignment1.With_Best st m0 nx0 ny0) = some (Assignment1.With_Best st m0 nx0 ny0) :=
        (Try_Candidate_spec cfg frame_1 o.1 o.2 _ hOK').1 hv
      obtain ⟨m, nx, ny, h, hcase, hmin⟩ := ih m0 nx0 ny0
      refine ⟨m, nx, ny, by simp only [Assignment1.Scan_List, hT, Option.some_bind, h], ?_, ?_⟩
      · rcases hcase with h1 | ⟨o', ho', r⟩
        · exact Or.inl h1
        · exact Or.inr ⟨o', List.mem_cons_of_mem _ ho', r⟩
      · intro o' ho' hv'
        rcases List.mem_cons.mp ho' with rfl | hmem
        · exact absurd hv' hv
        · exact hmin o' hmem hv'


/-- The search window after the end of the first or second step: `Set_Search_Area` is
called with the new vertical step distance as `search_horiz` and the new horizontal
step distance as `search_vert`, around the new best location; the third step leaves
the window as it is. -/
theorem Finish_Step_window (cfg : Config) (frame_1 : Image) (n : Int)
    (st st' : Assignment1.SearchState)
    (h : Assignment1.Finish_Step cfg frame_1 n st = some st') :
    (n = 0 ∨ n = 1 → st'.this_macroblock =
      Assignment1.Set_Search_Area cfg st.this_macroblock frame_1.get_cols frame_1.get_rows
        st'.search_dist_y st'.search_dist_x st'.least_MSE_x st'.least_MSE_y) ∧
    (n = 2 → st'.this_macroblock = st.this_macroblock ∧
      st'.search_dist_x = st.search_dist_x ∧ st'.search_dist_y = st.search_dist_y) := by
  constructor
  · rintro (rfl | rfl)
    · simp only [Assignment1.Finish_Step, Assignment1.Update_Search_Dist] at h
      rw [if_neg (by decide), if_pos (by decide)] at h
      by_cases hz : st.search_dist_x.tdiv 2 = 0 ∨ st.search_dist_y.tdiv 2 = 0
      · rw [if_pos hz] at h
        simp at h
      · rw [if_neg hz] at h
        simp only [Option.some_bind, Option.bind_eq_bind] at h
        rw [if_pos (by decide)] at h
        have := Option.some.inj h
        subst this
        rfl
    · simp only [Assignment1.Finish_Step, Assignment1.Update_Search_Dist] at h
      simp at h
      subst h
      rfl
  · rintro rfl
    simp only [Assignment1.Finish_Step, Assignment1.Update_Search_Dist] at h
    simp at h
    subst h
    exact ⟨rfl, rfl, rfl⟩

/-- A search step in full: it returns; the best location is kept when no compared
candidate is below the least distortion so far, and otherwise moves to a compared
candidate below it; no compared candidate of the step is below the final least
distortion. -/
theorem Search_Step_min (cfg : Config) (fuel : Nat) (frame_1 : Image) (n : Int)
    (st : Assignment1.SearchState) (hOK : Assignment1.Search_OK cfg frame_1 st)
    (hn : n = 0 ∨ n = 1 ∨ n = 2)
    (hd : n = 0 → 2 ≤ st.search_dist_x ∧ 2 ≤ st.search_dist_y) (hf : 4 ≤ fuel) :
    ∃ st', Assignment1.Search_Step cfg fuel frame_1 n st = some st' ∧
      Assignment1.Search_OK cfg frame_1 st' ∧
      (st'.this_macroblock.block = st.this_macroblock.block ∧
        st'.this_macroblock.block_location_x = st.this_macroblock.block_location_x ∧
        st'.this_macroblock.block_location_y = st.this_macroblock.block_location_y) ∧
      (st'.new_least_MSE_x = st'.least_MSE_x ∧ st'.new_least_MSE_y = st'.least_MSE_y) ∧
      ((st'.least_MSE = st.least_MSE ∧ st'.least_MSE_x = st.new_least_MSE_x ∧
          st'.least_MSE_y = st.new_least_MSE_y) ∨
        ∃ o ∈ Assignment1.Nine_Offsets st.search_dist_x st.search_dist_y,
          Assignment1.Cand_Valid cfg st o.1 o.2 ∧
          st'.least_MSE = FVal.val (Assignment1.Offset_MSE cfg frame_1 st o) ∧
          (st'.least_MSE_x = st.least_MSE_x + o.1 ∧ st'.least_MSE_y = st.least_MSE_y + o.2) ∧
          (FVal.val (Assignment1.Offset_MSE cfg frame_1 st o)).lt st.least_MSE = true) ∧
      (∀ o ∈ Assignment1.Nine_Offsets st.search_dist_x st.search_dist_y,
        Assignment1.Cand_Valid cfg st o.1 o.2 →
        (FVal.val (Assignment1.Offset_MSE cfg frame_1 st o)).lt st'.least_MSE = false) ∧
      ((n = 0 → st'.search_dist_x =
          (st.search_dist_x + st.search_dist_x.tdiv 2 - 1).tdiv (st.search_dist_x.tdiv 2) ∧
        st'.search_dist_y =
          (st.search_dist_y + st.search_dist_y.tdiv 2 - 1).tdiv (st.search_dist_y.tdiv 2)) ∧
        (n = 1 → st'.search_dist_x = 1 ∧ st'.search_dist_y = 1)) ∧
      ((n = 0 ∨ n = 1 → st'.this_macroblock =
        Assignment1.Set_Search_Area cfg st.this_macroblock frame_1.get_cols frame_1.get_rows
          st'.search_dist_y st'.search_dist_x st'.least_MSE_x st'.least_MSE_y) ∧
        (n = 2 → st'.this_macroblock = st.this_macroblock ∧
          st'.search_dist_x = st.search_dist_x ∧ st'.search_dist_y = st.search_dist_y)) := by
  obtain ⟨m, nx, ny, hscan, hcase, hmin⟩ := Scan_List_min cfg frame_1
    (Assignment1.Nine_Offsets st.search_dist_x st.search_dist_y) st hOK
    st.least_MSE st.new_least_MSE_x st.new_least_MSE_y
  rw [With_Best_self] at hscan
  have hOK1 : Assignment1.Search_OK cfg frame_1 (Assignment1.With_Best st m nx ny) := hOK
  obtain ⟨st', hF, hOK', hm, hl, hnl, hk⟩ := Finish_Step_spec cfg frame_1 n _ hOK1 hn hd
  have hdist := Finish_Step_dist cfg frame_1 n _ st' hF
  have hwin := Finish_Step_window cfg frame_1 n _ st' hF
  have hm' : st'.least_MSE = m := hm
  have hl' : st'.least_MSE_x = nx ∧ st'.least_MSE_y = ny := hl
  have hnl' : st'.new_least_MSE_x = nx ∧ st'.new_least_MSE_y = ny := hnl
  refine ⟨st', ?_, hOK', hk, ⟨by rw [hnl'.1, hl'.1], by rw [hnl'.2, hl'.2]⟩, ?_, ?_, hdist, hwin⟩
  · unfold Assignment1.Search_Step
    rw [Scan_Candidates_eq cfg fuel frame_1 st hOK.2.2.2.1 hOK.2.2.2.2 hf, hscan]
    exact hF
  · rcases hcase with ⟨e1, e2, e3⟩ | ⟨o, ho, hv, e1, ⟨e2, e3⟩, hlt⟩
    · exact Or.inl ⟨by rw [hm', e1], by rw [hl'.1, e2], by rw [hl'.2, e3]⟩
    · exact Or.inr ⟨o, ho, hv, by rw [hm', e1], ⟨by rw [hl'.1, e2], by rw [hl'.2, e3]⟩, hlt⟩
  · intro o ho hv
    rw [hm']
    exact hmin o ho hv

/-- A search step with one compared candidate `o` that is below the least distortion
so far and strictly below every other compared candidate: the best location moves to
that candidate. -/
theorem Search_Step_unique_min (cfg : Config) (fuel : Nat) (frame_1 : Image) (n : Int)
    (st : Assignment1.SearchState) (hOK : Assignment1.Search_OK cfg frame_1 st)
    (hn : n = 0 ∨ n = 1 ∨ n = 2)
    (hd : n = 0 → 2 ≤ st.search_dist_x ∧ 2 ≤ st.search_dist_y) (hf : 4 ≤ fuel)
    (o : Int × Int) (ho : o ∈ Assignment1.Nine_Offsets st.search_dist_x st.search_dist_y)
    (hv : Assignment1.Cand_Valid cfg st o.1 o.2)
    (hlt : (FVal.val (Assignment1.Offset_MSE cfg frame_1 st o)).lt st.least_MSE = true)
    (hothers : ∀ o2 ∈ Assignment1.Nine_Offsets st.search_dist_x st.search_dist_y,
      Assignment1.Cand_Valid cfg st o2.1 o2.2 → o2 ≠ o →
      Assignment1.Offset_MSE cfg frame_1 st o < Assignment1.Offset_MSE cfg frame_1 st o2) :
    ∃ st', Assignment1.Search_Step cfg fuel frame_1 n st = some st' ∧
      Assignment1.Search_OK cfg frame_1 st' ∧
      (st'.this_macroblock.block = st.this_macroblock.block ∧
        st'.this_macroblock.block_location_x = st.this_macroblock.block_location_x ∧
        st'.this_macroblock.block_location_y = st.this_macroblock.block_location_y) ∧
      (st'.new_least_MSE_x = st'.least_MSE_x ∧ st'.new_least_MSE_y = st'.least_MSE_y) ∧
      st'.least_MSE = FVal.val (Assignment1.Offset_MSE cfg frame_1 st o) ∧
      (st'.least_MSE_x = st.least_MSE_x + o.1 ∧ st'.least_MSE_y = st.least_MSE_y + o.2) ∧
      ((n = 0 → st'.search_dist_x =
          (st.search_dist_x + st.search_dist_x.tdiv 2 - 1).tdiv (st.search_dist_x.tdiv 2) ∧
        st'.search_dist_y =
          (st.search_dist_y + st.search_dist_y.tdiv 2 - 1).tdiv (st.search_dist_y.tdiv 2)) ∧
        (n = 1 → st'.search_dist_x = 1 ∧ st'.search_dist_y = 1)) ∧
      ((n = 0 ∨ n = 1 → st'.this_macroblock =
        Assignment1.Set_Search_Area cfg st.this_macroblock frame_1.get_cols frame_1.get_rows
          st'.search_dist_y st'.search_dist_x st'.least_MSE_x st'.least_MSE_y) ∧
        (n = 2 → st'.this_macroblock = st.this_macroblock ∧
          st'.search_dist_x = st.search_dist_x ∧ st'.search_dist_y = st.search_dist_y)) := by
  obtain ⟨st', hS, hOK', hk, hnl, hcase, hmin, hdist, hwin⟩ :=
    Search_Step_min cfg fuel frame_1 n st hOK hn hd hf
  have hmo := hmin o ho hv
  have hkey : st'.least_MSE = FVal.val (Assignment1.Offset_MSE cfg frame_1 st o) ∧
      (st'.least_MSE_x = st.least_MSE_x + o.1 ∧ st'.least_MSE_y = st.least_MSE_y + o.2) := by
    rcases hcase with ⟨e1, _, _⟩ | ⟨o2, ho2, hv2, e1, e2, _⟩
    · rw [e1, hlt] at hmo
      exact absurd hmo (by decide)
    · by_cases heq : o2 = o
      · subst heq
        exact ⟨e1, e2⟩
      · have := hothers o2 ho2 hv2 heq
        rw [e1, FVal_lt_val, decide_eq_false_iff_not] at hmo
        exact absurd this hmo
  exact ⟨st', hS, hOK', hk, hnl, hkey.1, hkey.2, hdist, hwin⟩

/-! ## The reach of the three steps (C17) -/

/-- The distortion of a candidate for blocks of one sample whose squared difference is
at most `2^24`: the square, which no step rounds. -/
theorem Cand_MSE_unit (cfg : Config) (block frame_1 : Image) (x y : Int)
    (hw : cfg.block_width = 1) (hh : cfg.block_height = 1) (hc : block.chans = 1)
    (hs : (block.pix 0 0 0 - frame_1.pix 0 y x) ^ 2 ≤ 2 ^ 24) :
    Assignment1.Cand_MSE cfg block frame_1 x y =
      (((block.pix 0 0 0 - frame_1.pix 0 y x : Int) : ℚ)) ^ 2 := by
  unfold Assignment1.Cand_MSE
  rw [hw, hh, hc]
  have h := Float_Mean_unit (fun channel row col =>
    block.pix channel row col - frame_1.pix channel (y + row) (x + col)) (by simpa using hs)
  simpa using h

/-- The samples of `ref6` lie between 0 and 9. -/
theorem ref6_range (a i j : Int) : 0 ≤ ref6.pix a i j ∧ ref6.pix a i j ≤ 9 := by
  show 0 ≤ (if j = 0 then (3 : Int) else if j = 2 then 2 else if j = 4 then 1
      else if j = 5 then 0 else 9) ∧
    (if j = 0 then (3 : Int) else if j = 2 then 2 else if j = 4 then 1
      else if j = 5 then 0 else 9) ≤ 9
  split_ifs <;> omega

/-- The state of the search for the first block of `tgt6` in `ref6`: the distortion
of a candidate is the square of the reference sample, and the bounds checks read as
stated. -/
theorem ref6_state (st : Assignment1.SearchState) (lx xstop : Int)
    (hb : st.this_macroblock.block.chans = 1 ∧ st.this_macroblock.block.pix 0 0 0 = 0)
    (hl : st.least_MSE_x = lx ∧ st.least_MSE_y = 0)
    (hs : st.this_macroblock.search_location_x_stop = xstop ∧
      st.this_macroblock.search_location_y_stop = 1) :
    (∀ o : Int × Int, Assignment1.Offset_MSE cfg1 ref6 st o =
      ((ref6.pix 0 o.2 (lx + o.1) : Int) : ℚ) ^ 2) ∧
    (∀ o : Int × Int, Assignment1.Cand_Valid cfg1 st o.1 o.2 ↔
      (0 ≤ lx + o.1 ∧ lx + o.1 + 1 ≤ xstop) ∧ o.2 = 0) := by
  constructor
  · intro o
    unfold Assignment1.Offset_MSE
    have hs : (st.this_macroblock.block.pix 0 0 0 - ref6.pix 0 (st.least_MSE_y + o.2)
        (st.least_MSE_x + o.1)) ^ 2 ≤ 2 ^ 24 := by
      rw [hb.2]
      obtain ⟨h0, h9⟩ := ref6_range 0 (st.least_MSE_y + o.2) (st.least_MSE_x + o.1)
      nlinarith
    rw [Cand_MSE_unit cfg1 _ ref6 _ _ rfl rfl hb.1 hs, hb.2, hl.1, hl.2]
    simp
  · intro o
    unfold Assignment1.Cand_Valid
    rw [hl.1, hl.2, hs.1, hs.2]
    have e1 : cfg1.block_width = 1 := rfl
    have e2 : cfg1.block_height = 1 := rfl
    rw [e1, e2]
    constructor
    · rintro ⟨h1, h2⟩
      exact ⟨h1, by omega⟩
    · rintro ⟨h1, h2⟩
      exact ⟨h1, by omega⟩

/-- Samples in the range of a 32-bit `int` give every candidate a distortion below
`FLT_MAX`. -/
theorem Cand_MSE_lt_FLT_MAX (cfg : Config) (block frame_1 : Image) (x y : Int)
    (hw : 0 < cfg.block_width) (hh : 0 < cfg.block_height) (hc : 0 < block.chans)
    (hblock : ∀ a b c, (0 ≤ a ∧ a < (block.chans : Int)) → (0 ≤ b ∧ b < cfg.block_height) →
      (0 ≤ c ∧ c < cfg.block_width) → |block.pix a b c| < 2 ^ 31)
    (hframe : ∀ a b c, (0 ≤ a ∧ a < (block.chans : Int)) → (0 ≤ b ∧ b < cfg.block_height) →
      (0 ≤ c ∧ c < cfg.block_width) → |frame_1.pix a (y + b) (x + c)| < 2 ^ 31) :
    Assignment1.Cand_MSE cfg block frame_1 x y < FLT_MAX := by
  have h := Float_Mean_le (fun channel row col =>
    block.pix channel row col - frame_1.pix channel (y + row) (x + col))
    block.chans cfg.block_height cfg.block_width (by omega) hh hw (by
    intro a b c ha hb hc'
    show (((block.pix a b c - frame_1.pix a (y + b) (x + c) : Int) : ℚ)) ^ 2 ≤ 2 ^ 64
    have h1 := abs_lt.mp (hblock a b c ha hb hc')
    have h2 := abs_lt.mp (hframe a b c ha hb hc')
    have h3 : |block.pix a b c - frame_1.pix a (y + b) (x + c)| ≤ 2 ^ 32 := by
      rw [abs_le]
      constructor <;> omega
    have h4 : (block.pix a b c - frame_1.pix a (y + b) (x + c)) ^ 2 ≤ (2 ^ 32) ^ 2 := by
      rw [← sq_abs]
      exact pow_le_pow_left₀ (abs_nonneg _) h3 2
    have h5 : (((block.pix a b c - frame_1.pix a (y + b) (x + c)) ^ 2 : Int) : ℚ) ≤
        (((2 ^ 32) ^ 2 : Int) : ℚ) := by exact_mod_cast h4
    calc (((block.pix a b c - frame_1.pix a (y + b) (x + c) : Int) : ℚ)) ^ 2
        = (((block.pix a b c - frame_1.pix a (y + b) (x + c)) ^ 2 : Int) : ℚ) := by push_cast; ring
      _ ≤ (((2 ^ 32) ^ 2 : Int) : ℚ) := h5
      _ = (2 : ℚ) ^ 64 := by norm_num)
  have h6 : (2 : ℚ) ^ 89 < FLT_MAX := by
    unfold FLT_MAX
    norm_num
  exact lt_of_le_of_lt h h6

/-- The sum of the three step distances is at most the radius plus 1, and at most the
radius unless the radius is 4 or 6. -/
theorem Reach_le (r : Int) (hr : 4 ≤ r) :
    Assignment1.Reach r ≤ r + 1 ∧ (r ≠ 4 → r ≠ 6 → Assignment1.Reach r ≤ r) := by
  unfold Assignment1.Reach
  have hd : r.tdiv 2 = r / 2 := Int.tdiv_eq_ediv (by omega) (by decide)
  have h2 : 2 ≤ r.tdiv 2 := first_dist r hr
  obtain ⟨he, ho⟩ := next_dist_value (r.tdiv 2) h2
  rcases Int.emod_two_eq_zero_or_one (r.tdiv 2) with h | h
  · rw [he h]
    constructor
    · omega
    · intro h4 h6; omega
  · rw [ho h]
    constructor
    · omega
    · intro h4 h6; omega

/-- The samples of the frame of 16 by 16 are in the range of a 32-bit `int`. -/
theorem frame16_samples (a i j : Int) (h : frame16.inBounds a i j) :
    |frame16.pix a i j| < 2 ^ 31 := by
  obtain ⟨_, ⟨h1, h2⟩, ⟨h3, h4⟩⟩ := h
  have h2' : i < 16 := h2
  have h4' : j < 16 := h4
  show |16 * i + j| < 2 ^ 31
  rw [abs_lt]
  constructor <;> omega

/-- The ceiling of `d / (d/2)`, with the integer division of C in the denominator, is
the value of the recurrence. -/
theorem ceil_next_dist (d : Int) (hd : 2 ≤ d) :
    Int.ceil ((d : ℚ) / ((d.tdiv 2 : Int) : ℚ)) = (d + d.tdiv 2 - 1).tdiv (d.tdiv 2) := by
  have hk : d.tdiv 2 = d / 2 := Int.tdiv_eq_ediv (by omega) (by decide)
  obtain ⟨he, ho⟩ := next_dist_value d hd
  have hkpos : (0 : ℚ) < ((d.tdiv 2 : Int) : ℚ) := by
    have : 0 < d.tdiv 2 := by omega
    exact_mod_cast this
  rcases Int.emod_two_eq_zero_or_one d with h | h
  · rw [he h, Int.ceil_eq_iff]
    have e : d = 2 * d.tdiv 2 := by omega
    have e' : (d : ℚ) = 2 * ((d.tdiv 2 : Int) : ℚ) := by exact_mod_cast e
    constructor
    · rw [lt_div_iff₀ hkpos]
      push_cast
      linarith
    · rw [div_le_iff₀ hkpos]
      push_cast
      linarith
  · rw [ho h, Int.ceil_eq_iff]
    have e : d = 2 * d.tdiv 2 + 1 := by omega
    have e' : (d : ℚ) = 2 * ((d.tdiv 2 : Int) : ℚ) + 1 := by exact_mod_cast e
    have h1 : (1 : ℚ) ≤ ((d.tdiv 2 : Int) : ℚ) := by
      have : 1 ≤ d.tdiv 2 := by omega
      exact_mod_cast this
    constructor
    · rw [lt_div_iff₀ hkpos]
      push_cast
      linarith
    · rw [div_le_iff₀ hkpos]
      push_cast
      linarith

/-- The ceiling of `d / 2` as an integer. -/
theorem ceil_half (d : Int) : Int.ceil ((d : ℚ) / 2) = (d + 1) / 2 := by
  rw [Int.ceil_eq_iff]
  have h2 : (0 : ℚ) < 2 := by norm_num
  have a1 : 2 * ((d + 1) / 2) ≤ d + 1 := by omega
  have a2 : d ≤ 2 * ((d + 1) / 2) := by omega
  have a1' : (2 : ℚ) * (((d + 1) / 2 : Int) : ℚ) ≤ (d : ℚ) + 1 := by exact_mod_cast a1
  have a2' : (d : ℚ) ≤ 2 * (((d + 1) / 2 : Int) : ℚ) := by exact_mod_cast a2
  constructor
  · rw [lt_div_iff₀ h2]
    linarith
  · rw [div_le_iff₀ h2]
    linarith

/-- C21, counterexample: with radius 4 the first step distance is 2, and the update
after the first step computes `(2 + 1 - 1) / 1 = 2`, whereas the ceiling of `2 / 2`
is 1. -/
theorem C21_counterexample_distance_two :
    (Assignment1.Search_Init cfg8 block_flat3).search_dist_x = 2 ∧
    (∃ st, Assignment1.Update_Search_Dist 0 (Assignment1.Search_Init cfg8 block_flat3) =
        some st ∧ st.search_dist_x = 2) ∧
    Int.ceil (((2 : Int) : ℚ) / 2) = 1 := by
  refine ⟨rfl, ⟨_, rfl, rfl⟩, ?_⟩
  rw [ceil_half]
  decide

/-- C21, amended: for step distances `d >= 2` and `e >= 2`, the update after the first
step returns, and the new distances are the ceilings of `d / (d/2)` and of `e / (e/2)`
with the integer division of C in the denominators; the new horizontal distance is
the ceiling of `d / 2` only when `d` is 4 or 5, and likewise the vertical one. -/
theorem C21_recomputed_step_distance (st : Assignment1.SearchState) (d e : Int)
    (hd : 2 ≤ d) (he : 2 ≤ e) (hx : st.search_dist_x = d) (hy : st.search_dist_y = e) :
    ∃ st2, Assignment1.Update_Search_Dist 0 st = some st2 ∧
      (st2.search_dist_x = Int.ceil ((d : ℚ) / ((d.tdiv 2 : Int) : ℚ)) ∧
        st2.search_dist_y = Int.ceil ((e : ℚ) / ((e.tdiv 2 : Int) : ℚ))) ∧
      ((st2.search_dist_x = Int.ceil ((d : ℚ) / 2) ↔ d = 4 ∨ d = 5) ∧
        (st2.search_dist_y = Int.ceil ((e : ℚ) / 2) ↔ e = 4 ∨ e = 5)) := by
  obtain ⟨hx1, _⟩ := next_dist_pos d hd
  obtain ⟨hy1, _⟩ := next_dist_pos e he
  have hU : Assignment1.Update_Search_Dist 0 st = some
      { st with
        search_dist_x := (d + d.tdiv 2 - 1).tdiv (d.tdiv 2)
        search_dist_y := (e + e.tdiv 2 - 1).tdiv (e.tdiv 2) } := by
    simp only [Assignment1.Update_Search_Dist]
    rw [if_neg (by decide), if_pos (by decide), hx, hy, if_neg (by
      rintro (h | h)
      · exact hx1 h
      · exact hy1 h)]
  refine ⟨_, hU, ⟨(ceil_next_dist d hd).symm, (ceil_next_dist e he).symm⟩, ?_, ?_⟩
  · show (d + d.tdiv 2 - 1).tdiv (d.tdiv 2) = Int.ceil ((d : ℚ) / 2) ↔ d = 4 ∨ d = 5
    rw [ceil_half]
    obtain ⟨v0, v1⟩ := next_dist_value d hd
    rcases Int.emod_two_eq_zero_or_one d with h | h
    · rw [v0 h]; omega
    · rw [v1 h]; omega
  · show (e + e.tdiv 2 - 1).tdiv (e.tdiv 2) = Int.ceil ((e : ℚ) / 2) ↔ e = 4 ∨ e = 5
    rw [ceil_half]
    obtain ⟨v0, v1⟩ := next_dist_value e he
    rcases Int.emod_two_eq_zero_or_one e with h | h
    · rw [v0 h]; omega
    · rw [v1 h]; omega

/-- Witness of C21: the first step distances 4 and 4 of radius 8. -/
theorem C21_recomputed_step_distance_witness :
    ∃ st2, Assignment1.Update_Search_Dist 0 (Assignment1.Search_Init cfgR8 block_flat3) =
        some st2 ∧
      (st2.search_dist_x = Int.ceil (((4 : Int) : ℚ) / (((4 : Int).tdiv 2 : Int) : ℚ)) ∧
        st2.search_dist_y = Int.ceil (((4 : Int) : ℚ) / (((4 : Int).tdiv 2 : Int) : ℚ))) ∧
      ((st2.search_dist_x = Int.ceil (((4 : Int) : ℚ) / 2) ↔ (4 : Int) = 4 ∨ (4 : Int) = 5) ∧
        (st2.search_dist_y = Int.ceil (((4 : Int) : ℚ) / 2) ↔ (4 : Int) = 4 ∨ (4 : Int) = 5)) :=
  C21_recomputed_step_distance (Assignment1.Search_Init cfgR8 block_flat3) 4 4
    (by decide) (by decide) rfl rfl

/-! ## The best location stays inside the frame -/

/-- A search step that starts with the best location and the running best inside the
stop bounds of the window ends with the best location inside the stop bounds of the
old and of the new window. -/
theorem Search_Step_inv (cfg : Config) (fuel : Nat) (frame_1 : Image) (n : Int)
    (st : Assignment1.SearchState) (hOK : Assignment1.Search_OK cfg frame_1 st)
    (hn : n = 0 ∨ n = 1 ∨ n = 2)
    (hd : n = 0 → 2 ≤ st.search_dist_x ∧ 2 ≤ st.search_dist_y) (hf : 4 ≤ fuel)
    (hnl : Assignment1.Win_Has cfg st st.new_least_MSE_x st.new_least_MSE_y) :
    ∃ st', Assignment1.Search_Step cfg fuel frame_1 n st = some st' ∧
      Assignment1.Search_OK cfg frame_1 st' ∧
      (st'.this_macroblock.block = st.this_macroblock.block ∧
        st'.this_macroblock.block_location_x = st.this_macroblock.block_location_x ∧
        st'.this_macroblock.block_location_y = st.this_macroblock.block_location_y) ∧
      (st'.new_least_MSE_x = st'.least_MSE_x ∧ st'.new_least_MSE_y = st'.least_MSE_y) ∧
      (Assignment1.Win_Has cfg st st'.least_MSE_x st'.least_MSE_y ∧
        Assignment1.Win_Has cfg st' st'.least_MSE_x st'.least_MSE_y) ∧
      ((st'.least_MSE = st.least_MSE ∧ st'.least_MSE_x = st.new_least_MSE_x ∧
          st'.least_MSE_y = st.new_least_MSE_y) ∨
        ∃ o ∈ Assignment1.Nine_Offsets st.search_dist_x st.search_dist_y,
          Assignment1.Cand_Valid cfg st o.1 o.2 ∧
          st'.least_MSE = FVal.val (Assignment1.Offset_MSE cfg frame_1 st o) ∧
          (st'.least_MSE_x = st.least_MSE_x + o.1 ∧ st'.least_MSE_y = st.least_MSE_y + o.2) ∧
          (FVal.val (Assignment1.Offset_MSE cfg frame_1 st o)).lt st.least_MSE = true) ∧
      (∀ o ∈ Assignment1.Nine_Offsets st.search_dist_x st.search_dist_y,
        Assignment1.Cand_Valid cfg st o.1 o.2 →
        (FVal.val (Assignment1.Offset_MSE cfg frame_1 st o)).lt st'.least_MSE = false) ∧
      ((n = 0 → st'.search_dist_x =
          (st.search_dist_x + st.search_dist_x.tdiv 2 - 1).tdiv (st.search_dist_x.tdiv 2) ∧
        st'.search_dist_y =
          (st.search_dist_y + st.search_dist_y.tdiv 2 - 1).tdiv (st.search_dist_y.tdiv 2)) ∧
        (n = 1 → st'.search_dist_x = 1 ∧ st'.search_dist_y = 1)) ∧
      ((n = 0 ∨ n = 1 → st'.this_macroblock =
        Assignment1.Set_Search_Area cfg st.this_macroblock frame_1.get_cols frame_1.get_rows
          st'.search_dist_y st'.search_dist_x st'.least_MSE_x st'.least_MSE_y) ∧
        (n = 2 → st'.this_macroblock = st.this_macroblock ∧
          st'.search_dist_x = st.search_dist_x ∧ st'.search_dist_y = st.search_dist_y)) := by
  obtain ⟨st', hS, hOK', hk, hnl', hcase, hmin, hdist, hwin⟩ :=
    Search_Step_min cfg fuel frame_1 n st hOK hn hd hf
  have hold : Assignment1.Win_Has cfg st st'.least_MSE_x st'.least_MSE_y := by
    rcases hcase with ⟨_, e1, e2⟩ | ⟨o, _, hv, _, ⟨e1, e2⟩, _⟩
    · rw [e1, e2]; exact hnl
    · rw [e1, e2]; exact hv
  have hnew : Assignment1.Win_Has cfg st' st'.least_MSE_x st'.least_MSE_y := by
    obtain ⟨⟨a1, a2⟩, ⟨a3, a4⟩⟩ := hold
    obtain ⟨_, ⟨hc, _⟩, ⟨hsx, hsy⟩, _⟩ := hOK
    obtain ⟨_, _, _, ⟨hdx', hdy'⟩⟩ := hOK'
    have hgc : frame_1.get_cols = frame_1.cols := by
      unfold Image.get_cols Image.channels
      rw [if_pos (by omega)]
    have hgr : frame_1.get_rows = frame_1.rows := by
      unfold Image.get_rows Image.channels
      rw [if_pos (by omega)]
    rcases hn with rfl | rfl | rfl
    · unfold Assignment1.Win_Has
      rw [hwin.1 (Or.inl rfl)]
      simp only [Assignment1.Set_Search_Area]
      refine ⟨⟨a1, ?_⟩, ⟨a3, ?_⟩⟩
      · split_ifs <;> omega
      · split_ifs <;> omega
    · unfold Assignment1.Win_Has
      rw [hwin.1 (Or.inr rfl)]
      simp only [Assignment1.Set_Search_Area]
      refine ⟨⟨a1, ?_⟩, ⟨a3, ?_⟩⟩
      · split_ifs <;> omega
      · split_ifs <;> omega
    · unfold Assignment1.Win_Has
      rw [(hwin.2 rfl).1]
      exact ⟨⟨a1, a2⟩, ⟨a3, a4⟩⟩
  exact ⟨st', hS, hOK', hk, hnl', ⟨hold, hnew⟩, hcase, hmin, hdist, hwin⟩

/-- A search step that starts either with the least distortion of its own best
location, or with `FLT_MAX` and a best location whose distortion is below `FLT_MAX`:
the new best location is a compared candidate of least distortion, and the new least
distortion is the distortion of the new best location. -/
theorem Search_Step_best (cfg : Config) (fuel : Nat) (frame_1 : Image) (n : Int)
    (st : Assignment1.SearchState) (hOK : Assignment1.Search_OK cfg frame_1 st)
    (hn : n = 0 ∨ n = 1 ∨ n = 2)
    (hd : n = 0 → 2 ≤ st.search_dist_x ∧ 2 ≤ st.search_dist_y) (hf : 4 ≤ fuel)
    (hl : Assignment1.Win_Has cfg st st.least_MSE_x st.least_MSE_y)
    (hnl : Assignment1.Win_Has cfg st st.new_least_MSE_x st.new_least_MSE_y)
    (hnf : ((st.new_least_MSE_x = st.least_MSE_x ∧ st.new_least_MSE_y = st.least_MSE_y) ∧
        st.least_MSE = FVal.val (Assignment1.Offset_MSE cfg frame_1 st (0, 0))) ∨
      (st.least_MSE = FVal.val FLT_MAX ∧
        Assignment1.Offset_MSE cfg frame_1 st (0, 0) < FLT_MAX)) :
    ∃ st', Assignment1.Search_Step cfg fuel frame_1 n st = some st' ∧
      Assignment1.Search_OK cfg frame_1 st' ∧
      (st'.this_macroblock.block = st.this_macroblock.block ∧
        st'.this_macroblock.block_location_x = st.this_macroblock.block_location_x ∧
        st'.this_macroblock.block_location_y = st.this_macroblock.block_location_y) ∧
      Assignment1.Win_Has cfg st' st'.least_MSE_x st'.least_MSE_y ∧
      ((st'.new_least_MSE_x = st'.least_MSE_x ∧ st'.new_least_MSE_y = st'.least_MSE_y) ∧
        st'.least_MSE = FVal.val (Assignment1.Offset_MSE cfg frame_1 st' (0, 0))) ∧
      Assignment1.Step_Best cfg frame_1 st st' ∧
      ((n = 0 → st'.search_dist_x =
          (st.search_dist_x + st.search_dist_x.tdiv 2 - 1).tdiv (st.search_dist_x.tdiv 2) ∧
        st'.search_dist_y =
          (st.search_dist_y + st.search_dist_y.tdiv 2 - 1).tdiv (st.search_dist_y.tdiv 2)) ∧
        (n = 1 → st'.search_dist_x = 1 ∧ st'.search_dist_y = 1)) := by
  have h00 : ((0 : Int), (0 : Int)) ∈
      Assignment1.Nine_Offsets st.search_dist_x st.search_dist_y := by
    simp [Assignment1.Nine_Offsets]
  have hv00 : Assignment1.Cand_Valid cfg st 0 0 := by
    obtain ⟨⟨a1, a2⟩, ⟨a3, a4⟩⟩ := hl
    exact ⟨⟨by omega, by omega⟩, ⟨by omega, by omega⟩⟩
  obtain ⟨st', hS, hOK', hk, hnl', hcase, hmin, hdist, _⟩ :=
    Search_Step_min cfg fuel frame_1 n st hOK hn hd hf
  -- the candidate that becomes the best location
  have hbest : ∃ o ∈ Assignment1.Nine_Offsets st.search_dist_x st.search_dist_y,
      Assignment1.Cand_Valid cfg st o.1 o.2 ∧
      (st'.least_MSE_x = st.least_MSE_x + o.1 ∧ st'.least_MSE_y = st.least_MSE_y + o.2) ∧
      st'.least_MSE = FVal.val (Assignment1.Offset_MSE cfg frame_1 st o) := by
    rcases hcase with ⟨e0, e1, e2⟩ | ⟨o, ho, hv, e0, e12, _⟩
    · rcases hnf with ⟨⟨n1, n2⟩, hm⟩ | ⟨hm, hlt⟩
      · refine ⟨(0, 0), h00, hv00, ⟨?_, ?_⟩, by rw [e0, hm]⟩
        · rw [e1, n1]; simp
        · rw [e2, n2]; simp
      · exfalso
        have := hmin (0, 0) h00 hv00
        rw [e0, hm, FVal_lt_val, decide_eq_false_iff_not] at this
        exact this hlt
    · exact ⟨o, ho, hv, e12, e0⟩
  obtain ⟨o, ho, hv, ⟨e1, e2⟩, e0⟩ := hbest
  have hwin' : Assignment1.Win_Has cfg st' st'.least_MSE_x st'.least_MSE_y := by
    obtain ⟨st2, hS2, _, _, _, ⟨_, hw2⟩, _⟩ :=
      Search_Step_inv cfg fuel frame_1 n st hOK hn hd hf hnl
    rw [hS] at hS2
    have := Option.some.inj hS2
    subst this
    exact hw2
  refine ⟨st', hS, hOK', hk, hwin', ⟨hnl', ?_⟩, ⟨o, ho, hv, ⟨e1, e2⟩, e0, ?_⟩, hdist⟩
  · rw [e0]
    unfold Assignment1.Offset_MSE
    rw [hk.1, e1, e2]
    simp
  · intro o2 ho2 hv2
    have := hmin o2 ho2 hv2
    rw [e0, FVal_lt_val, decide_eq_false_iff_not] at this
    exact not_lt.mp this

/-- The search for a macroblock of the grid starts with the block's own place and the
running best `(0, 0)` inside the stop bounds of the window. -/
theorem Search_Init_inside (cfg : Config) (T : Image) (vert horiz : Int)
    (mb : Assignment1.Macroblock)
    (hw : 0 < cfg.block_width) (hh : 0 < cfg.block_height)
    (hsh : 0 ≤ cfg.search_horizontal) (hsv : 0 ≤ cfg.search_vertical)
    (hv : 0 ≤ vert ∧ vert < T.get_rows.tdiv cfg.block_height)
    (hz : 0 ≤ horiz ∧ horiz < T.get_cols.tdiv cfg.block_width)
    (hIs : Assignment1.Is_Block_At cfg T vert horiz mb) :
    Assignment1.Win_Has cfg (Assignment1.Search_Init cfg mb)
        (Assignment1.Search_Init cfg mb).least_MSE_x
        (Assignment1.Search_Init cfg mb).least_MSE_y ∧
      Assignment1.Win_Has cfg (Assignment1.Search_Init cfg mb)
        (Assignment1.Search_Init cfg mb).new_least_MSE_x
        (Assignment1.Search_Init cfg mb).new_least_MSE_y := by
  obtain ⟨⟨ex, ey⟩, _, _, ⟨_, hxs, _, hys⟩, _⟩ := hIs
  obtain ⟨_, hnh1, _⟩ := tdiv_block T.get_cols cfg.block_width (get_cols_nonneg T) hw
  obtain ⟨_, hnv1, _⟩ := tdiv_block T.get_rows cfg.block_height (get_rows_nonneg T) hh
  have h1 := mul_succ_le_of_lt horiz _ cfg.block_width hw hz.2
  have h2 := mul_succ_le_of_lt vert _ cfg.block_height hh hv.2
  have h3 : 0 ≤ horiz * cfg.block_width := Int.mul_nonneg hz.1 hw.le
  have h4 : 0 ≤ vert * cfg.block_height := Int.mul_nonneg hv.1 hh.le
  have e1 : (horiz + 1) * cfg.block_width = horiz * cfg.block_width + cfg.block_width := by ring
  have e2 : (vert + 1) * cfg.block_height = vert * cfg.block_height + cfg.block_height := by ring
  constructor
  · refine ⟨⟨?_, ?_⟩, ⟨?_, ?_⟩⟩
    · show 0 ≤ mb.block_location_x
      omega
    · show mb.block_location_x + cfg.block_width ≤ mb.search_location_x_stop
      rw [hxs, ex]
      exact le_min (by omega) (by omega)
    · show 0 ≤ mb.block_location_y
      omega
    · show mb.block_location_y + cfg.block_height ≤ mb.search_location_y_stop
      rw [hys, ey]
      exact le_min (by omega) (by omega)
  · refine ⟨⟨le_refl _, ?_⟩, ⟨le_refl _, ?_⟩⟩
    · show 0 + cfg.block_width ≤ mb.search_location_x_stop
      rw [hxs]
      exact le_min (by omega) (by omega)
    · show 0 + cfg.block_height ≤ mb.search_location_y_stop
      rw [hys]
      exact le_min (by omega) (by omega)

/-- The stop bounds of the window imply the four bounds checks of the candidate at
offset `(0, 0)`. -/
theorem Cand_Valid_centre (cfg : Config) (st : Assignment1.SearchState)
    (h : Assignment1.Win_Has cfg st st.least_MSE_x st.least_MSE_y) :
    Assignment1.Cand_Valid cfg st 0 0 := by
  obtain ⟨⟨a1, a2⟩, ⟨a3, a4⟩⟩ := h
  exact ⟨⟨by omega, by omega⟩, ⟨by omega, by omega⟩⟩

/-- The three steps for a macroblock of the grid, with frames of equal extents and
radii of at least 4: at each step the best location passes the four bounds checks, and
the final best location lies inside the reference frame. -/
theorem Three_Step_Search_inv (cfg : Config) (fuel : Nat) (R T : Image)
    (vert horiz : Int) (mb : Assignment1.Macroblock)
    (hw : 0 < cfg.block_width) (hh : 0 < cfg.block_height)
    (hsh : 4 ≤ cfg.search_horizontal) (hsv : 4 ≤ cfg.search_vertical) (hf : 4 ≤ fuel)
    (hext : R.chans = T.chans ∧ R.rows = T.rows ∧ R.cols = T.cols)
    (hv : 0 ≤ vert ∧ vert < T.get_rows.tdiv cfg.block_height)
    (hz : 0 ≤ horiz ∧ horiz < T.get_cols.tdiv cfg.block_width)
    (hIs : Assignment1.Is_Block_At cfg T vert horiz mb) :
    ∃ s1 s2 s3,
      (Assignment1.Search_Step cfg fuel R 0 (Assignment1.Search_Init cfg mb) = some s1 ∧
        Assignment1.Search_Step cfg fuel R 1 s1 = some s2 ∧
        Assignment1.Search_Step cfg fuel R 2 s2 = some s3 ∧
        Assignment1.Three_Step_Search cfg fuel R mb = some s3) ∧
      (Assignment1.Search_OK cfg R (Assignment1.Search_Init cfg mb) ∧
        Assignment1.Search_OK cfg R s1 ∧ Assignment1.Search_OK cfg R s2) ∧
      (Assignment1.Cand_Valid cfg (Assignment1.Search_Init cfg mb) 0 0 ∧
        Assignment1.Cand_Valid cfg s1 0 0 ∧ Assignment1.Cand_Valid cfg s2 0 0) ∧
      (s3.this_macroblock.block_location_x = mb.block_location_x ∧
        s3.this_macroblock.block_location_y = mb.block_location_y) ∧
      ((0 ≤ s3.least_MSE_x ∧ s3.least_MSE_x + cfg.block_width ≤ R.cols) ∧
        (0 ≤ s3.least_MSE_y ∧ s3.least_MSE_y + cfg.block_height ≤ R.rows)) := by
  have hch : 0 < T.chans := chans_pos_of_grid cfg T horiz hw hz
  have hOK := Search_OK_of_block cfg R T vert horiz mb hw hh hsh hsv hch hext hIs
  obtain ⟨hl0, hn0⟩ := Search_Init_inside cfg T vert horiz mb hw hh (by omega) (by omega)
    hv hz hIs
  obtain ⟨s1, h1, ok1, k1, n1, ⟨_, w1⟩, _⟩ := Search_Step_inv cfg fuel R 0 _ hOK
    (Or.inl rfl) (fun _ => ⟨first_dist _ hsh, first_dist _ hsv⟩) hf hn0
  obtain ⟨s2, h2, ok2, k2, n2, ⟨_, w2⟩, _⟩ := Search_Step_inv cfg fuel R 1 s1 ok1
    (Or.inr (Or.inl rfl)) (fun h => absurd h (by decide)) hf (by rw [n1.1, n1.2]; exact w1)
  obtain ⟨s3, h3, ok3, k3, _, ⟨_, w3⟩, _⟩ := Search_Step_inv cfg fuel R 2 s2 ok2
    (Or.inr (Or.inr rfl)) (fun h => absurd h (by decide)) hf (by rw [n2.1, n2.2]; exact w2)
  refine ⟨s1, s2, s3, ⟨h1, h2, h3, ?_⟩, ⟨hOK, ok1, ok2⟩,
    ⟨Cand_Valid_centre cfg _ hl0, Cand_Valid_centre cfg _ w1, Cand_Valid_centre cfg _ w2⟩,
    ⟨?_, ?_⟩, ?_⟩
  · unfold Assignment1.Three_Step_Search
    rw [forRange_three, h1, Option.some_bind, h2, Option.some_bind, h3]
  · rw [k3.2.1, k2.2.1]; exact k1.2.1
  · rw [k3.2.2, k2.2.2]; exact k1.2.2
  · obtain ⟨⟨a1, a2⟩, ⟨a3, a4⟩⟩ := w3
    obtain ⟨_, _, ⟨b1, b2⟩, _⟩ := ok3
    exact ⟨⟨a1, by omega⟩, ⟨a3, by omega⟩⟩

/-- The distortion `Cand_MSE` is the value the code computes: the region is cut out by
`Set_Image_Range` and compared with the block by `MSE`. -/
theorem Cand_MSE_code (cfg : Config) (block frame_1 : Image) (x y : Int)
    (hw : 0 < cfg.block_width) (hh : 0 < cfg.block_height)
    (hb : 0 < frame_1.chans ∧ block.chans = frame_1.chans ∧
      (block.rows : Int) = cfg.block_height ∧ (block.cols : Int) = cfg.block_width)
    (hin : (0 ≤ x ∧ x + cfg.block_width ≤ frame_1.cols) ∧
      (0 ≤ y ∧ y + cfg.block_height ≤ frame_1.rows)) :
    ∃ sb, Set_Image_Range frame_1 0 frame_1.channels x (x + cfg.block_width)
        y (y + cfg.block_height) = some sb ∧
      MSE block sb = some (FVal.val (Assignment1.Cand_MSE cfg block frame_1 x y)) := by
  obtain ⟨hc, dc, dr, dk⟩ := hb
  obtain ⟨⟨v1, v2⟩, ⟨v3, v4⟩⟩ := hin
  obtain ⟨sb, hsb, ⟨e1, e2, e3⟩, hpix⟩ := Set_Image_Range_spec frame_1 0 frame_1.channels
    x (x + cfg.block_width) y (y + cfg.block_height)
    ⟨le_refl _, by unfold Image.channels; omega, by unfold Image.channels; omega⟩
    ⟨v3, by omega, by omega⟩ ⟨v1, by omega, by omega⟩
  unfold Image.channels at e1
  have hd : block.chans ≤ sb.chans ∧ block.rows ≤ sb.rows ∧ block.cols ≤ sb.cols :=
    ⟨by omega, by omega, by omega⟩
  obtain ⟨x1, x2, x3⟩ := extents_of_pos block (by omega)
  have hn : block.channels * block.get_rows * block.get_cols ≠ 0 := by
    rw [x1, x2, x3, dr, dk]
    have h1 : (0 : Int) < block.chans := by omega
    exact ne_of_gt (Int.mul_pos (Int.mul_pos h1 hh) hw)
  have hM := MSE_formula block sb hd
  rw [if_neg hn] at hM
  refine ⟨sb, hsb, ?_⟩
  rw [hM]
  unfold Assignment1.Cand_MSE
  rw [x1, x2, x3, dr, dk]
  refine congrArg (fun q => some (FVal.val q)) ?_
  apply Float_Mean_congr
  intro a b c ha hb hc'
  show (block.pix a b c - sb.pix a b c) ^ 2 = _
  rw [hpix a b c (by unfold Image.channels; omega) (by omega) (by omega)]
  simp

/-- A candidate that passes the bounds checks is compared with the running best
whatever the running best is. -/
theorem Try_Candidate_running (cfg : Config) (frame_1 : Image) (x y : Int)
    (st : Assignment1.SearchState) (hOK : Assignment1.Search_OK cfg frame_1 st)
    (hv : Assignment1.Cand_Valid cfg st x y) (m : FVal) (nx ny : Int) :
    Assignment1.Try_Candidate cfg frame_1 x y (Assignment1.With_Best st m nx ny) =
      some (if (FVal.val (Assignment1.Offset_MSE cfg frame_1 st (x, y))).lt m then
        Assignment1.With_Best st (FVal.val (Assignment1.Offset_MSE cfg frame_1 st (x, y)))
          (st.least_MSE_x + x) (st.least_MSE_y + y)
      else Assignment1.With_Best st m nx ny) := by
  have hOK' : Assignment1.Search_OK cfg frame_1 (Assignment1.With_Best st m nx ny) := hOK
  have hv' : Assignment1.Cand_Valid cfg (Assignment1.With_Best st m nx ny) x y := hv
  exact Try_Candidate_exact cfg frame_1 x y _ hOK' hv'

/-- The distortion of the block's own place is below `FLT_MAX` when the samples are in
the range of a 32-bit `int`. -/
theorem Search_Init_below (cfg : Config) (R T : Image) (vert horiz : Int)
    (mb : Assignment1.Macroblock)
    (hw : 0 < cfg.block_width) (hh : 0 < cfg.block_height)
    (hext : R.chans = T.chans ∧ R.rows = T.rows ∧ R.cols = T.cols)
    (hR : ∀ a i j, R.inBounds a i j → |R.pix a i j| < 2 ^ 31)
    (hT : ∀ a i j, T.inBounds a i j → |T.pix a i j| < 2 ^ 31)
    (hv : 0 ≤ vert ∧ vert < T.get_rows.tdiv cfg.block_height)
    (hz : 0 ≤ horiz ∧ horiz < T.get_cols.tdiv cfg.block_width)
    (hIs : Assignment1.Is_Block_At cfg T vert horiz mb) :
    Assignment1.Offset_MSE cfg R (Assignment1.Search_Init cfg mb) (0, 0) < FLT_MAX := by
  have hch : 0 < T.chans := chans_pos_of_grid cfg T horiz hw hz
  obtain ⟨⟨ex, ey⟩, ⟨dc, dr, dk⟩, hpix, _, _⟩ := hIs
  obtain ⟨_, hnh1, _⟩ := tdiv_block T.get_cols cfg.block_width (get_cols_nonneg T) hw
  obtain ⟨_, hnv1, _⟩ := tdiv_block T.get_rows cfg.block_height (get_rows_nonneg T) hh
  have h1 := mul_succ_le_of_lt horiz _ cfg.block_width hw hz.2
  have h2 := mul_succ_le_of_lt vert _ cfg.block_height hh hv.2
  have h3 : 0 ≤ horiz * cfg.block_width := Int.mul_nonneg hz.1 hw.le
  have h4 : 0 ≤ vert * cfg.block_height := Int.mul_nonneg hv.1 hh.le
  have e1 : (horiz + 1) * cfg.block_width = horiz * cfg.block_width + cfg.block_width := by ring
  have e2 : (vert + 1) * cfg.block_height = vert * cfg.block_height + cfg.block_height := by ring
  have hgc := get_cols_le T
  have hgr := get_rows_le T
  apply Cand_MSE_lt_FLT_MAX cfg _ R _ _ hw hh
  · show 0 < mb.block.chans
    omega
  · intro a b c ha hb hc
    have ha' : 0 ≤ a ∧ a < (mb.block.chans : Int) := ha
    show |mb.block.pix a b c| < 2 ^ 31
    rw [hpix a b c (by omega) hb hc]
    apply hT
    exact ⟨⟨by omega, by omega⟩, ⟨by omega, by omega⟩, ⟨by omega, by omega⟩⟩
  · intro a b c ha hb hc
    have ha' : 0 ≤ a ∧ a < (mb.block.chans : Int) := ha
    apply hR
    show (0 ≤ a ∧ a < (R.chans : Int)) ∧
      (0 ≤ mb.block_location_y + 0 + b ∧ mb.block_location_y + 0 + b < (R.rows : Int)) ∧
      (0 ≤ mb.block_location_x + 0 + c ∧ mb.block_location_x + 0 + c < (R.cols : Int))
    exact ⟨⟨by omega, by omega⟩, ⟨by omega, by omega⟩, ⟨by omega, by omega⟩⟩

/-- The three steps for a macroblock of the grid, with frames of equal extents, radii
of at least 4 and samples in the range of a 32-bit `int`: after each step the best
location is a compared candidate of least distortion, and the final least distortion
is the distortion of the final best location. -/
theorem Three_Step_Search_best (cfg : Config) (fuel : Nat) (R T : Image)
    (vert horiz : Int) (mb : Assignment1.Macroblock)
    (hw : 0 < cfg.block_width) (hh : 0 < cfg.block_height)
    (hsh : 4 ≤ cfg.search_horizontal) (hsv : 4 ≤ cfg.search_vertical) (hf : 4 ≤ fuel)
    (hext : R.chans = T.chans ∧ R.rows = T.rows ∧ R.cols = T.cols)
    (hR : ∀ a i j, R.inBounds a i j → |R.pix a i j| < 2 ^ 31)
    (hT : ∀ a i j, T.inBounds a i j → |T.pix a i j| < 2 ^ 31)
    (hv : 0 ≤ vert ∧ vert < T.get_rows.tdiv cfg.block_height)
    (hz : 0 ≤ horiz ∧ horiz < T.get_cols.tdiv cfg.block_width)
    (hIs : Assignment1.Is_Block_At cfg T vert horiz mb) :
    ∃ s1 s2 s3,
      (Assignment1.Search_Step cfg fuel R 0 (Assignment1.Search_Init cfg mb) = some s1 ∧
        Assignment1.Search_Step cfg fuel R 1 s1 = some s2 ∧
        Assignment1.Search_Step cfg fuel R 2 s2 = some s3 ∧
        Assignment1.Three_Step_Search cfg fuel R mb = some s3) ∧
      (Assignment1.Step_Best cfg R (Assignment1.Search_Init cfg mb) s1 ∧
        Assignment1.Step_Best cfg R s1 s2 ∧ Assignment1.Step_Best cfg R s2 s3) ∧
      (s3.this_macroblock.block = mb.block ∧
        s3.this_macroblock.block_location_x = mb.block_location_x ∧
        s3.this_macroblock.block_location_y = mb.block_location_y) ∧
      (s3.least_MSE = FVal.val (Assignment1.Cand_MSE cfg mb.block R s3.least_MSE_x
          s3.least_MSE_y) ∧
        Assignment1.Cand_MSE cfg mb.block R s3.least_MSE_x s3.least_MSE_y ≤
          Assignment1.Cand_MSE cfg mb.block R mb.block_location_x mb.block_location_y) ∧
      ((0 ≤ s3.least_MSE_x ∧ s3.least_MSE_x + cfg.block_width ≤ R.cols) ∧
        (0 ≤ s3.least_MSE_y ∧ s3.least_MSE_y + cfg.block_height ≤ R.rows)) := by
  have hch : 0 < T.chans := chans_pos_of_grid cfg T horiz hw hz
  have hOK := Search_OK_of_block cfg R T vert horiz mb hw hh hsh hsv hch hext hIs
  obtain ⟨hl0, hn0⟩ := Search_Init_inside cfg T vert horiz mb hw hh (by omega) (by omega)
    hv hz hIs
  have hq0 := Search_Init_below cfg R T vert horiz mb hw hh hext hR hT hv hz hIs
  obtain ⟨s1, h1, ok1, k1, w1, ⟨n1, m1⟩, b1, _⟩ := Search_Step_best cfg fuel R 0 _ hOK
    (Or.inl rfl) (fun _ => ⟨first_dist _ hsh, first_dist _ hsv⟩) hf hl0 hn0
    (Or.inr ⟨rfl, hq0⟩)
  obtain ⟨s2, h2, ok2, k2, w2, ⟨n2, m2⟩, b2, _⟩ := Search_Step_best cfg fuel R 1 s1 ok1
    (Or.inr (Or.inl rfl)) (fun h => absurd h (by decide)) hf w1
    (by rw [n1.1, n1.2]; exact w1) (Or.inl ⟨n1, m1⟩)
  obtain ⟨s3, h3, ok3, k3, w3, ⟨n3, m3⟩, b3, _⟩ := Search_Step_best cfg fuel R 2 s2 ok2
    (Or.inr (Or.inr rfl)) (fun h => absurd h (by decide)) hf w2
    (by rw [n2.1, n2.2]; exact w2) (Or.inl ⟨n2, m2⟩)
  have i1 : s1.this_macroblock.block = mb.block := k1.1
  have i2 : s2.this_macroblock.block = mb.block := by rw [k2.1]; exact i1
  have i3 : s3.this_macroblock.block = mb.block := by rw [k3.1]; exact i2
  -- the distortion of the centre of a state
  have hc : ∀ st : Assignment1.SearchState, st.this_macroblock.block = mb.block →
      Assignment1.Offset_MSE cfg R st (0, 0) =
        Assignment1.Cand_MSE cfg mb.block R st.least_MSE_x st.least_MSE_y := by
    intro st h
    unfold Assignment1.Offset_MSE
    rw [h]
    simp
  -- each step does not raise the distortion of the best location
  have hstep : ∀ st st2 : Assignment1.SearchState, Assignment1.Step_Best cfg R st st2 →
      Assignment1.Cand_Valid cfg st 0 0 →
      st2.least_MSE = FVal.val (Assignment1.Offset_MSE cfg R st2 (0, 0)) →
      Assignment1.Offset_MSE cfg R st2 (0, 0) ≤ Assignment1.Offset_MSE cfg R st (0, 0) := by
    intro st st2 hb hv0 hm
    obtain ⟨o, _, _, _, e0, hmin⟩ := hb
    have h00 : ((0 : Int), (0 : Int)) ∈
        Assignment1.Nine_Offsets st.search_dist_x st.search_dist_y := by
      simp [Assignment1.Nine_Offsets]
    have := hmin (0, 0) h00 hv0
    rw [e0] at hm
    have e : Assignment1.Offset_MSE cfg R st o = Assignment1.Offset_MSE cfg R st2 (0, 0) :=
      FVal.val.inj hm
    rw [← e]
    exact this
  have q1 := hstep _ s1 b1 (Cand_Valid_centre cfg _ hl0) m1
  have q2 := hstep s1 s2 b2 (Cand_Valid_centre cfg _ w1) m2
  have q3 := hstep s2 s3 b3 (Cand_Valid_centre cfg _ w2) m3
  rw [hc s3 i3] at q3 m3
  rw [hc s2 i2] at q3 q2
  rw [hc s1 i1] at q2 q1
  rw [hc _ rfl] at q1
  refine ⟨s1, s2, s3, ⟨h1, h2, h3, ?_⟩, ⟨b1, b2, b3⟩, ⟨i3, ?_, ?_⟩, ⟨m3, ?_⟩, ?_⟩
  · unfold Assignment1.Three_Step_Search
    rw [forRange_three, h1, Option.some_bind, h2, Option.some_bind, h3]
  · rw [k3.2.1, k2.2.1]; exact k1.2.1
  · rw [k3.2.2, k2.2.2]; exact k1.2.2
  · exact le_trans q3 (le_trans q2 q1)
  · obtain ⟨⟨a1, a2⟩, ⟨a3, a4⟩⟩ := w3
    obtain ⟨_, _, ⟨c1, c2⟩, _⟩ := ok3
    exact ⟨⟨a1, by omega⟩, ⟨a3, by omega⟩⟩

/-! ## The matched blocks (C25, C27, C28, C29) -/

/-- A fact proved of the match of every macroblock of the grid holds of every entry
of the result of the loop over the macroblocks. -/
theorem Match_All_lift (cfg : Config) (fuel : Nat) (R T : Image)
    (blocks : List Assignment1.Macroblock)
    (P : Assignment1.Macroblock → Assignment1.Macroblock × FVal → Prop)
    (hw : 0 < cfg.block_width) (hh : 0 < cfg.block_height)
    (hb : Assignment1.Set_Macroblocks cfg T [] = some blocks)
    (hP : ∀ vert horiz mb, (0 ≤ vert ∧ vert < T.get_rows.tdiv cfg.block_height) →
      (0 ≤ horiz ∧ horiz < T.get_cols.tdiv cfg.block_width) →
      Assignment1.Is_Block_At cfg T vert horiz mb →
      ∃ r, Assignment1.Match_Macroblock cfg fuel R mb = some r ∧ P mb r) :
    ∃ ms, Assignment1.Match_All cfg fuel R blocks = some ms ∧ ms.length = blocks.length ∧
      (∀ (k : Nat) (mb : Assignment1.Macroblock), blocks[k]? = some mb →
        ∃ r, ms[k]? = some r ∧ P mb r) ∧
      (∀ r ∈ ms, ∃ mb ∈ blocks, P mb r) := by
  obtain ⟨blocks2, hb2, _, hall0⟩ := Set_Macroblocks_spec cfg T [] hw hh
  have hbe : blocks2 = blocks := by
    have h1 : Assignment1.Set_Macroblocks cfg T [] = some blocks2 := by simpa using hb2
    rw [hb] at h1
    exact (Option.some.inj h1).symm
  rw [hbe] at hall0
  obtain ⟨ms, hms, hlen, hall2⟩ := Match_All_spec cfg fuel R blocks (by
    intro mb hmem
    obtain ⟨k, hk⟩ := List.mem_iff_getElem?.mp hmem
    obtain ⟨vert, horiz, hv, hz, _, hIs⟩ := hall0 k mb hk
    obtain ⟨r, hr, _⟩ := hP vert horiz mb hv hz hIs
    exact ⟨r, hr⟩)
  have hidx : ∀ (k : Nat) (mb : Assignment1.Macroblock), blocks[k]? = some mb →
      ∃ r, ms[k]? = some r ∧ P mb r := by
    intro k mb hk
    obtain ⟨r, hr, hM⟩ := hall2 k mb hk
    obtain ⟨vert, horiz, hv, hz, _, hIs⟩ := hall0 k mb hk
    obtain ⟨r2, hr2, hp⟩ := hP vert horiz mb hv hz hIs
    rw [hM] at hr2
    have : r = r2 := Option.some.inj hr2
    exact ⟨r2, by rw [← this]; exact hr, hp⟩
  refine ⟨ms, hms, hlen, hidx, ?_⟩
  intro r hr
  obtain ⟨k, hk⟩ := List.mem_iff_getElem?.mp hr
  have hklt : k < blocks.length := by
    have := (List.getElem?_eq_some_iff.mp hk).1
    omega
  obtain ⟨r2, hr2, hp⟩ := hidx k blocks[k] (List.getElem?_eq_getElem hklt)
  rw [hk] at hr2
  have : r = r2 := Option.some.inj hr2
  rw [this]
  exact ⟨blocks[k], List.getElem_mem hklt, hp⟩

/-- Two arrays of the same length whose entries have the same anchors index by index
have the same list of anchors. -/
theorem same_anchors_of_index (blocks : List Assignment1.Macroblock)
    (ms : List (Assignment1.Macroblock × FVal)) (hlen : ms.length = blocks.length)
    (h : ∀ (k : Nat) (mb : Assignment1.Macroblock), blocks[k]? = some mb →
      ∃ r, ms[k]? = some r ∧ (r.1.block_location_x = mb.block_location_x ∧
        r.1.block_location_y = mb.block_location_y)) :
    (ms.map Prod.fst).map Assignment1.Anchor = blocks.map Assignment1.Anchor := by
  apply List.ext_getElem?
  intro k
  rw [List.getElem?_map, List.getElem?_map, List.getElem?_map]
  by_cases hk : k < blocks.length
  · obtain ⟨r, hr, e1, e2⟩ := h k blocks[k] (List.getElem?_eq_getElem hk)
    rw [hr, List.getElem?_eq_getElem hk]
    simp only [Option.map_some']
    congr 1
    exact Prod.ext e1 e2
  · rw [List.getElem?_eq_none (by omega), List.getElem?_eq_none (by omega)]
    rfl

/-- The match of a macroblock of the grid, with frames of equal extents and radii of
at least 4: it returns, keeps the block's place, and the displaced source region lies
inside the reference frame. -/
theorem Match_Macroblock_inside (cfg : Config) (fuel : Nat) (R T : Image)
    (vert horiz : Int) (mb : Assignment1.Macroblock)
    (hw : 0 < cfg.block_width) (hh : 0 < cfg.block_height)
    (hsh : 4 ≤ cfg.search_horizontal) (hsv : 4 ≤ cfg.search_vertical) (hf : 4 ≤ fuel)
    (hext : R.chans = T.chans ∧ R.rows = T.rows ∧ R.cols = T.cols)
    (hv : 0 ≤ vert ∧ vert < T.get_rows.tdiv cfg.block_height)
    (hz : 0 ≤ horiz ∧ horiz < T.get_cols.tdiv cfg.block_width)
    (hIs : Assignment1.Is_Block_At cfg T vert horiz mb) :
    ∃ r, Assignment1.Match_Macroblock cfg fuel R mb = some r ∧
      ((r.1.block_location_x = mb.block_location_x ∧
          r.1.block_location_y = mb.block_location_y) ∧
        Assignment1.Source_In cfg R r.1) := by
  obtain ⟨s1, s2, s3, ⟨_, _, _, hst⟩, _, _, ⟨kx, ky⟩, hin⟩ :=
    Three_Step_Search_inv cfg fuel R T vert horiz mb hw hh hsh hsv hf hext hv hz hIs
  have hM : Assignment1.Match_Macroblock cfg fuel R mb = some
      ({ s3.this_macroblock with
          motion_vector_x := s3.least_MSE_x - s3.this_macroblock.block_location_x
          motion_vector_y := s3.least_MSE_y - s3.this_macroblock.block_location_y },
        s3.least_MSE) := by
    simp only [Assignment1.Match_Macroblock, hst, Option.some_bind, Option.bind_eq_bind]
  refine ⟨_, hM, ⟨kx, ky⟩, ?_⟩
  show (0 ≤ s3.this_macroblock.block_location_x +
        (s3.least_MSE_x - s3.this_macroblock.block_location_x) ∧
      s3.this_macroblock.block_location_x +
        (s3.least_MSE_x - s3.this_macroblock.block_location_x) + cfg.block_width ≤ R.cols) ∧
    (0 ≤ s3.this_macroblock.block_location_y +
        (s3.least_MSE_y - s3.this_macroblock.block_location_y) ∧
      s3.this_macroblock.block_location_y +
        (s3.least_MSE_y - s3.this_macroblock.block_location_y) + cfg.block_height ≤ R.rows)
  obtain ⟨⟨a1, a2⟩, ⟨a3, a4⟩⟩ := hin
  exact ⟨⟨by omega, by omega⟩, ⟨by omega, by omega⟩⟩

/-- Frames of equal extents report the same rows and columns. -/
theorem get_extents_eq (R T : Image)
    (hext : R.chans = T.chans ∧ R.rows = T.rows ∧ R.cols = T.cols) :
    R.get_cols = T.get_cols ∧ R.get_rows = T.get_rows := by
  unfold Image.get_cols Image.get_rows Image.channels
  rw [hext.1, hext.2.1, hext.2.2]
  exact ⟨rfl, rfl⟩

/-- Function `Block_Match` of Assignment 1 once the dimension check has passed and
the macroblocks have been segmented and matched: what is left is `Reconstruct_Frame`. -/
theorem Block_Match_eq (cfg : Config) (fuel : Nat) (R T out0 : Image)
    (blocks : List Assignment1.Macroblock) (ms : List (Assignment1.Macroblock × FVal))
    (hw : 0 < cfg.block_width) (hh : 0 < cfg.block_height)
    (hdw : cfg.block_width ∣ R.get_cols) (hdh : cfg.block_height ∣ R.get_rows)
    (hb : Assignment1.Set_Macroblocks cfg T [] = some blocks)
    (hms : Assignment1.Match_All cfg fuel R blocks = some ms) :
    Assignment1.Block_Match cfg fuel R T out0 =
      (Assignment1.Reconstruct_Frame cfg R (ms.map Prod.fst) out0).bind
        (fun r => some (true, r)) := by
  unfold Assignment1.Block_Match
  rw [if_neg (by omega), if_neg (not_not.mpr ((tmod_eq_zero_iff_dvd _ _).mpr hdw)),
    if_neg (by omega), if_neg (not_not.mpr ((tmod_eq_zero_iff_dvd _ _).mpr hdh))]
  simp only [hb, hms, Option.some_bind, Option.bind_eq_bind]

/-- C27: in Assignment 1, with frames of equal extents that are multiples of the
positive block sizes and radii of at least 4, the matching returns and every matched
block satisfies `0 <= x + motion_vector_x`, `x + motion_vector_x + block_width <= cols`,
`0 <= y + motion_vector_y` and `y + motion_vector_y + block_height <= rows`; then
`Reconstruct_Frame` returns, that is, none of its reads fails the bounds assertion, and
`Block_Match` returns true. -/
theorem C27_reads_in_bounds (cfg : Config) (fuel : Nat) (R T out0 : Image)
    (hw : 0 < cfg.block_width) (hh : 0 < cfg.block_height)
    (hsh : 4 ≤ cfg.search_horizontal) (hsv : 4 ≤ cfg.search_vertical) (hf : 4 ≤ fuel)
    (hext : R.chans = T.chans ∧ R.rows = T.rows ∧ R.cols = T.cols)
    (hdw : cfg.block_width ∣ T.get_cols) (hdh : cfg.block_height ∣ T.get_rows)
    (hout : out0.chans = T.chans ∧ out0.rows = T.rows ∧ out0.cols = T.cols) :
    ∃ blocks ms out, Assignment1.Set_Macroblocks cfg T [] = some blocks ∧
      Assignment1.Match_All cfg fuel R blocks = some ms ∧ ms.length = blocks.length ∧
      (∀ r ∈ ms,
        (0 ≤ r.1.block_location_x + r.1.motion_vector_x ∧
          r.1.block_location_x + r.1.motion_vector_x + cfg.block_width ≤ R.get_cols) ∧
        (0 ≤ r.1.block_location_y + r.1.motion_vector_y ∧
          r.1.block_location_y + r.1.motion_vector_y + cfg.block_height ≤ R.get_rows)) ∧
      Assignment1.Reconstruct_Frame cfg R (ms.map Prod.fst) out0 = some out ∧
      Assignment1.Block_Match cfg fuel R T out0 = some (true, out) := by
  obtain ⟨blocks, hb, hall, _⟩ := Set_Macroblocks_cover cfg T hw hh
  obtain ⟨ms, hms, hlen, hidx, hmem⟩ := Match_All_lift cfg fuel R T blocks
    (fun mb r => (r.1.block_location_x = mb.block_location_x ∧
      r.1.block_location_y = mb.block_location_y) ∧ Assignment1.Source_In cfg R r.1)
    hw hh hb (fun vert horiz mb hv hz hIs =>
      Match_Macroblock_inside cfg fuel R T vert horiz mb hw hh hsh hsv hf hext hv hz hIs)
  have hanch := same_anchors_of_index blocks ms hlen (by
    intro k mb hk
    obtain ⟨r, hr, hp, _⟩ := hidx k mb hk
    exact ⟨r, hr, hp⟩)
  obtain ⟨hdst, hdis⟩ := same_anchors_disjoint cfg T blocks (ms.map Prod.fst) hw hh hb hanch
  have hsrc : ∀ mb ∈ ms.map Prod.fst, Assignment1.Source_In cfg R mb := by
    intro mb hm
    obtain ⟨r, hr, rfl⟩ := List.mem_map.mp hm
    obtain ⟨_, _, _, hs⟩ := hmem r hr
    exact hs
  obtain ⟨out, ho, _⟩ := Reconstruct_Frame_exact cfg R (ms.map Prod.fst) out0 hw hh (by omega)
    hsrc (by
      intro mb hmb
      have := hdst mb hmb
      unfold Assignment1.Dest_In at this ⊢
      rw [hout.2.1, hout.2.2]
      exact this)
    hdis
  obtain ⟨g1, g2⟩ := get_extents_eq R T hext
  refine ⟨blocks, ms, out, hb, hms, hlen, ?_, ho, ?_⟩
  · intro r hr
    obtain ⟨mb, hmb, _, hs⟩ := hmem r hr
    obtain ⟨k, hk⟩ := List.mem_iff_getElem?.mp hmb
    obtain ⟨vert, horiz, _, hz, _, _⟩ := hall k mb hk
    have hch : 0 < R.chans := by
      have := chans_pos_of_grid cfg T horiz hw hz
      omega
    obtain ⟨_, c2, c3⟩ := extents_of_pos R hch
    rw [c2, c3]
    exact hs
  · rw [Block_Match_eq cfg fuel R T out0 blocks ms hw hh (by rw [g1]; exact hdw)
      (by rw [g2]; exact hdh) hb hms, ho]
    rfl

/-- Witness of C27: the frame of 16 by 16 matched against itself with blocks of 8 by 8
and both radii 4. -/
theorem C27_reads_in_bounds_witness :
    ∃ blocks ms out, Assignment1.Set_Macroblocks cfg8 frame16 [] = some blocks ∧
      Assignment1.Match_All cfg8 4 frame16 blocks = some ms ∧ ms.length = blocks.length ∧
      (∀ r ∈ ms,
        (0 ≤ r.1.block_location_x + r.1.motion_vector_x ∧
          r.1.block_location_x + r.1.motion_vector_x + cfg8.block_width ≤ frame16.get_cols) ∧
        (0 ≤ r.1.block_location_y + r.1.motion_vector_y ∧
          r.1.block_location_y + r.1.motion_vector_y + cfg8.block_height ≤
            frame16.get_rows)) ∧
      Assignment1.Reconstruct_Frame cfg8 frame16 (ms.map Prod.fst) blank16 = some out ∧
      Assignment1.Block_Match cfg8 4 frame16 frame16 blank16 = some (true, out) :=
  C27_reads_in_bounds cfg8 4 frame16 frame16 blank16 (by decide) (by decide) (by decide)
    (by decide) (le_refl 4) ⟨rfl, rfl, rfl⟩ (by decide) (by decide) ⟨rfl, rfl, rfl⟩

/-- The match of a macroblock of the grid, with frames of equal extents, radii of at
least 4 and samples in the range of a 32-bit `int`: the returned least distortion is
the distortion `MSE` computes for the region at the final best location, and it is at
most the distortion `MSE` computes for the region at the block's own place. -/
theorem Match_Macroblock_best (cfg : Config) (fuel : Nat) (R T : Image)
    (vert horiz : Int) (mb : Assignment1.Macroblock)
    (hw : 0 < cfg.block_width) (hh : 0 < cfg.block_height)
    (hsh : 4 ≤ cfg.search_horizontal) (hsv : 4 ≤ cfg.search_vertical) (hf : 4 ≤ fuel)
    (hext : R.chans = T.chans ∧ R.rows = T.rows ∧ R.cols = T.cols)
    (hR : ∀ a i j, R.inBounds a i j → |R.pix a i j| < 2 ^ 31)
    (hT : ∀ a i j, T.inBounds a i j → |T.pix a i j| < 2 ^ 31)
    (hv : 0 ≤ vert ∧ vert < T.get_rows.tdiv cfg.block_height)
    (hz : 0 ≤ horiz ∧ horiz < T.get_cols.tdiv cfg.block_width)
    (hIs : Assignment1.Is_Block_At cfg T vert horiz mb) :
    ∃ r, Assignment1.Match_Macroblock cfg fuel R mb = some r ∧
      ∃ b1 b0 q1 q0,
        (Set_Image_Range R 0 R.channels
            (mb.block_location_x + r.1.motion_vector_x)
            (mb.block_location_x + r.1.motion_vector_x + cfg.block_width)
            (mb.block_location_y + r.1.motion_vector_y)
            (mb.block_location_y + r.1.motion_vector_y + cfg.block_height) = some b1 ∧
          MSE mb.block b1 = some (FVal.val q1)) ∧
        (Set_Image_Range R 0 R.channels mb.block_location_x
            (mb.block_location_x + cfg.block_width) mb.block_location_y
            (mb.block_location_y + cfg.block_height) = some b0 ∧
          MSE mb.block b0 = some (FVal.val q0)) ∧
        q1 ≤ q0 ∧ r.2 = FVal.val q1 := by
  obtain ⟨s1, s2, s3, ⟨_, _, _, hst⟩, _, ⟨_, kx, ky⟩, ⟨hm, hle⟩, hin⟩ :=
    Three_Step_Search_best cfg fuel R T vert horiz mb hw hh hsh hsv hf hext hR hT hv hz hIs
  have hch : 0 < T.chans := chans_pos_of_grid cfg T horiz hw hz
  obtain ⟨hl0, _⟩ := Search_Init_inside cfg T vert horiz mb hw hh (by omega) (by omega)
    hv hz hIs
  have hOK := Search_OK_of_block cfg R T vert horiz mb hw hh hsh hsv hch hext hIs
  obtain ⟨⟨ex, ey⟩, ⟨dc, dr, dk⟩, _⟩ := hIs
  have hb : 0 < R.chans ∧ mb.block.chans = R.chans ∧
      (mb.block.rows : Int) = cfg.block_height ∧ (mb.block.cols : Int) = cfg.block_width :=
    ⟨by omega, by omega, dr, dk⟩
  -- the block's own place lies inside the reference frame
  have hin0 : (0 ≤ mb.block_location_x ∧ mb.block_location_x + cfg.block_width ≤ R.cols) ∧
      (0 ≤ mb.block_location_y ∧ mb.block_location_y + cfg.block_height ≤ R.rows) := by
    obtain ⟨⟨a1, a2⟩, ⟨a3, a4⟩⟩ := hl0
    obtain ⟨_, _, ⟨c1, c2⟩, _⟩ := hOK
    have a1' : 0 ≤ mb.block_location_x := a1
    have a2' : mb.block_location_x + cfg.block_width ≤ mb.search_location_x_stop := a2
    have a3' : 0 ≤ mb.block_location_y := a3
    have a4' : mb.block_location_y + cfg.block_height ≤ mb.search_location_y_stop := a4
    have c1' : mb.search_location_x_stop ≤ (R.cols : Int) := c1
    have c2' : mb.search_location_y_stop ≤ (R.rows : Int) := c2
    exact ⟨⟨a1', by omega⟩, ⟨a3', by omega⟩⟩
  obtain ⟨b1, hb1, hq1⟩ := Cand_MSE_code cfg mb.block R s3.least_MSE_x s3.least_MSE_y
    hw hh hb hin
  obtain ⟨b0, hb0, hq0⟩ := Cand_MSE_code cfg mb.block R mb.block_location_x
    mb.block_location_y hw hh hb hin0
  have hM : Assignment1.Match_Macroblock cfg fuel R mb = some
      ({ s3.this_macroblock with
          motion_vector_x := s3.least_MSE_x - s3.this_macroblock.block_location_x
          motion_vector_y := s3.least_MSE_y - s3.this_macroblock.block_location_y },
        s3.least_MSE) := by
    simp only [Assignment1.Match_Macroblock, hst, Option.some_bind, Option.bind_eq_bind]
  have e1 : mb.block_location_x + (s3.least_MSE_x - s3.this_macroblock.block_location_x) =
      s3.least_MSE_x := by rw [kx]; ring
  have e2 : mb.block_location_y + (s3.least_MSE_y - s3.this_macroblock.block_location_y) =
      s3.least_MSE_y := by rw [ky]; ring
  refine ⟨_, hM, b1, b0, _, _, ⟨?_, hq1⟩, ⟨hb0, hq0⟩, hle, hm⟩
  show Set_Image_Range R 0 R.channels
    (mb.block_location_x + (s3.least_MSE_x - s3.this_macroblock.block_location_x))
    (mb.block_location_x + (s3.least_MSE_x - s3.this_macroblock.block_location_x) +
      cfg.block_width)
    (mb.block_location_y + (s3.least_MSE_y - s3.this_macroblock.block_location_y))
    (mb.block_location_y + (s3.least_MSE_y - s3.this_macroblock.block_location_y) +
      cfg.block_height) = some b1
  rw [e1, e2]
  exact hb1

/-- C25 (amended): in Assignment 1, with frames of equal extents, positive block sizes,
radii of at least 4 and samples in the range of a 32-bit `int`, for every block and each
of the three steps the best location after the step is one of the candidates compared in
that step, and its distortion is at most the distortion of every candidate compared
in that step, where the distortion of a candidate is the `float` value `MSE` returns for
it (`Cand_MSE`), not the exact mean of the squared differences. -/
theorem C25_step_best_candidate (cfg : Config) (fuel : Nat) (R T : Image)
    (hw : 0 < cfg.block_width) (hh : 0 < cfg.block_height)
    (hsh : 4 ≤ cfg.search_horizontal) (hsv : 4 ≤ cfg.search_vertical) (hf : 4 ≤ fuel)
    (hext : R.chans = T.chans ∧ R.rows = T.rows ∧ R.cols = T.cols)
    (hR : ∀ a i j, R.inBounds a i j → |R.pix a i j| < 2 ^ 31)
    (hT : ∀ a i j, T.inBounds a i j → |T.pix a i j| < 2 ^ 31) :
    ∃ blocks, Assignment1.Set_Macroblocks cfg T [] = some blocks ∧
      ∀ mb ∈ blocks, ∃ s1 s2 s3,
        (Assignment1.Search_Step cfg fuel R 0 (Assignment1.Search_Init cfg mb) = some s1 ∧
          Assignment1.Search_Step cfg fuel R 1 s1 = some s2 ∧
          Assignment1.Search_Step cfg fuel R 2 s2 = some s3 ∧
          Assignment1.Three_Step_Search cfg fuel R mb = some s3) ∧
        Assignment1.Step_Best cfg R (Assignment1.Search_Init cfg mb) s1 ∧
        Assignment1.Step_Best cfg R s1 s2 ∧ Assignment1.Step_Best cfg R s2 s3 := by
  obtain ⟨blocks, hb, hall, _⟩ := Set_Macroblocks_cover cfg T hw hh
  refine ⟨blocks, hb, ?_⟩
  intro mb hmem
  obtain ⟨k, hk⟩ := List.mem_iff_getElem?.mp hmem
  obtain ⟨vert, horiz, hv, hz, _, hIs⟩ := hall k mb hk
  obtain ⟨s1, s2, s3, hch, ⟨b1, b2, b3⟩, _⟩ :=
    Three_Step_Search_best cfg fuel R T vert horiz mb hw hh hsh hsv hf hext hR hT hv hz hIs
  exact ⟨s1, s2, s3, hch, b1, b2, b3⟩

/-- Witness of C25: the frame of 16 by 16 matched against itself with blocks of 8 by 8
and both radii 4. -/
theorem C25_step_best_candidate_witness :
    ∃ blocks, Assignment1.Set_Macroblocks cfg8 frame16 [] = some blocks ∧
      ∀ mb ∈ blocks, ∃ s1 s2 s3,
        (Assignment1.Search_Step cfg8 4 frame16 0 (Assignment1.Search_Init cfg8 mb) =
            some s1 ∧
          Assignment1.Search_Step cfg8 4 frame16 1 s1 = some s2 ∧
          Assignment1.Search_Step cfg8 4 frame16 2 s2 = some s3 ∧
          Assignment1.Three_Step_Search cfg8 4 frame16 mb = some s3) ∧
        Assignment1.Step_Best cfg8 frame16 (Assignment1.Search_Init cfg8 mb) s1 ∧
        Assignment1.Step_Best cfg8 frame16 s1 s2 ∧ Assignment1.Step_Best cfg8 frame16 s2 s3 :=
  C25_step_best_candidate cfg8 4 frame16 frame16 (by decide) (by decide) (by decide)
    (by decide) (le_refl 4) ⟨rfl, rfl, rfl⟩ frame16_samples frame16_samples

/-- C28 (amended): in Assignment 1, with frames of equal extents, positive block sizes,
radii of at least 4 and samples in the range of a 32-bit `int`, for every block the
`float` value `MSE` returns for the block and the reference region at the final best
location is at most the one it returns for the block and the reference region at the
block's own place (zero displacement); the former is the least distortion the search
ends with.  The exact means of the squared differences need not be in that order. -/
theorem C28_not_worse_than_no_motion (cfg : Config) (fuel : Nat) (R T : Image)
    (hw : 0 < cfg.block_width) (hh : 0 < cfg.block_height)
    (hsh : 4 ≤ cfg.search_horizontal) (hsv : 4 ≤ cfg.search_vertical) (hf : 4 ≤ fuel)
    (hext : R.chans = T.chans ∧ R.rows = T.rows ∧ R.cols = T.cols)
    (hR : ∀ a i j, R.inBounds a i j → |R.pix a i j| < 2 ^ 31)
    (hT : ∀ a i j, T.inBounds a i j → |T.pix a i j| < 2 ^ 31) :
    ∃ blocks ms, Assignment1.Set_Macroblocks cfg T [] = some blocks ∧
      Assignment1.Match_All cfg fuel R blocks = some ms ∧ ms.length = blocks.length ∧
      ∀ (k : Nat) (mb : Assignment1.Macroblock), blocks[k]? = some mb →
        ∃ r, ms[k]? = some r ∧ ∃ b1 b0 q1 q0,
          (Set_Image_Range R 0 R.channels
              (mb.block_location_x + r.1.motion_vector_x)
              (mb.block_location_x + r.1.motion_vector_x + cfg.block_width)
              (mb.block_location_y + r.1.motion_vector_y)
              (mb.block_location_y + r.1.motion_vector_y + cfg.block_height) = some b1 ∧
            MSE mb.block b1 = some (FVal.val q1)) ∧
          (Set_Image_Range R 0 R.channels mb.block_location_x
              (mb.block_location_x + cfg.block_width) mb.block_location_y
              (mb.block_location_y + cfg.block_height) = some b0 ∧
            MSE mb.block b0 = some (FVal.val q0)) ∧
          q1 ≤ q0 ∧ r.2 = FVal.val q1 := by
  obtain ⟨blocks, hb, _⟩ := Set_Macroblocks_cover cfg T hw hh
  obtain ⟨ms, hms, hlen, hidx, _⟩ := Match_All_lift cfg fuel R T blocks
    (fun mb r => ∃ b1 b0 q1 q0,
      (Set_Image_Range R 0 R.channels
          (mb.block_location_x + r.1.motion_vector_x)
          (mb.block_location_x + r.1.motion_vector_x + cfg.block_width)
          (mb.block_location_y + r.1.motion_vector_y)
          (mb.block_location_y + r.1.motion_vector_y + cfg.block_height) = some b1 ∧
        MSE mb.block b1 = some (FVal.val q1)) ∧
      (Set_Image_Range R 0 R.channels mb.block_location_x
          (mb.block_location_x + cfg.block_width) mb.block_location_y
          (mb.block_location_y + cfg.block_height) = some b0 ∧
        MSE mb.block b0 = some (FVal.val q0)) ∧
      q1 ≤ q0 ∧ r.2 = FVal.val q1)
    hw hh hb (fun vert horiz mb hv hz hIs =>
      Match_Macroblock_best cfg fuel R T vert horiz mb hw hh hsh hsv hf hext hR hT hv hz hIs)
  exact ⟨blocks, ms, hb, hms, hlen, hidx⟩

/-- Witness of C28: the frame of 16 by 16 matched against itself with blocks of 8 by 8
and both radii 4. -/
theorem C28_not_worse_than_no_motion_witness :
    ∃ blocks ms, Assignment1.Set_Macroblocks cfg8 frame16 [] = some blocks ∧
      Assignment1.Match_All cfg8 4 frame16 blocks = some ms ∧ ms.length = blocks.length ∧
      ∀ (k : Nat) (mb : Assignment1.Macroblock), blocks[k]? = some mb →
        ∃ r, ms[k]? = some r ∧ ∃ b1 b0 q1 q0,
          (Set_Image_Range frame16 0 frame16.channels
              (mb.block_location_x + r.1.motion_vector_x)
              (mb.block_location_x + r.1.motion_vector_x + cfg8.block_width)
              (mb.block_location_y + r.1.motion_vector_y)
              (mb.block_location_y + r.1.motion_vector_y + cfg8.block_height) = some b1 ∧
            MSE mb.block b1 = some (FVal.val q1)) ∧
          (Set_Image_Range frame16 0 frame16.channels mb.block_location_x
              (mb.block_location_x + cfg8.block_width) mb.block_location_y
              (mb.block_location_y + cfg8.block_height) = some b0 ∧
            MSE mb.block b0 = some (FVal.val q0)) ∧
          q1 ≤ q0 ∧ r.2 = FVal.val q1 :=
  C28_not_worse_than_no_motion cfg8 4 frame16 frame16 (by decide) (by decide) (by decide)
    (by decide) (le_refl 4) ⟨rfl, rfl, rfl⟩ frame16_samples frame16_samples

/-- The two candidate loops of a step that cannot fail run the four offsets before
`(0, 0)`, then `Try_Candidate` at offset `(0, 0)`, then the four offsets after it. -/
theorem Scan_Candidates_centre (cfg : Config) (fuel : Nat) (frame_1 : Image)
    (st : Assignment1.SearchState) (hOK : Assignment1.Search_OK cfg frame_1 st)
    (hf : 4 ≤ fuel) :
    ∃ (m : FVal) (nx ny : Int),
      Assignment1.Scan_List cfg frame_1
        [(-st.search_dist_x, -st.search_dist_y), (-st.search_dist_x, 0),
          (-st.search_dist_x, st.search_dist_y), (0, -st.search_dist_y)] st =
        some (Assignment1.With_Best st m nx ny) ∧
      Assignment1.Scan_Candidates cfg fuel frame_1 st =
        (Assignment1.Try_Candidate cfg frame_1 0 0 (Assignment1.With_Best st m nx ny)).bind
          (Assignment1.Scan_List cfg frame_1
            [(0, st.search_dist_y), (st.search_dist_x, -st.search_dist_y),
              (st.search_dist_x, 0), (st.search_dist_x, st.search_dist_y)]) := by
  obtain ⟨m, nx, ny, h4, _, _⟩ := Scan_List_min cfg frame_1
    [(-st.search_dist_x, -st.search_dist_y), (-st.search_dist_x, 0),
      (-st.search_dist_x, st.search_dist_y), (0, -st.search_dist_y)] st hOK
    st.least_MSE st.new_least_MSE_x st.new_least_MSE_y
  have hst : Assignment1.With_Best st st.least_MSE st.new_least_MSE_x st.new_least_MSE_y = st :=
    rfl
  rw [hst] at h4
  refine ⟨m, nx, ny, h4, ?_⟩
  rw [Scan_Candidates_eq cfg fuel frame_1 st hOK.2.2.2.1 hOK.2.2.2.2 hf]
  have e : Assignment1.Nine_Offsets st.search_dist_x st.search_dist_y =
      [(-st.search_dist_x, -st.search_dist_y), (-st.search_dist_x, 0),
        (-st.search_dist_x, st.search_dist_y), (0, -st.search_dist_y)] ++
      ((0, 0) :: [(0, st.search_dist_y), (st.search_dist_x, -st.search_dist_y),
        (st.search_dist_x, 0), (st.search_dist_x, st.search_dist_y)]) := rfl
  rw [e, Scan_List_append, h4]
  rfl

/-- A step that cannot fail and starts with a number as least distortion compares the
candidate at offset `(0, 0)` when that candidate passes the bounds checks. -/
theorem Search_Step_centre (cfg : Config) (fuel : Nat) (frame_1 : Image) (n : Int)
    (st st2 : Assignment1.SearchState) (hOK : Assignment1.Search_OK cfg frame_1 st)
    (hn : n = 0 ∨ n = 1 ∨ n = 2)
    (hd : n = 0 → 2 ≤ st.search_dist_x ∧ 2 ≤ st.search_dist_y) (hf : 4 ≤ fuel)
    (hv : Assignment1.Cand_Valid cfg st 0 0)
    (hS : Assignment1.Search_Step cfg fuel frame_1 n st = some st2)
    (hval : ∃ q0 : ℚ, st.least_MSE = FVal.val q0) :
    Assignment1.Centre_Compared cfg fuel frame_1 st st2 := by
  have h00 : ((0 : Int), (0 : Int)) ∈
      Assignment1.Nine_Offsets st.search_dist_x st.search_dist_y := by
    simp [Assignment1.Nine_Offsets]
  obtain ⟨st', hS', _, _, _, hdisj, hmin, _⟩ := Search_Step_min cfg fuel frame_1 n st hOK hn hd hf
  rw [hS] at hS'
  have hst : st2 = st' := Option.some.inj hS'
  refine ⟨h00, hv, Scan_Candidates_centre cfg fuel frame_1 st hOK hf,
    Try_Candidate_running cfg frame_1 0 0 st hOK hv, ?_⟩
  have hq : ∃ q : ℚ, st'.least_MSE = FVal.val q := by
    rcases hdisj with ⟨e, _⟩ | ⟨o, _, _, e, _⟩
    · obtain ⟨q0, h0⟩ := hval
      exact ⟨q0, by rw [e, h0]⟩
    · exact ⟨_, e⟩
  obtain ⟨q, hq⟩ := hq
  refine ⟨q, by rw [hst]; exact hq, ?_⟩
  have := hmin (0, 0) h00 hv
  rw [hq, FVal_lt_val, decide_eq_false_iff_not, not_lt] at this
  exact this

/-- C29: in Assignment 1, with frames of equal extents, positive block sizes and radii
of at least 4, for every block and at each of the three steps the candidate at offset
`(0, 0)` is one of the nine offsets and passes the four bounds checks, the two candidate
loops of the step reach it (they run `Try_Candidate` at offset `(0, 0)` after the four
earlier offsets), `Try_Candidate` computes its distortion and compares it with the
running best whatever the earlier candidates of the step left there, and the step ends
with a least distortion that is a number not above the distortion of that candidate
(`Centre_Compared`): no step ends with zero compared candidates. -/
theorem C29_centre_always_compared (cfg : Config) (fuel : Nat) (R T : Image)
    (hw : 0 < cfg.block_width) (hh : 0 < cfg.block_height)
    (hsh : 4 ≤ cfg.search_horizontal) (hsv : 4 ≤ cfg.search_vertical) (hf : 4 ≤ fuel)
    (hext : R.chans = T.chans ∧ R.rows = T.rows ∧ R.cols = T.cols) :
    ∃ blocks, Assignment1.Set_Macroblocks cfg T [] = some blocks ∧
      ∀ mb ∈ blocks, ∃ s1 s2 s3,
        (Assignment1.Search_Step cfg fuel R 0 (Assignment1.Search_Init cfg mb) = some s1 ∧
          Assignment1.Search_Step cfg fuel R 1 s1 = some s2 ∧
          Assignment1.Search_Step cfg fuel R 2 s2 = some s3 ∧
          Assignment1.Three_Step_Search cfg fuel R mb = some s3) ∧
        Assignment1.Centre_Compared cfg fuel R (Assignment1.Search_Init cfg mb) s1 ∧
        Assignment1.Centre_Compared cfg fuel R s1 s2 ∧
        Assignment1.Centre_Compared cfg fuel R s2 s3 := by
  obtain ⟨blocks, hb, hall, _⟩ := Set_Macroblocks_cover cfg T hw hh
  refine ⟨blocks, hb, ?_⟩
  intro mb hmem
  obtain ⟨k, hk⟩ := List.mem_iff_getElem?.mp hmem
  obtain ⟨vert, horiz, hv, hz, _, hIs⟩ := hall k mb hk
  obtain ⟨s1, s2, s3, hch, ⟨ok0, ok1, ok2⟩, ⟨v0, v1, v2⟩, _⟩ :=
    Three_Step_Search_inv cfg fuel R T vert horiz mb hw hh hsh hsv hf hext hv hz hIs
  have c1 := Search_Step_centre cfg fuel R 0 _ s1 ok0 (Or.inl rfl)
    (fun _ => ⟨first_dist _ hsh, first_dist _ hsv⟩) hf v0 hch.1 ⟨FLT_MAX, rfl⟩
  have c2 := Search_Step_centre cfg fuel R 1 s1 s2 ok1 (Or.inr (Or.inl rfl))
    (fun h => absurd h (by decide)) hf v1 hch.2.1 (by
      obtain ⟨q, hq, _⟩ := c1.2.2.2.2
      exact ⟨q, hq⟩)
  have c3 := Search_Step_centre cfg fuel R 2 s2 s3 ok2 (Or.inr (Or.inr rfl))
    (fun h => absurd h (by decide)) hf v2 hch.2.2.1 (by
      obtain ⟨q, hq, _⟩ := c2.2.2.2.2
      exact ⟨q, hq⟩)
  exact ⟨s1, s2, s3, hch, c1, c2, c3⟩

/-- Witness of C29: the frame of 16 by 16 matched against itself with blocks of 8 by 8
and both radii 4. -/
theorem C29_centre_always_compared_witness :
    (((0 : Int) < cfg8.block_width ∧ (0 : Int) < cfg8.block_height) ∧
      ((4 : Int) ≤ cfg8.search_horizontal ∧ (4 : Int) ≤ cfg8.search_vertical) ∧
      (frame16.chans = frame16.chans ∧ frame16.rows = frame16.rows ∧
        frame16.cols = frame16.cols)) ∧
    ∃ blocks, Assignment1.Set_Macroblocks cfg8 frame16 [] = some blocks ∧
      ∀ mb ∈ blocks, ∃ s1 s2 s3,
        (Assignment1.Search_Step cfg8 4 frame16 0 (Assignment1.Search_Init cfg8 mb) =
            some s1 ∧
          Assignment1.Search_Step cfg8 4 frame16 1 s1 = some s2 ∧
          Assignment1.Search_Step cfg8 4 frame16 2 s2 = some s3 ∧
          Assignment1.Three_Step_Search cfg8 4 frame16 mb = some s3) ∧
        Assignment1.Centre_Compared cfg8 4 frame16 (Assignment1.Search_Init cfg8 mb) s1 ∧
        Assignment1.Centre_Compared cfg8 4 frame16 s1 s2 ∧
        Assignment1.Centre_Compared cfg8 4 frame16 s2 s3 :=
  ⟨⟨⟨by decide, by decide⟩, ⟨by decide, by decide⟩, ⟨rfl, rfl, rfl⟩⟩,
    C29_centre_always_compared cfg8 4 frame16 frame16 (by decide) (by decide) (by decide)
      (by decide) (le_refl 4) ⟨rfl, rfl, rfl⟩⟩

/-! ## The window after a step (C22, C23) -/

/-- The distortion of a candidate is not negative, and it is 0 exactly when the
region holds the samples of the block. -/
theorem Cand_MSE_zero_iff (cfg : Config) (block frame_1 : Image) (x y : Int)
    (hw : 0 < cfg.block_width) (hh : 0 < cfg.block_height) (hc : 0 < block.chans) :
    0 ≤ Assignment1.Cand_MSE cfg block frame_1 x y ∧
    (Assignment1.Cand_MSE cfg block frame_1 x y = 0 ↔
      Assignment1.Region_Eq cfg block frame_1 x y) := by
  unfold Assignment1.Cand_MSE Assignment1.Region_Eq
  obtain ⟨fn, fz⟩ := Float_Mean_zero_iff (fun channel row col =>
    block.pix channel row col - frame_1.pix channel (y + row) (x + col))
    block.chans cfg.block_height cfg.block_width (by omega) hh hw
  refine ⟨fn, ?_⟩
  rw [fz]
  constructor
  · intro h a b c ha hb hc'
    have := h a b c ha hb hc'
    simp only at this
    omega
  · intro h a b c ha hb hc'
    have := h a b c ha hb hc'
    show block.pix a b c - frame_1.pix a (y + b) (x + c) = 0
    omega

/-- The first step for the second block of the frame of 16 by 16 matched against
itself with vertical radius 4 and horizontal radius 6: the best location stays at the
block's place `(8, 0)`, the new step distances are 3 and 2, and the new window has
columns from 6 to 16 and rows from 0 to 11. -/
theorem frame16_first_step (fuel : Nat) (hf : 4 ≤ fuel) (mb : Assignment1.Macroblock)
    (hIs : Assignment1.Is_Block_At cfg8u frame16 0 1 mb) :
    ∃ s1, Assignment1.Search_Step cfg8u fuel frame16 0 (Assignment1.Search_Init cfg8u mb) =
        some s1 ∧
      Assignment1.Search_OK cfg8u frame16 s1 ∧
      (s1.least_MSE_x = 8 ∧ s1.least_MSE_y = 0) ∧
      (s1.search_dist_x = 3 ∧ s1.search_dist_y = 2) ∧
      (s1.this_macroblock.search_location_x_start = 6 ∧
        s1.this_macroblock.search_location_x_stop = 16 ∧
        s1.this_macroblock.search_location_y_start = 0 ∧
        s1.this_macroblock.search_location_y_stop = 11) := by
  have hOK := Search_OK_of_block cfg8u frame16 frame16 0 1 mb (by decide) (by decide)
    (by decide) (by decide) (by decide) ⟨rfl, rfl, rfl⟩ hIs
  obtain ⟨hl0, _⟩ := Search_Init_inside cfg8u frame16 0 1 mb (by decide) (by decide)
    (by decide) (by decide) ⟨le_refl _, by decide⟩ ⟨by decide, by decide⟩ hIs
  obtain ⟨⟨ex, ey⟩, ⟨dc, dr, dk⟩, hpix, _, _⟩ := hIs
  have hx0 : mb.block_location_x = 8 := by rw [ex]; decide
  have hy0 : mb.block_location_y = 0 := by rw [ey]; decide
  have hc1 : 0 < mb.block.chans := by rw [dc]; decide
  -- the distortion of a candidate, seen through the first sample of the block
  have hfirst : mb.block.pix 0 0 0 = 8 := by
    rw [hpix 0 0 0 (by decide) (by decide) (by decide)]
    decide
  have hQ0 : Assignment1.Offset_MSE cfg8u frame16 (Assignment1.Search_Init cfg8u mb) (0, 0) =
      0 := by
    unfold Assignment1.Offset_MSE
    apply (Cand_MSE_zero_iff cfg8u _ frame16 _ _ (by decide) (by decide) hc1).2.mpr
    intro a b c ha hb hc
    show mb.block.pix a b c = frame16.pix a (mb.block_location_y + 0 + b)
      (mb.block_location_x + 0 + c)
    have ha' : 0 ≤ a ∧ a < (mb.block.chans : Int) := ha
    rw [hpix a b c (by rw [dc] at ha'; exact ha') hb hc, hx0, hy0]
    show 16 * (0 * cfg8u.block_height + b) + (1 * cfg8u.block_width + c) =
      16 * (0 + 0 + b) + (8 + 0 + c)
    have e1 : cfg8u.block_height = 8 := rfl
    have e2 : cfg8u.block_width = 8 := rfl
    rw [e1, e2]
    ring
  have hQpos : ∀ o : Int × Int, 16 * o.2 + o.1 ≠ 0 →
      0 < Assignment1.Offset_MSE cfg8u frame16 (Assignment1.Search_Init cfg8u mb) o := by
    intro o hne
    obtain ⟨hnn, hz⟩ := Cand_MSE_zero_iff cfg8u mb.block frame16 (mb.block_location_x + o.1)
      (mb.block_location_y + o.2) (by decide) (by decide) hc1
    rcases lt_or_eq_of_le hnn with h | h
    · exact h
    · exfalso
      have hreg := hz.mp h.symm
      have := hreg 0 0 0 ⟨le_refl _, by omega⟩ (by decide) (by decide)
      rw [hfirst, hx0, hy0] at this
      have e : frame16.pix 0 (0 + o.2 + 0) (8 + o.1 + 0) = 16 * (0 + o.2 + 0) + (8 + o.1 + 0) :=
        rfl
      rw [e] at this
      omega
  obtain ⟨s1, hS, hOK1, _, _, _, ⟨e1, e2⟩, hdd, hwin⟩ :=
    Search_Step_unique_min cfg8u fuel frame16 0 _ hOK (Or.inl rfl)
      (fun _ => ⟨(by decide : (2 : Int) ≤ cfg8u.search_horizontal.tdiv 2),
        (by decide : (2 : Int) ≤ cfg8u.search_vertical.tdiv 2)⟩) hf (0, 0)
      (by simp [Assignment1.Nine_Offsets]) (Cand_Valid_centre cfg8u _ hl0)
      (by
        rw [hQ0]
        show (FVal.val 0).lt (FVal.val FLT_MAX) = true
        rw [FVal_lt_val, decide_eq_true_eq]
        exact FLT_MAX_pos)
      (by
        intro o2 ho2 _ hne
        rw [hQ0]
        apply hQpos
        have hd1 : (Assignment1.Search_Init cfg8u mb).search_dist_x = 3 := by
          show cfg8u.search_horizontal.tdiv 2 = 3
          decide
        have hd2 : (Assignment1.Search_Init cfg8u mb).search_dist_y = 2 := by
          show cfg8u.search_vertical.tdiv 2 = 2
          decide
        rw [hd1, hd2] at ho2
        simp only [Assignment1.Nine_Offsets, List.mem_cons, List.mem_singleton,
          List.not_mem_nil, or_false] at ho2
        rcases ho2 with rfl | rfl | rfl | rfl | rfl | rfl | rfl | rfl | rfl
        all_goals first
          | exact absurd rfl hne
          | decide)
  obtain ⟨hdx, hdy⟩ := hdd.1 rfl
  have hdx' : s1.search_dist_x = 3 := by
    rw [hdx]
    show (cfg8u.search_horizontal.tdiv 2 + (cfg8u.search_horizontal.tdiv 2).tdiv 2 - 1).tdiv
      ((cfg8u.search_horizontal.tdiv 2).tdiv 2) = 3
    decide
  have hdy' : s1.search_dist_y = 2 := by
    rw [hdy]
    show (cfg8u.search_vertical.tdiv 2 + (cfg8u.search_vertical.tdiv 2).tdiv 2 - 1).tdiv
      ((cfg8u.search_vertical.tdiv 2).tdiv 2) = 2
    decide
  have hlx : s1.least_MSE_x = 8 := by
    rw [e1]
    show mb.block_location_x + 0 = 8
    omega
  have hly : s1.least_MSE_y = 0 := by
    rw [e2]
    show mb.block_location_y + 0 = 0
    omega
  refine ⟨s1, hS, hOK1, ⟨hlx, hly⟩, ⟨hdx', hdy'⟩, ?_⟩
  rw [hwin.1 (Or.inl rfl)]
  simp only [Assignment1.Set_Search_Area]
  rw [hdx', hdy', hlx, hly]
  exact ⟨by decide, by decide, by decide, by decide⟩

/-- C23, the code at a failing input: frame of 16 by 16 matched against itself, blocks
of 8 by 8, vertical radius 4 and horizontal radius 6, second block.  After the first
step the best location is `(8, 0)` and the new step distances are 3 (horizontal) and
2 (vertical); the window set by the code has columns from 6 to 16 and rows from 0 to
11, that is, horizontal radius 2 and vertical radius 3, whereas `Set_Search_Area` with
horizontal radius 3 and vertical radius 2 starts at column 5 and stops at row 10. -/
theorem C23_window_radii_swapped :
    ∃ blocks mb, Assignment1.Set_Macroblocks cfg8u frame16 [] = some blocks ∧
      blocks[1]? = some mb ∧
      ∀ fuel, 4 ≤ fuel → ∃ s1,
        Assignment1.Search_Step cfg8u fuel frame16 0 (Assignment1.Search_Init cfg8u mb) =
          some s1 ∧
        (s1.least_MSE_x = 8 ∧ s1.least_MSE_y = 0) ∧
        (s1.search_dist_x = 3 ∧ s1.search_dist_y = 2) ∧
        (s1.this_macroblock.search_location_x_start = 6 ∧
          s1.this_macroblock.search_location_x_stop = 16 ∧
          s1.this_macroblock.search_location_y_start = 0 ∧
          s1.this_macroblock.search_location_y_stop = 11) ∧
        ((Assignment1.Set_Search_Area cfg8u s1.this_macroblock frame16.get_cols
            frame16.get_rows s1.search_dist_x s1.search_dist_y s1.least_MSE_x
            s1.least_MSE_y).search_location_x_start = 5 ∧
          (Assignment1.Set_Search_Area cfg8u s1.this_macroblock frame16.get_cols
            frame16.get_rows s1.search_dist_x s1.search_dist_y s1.least_MSE_x
            s1.least_MSE_y).search_location_y_stop = 10) := by
  obtain ⟨blocks, hb, _, hcover⟩ := Set_Macroblocks_cover cfg8u frame16 (by decide) (by decide)
  obtain ⟨mb, hk, hIs⟩ := hcover 0 1 ⟨le_refl _, by decide⟩ ⟨by decide, by decide⟩
  have e : (0 * frame16.get_cols.tdiv cfg8u.block_width + 1).toNat = 1 := by decide
  rw [e] at hk
  refine ⟨blocks, mb, hb, hk, ?_⟩
  intro fuel hf
  obtain ⟨s1, hS, _, ⟨hlx, hly⟩, ⟨hdx, hdy⟩, hwin⟩ := frame16_first_step fuel hf mb hIs
  refine ⟨s1, hS, ⟨hlx, hly⟩, ⟨hdx, hdy⟩, hwin, ?_⟩
  simp only [Assignment1.Set_Search_Area]
  rw [hdx, hdy, hlx, hly]
  exact ⟨by decide, by decide⟩

/-- C22, the code at a failing input: frame of 16 by 16 matched against itself, blocks
of 8 by 8, vertical radius 4 and horizontal radius 6, second block.  The first step
ends with the window recomputed by the call of `Set_Search_Area` that passes the two step
distances in the other order, so that the window starts at column 6, two columns left
of the best location `(8, 0)`, although the horizontal step distance is 3.  In the second
step the candidate at offset `(-3, 0)` starts at column 5, left of the window start 6,
and yet passes the bounds checks, which test the start against 0 only, and is
compared. -/
theorem C22_counterexample_start_not_tested :
    ∃ blocks mb, Assignment1.Set_Macroblocks cfg8u frame16 [] = some blocks ∧
      blocks[1]? = some mb ∧
      ∀ fuel, 4 ≤ fuel → ∃ s1,
        Assignment1.Search_Step cfg8u fuel frame16 0 (Assignment1.Search_Init cfg8u mb) =
          some s1 ∧
        ((-3 : Int), (0 : Int)) ∈ Assignment1.Nine_Offsets s1.search_dist_x s1.search_dist_y ∧
        Assignment1.Cand_Valid cfg8u s1 (-3) 0 ∧
        (∀ (m : FVal) (nx ny : Int),
          Assignment1.Try_Candidate cfg8u frame16 (-3) 0 (Assignment1.With_Best s1 m nx ny) =
            some (if (FVal.val (Assignment1.Offset_MSE cfg8u frame16 s1 (-3, 0))).lt m then
              Assignment1.With_Best s1 (FVal.val (Assignment1.Offset_MSE cfg8u frame16 s1 (-3, 0)))
                (s1.least_MSE_x + -3) (s1.least_MSE_y + 0)
            else Assignment1.With_Best s1 m nx ny)) ∧
        ¬ Assignment1.In_Window cfg8u s1 (s1.least_MSE_x + -3) (s1.least_MSE_y + 0) := by
  obtain ⟨blocks, hb, _, hcover⟩ := Set_Macroblocks_cover cfg8u frame16 (by decide) (by decide)
  obtain ⟨mb, hk, hIs⟩ := hcover 0 1 ⟨le_refl _, by decide⟩ ⟨by decide, by decide⟩
  have e : (0 * frame16.get_cols.tdiv cfg8u.block_width + 1).toNat = 1 := by decide
  rw [e] at hk
  refine ⟨blocks, mb, hb, hk, ?_⟩
  intro fuel hf
  obtain ⟨s1, hS, hOK1, ⟨hlx, hly⟩, ⟨hdx, hdy⟩, ⟨w1, w2, w3, w4⟩⟩ :=
    frame16_first_step fuel hf mb hIs
  have hv : Assignment1.Cand_Valid cfg8u s1 (-3) 0 := by
    unfold Assignment1.Cand_Valid
    rw [hlx, hly, w2, w4]
    decide
  refine ⟨s1, hS, ?_, hv, Try_Candidate_running cfg8u frame16 (-3) 0 s1 hOK1 hv, ?_⟩
  · rw [hdx, hdy]
    decide
  · unfold Assignment1.In_Window
    rw [hlx, hly, w1, w2, w3, w4]
    decide

/-- When the start bounds of the window are tight, a candidate of the nine offsets
passes the four bounds checks exactly when its block lies inside the window on all
four sides. -/
theorem valid_iff_in_window (cfg : Config) (st : Assignment1.SearchState)
    (ht : Assignment1.Start_Tight st) (hd : 0 ≤ st.search_dist_x ∧ 0 ≤ st.search_dist_y)
    (o : Int × Int) (ho : o ∈ Assignment1.Nine_Offsets st.search_dist_x st.search_dist_y) :
    Assignment1.Cand_Valid cfg st o.1 o.2 ↔
      Assignment1.In_Window cfg st (st.least_MSE_x + o.1) (st.least_MSE_y + o.2) := by
  obtain ⟨⟨b1, _⟩, ⟨b2, _⟩⟩ := Nine_Offsets_bound _ _ hd.1 hd.2 o ho
  obtain ⟨⟨t1, t2⟩, ⟨t3, t4⟩⟩ := ht
  unfold Assignment1.Cand_Valid Assignment1.In_Window
  constructor
  · rintro ⟨⟨a1, a2⟩, ⟨a3, a4⟩⟩
    exact ⟨⟨by omega, a2⟩, ⟨by omega, a4⟩⟩
  · rintro ⟨⟨a1, a2⟩, ⟨a3, a4⟩⟩
    exact ⟨⟨by omega, a2⟩, ⟨by omega, a4⟩⟩

/-- The three steps for a macroblock of the grid when the two radii are equal: at
each step the start bounds of the window are tight. -/
theorem Three_Step_Search_tight (cfg : Config) (fuel : Nat) (R T : Image)
    (vert horiz : Int) (mb : Assignment1.Macroblock)
    (hw : 0 < cfg.block_width) (hh : 0 < cfg.block_height)
    (hsh : 4 ≤ cfg.search_horizontal) (hsv : 4 ≤ cfg.search_vertical) (hf : 4 ≤ fuel)
    (heq : cfg.search_horizontal = cfg.search_vertical)
    (hext : R.chans = T.chans ∧ R.rows = T.rows ∧ R.cols = T.cols)
    (hv : 0 ≤ vert ∧ vert < T.get_rows.tdiv cfg.block_height)
    (hz : 0 ≤ horiz ∧ horiz < T.get_cols.tdiv cfg.block_width)
    (hIs : Assignment1.Is_Block_At cfg T vert horiz mb) :
    ∃ s1 s2 s3,
      (Assignment1.Search_Step cfg fuel R 0 (Assignment1.Search_Init cfg mb) = some s1 ∧
        Assignment1.Search_Step cfg fuel R 1 s1 = some s2 ∧
        Assignment1.Search_Step cfg fuel R 2 s2 = some s3 ∧
        Assignment1.Three_Step_Search cfg fuel R mb = some s3) ∧
      (Assignment1.Search_OK cfg R (Assignment1.Search_Init cfg mb) ∧
        Assignment1.Search_OK cfg R s1 ∧ Assignment1.Search_OK cfg R s2) ∧
      (Assignment1.Start_Tight (Assignment1.Search_Init cfg mb) ∧
        Assignment1.Start_Tight s1 ∧ Assignment1.Start_Tight s2) := by
  have hch : 0 < T.chans := chans_pos_of_grid cfg T horiz hw hz
  have hOK := Search_OK_of_block cfg R T vert horiz mb hw hh hsh hsv hch hext hIs
  obtain ⟨_, hn0⟩ := Search_Init_inside cfg T vert horiz mb hw hh (by omega) (by omega)
    hv hz hIs
  obtain ⟨s1, h1, ok1, _, n1, ⟨_, w1⟩, _, _, d1, win1⟩ := Search_Step_inv cfg fuel R 0 _ hOK
    (Or.inl rfl) (fun _ => ⟨first_dist _ hsh, first_dist _ hsv⟩) hf hn0
  obtain ⟨s2, h2, ok2, _, n2, ⟨_, w2⟩, _, _, d2, win2⟩ := Search_Step_inv cfg fuel R 1 s1 ok1
    (Or.inr (Or.inl rfl)) (fun h => absurd h (by decide)) hf (by rw [n1.1, n1.2]; exact w1)
  obtain ⟨s3, h3, _⟩ := Search_Step_inv cfg fuel R 2 s2 ok2
    (Or.inr (Or.inr rfl)) (fun h => absurd h (by decide)) hf (by rw [n2.1, n2.2]; exact w2)
  refine ⟨s1, s2, s3, ⟨h1, h2, h3, ?_⟩, ⟨hOK, ok1, ok2⟩, ?_, ?_, ?_⟩
  · unfold Assignment1.Three_Step_Search
    rw [forRange_three, h1, Option.some_bind, h2, Option.some_bind, h3]
  · obtain ⟨⟨ex, ey⟩, _, _, ⟨hxs, _, hys, _⟩, _⟩ := hIs
    have q1 : cfg.search_horizontal.tdiv 2 = cfg.search_horizontal / 2 :=
      Int.tdiv_eq_ediv (by omega) (by decide)
    have q2 : cfg.search_vertical.tdiv 2 = cfg.search_vertical / 2 :=
      Int.tdiv_eq_ediv (by omega) (by decide)
    show (0 ≤ mb.search_location_x_start ∧ (mb.search_location_x_start = 0 ∨
        mb.search_location_x_start ≤ mb.block_location_x - cfg.search_horizontal.tdiv 2)) ∧
      (0 ≤ mb.search_location_y_start ∧ (mb.search_location_y_start = 0 ∨
        mb.search_location_y_start ≤ mb.block_location_y - cfg.search_vertical.tdiv 2))
    rw [hxs, hys, ex, ey, q1, q2]
    refine ⟨⟨le_max_left _ _, ?_⟩, ⟨le_max_left _ _, ?_⟩⟩
    · rcases le_total (horiz * cfg.block_width - cfg.search_horizontal) 0 with h | h
      · left; exact max_eq_left h
      · right; rw [max_eq_right h]; omega
    · rcases le_total (vert * cfg.block_height - cfg.search_vertical) 0 with h | h
      · left; exact max_eq_left h
      · right; rw [max_eq_right h]; omega
  · obtain ⟨e1, e2⟩ := d1.1 rfl
    have e0 : (Assignment1.Search_Init cfg mb).search_dist_x =
        (Assignment1.Search_Init cfg mb).search_dist_y := by
      show cfg.search_horizontal.tdiv 2 = cfg.search_vertical.tdiv 2
      rw [heq]
    have e3 : s1.search_dist_x = s1.search_dist_y := by rw [e1, e2, e0]
    unfold Assignment1.Start_Tight
    rw [win1.1 (Or.inl rfl)]
    simp only [Assignment1.Set_Search_Area]
    rw [e3]
    refine ⟨⟨?_, ?_⟩, ⟨?_, ?_⟩⟩ <;> split_ifs <;> omega
  · obtain ⟨e1, e2⟩ := d2.2 rfl
    unfold Assignment1.Start_Tight
    rw [win2.1 (Or.inr rfl)]
    simp only [Assignment1.Set_Search_Area]
    rw [e1, e2]
    refine ⟨⟨?_, ?_⟩, ⟨?_, ?_⟩⟩ <;> split_ifs <;> omega

/-- A candidate is compared exactly when it passes the four tests of
the code, which test its corner against 0 and its far sides against the stop bounds
of the window, never against the start bounds.  In Assignment 1 with frames of equal
extents, positive block sizes and equal radii of at least 4, the start bounds of the
window are tight at every step, so that for every block, each of the three steps and
each of the nine offsets the candidate is compared exactly when its block lies inside
the current window on all four sides. -/
theorem compared_iff_in_window_equal_radii (cfg : Config) (fuel : Nat) (R T : Image)
    (hw : 0 < cfg.block_width) (hh : 0 < cfg.block_height)
    (hsh : 4 ≤ cfg.search_horizontal) (hsv : 4 ≤ cfg.search_vertical) (hf : 4 ≤ fuel)
    (heq : cfg.search_horizontal = cfg.search_vertical)
    (hext : R.chans = T.chans ∧ R.rows = T.rows ∧ R.cols = T.cols) :
    ∃ blocks, Assignment1.Set_Macroblocks cfg T [] = some blocks ∧
      ∀ mb ∈ blocks, ∃ s1 s2 s3,
        (Assignment1.Search_Step cfg fuel R 0 (Assignment1.Search_Init cfg mb) = some s1 ∧
          Assignment1.Search_Step cfg fuel R 1 s1 = some s2 ∧
          Assignment1.Search_Step cfg fuel R 2 s2 = some s3 ∧
          Assignment1.Three_Step_Search cfg fuel R mb = some s3) ∧
        ∀ st ∈ [Assignment1.Search_Init cfg mb, s1, s2],
          ∀ o ∈ Assignment1.Nine_Offsets st.search_dist_x st.search_dist_y,
            (Assignment1.Cand_Valid cfg st o.1 o.2 ↔
              Assignment1.In_Window cfg st (st.least_MSE_x + o.1) (st.least_MSE_y + o.2)) ∧
            (Assignment1.Cand_Valid cfg st o.1 o.2 → ∀ (m : FVal) (nx ny : Int),
              Assignment1.Try_Candidate cfg R o.1 o.2 (Assignment1.With_Best st m nx ny) =
                some (if (FVal.val (Assignment1.Offset_MSE cfg R st (o.1, o.2))).lt m then
                  Assignment1.With_Best st
                    (FVal.val (Assignment1.Offset_MSE cfg R st (o.1, o.2)))
                    (st.least_MSE_x + o.1) (st.least_MSE_y + o.2)
                else Assignment1.With_Best st m nx ny)) ∧
            (¬ Assignment1.Cand_Valid cfg st o.1 o.2 → ∀ (m : FVal) (nx ny : Int),
              Assignment1.Try_Candidate cfg R o.1 o.2 (Assignment1.With_Best st m nx ny) =
                some (Assignment1.With_Best st m nx ny)) := by
  obtain ⟨blocks, hb, hall, _⟩ := Set_Macroblocks_cover cfg T hw hh
  refine ⟨blocks, hb, ?_⟩
  intro mb hmem
  obtain ⟨k, hk⟩ := List.mem_iff_getElem?.mp hmem
  obtain ⟨vert, horiz, hv, hz, _, hIs⟩ := hall k mb hk
  obtain ⟨s1, s2, s3, hch, ⟨ok0, ok1, ok2⟩, ⟨t0, t1, t2⟩⟩ :=
    Three_Step_Search_tight cfg fuel R T vert horiz mb hw hh hsh hsv hf heq hext hv hz hIs
  refine ⟨s1, s2, s3, hch, ?_⟩
  have key : ∀ st : Assignment1.SearchState, Assignment1.Search_OK cfg R st →
      Assignment1.Start_Tight st →
      ∀ o ∈ Assignment1.Nine_Offsets st.search_dist_x st.search_dist_y,
        (Assignment1.Cand_Valid cfg st o.1 o.2 ↔
          Assignment1.In_Window cfg st (st.least_MSE_x + o.1) (st.least_MSE_y + o.2)) ∧
        (Assignment1.Cand_Valid cfg st o.1 o.2 → ∀ (m : FVal) (nx ny : Int),
          Assignment1.Try_Candidate cfg R o.1 o.2 (Assignment1.With_Best st m nx ny) =
            some (if (FVal.val (Assignment1.Offset_MSE cfg R st (o.1, o.2))).lt m then
              Assignment1.With_Best st
                (FVal.val (Assignment1.Offset_MSE cfg R st (o.1, o.2)))
                (st.least_MSE_x + o.1) (st.least_MSE_y + o.2)
            else Assignment1.With_Best st m nx ny)) ∧
        (¬ Assignment1.Cand_Valid cfg st o.1 o.2 → ∀ (m : FVal) (nx ny : Int),
          Assignment1.Try_Candidate cfg R o.1 o.2 (Assignment1.With_Best st m nx ny) =
            some (Assignment1.With_Best st m nx ny)) := by
    intro st ok ht o ho
    refine ⟨valid_iff_in_window cfg st ht ⟨ok.2.2.2.1.le, ok.2.2.2.2.le⟩ o ho, ?_, ?_⟩
    · intro hvv m nx ny
      exact Try_Candidate_running cfg R o.1 o.2 st ok hvv m nx ny
    · intro hnv m nx ny
      have ok' : Assignment1.Search_OK cfg R (Assignment1.With_Best st m nx ny) := ok
      exact (Try_Candidate_spec cfg R o.1 o.2 _ ok').1 hnv
  intro st hst
  simp only [List.mem_cons, List.mem_singleton, List.not_mem_nil, or_false] at hst
  rcases hst with rfl | rfl | rfl
  · exact key _ ok0 t0
  · exact key _ ok1 t1
  · exact key _ ok2 t2

/-- The frame of 16 by 16 matched against itself with blocks of 8 by 8 and both radii 4:
a candidate is compared exactly when its block lies inside the current window. -/
theorem compared_iff_in_window_frame16 :
    ∃ blocks, Assignment1.Set_Macroblocks cfg8 frame16 [] = some blocks ∧
      ∀ mb ∈ blocks, ∃ s1 s2 s3,
        (Assignment1.Search_Step cfg8 4 frame16 0 (Assignment1.Search_Init cfg8 mb) =
            some s1 ∧
          Assignment1.Search_Step cfg8 4 frame16 1 s1 = some s2 ∧
          Assignment1.Search_Step cfg8 4 frame16 2 s2 = some s3 ∧
          Assignment1.Three_Step_Search cfg8 4 frame16 mb = some s3) ∧
        ∀ st ∈ [Assignment1.Search_Init cfg8 mb, s1, s2],
          ∀ o ∈ Assignment1.Nine_Offsets st.search_dist_x st.search_dist_y,
            (Assignment1.Cand_Valid cfg8 st o.1 o.2 ↔
              Assignment1.In_Window cfg8 st (st.least_MSE_x + o.1) (st.least_MSE_y + o.2)) ∧
            (Assignment1.Cand_Valid cfg8 st o.1 o.2 → ∀ (m : FVal) (nx ny : Int),
              Assignment1.Try_Candidate cfg8 frame16 o.1 o.2
                  (Assignment1.With_Best st m nx ny) =
                some (if (FVal.val (Assignment1.Offset_MSE cfg8 frame16 st (o.1, o.2))).lt m
                then
                  Assignment1.With_Best st
                    (FVal.val (Assignment1.Offset_MSE cfg8 frame16 st (o.1, o.2)))
                    (st.least_MSE_x + o.1) (st.least_MSE_y + o.2)
                else Assignment1.With_Best st m nx ny)) ∧
            (¬ Assignment1.Cand_Valid cfg8 st o.1 o.2 → ∀ (m : FVal) (nx ny : Int),
              Assignment1.Try_Candidate cfg8 frame16 o.1 o.2
                  (Assignment1.With_Best st m nx ny) =
                some (Assignment1.With_Best st m nx ny)) :=
  compared_iff_in_window_equal_radii cfg8 4 frame16 frame16 (by decide) (by decide) (by decide)
    (by decide) (le_refl 4) rfl ⟨rfl, rfl, rfl⟩

/-! ## Assignment 2 seen through Assignment 1 -/

/-- The candidate skipped by Assignment 2 is the candidate that fails a bounds check
of Assignment 1. -/
theorem Skipped_iff (cfg : Config) (ax ay : Int) (st : Assignment2.SearchState) (x y : Int) :
    Assignment2.Skipped cfg st x y ↔ ¬ Assignment1.Cand_Valid cfg (To_A1 ax ay st) x y := by
  unfold Assignment2.Skipped Assignment1.Cand_Valid
  show _ ↔ ¬ ((0 ≤ st.least_MSE_x + x ∧
      st.least_MSE_x + x + cfg.block_width ≤ st.search_area_x_stop) ∧
    (0 ≤ st.least_MSE_y + y ∧
      st.least_MSE_y + y + cfg.block_height ≤ st.search_area_y_stop))
  constructor
  · rintro (h | h | h | h) ⟨⟨a1, a2⟩, ⟨a3, a4⟩⟩ <;> omega
  · intro h
    by_contra hn
    apply h
    refine ⟨⟨?_, ?_⟩, ⟨?_, ?_⟩⟩
    · by_contra h1; exact hn (Or.inl (by omega))
    · by_contra h1; exact hn (Or.inr (Or.inl (by omega)))
    · by_contra h1; exact hn (Or.inr (Or.inr (Or.inl (by omega))))
    · by_contra h1; exact hn (Or.inr (Or.inr (Or.inr (by omega))))

/-- One candidate of Assignment 2 is one candidate of Assignment 1 on the state read
as a state of Assignment 1. -/
theorem Try_Candidate_sim (cfg : Config) (frame_1 : Image) (ax ay x y : Int)
    (st : Assignment2.SearchState) :
    (Assignment2.Try_Candidate cfg frame_1 x y st).map (To_A1 ax ay) =
      Assignment1.Try_Candidate cfg frame_1 x y (To_A1 ax ay st) := by
  simp only [Assignment2.Try_Candidate, Assignment1.Try_Candidate, To_A1]
  by_cases h1 : st.least_MSE_x + x < 0
  · rw [if_pos (Or.inl h1), if_pos h1]; rfl
  · by_cases h2 : st.least_MSE_x + x + cfg.block_width > st.search_area_x_stop
    · rw [if_pos (Or.inr (Or.inl h2)), if_neg h1, if_pos h2]; rfl
    · by_cases h3 : st.least_MSE_y + y < 0
      · rw [if_pos (Or.inr (Or.inr (Or.inl h3))), if_neg h1, if_neg h2, if_pos h3]; rfl
      · by_cases h4 : st.least_MSE_y + y + cfg.block_height > st.search_area_y_stop
        · rw [if_pos (Or.inr (Or.inr (Or.inr h4))), if_neg h1, if_neg h2, if_neg h3, if_pos h4]
          rfl
        · rw [if_neg (by
            rintro (h | h | h | h)
            · exact h1 h
            · exact h2 h
            · exact h3 h
            · exact h4 h), if_neg h1, if_neg h2, if_neg h3, if_neg h4]
          cases hs : Set_Image_Range frame_1 0 frame_1.channels (st.least_MSE_x + x)
              (st.least_MSE_x + x + cfg.block_width) (st.least_MSE_y + y)
              (st.least_MSE_y + y + cfg.block_height) with
          | none => rfl
          | some sb =>
            simp only [Option.some_bind, Option.bind_eq_bind]
            cases hm : MSE st.macroblock sb with
            | none => rfl
            | some q =>
              simp only [Option.some_bind]
              split_ifs <;> rfl

/-- A loop on offsets commutes with a map of the state that the body commutes with. -/
theorem forOffsets_map {σ τ : Type} (f : σ → τ) (d : Int) (body1 : Int → σ → Option σ)
    (body2 : Int → τ → Option τ)
    (h : ∀ v s, (body1 v s).map f = body2 v (f s)) (fuel : Nat) (v : Int) (s : σ) :
    (forOffsets d body1 fuel v s).map f = forOffsets d body2 fuel v (f s) := by
  induction fuel generalizing v s with
  | zero => rfl
  | succ n ih =>
    simp only [forOffsets]
    by_cases hv : v ≤ d
    · rw [if_pos hv, if_pos hv, ← h v s]
      cases hb : body1 v s with
      | none => rfl
      | some t =>
        simp only [Option.some_bind, Option.map_some']
        exact ih (v + d) t
    · rw [if_neg hv, if_neg hv]
      rfl

/-- The candidate loops of Assignment 2 are the candidate loops of Assignment 1 on the
state read as a state of Assignment 1. -/
theorem Scan_Candidates_sim (cfg : Config) (fuel : Nat) (frame_1 : Image) (ax ay : Int)
    (st : Assignment2.SearchState) :
    (Assignment2.Scan_Candidates cfg fuel frame_1 st).map (To_A1 ax ay) =
      Assignment1.Scan_Candidates cfg fuel frame_1 (To_A1 ax ay st) := by
  unfold Assignment2.Scan_Candidates Assignment1.Scan_Candidates
  apply forOffsets_map
  intro x s
  apply forOffsets_map
  intro y s2
  exact Try_Candidate_sim cfg frame_1 ax ay x y s2

/-- Reading a state of Assignment 2 as a state of Assignment 1 loses nothing. -/
theorem To_A1_inj (ax ay : Int) (u v : Assignment2.SearchState)
    (h : To_A1 ax ay u = To_A1 ax ay v) : u = v := by
  cases u
  cases v
  simp only [To_A1, Assignment1.SearchState.mk.injEq, Assignment1.Macroblock.mk.injEq] at h
  obtain ⟨⟨h1, _, _, h2, h3, h4, h5, _, _⟩, h6, h7, h8, h9, h10, h11, h12⟩ := h
  subst h1 h2 h3 h4 h5 h6 h7 h8 h9 h10 h11 h12
  rfl

/-- The end of a step of Assignment 2: it returns when the step distances can be
updated; it moves the best location to the running best, updates the step distances
and leaves the bounds of the search area as they are. -/
theorem A2_Finish_Step_spec (cfg : Config) (frame_1 : Image) (n : Int)
    (st : Assignment2.SearchState) (hn : n = 0 ∨ n = 1 ∨ n = 2)
    (hd : n = 0 → 2 ≤ st.search_dist_x ∧ 2 ≤ st.search_dist_y) :
    ∃ st', Assignment2.Finish_Step cfg frame_1 n st = some st' ∧
      (st'.search_area_x_start = st.search_area_x_start ∧
        st'.search_area_x_stop = st.search_area_x_stop ∧
        st'.search_area_y_start = st.search_area_y_start ∧
        st'.search_area_y_stop = st.search_area_y_stop ∧
        st'.macroblock = st.macroblock) ∧
      st'.least_MSE = st.least_MSE ∧
      (st'.least_MSE_x = st.new_least_MSE_x ∧ st'.least_MSE_y = st.new_least_MSE_y) ∧
      (st'.new_least_MSE_x = st.new_least_MSE_x ∧ st'.new_least_MSE_y = st.new_least_MSE_y) ∧
      (n = 0 → st'.search_dist_x =
          (st.search_dist_x + st.search_dist_x.tdiv 2 - 1).tdiv (st.search_dist_x.tdiv 2) ∧
        st'.search_dist_y =
          (st.search_dist_y + st.search_dist_y.tdiv 2 - 1).tdiv (st.search_dist_y.tdiv 2)) ∧
      (n = 1 → st'.search_dist_x = 1 ∧ st'.search_dist_y = 1) ∧
      (n = 2 → st'.search_dist_x = st.search_dist_x ∧ st'.search_dist_y = st.search_dist_y) := by
  rcases hn with rfl | rfl | rfl
  · obtain ⟨hdx, hdy⟩ := hd rfl
    obtain ⟨hx1, _⟩ := next_dist_pos st.search_dist_x hdx
    obtain ⟨hy1, _⟩ := next_dist_pos st.search_dist_y hdy
    have hF : Assignment2.Finish_Step cfg frame_1 0 st = some
        { st with
          least_MSE_x := st.new_least_MSE_x
          least_MSE_y := st.new_least_MSE_y
          search_dist_x :=
            (st.search_dist_x + st.search_dist_x.tdiv 2 - 1).tdiv (st.search_dist_x.tdiv 2)
          search_dist_y :=
            (st.search_dist_y + st.search_dist_y.tdiv 2 - 1).tdiv (st.search_dist_y.tdiv 2) } := by
      simp only [Assignment2.Finish_Step, Assignment2.Update_Search_Dist]
      rw [if_neg (by decide), if_pos (by decide), if_neg (by
        rintro (h | h)
        · exact hx1 h
        · exact hy1 h)]
      simp only [Option.some_bind, Option.bind_eq_bind]
      rw [if_pos (by decide)]
    exact ⟨_, hF, ⟨rfl, rfl, rfl, rfl, rfl⟩, rfl, ⟨rfl, rfl⟩, ⟨rfl, rfl⟩,
      fun _ => ⟨rfl, rfl⟩, fun h => absurd h (by decide), fun h => absurd h (by decide)⟩
  · have hF : Assignment2.Finish_Step cfg frame_1 1 st = some
        { st with
          least_MSE_x := st.new_least_MSE_x
          least_MSE_y := st.new_least_MSE_y
          search_dist_x := 1
          search_dist_y := 1 } := by
      simp only [Assignment2.Finish_Step, Assignment2.Update_Search_Dist]
      simp
    exact ⟨_, hF, ⟨rfl, rfl, rfl, rfl, rfl⟩, rfl, ⟨rfl, rfl⟩, ⟨rfl, rfl⟩,
      fun h => absurd h (by decide), fun _ => ⟨rfl, rfl⟩, fun h => absurd h (by decide)⟩
  · have hF : Assignment2.Finish_Step cfg frame_1 2 st = some
        { st with least_MSE_x := st.new_least_MSE_x, least_MSE_y := st.new_least_MSE_y } := by
      simp only [Assignment2.Finish_Step, Assignment2.Update_Search_Dist]
      simp
    exact ⟨_, hF, ⟨rfl, rfl, rfl, rfl, rfl⟩, rfl, ⟨rfl, rfl⟩, ⟨rfl, rfl⟩,
      fun h => absurd h (by decide), fun h => absurd h (by decide), fun _ => ⟨rfl, rfl⟩⟩

/-- The candidate loops of Assignment 2 in terms of the list of the nine offsets of
Assignment 1: the running best they end with. -/
theorem A2_Scan_eq (cfg : Config) (fuel : Nat) (frame_1 : Image) (ax ay : Int)
    (st : Assignment2.SearchState)
    (hOK : Assignment1.Search_OK cfg frame_1 (To_A1 ax ay st)) (hf : 4 ≤ fuel)
    (m : FVal) (nx ny : Int)
    (h : Assignment1.Scan_List cfg frame_1
        (Assignment1.Nine_Offsets st.search_dist_x st.search_dist_y) (To_A1 ax ay st) =
      some (Assignment1.With_Best (To_A1 ax ay st) m nx ny)) :
    Assignment2.Scan_Candidates cfg fuel frame_1 st =
      some (Assignment2.With_Best st m nx ny) := by
  have h1 := Scan_Candidates_sim cfg fuel frame_1 ax ay st
  rw [Scan_Candidates_eq cfg fuel frame_1 (To_A1 ax ay st) hOK.2.2.2.1 hOK.2.2.2.2 hf] at h1
  have h' : Assignment1.Scan_List cfg frame_1
      (Assignment1.Nine_Offsets (To_A1 ax ay st).search_dist_x (To_A1 ax ay st).search_dist_y)
      (To_A1 ax ay st) = some (Assignment1.With_Best (To_A1 ax ay st) m nx ny) := h
  rw [h'] at h1
  obtain ⟨u, hu, hu2⟩ := Option.map_eq_some'.mp h1
  rw [hu]
  congr 1
  apply To_A1_inj ax ay
  rw [hu2]
  rfl

/-- A search step of Assignment 2 in full, through the state read as a state of
Assignment 1: it returns; the best location is kept when no compared candidate is
below the least distortion so far, and otherwise moves to a compared candidate below
it; no compared candidate is below the final least distortion; the bounds of the
search area are left as they are. -/
theorem A2_Search_Step_min (cfg : Config) (fuel : Nat) (frame_1 : Image) (n : Int)
    (ax ay : Int) (st : Assignment2.SearchState)
    (hOK : Assignment1.Search_OK cfg frame_1 (To_A1 ax ay st))
    (hn : n = 0 ∨ n = 1 ∨ n = 2)
    (hd : n = 0 → 2 ≤ st.search_dist_x ∧ 2 ≤ st.search_dist_y) (hf : 4 ≤ fuel) :
    ∃ st', Assignment2.Search_Step cfg fuel frame_1 n st = some st' ∧
      Assignment1.Search_OK cfg frame_1 (To_A1 ax ay st') ∧
      (st'.search_area_x_start = st.search_area_x_start ∧
        st'.search_area_x_stop = st.search_area_x_stop ∧
        st'.search_area_y_start = st.search_area_y_start ∧
        st'.search_area_y_stop = st.search_area_y_stop ∧
        st'.macroblock = st.macroblock) ∧
      (st'.new_least_MSE_x = st'.least_MSE_x ∧ st'.new_least_MSE_y = st'.least_MSE_y) ∧
      ((st'.least_MSE = st.least_MSE ∧ st'.least_MSE_x = st.new_least_MSE_x ∧
          st'.least_MSE_y = st.new_least_MSE_y) ∨
        ∃ o ∈ Assignment1.Nine_Offsets st.search_dist_x st.search_dist_y,
          Assignment1.Cand_Valid cfg (To_A1 ax ay st) o.1 o.2 ∧
          st'.least_MSE = FVal.val (Assignment1.Offset_MSE cfg frame_1 (To_A1 ax ay st) o) ∧
          (st'.least_MSE_x = st.least_MSE_x + o.1 ∧ st'.least_MSE_y = st.least_MSE_y + o.2) ∧
          (FVal.val (Assignment1.Offset_MSE cfg frame_1 (To_A1 ax ay st) o)).lt st.least_MSE =
            true) ∧
      (∀ o ∈ Assignment1.Nine_Offsets st.search_dist_x st.search_dist_y,
        Assignment1.Cand_Valid cfg (To_A1 ax ay st) o.1 o.2 →
        (FVal.val (Assignment1.Offset_MSE cfg frame_1 (To_A1 ax ay st) o)).lt st'.least_MSE =
          false) ∧
      (n = 0 → st'.search_dist_x =
          (st.search_dist_x + st.search_dist_x.tdiv 2 - 1).tdiv (st.search_dist_x.tdiv 2) ∧
        st'.search_dist_y =
          (st.search_dist_y + st.search_dist_y.tdiv 2 - 1).tdiv (st.search_dist_y.tdiv 2)) ∧
      (n = 1 → st'.search_dist_x = 1 ∧ st'.search_dist_y = 1) ∧
      (n = 2 → st'.search_dist_x = st.search_dist_x ∧ st'.search_dist_y = st.search_dist_y) := by
  obtain ⟨m, nx, ny, hscan, hcase, hmin⟩ := Scan_List_min cfg frame_1
    (Assignment1.Nine_Offsets st.search_dist_x st.search_dist_y) (To_A1 ax ay st) hOK
    st.least_MSE st.new_least_MSE_x st.new_least_MSE_y
  have hself : Assignment1.With_Best (To_A1 ax ay st) st.least_MSE st.new_least_MSE_x
      st.new_least_MSE_y = To_A1 ax ay st := rfl
  rw [hself] at hscan
  have hS := A2_Scan_eq cfg fuel frame_1 ax ay st hOK hf m nx ny hscan
  obtain ⟨st', hF, hw, hm, hl, hnl, d0, d1, d2⟩ := A2_Finish_Step_spec cfg frame_1 n
    (Assignment2.With_Best st m nx ny) hn hd
  have hm' : st'.least_MSE = m := hm
  have hl' : st'.least_MSE_x = nx ∧ st'.least_MSE_y = ny := hl
  have hnl' : st'.new_least_MSE_x = nx ∧ st'.new_least_MSE_y = ny := hnl
  have hOK' : Assignment1.Search_OK cfg frame_1 (To_A1 ax ay st') := by
    obtain ⟨hsz, hblk, ⟨hs1, hs2⟩, ⟨hp1, hp2⟩⟩ := hOK
    obtain ⟨_, w2, _, w4, w5⟩ := hw
    have w2' : st'.search_area_x_stop = st.search_area_x_stop := w2
    have w4' : st'.search_area_y_stop = st.search_area_y_stop := w4
    have w5' : st'.macroblock = st.macroblock := w5
    have hp1' : 0 < st.search_dist_x := hp1
    have hp2' : 0 < st.search_dist_y := hp2
    refine ⟨hsz, ?_, ⟨?_, ?_⟩, ?_⟩
    · show 0 < frame_1.chans ∧ st'.macroblock.chans = frame_1.chans ∧
        (st'.macroblock.rows : Int) = cfg.block_height ∧
        (st'.macroblock.cols : Int) = cfg.block_width
      rw [w5']
      exact hblk
    · show st'.search_area_x_stop ≤ (frame_1.cols : Int)
      rw [w2']; exact hs1
    · show st'.search_area_y_stop ≤ (frame_1.rows : Int)
      rw [w4']; exact hs2
    · show 0 < st'.search_dist_x ∧ 0 < st'.search_dist_y
      rcases hn with rfl | rfl | rfl
      · obtain ⟨e1, e2⟩ := d0 rfl
        obtain ⟨hdx, hdy⟩ := hd rfl
        rw [e1, e2]
        exact ⟨(next_dist_pos _ hdx).2, (next_dist_pos _ hdy).2⟩
      · obtain ⟨e1, e2⟩ := d1 rfl
        rw [e1, e2]
        exact ⟨by decide, by decide⟩
      · obtain ⟨e1, e2⟩ := d2 rfl
        rw [e1, e2]
        exact ⟨hp1', hp2'⟩
  refine ⟨st', ?_, hOK', hw, ⟨by rw [hnl'.1, hl'.1], by rw [hnl'.2, hl'.2]⟩, ?_, ?_, d0, d1, d2⟩
  · unfold Assignment2.Search_Step
    rw [hS]
    exact hF
  · rcases hcase with ⟨e1, e2, e3⟩ | ⟨o, ho, hv, e1, ⟨e2, e3⟩, hlt⟩
    · exact Or.inl ⟨by rw [hm', e1], by rw [hl'.1, e2], by rw [hl'.2, e3]⟩
    · exact Or.inr ⟨o, ho, hv, by rw [hm', e1], ⟨by rw [hl'.1, e2]; rfl, by rw [hl'.2, e3]; rfl⟩,
        hlt⟩
  · intro o ho hv
    rw [hm']
    exact hmin o ho hv

/-! ## The search area of Assignment 2 (C24, C26) -/

/-- A search step of Assignment 2 with one compared candidate `o` that is below the
least distortion so far and strictly below every other compared candidate: the best
location moves to that candidate. -/
theorem A2_Search_Step_unique_min (cfg : Config) (fuel : Nat) (frame_1 : Image) (n : Int)
    (ax ay : Int) (st : Assignment2.SearchState)
    (hOK : Assignment1.Search_OK cfg frame_1 (To_A1 ax ay st))
    (hn : n = 0 ∨ n = 1 ∨ n = 2)
    (hd : n = 0 → 2 ≤ st.search_dist_x ∧ 2 ≤ st.search_dist_y) (hf : 4 ≤ fuel)
    (o : Int × Int) (ho : o ∈ Assignment1.Nine_Offsets st.search_dist_x st.search_dist_y)
    (hv : Assignment1.Cand_Valid cfg (To_A1 ax ay st) o.1 o.2)
    (hlt : (FVal.val (Assignment1.Offset_MSE cfg frame_1 (To_A1 ax ay st) o)).lt st.least_MSE =
      true)
    (hothers : ∀ o2 ∈ Assignment1.Nine_Offsets st.search_dist_x st.search_dist_y,
      Assignment1.Cand_Valid cfg (To_A1 ax ay st) o2.1 o2.2 → o2 ≠ o →
      Assignment1.Offset_MSE cfg frame_1 (To_A1 ax ay st) o <
        Assignment1.Offset_MSE cfg frame_1 (To_A1 ax ay st) o2) :
    ∃ st', Assignment2.Search_Step cfg fuel frame_1 n st = some st' ∧
      Assignment1.Search_OK cfg frame_1 (To_A1 ax ay st') ∧
      (st'.search_area_x_start = st.search_area_x_start ∧
        st'.search_area_x_stop = st.search_area_x_stop ∧
        st'.search_area_y_start = st.search_area_y_start ∧
        st'.search_area_y_stop = st.search_area_y_stop ∧
        st'.macroblock = st.macroblock) ∧
      (st'.new_least_MSE_x = st'.least_MSE_x ∧ st'.new_least_MSE_y = st'.least_MSE_y) ∧
      st'.least_MSE = FVal.val (Assignment1.Offset_MSE cfg frame_1 (To_A1 ax ay st) o) ∧
      (st'.least_MSE_x = st.least_MSE_x + o.1 ∧ st'.least_MSE_y = st.least_MSE_y + o.2) ∧
      (n = 0 → st'.search_dist_x =
          (st.search_dist_x + st.search_dist_x.tdiv 2 - 1).tdiv (st.search_dist_x.tdiv 2) ∧
        st'.search_dist_y =
          (st.search_dist_y + st.search_dist_y.tdiv 2 - 1).tdiv (st.search_dist_y.tdiv 2)) ∧
      (n = 1 → st'.search_dist_x = 1 ∧ st'.search_dist_y = 1) := by
  obtain ⟨st', hS, hOK', hw, hnl, hcase, hmin, d0, d1, _⟩ :=
    A2_Search_Step_min cfg fuel frame_1 n ax ay st hOK hn hd hf
  have hmo := hmin o ho hv
  have hkey : st'.least_MSE =
        FVal.val (Assignment1.Offset_MSE cfg frame_1 (To_A1 ax ay st) o) ∧
      (st'.least_MSE_x = st.least_MSE_x + o.1 ∧ st'.least_MSE_y = st.least_MSE_y + o.2) := by
    rcases hcase with ⟨e1, _, _⟩ | ⟨o2, ho2, hv2, e1, e2, _⟩
    · rw [e1, hlt] at hmo
      exact absurd hmo (by decide)
    · by_cases heq : o2 = o
      · subst heq
        exact ⟨e1, e2⟩
      · have := hothers o2 ho2 hv2 heq
        rw [e1, FVal_lt_val, decide_eq_false_iff_not] at hmo
        exact absurd this hmo
  exact ⟨st', hS, hOK', hw, hnl, hkey.1, hkey.2, d0, d1⟩

/-- A search step of Assignment 2 in which no compared candidate is below the least
distortion so far: the best location becomes the running best the step started with. -/
theorem A2_Search_Step_kept (cfg : Config) (fuel : Nat) (frame_1 : Image) (n : Int)
    (ax ay : Int) (st : Assignment2.SearchState)
    (hOK : Assignment1.Search_OK cfg frame_1 (To_A1 ax ay st))
    (hn : n = 0 ∨ n = 1 ∨ n = 2)
    (hd : n = 0 → 2 ≤ st.search_dist_x ∧ 2 ≤ st.search_dist_y) (hf : 4 ≤ fuel)
    (hnone : ∀ o ∈ Assignment1.Nine_Offsets st.search_dist_x st.search_dist_y,
      Assignment1.Cand_Valid cfg (To_A1 ax ay st) o.1 o.2 →
      (FVal.val (Assignment1.Offset_MSE cfg frame_1 (To_A1 ax ay st) o)).lt st.least_MSE =
        false) :
    ∃ st', Assignment2.Search_Step cfg fuel frame_1 n st = some st' ∧
      (st'.search_area_x_start = st.search_area_x_start ∧
        st'.search_area_x_stop = st.search_area_x_stop ∧
        st'.search_area_y_start = st.search_area_y_start ∧
        st'.search_area_y_stop = st.search_area_y_stop ∧
        st'.macroblock = st.macroblock) ∧
      st'.least_MSE = st.least_MSE ∧
      (st'.least_MSE_x = st.new_least_MSE_x ∧ st'.least_MSE_y = st.new_least_MSE_y) := by
  obtain ⟨st', hS, _, hw, _, hcase, _, _⟩ :=
    A2_Search_Step_min cfg fuel frame_1 n ax ay st hOK hn hd hf
  refine ⟨st', hS, hw, ?_⟩
  rcases hcase with ⟨e1, e2, e3⟩ | ⟨o, ho, hv, _, _, hlt⟩
  · exact ⟨e1, e2, e3⟩
  · rw [hnone o ho hv] at hlt
    exact absurd hlt (by decide)

/-- The offsets of a step: the column offset is minus the step distance, 0 or the
step distance. -/
theorem Nine_Offsets_fst (dx dy : Int) (o : Int × Int)
    (ho : o ∈ Assignment1.Nine_Offsets dx dy) : o.1 = -dx ∨ o.1 = 0 ∨ o.1 = dx := by
  simp only [Assignment1.Nine_Offsets, List.mem_cons, List.mem_singleton,
    List.not_mem_nil, or_false] at ho
  rcases ho with rfl | rfl | rfl | rfl | rfl | rfl | rfl | rfl | rfl <;> simp

/-- One step of the search of Assignment 2 for the first block of `tgt6` in `ref6`,
when the candidate at column offset `ox` is compared, lies below the least distortion
so far and strictly below every other compared candidate: the best location moves to
it, and the bounds of the search area stay as they are. -/
theorem A2_ref6_step (fuel : Nat) (n : Int) (st : Assignment2.SearchState)
    (lx xstop dx dy ox : Int) (q0 : ℚ)
    (hOK : Assignment1.Search_OK cfg1 ref6 (To_A1 0 0 st))
    (hn : n = 0 ∨ n = 1 ∨ n = 2)
    (hd : n = 0 → 2 ≤ st.search_dist_x ∧ 2 ≤ st.search_dist_y) (hf : 4 ≤ fuel)
    (hb : st.macroblock.chans = 1 ∧ st.macroblock.pix 0 0 0 = 0)
    (hl : st.least_MSE_x = lx ∧ st.least_MSE_y = 0)
    (hs : st.search_area_x_stop = xstop ∧ st.search_area_y_stop = 1)
    (hdist : st.search_dist_x = dx ∧ st.search_dist_y = dy)
    (hm : st.least_MSE = FVal.val q0)
    (hox : ox = -dx ∨ ox = 0 ∨ ox = dx)
    (hvalid : 0 ≤ lx + ox ∧ lx + ox + 1 ≤ xstop)
    (hbelow : ((ref6.pix 0 0 (lx + ox) ^ 2 : Int) : ℚ) < q0)
    (hothers : ∀ x2 : Int, (x2 = -dx ∨ x2 = 0 ∨ x2 = dx) → 0 ≤ lx + x2 → lx + x2 + 1 ≤ xstop →
      x2 ≠ ox → ref6.pix 0 0 (lx + ox) ^ 2 < ref6.pix 0 0 (lx + x2) ^ 2) :
    ∃ st', Assignment2.Search_Step cfg1 fuel ref6 n st = some st' ∧
      Assignment1.Search_OK cfg1 ref6 (To_A1 0 0 st') ∧
      (st'.macroblock.chans = 1 ∧ st'.macroblock.pix 0 0 0 = 0) ∧
      (st'.search_area_x_stop = xstop ∧ st'.search_area_y_stop = 1) ∧
      (st'.new_least_MSE_x = st'.least_MSE_x ∧ st'.new_least_MSE_y = st'.least_MSE_y) ∧
      (st'.least_MSE_x = lx + ox ∧ st'.least_MSE_y = 0) ∧
      st'.least_MSE = FVal.val ((ref6.pix 0 0 (lx + ox) ^ 2 : Int) : ℚ) ∧
      (n = 0 → st'.search_dist_x = (dx + dx.tdiv 2 - 1).tdiv (dx.tdiv 2) ∧
        st'.search_dist_y = (dy + dy.tdiv 2 - 1).tdiv (dy.tdiv 2)) ∧
      (n = 1 → st'.search_dist_x = 1 ∧ st'.search_dist_y = 1) := by
  obtain ⟨hQ, hV⟩ := ref6_state (To_A1 0 0 st) lx xstop hb hl hs
  have ho : (ox, (0 : Int)) ∈ Assignment1.Nine_Offsets st.search_dist_x st.search_dist_y := by
    rw [hdist.1, hdist.2]
    simp only [Assignment1.Nine_Offsets, List.mem_cons, Prod.mk.injEq, List.mem_singleton]
    rcases hox with h | h | h
    · right; left; exact ⟨h, trivial⟩
    · right; right; right; right; left; exact ⟨h, trivial⟩
    · right; right; right; right; right; right; right; left; exact ⟨h, trivial⟩
  obtain ⟨st', hS, hOK', ⟨_, w2, _, w4, w5⟩, hnl, hmse, hloc, d0, d1⟩ :=
    A2_Search_Step_unique_min cfg1 fuel ref6 n 0 0 st hOK hn hd hf (ox, 0) ho
      ((hV (ox, 0)).mpr ⟨hvalid, rfl⟩)
      (by
        rw [hQ, hm, FVal_lt_val, decide_eq_true_eq]
        exact_mod_cast hbelow)
      (by
        intro o2 ho2 hv2 hne
        rw [hQ, hQ]
        obtain ⟨hvx, hy0⟩ := (hV o2).mp hv2
        have hx2 : o2.1 = -dx ∨ o2.1 = 0 ∨ o2.1 = dx := by
          have := Nine_Offsets_fst _ _ o2 ho2
          rw [hdist.1] at this
          exact this
        have hne2 : o2.1 ≠ ox := by
          intro h
          apply hne
          exact Prod.ext h hy0
        have := hothers o2.1 hx2 hvx.1 hvx.2 hne2
        rw [hy0]
        exact_mod_cast this)
  refine ⟨st', hS, hOK', ⟨by rw [w5]; exact hb.1, by rw [w5]; exact hb.2⟩,
    ⟨by rw [w2]; exact hs.1, by rw [w4]; exact hs.2⟩, hnl, ?_, ?_, ?_, d1⟩
  · rw [hloc.1, hloc.2, hl.1, hl.2]
    exact ⟨rfl, by simp⟩
  · rw [hmse, hQ]
    simp
  · rw [← hdist.1, ← hdist.2]
    exact d0

/-- The search of Assignment 2 for the first block of `tgt6` in `ref6` with radius 4:
the best location moves from column 0 to column 2, then to column 4; in the third step
the candidate at column 5 is skipped, because the stop bound of the search area is
still 5, and the best location stays at column 4. -/
theorem A2_ref6_search (fuel : Nat) (hf : 4 ≤ fuel) :
    ∃ macroblock s1 s2 s3,
      Set_Image_Range tgt6 0 tgt6.channels 0 (0 + cfg1.block_width) 0
        (0 + cfg1.block_height) = some macroblock ∧
      (Assignment2.Search_Step cfg1 fuel ref6 0
          (Assignment2.Search_Init cfg1 ref6 macroblock 0 0) = some s1 ∧
        Assignment2.Search_Step cfg1 fuel ref6 1 s1 = some s2 ∧
        Assignment2.Search_Step cfg1 fuel ref6 2 s2 = some s3 ∧
        Assignment2.Find_Best cfg1 fuel ref6 tgt6 0 0 = some s3) ∧
      ((Assignment2.Search_Init cfg1 ref6 macroblock 0 0).search_area_x_stop = 5 ∧
        s1.search_area_x_stop = 5 ∧ s2.search_area_x_stop = 5) ∧
      (s1.least_MSE_x = 2 ∧ s2.least_MSE_x = 4 ∧ s3.least_MSE_x = 4) ∧
      (s2.search_dist_x = 1 ∧ s2.search_dist_y = 1 ∧ s2.least_MSE_y = 0) ∧
      Assignment2.Skipped cfg1 s2 1 0 := by
  obtain ⟨mbk, hmbk, ⟨c1, c2, c3⟩, hpix⟩ := Set_Image_Range_spec tgt6 0 tgt6.channels
    0 (0 + cfg1.block_width) 0 (0 + cfg1.block_height)
    ⟨le_refl _, by decide, by decide⟩ ⟨le_refl _, by decide, by decide⟩
    ⟨le_refl _, by decide, by decide⟩
  have hc1 : mbk.chans = 1 := by
    have e : tgt6.channels - 0 = 1 := by decide
    rw [e] at c1
    exact_mod_cast c1
  have hr1 : (mbk.rows : Int) = 1 := by
    rw [c2]; decide
  have hk1 : (mbk.cols : Int) = 1 := by
    rw [c3]; decide
  have hp0 : mbk.pix 0 0 0 = 0 := by
    rw [hpix 0 0 0 (by decide) (by decide) (by decide)]
    rfl
  have hOK0 : Assignment1.Search_OK cfg1 ref6
      (To_A1 0 0 (Assignment2.Search_Init cfg1 ref6 mbk 0 0)) := by
    refine ⟨⟨by decide, by decide⟩, ⟨by decide, ?_, ?_, ?_⟩, ⟨?_, ?_⟩, ⟨?_, ?_⟩⟩
    · show mbk.chans = ref6.chans
      rw [hc1]; rfl
    · show (mbk.rows : Int) = cfg1.block_height
      rw [hr1]; rfl
    · show (mbk.cols : Int) = cfg1.block_width
      rw [hk1]; rfl
    · show Assignment2.Get_Search_Area_Stop ref6.get_cols cfg1.search_horizontal 0
        cfg1.block_width ≤ (ref6.cols : Int)
      decide
    · show Assignment2.Get_Search_Area_Stop ref6.get_rows cfg1.search_vertical 0
        cfg1.block_height ≤ (ref6.rows : Int)
      decide
    · show 0 < cfg1.search_horizontal.tdiv 2
      decide
    · show 0 < cfg1.search_vertical.tdiv 2
      decide
  have hs0 : (Assignment2.Search_Init cfg1 ref6 mbk 0 0).search_area_x_stop = 5 ∧
      (Assignment2.Search_Init cfg1 ref6 mbk 0 0).search_area_y_stop = 1 := by
    constructor
    · show Assignment2.Get_Search_Area_Stop ref6.get_cols cfg1.search_horizontal 0
        cfg1.block_width = 5
      decide
    · show Assignment2.Get_Search_Area_Stop ref6.get_rows cfg1.search_vertical 0
        cfg1.block_height = 1
      decide
  -- the first step: from column 0 to column 2
  obtain ⟨s1, hS1, hOK1, hb1, hs1, hn1, hl1, hm1, hd1, _⟩ :=
    A2_ref6_step fuel 0 (Assignment2.Search_Init cfg1 ref6 mbk 0 0) 0 5 2 2 2 FLT_MAX hOK0
      (Or.inl rfl)
      (fun _ => ⟨(by decide : (2 : Int) ≤ cfg1.search_horizontal.tdiv 2),
        (by decide : (2 : Int) ≤ cfg1.search_vertical.tdiv 2)⟩) hf ⟨hc1, hp0⟩ ⟨rfl, rfl⟩ hs0
      ⟨rfl, rfl⟩ rfl (Or.inr (Or.inr rfl)) (by decide)
      (by
        have e : ref6.pix 0 0 (0 + 2) ^ 2 = 4 := by decide
        rw [e]
        unfold FLT_MAX
        norm_num)
      (by
        intro x2 hx2 h1 h2 hne
        rcases hx2 with rfl | rfl | rfl
        · exfalso; omega
        · decide
        · exact absurd rfl hne)
  obtain ⟨hdx1, hdy1⟩ := hd1 rfl
  have hdx1' : s1.search_dist_x = 2 := by rw [hdx1]; decide
  have hdy1' : s1.search_dist_y = 2 := by rw [hdy1]; decide
  have hlx1 : s1.least_MSE_x = 2 := by rw [hl1.1]; decide
  -- the second step: from column 2 to column 4
  obtain ⟨s2, hS2, hOK2, hb2, hs2, hn2, hl2, hm2, _, hd2⟩ :=
    A2_ref6_step fuel 1 s1 2 5 2 2 2 _ hOK1 (Or.inr (Or.inl rfl))
      (fun h => absurd h (by decide)) hf hb1 ⟨hlx1, hl1.2⟩ hs1 ⟨hdx1', hdy1'⟩ hm1
      (Or.inr (Or.inr rfl)) (by decide)
      (by
        have e : ref6.pix 0 0 (2 + 2) ^ 2 < ref6.pix 0 0 (0 + 2) ^ 2 := by decide
        exact_mod_cast e)
      (by
        intro x2 hx2 h1 h2 hne
        rcases hx2 with rfl | rfl | rfl
        · decide
        · decide
        · exact absurd rfl hne)
  obtain ⟨hdx2, hdy2⟩ := hd2 rfl
  have hlx2 : s2.least_MSE_x = 4 := by rw [hl2.1]; decide
  -- the third step: the candidate at column 5 is skipped
  obtain ⟨hQ, hV⟩ := ref6_state (To_A1 0 0 s2) 4 5 hb2 ⟨hlx2, hl2.2⟩ hs2
  obtain ⟨s3, hS3, _, _, hl3⟩ := A2_Search_Step_kept cfg1 fuel ref6 2 0 0 s2 hOK2
    (Or.inr (Or.inr rfl)) (fun h => absurd h (by decide)) hf (by
      intro o ho hv
      obtain ⟨⟨v1, v2⟩, hy0⟩ := (hV o).mp hv
      have hx := Nine_Offsets_fst _ _ o ho
      rw [hdx2] at hx
      rw [hQ, hm2, FVal_lt_val, decide_eq_false_iff_not, hy0]
      rcases hx with h | h | h
      · rw [h]
        have e : ¬ (ref6.pix 0 0 (4 + -1) ^ 2 < ref6.pix 0 0 (2 + 2) ^ 2) := by decide
        exact_mod_cast e
      · rw [h]
        have e : ¬ (ref6.pix 0 0 (4 + 0) ^ 2 < ref6.pix 0 0 (2 + 2) ^ 2) := by decide
        exact_mod_cast e
      · exfalso; omega)
  refine ⟨mbk, s1, s2, s3, hmbk, ⟨hS1, hS2, hS3, ?_⟩, ⟨hs0.1, hs1.1, hs2.1⟩,
    ⟨hlx1, hlx2, ?_⟩, ⟨hdx2, hdy2, hl2.2⟩, ?_⟩
  · unfold Assignment2.Find_Best
    rw [hmbk]
    simp only [Option.some_bind, Option.bind_eq_bind]
    rw [forRange_three, hS1]
    simp only [Option.some_bind]
    rw [hS2]
    simp only [Option.some_bind]
    exact hS3
  · rw [hl3.1, hn2.1]
    exact hlx2
  · unfold Assignment2.Skipped
    rw [hlx2, hl2.2, hs2.1, hs2.2]
    decide

/-- Claim C24, Assignment 2: the bounds of the search area tested in the second and
third steps are those computed for the block before the first step.  For the first
block of `tgt6` matched in `ref6` with blocks of one sample and radius 4, the stop bound
is 5 before the first step and still 5 in the third step, although the bound recomputed
around the best location (column 4) with the step distance 1 is 6; so the candidate at
column 5 is skipped in the third step and the search ends at column 4. -/
theorem C24_window_never_updated (fuel : Nat) (hf : 4 ≤ fuel) :
    ∃ macroblock s1 s2 s3,
      Set_Image_Range tgt6 0 tgt6.channels 0 (0 + cfg1.block_width) 0
        (0 + cfg1.block_height) = some macroblock ∧
      (Assignment2.Search_Step cfg1 fuel ref6 0
          (Assignment2.Search_Init cfg1 ref6 macroblock 0 0) = some s1 ∧
        Assignment2.Search_Step cfg1 fuel ref6 1 s1 = some s2 ∧
        Assignment2.Search_Step cfg1 fuel ref6 2 s2 = some s3 ∧
        Assignment2.Find_Best cfg1 fuel ref6 tgt6 0 0 = some s3) ∧
      ((Assignment2.Search_Init cfg1 ref6 macroblock 0 0).search_area_x_stop = 5 ∧
        s1.search_area_x_stop = 5 ∧ s2.search_area_x_stop = 5) ∧
      (s2.least_MSE_x = 4 ∧ s2.search_dist_x = 1 ∧
        Assignment2.Get_Search_Area_Stop ref6.get_cols s2.search_dist_x s2.least_MSE_x
          cfg1.block_width = 6) ∧
      Assignment2.Skipped cfg1 s2 1 0 ∧
      s3.least_MSE_x = 4 := by
  obtain ⟨mbk, s1, s2, s3, h1, h2, h3, ⟨_, h4, h5⟩, ⟨h6, _, _⟩, h7⟩ := A2_ref6_search fuel hf
  refine ⟨mbk, s1, s2, s3, h1, h2, h3, ⟨h4, h6, ?_⟩, h7, h5⟩
  rw [h4, h6]
  decide

/-- The search of claim C24 with fuel 4. -/
theorem C24_window_never_updated_witness :
    (4 : Nat) ≤ 4 ∧ ∃ macroblock s1 s2 s3,
      Set_Image_Range tgt6 0 tgt6.channels 0 (0 + cfg1.block_width) 0
        (0 + cfg1.block_height) = some macroblock ∧
      (Assignment2.Search_Step cfg1 4 ref6 0
          (Assignment2.Search_Init cfg1 ref6 macroblock 0 0) = some s1 ∧
        Assignment2.Search_Step cfg1 4 ref6 1 s1 = some s2 ∧
        Assignment2.Search_Step cfg1 4 ref6 2 s2 = some s3 ∧
        Assignment2.Find_Best cfg1 4 ref6 tgt6 0 0 = some s3) ∧
      ((Assignment2.Search_Init cfg1 ref6 macroblock 0 0).search_area_x_stop = 5 ∧
        s1.search_area_x_stop = 5 ∧ s2.search_area_x_stop = 5) ∧
      (s2.least_MSE_x = 4 ∧ s2.search_dist_x = 1 ∧
        Assignment2.Get_Search_Area_Stop ref6.get_cols s2.search_dist_x s2.least_MSE_x
          cfg1.block_width = 6) ∧
      Assignment2.Skipped cfg1 s2 1 0 ∧
      s3.least_MSE_x = 4 :=
  ⟨le_refl 4, C24_window_never_updated 4 (le_refl 4)⟩

/-- Claim C26, Assignment 2: a first step in which all nine candidates are skipped
does not leave the best location at the anchor of the block.  With blocks of 8 by 8
samples, both radii 4, the reference frame `ref8x16` of 8 rows and the frame `frame16`
of 16 rows, the block anchored at column 0 and row 8 has all nine candidates of the
first step skipped, and after the step the best location is column 0, row 0. -/
theorem C26_first_step_all_skipped (fuel : Nat) (hf : 4 ≤ fuel) :
    ∃ macroblock st',
      Set_Image_Range frame16 0 frame16.channels 0 (0 + cfg8.block_width) 8
        (8 + cfg8.block_height) = some macroblock ∧
      (∀ o ∈ Assignment1.Nine_Offsets
          (Assignment2.Search_Init cfg8 ref8x16 macroblock 0 8).search_dist_x
          (Assignment2.Search_Init cfg8 ref8x16 macroblock 0 8).search_dist_y,
        Assignment2.Skipped cfg8 (Assignment2.Search_Init cfg8 ref8x16 macroblock 0 8)
          o.1 o.2) ∧
      Assignment2.Search_Step cfg8 fuel ref8x16 0
        (Assignment2.Search_Init cfg8 ref8x16 macroblock 0 8) = some st' ∧
      ((Assignment2.Search_Init cfg8 ref8x16 macroblock 0 8).least_MSE_x = 0 ∧
        (Assignment2.Search_Init cfg8 ref8x16 macroblock 0 8).least_MSE_y = 8) ∧
      (st'.least_MSE_x = 0 ∧ st'.least_MSE_y = 0) := by
  obtain ⟨mbk, hmbk, ⟨c1, c2, c3⟩, _⟩ := Set_Image_Range_spec frame16 0 frame16.channels
    0 (0 + cfg8.block_width) 8 (8 + cfg8.block_height)
    ⟨le_refl _, by decide, by decide⟩ ⟨by decide, by decide, by decide⟩
    ⟨le_refl _, by decide, by decide⟩
  have hc1 : mbk.chans = 1 := by
    have e : frame16.channels - 0 = 1 := by decide
    rw [e] at c1
    exact_mod_cast c1
  have hr1 : (mbk.rows : Int) = 8 := by
    rw [c2]; decide
  have hk1 : (mbk.cols : Int) = 8 := by
    rw [c3]; decide
  have hOK0 : Assignment1.Search_OK cfg8 ref8x16
      (To_A1 0 8 (Assignment2.Search_Init cfg8 ref8x16 mbk 0 8)) := by
    refine ⟨⟨by decide, by decide⟩, ⟨by decide, ?_, ?_, ?_⟩, ⟨?_, ?_⟩, ⟨?_, ?_⟩⟩
    · show mbk.chans = ref8x16.chans
      rw [hc1]; rfl
    · show (mbk.rows : Int) = cfg8.block_height
      rw [hr1]; rfl
    · show (mbk.cols : Int) = cfg8.block_width
      rw [hk1]; rfl
    · show Assignment2.Get_Search_Area_Stop ref8x16.get_cols cfg8.search_horizontal 0
        cfg8.block_width ≤ (ref8x16.cols : Int)
      decide
    · show Assignment2.Get_Search_Area_Stop ref8x16.get_rows cfg8.search_vertical 8
        cfg8.block_height ≤ (ref8x16.rows : Int)
      decide
    · show 0 < cfg8.search_horizontal.tdiv 2
      decide
    · show 0 < cfg8.search_vertical.tdiv 2
      decide
  have hskip : ∀ o ∈ Assignment1.Nine_Offsets
      (Assignment2.Search_Init cfg8 ref8x16 mbk 0 8).search_dist_x
      (Assignment2.Search_Init cfg8 ref8x16 mbk 0 8).search_dist_y,
      Assignment2.Skipped cfg8 (Assignment2.Search_Init cfg8 ref8x16 mbk 0 8) o.1 o.2 := by
    intro o ho
    have ho2 : o ∈ Assignment1.Nine_Offsets 2 2 := ho
    have hy : (8 : Int) + o.2 + 8 > 8 := by
      simp only [Assignment1.Nine_Offsets, List.mem_cons, List.mem_singleton,
        List.not_mem_nil, or_false] at ho2
      rcases ho2 with h | h | h | h | h | h | h | h | h <;> rw [h] <;> decide
    right; right; right
    exact hy
  obtain ⟨st', hS, _, _, hl⟩ := A2_Search_Step_kept cfg8 fuel ref8x16 0 0 8
    (Assignment2.Search_Init cfg8 ref8x16 mbk 0 8) hOK0 (Or.inl rfl)
    (fun _ => ⟨(by decide : (2 : Int) ≤ cfg8.search_horizontal.tdiv 2),
      (by decide : (2 : Int) ≤ cfg8.search_vertical.tdiv 2)⟩) hf (by
      intro o ho hv
      exact absurd hv ((Skipped_iff cfg8 0 8 _ o.1 o.2).mp (hskip o ho)))
  exact ⟨mbk, st', hmbk, hskip, hS, ⟨rfl, rfl⟩, hl⟩

/-- The first step of claim C26 with fuel 4. -/
theorem C26_first_step_all_skipped_witness :
    (4 : Nat) ≤ 4 ∧ ∃ macroblock st',
      Set_Image_Range frame16 0 frame16.channels 0 (0 + cfg8.block_width) 8
        (8 + cfg8.block_height) = some macroblock ∧
      (∀ o ∈ Assignment1.Nine_Offsets
          (Assignment2.Search_Init cfg8 ref8x16 macroblock 0 8).search_dist_x
          (Assignment2.Search_Init cfg8 ref8x16 macroblock 0 8).search_dist_y,
        Assignment2.Skipped cfg8 (Assignment2.Search_Init cfg8 ref8x16 macroblock 0 8)
          o.1 o.2) ∧
      Assignment2.Search_Step cfg8 4 ref8x16 0
        (Assignment2.Search_Init cfg8 ref8x16 macroblock 0 8) = some st' ∧
      ((Assignment2.Search_Init cfg8 ref8x16 macroblock 0 8).least_MSE_x = 0 ∧
        (Assignment2.Search_Init cfg8 ref8x16 macroblock 0 8).least_MSE_y = 8) ∧
      (st'.least_MSE_x = 0 ∧ st'.least_MSE_y = 0) :=
  ⟨le_refl 4, C26_first_step_all_skipped 4 (le_refl 4)⟩


/-! ## Assignment 2 against Assignment 1 (C30) -/

/-- The distortion of a candidate depends on the block only through its channels and
its samples inside the configured block size. -/
theorem Cand_MSE_congr (cfg : Config) (b1 b2 frame_1 : Image) (x y : Int)
    (h : Block_Agree cfg b1 b2) :
    Assignment1.Cand_MSE cfg b1 frame_1 x y = Assignment1.Cand_MSE cfg b2 frame_1 x y := by
  obtain ⟨hc, hp⟩ := h
  unfold Assignment1.Cand_MSE
  rw [← hc]
  apply Float_Mean_congr
  intro a b c ha hb hc'
  show (b1.pix a b c - frame_1.pix a (y + b) (x + c)) ^ 2 =
    (b2.pix a b c - frame_1.pix a (y + b) (x + c)) ^ 2
  rw [hp a b c ha hb hc']

/-- The candidate loops on a list of offsets, run from two states with blocks that
agree, the same best location and the same candidates passing the bounds checks, end
with the same running best. -/
theorem Scan_List_congr (cfg : Config) (frame_1 : Image) (l : List (Int × Int))
    (s u : Assignment1.SearchState)
    (hs : Assignment1.Search_OK cfg frame_1 s) (hu : Assignment1.Search_OK cfg frame_1 u)
    (hb : Block_Agree cfg s.this_macroblock.block u.this_macroblock.block)
    (hloc : s.least_MSE_x = u.least_MSE_x ∧ s.least_MSE_y = u.least_MSE_y)
    (hv : ∀ o ∈ l, Assignment1.Cand_Valid cfg s o.1 o.2 ↔ Assignment1.Cand_Valid cfg u o.1 o.2)
    (m0 : FVal) (nx0 ny0 : Int) :
    ∃ m nx ny,
      Assignment1.Scan_List cfg frame_1 l (Assignment1.With_Best s m0 nx0 ny0) =
        some (Assignment1.With_Best s m nx ny) ∧
      Assignment1.Scan_List cfg frame_1 l (Assignment1.With_Best u m0 nx0 ny0) =
        some (Assignment1.With_Best u m nx ny) := by
  induction l generalizing m0 nx0 ny0 with
  | nil => exact ⟨m0, nx0, ny0, rfl, rfl⟩
  | cons o rest ih =>
    have hs' : Assignment1.Search_OK cfg frame_1 (Assignment1.With_Best s m0 nx0 ny0) := hs
    have hu' : Assignment1.Search_OK cfg frame_1 (Assignment1.With_Best u m0 nx0 ny0) := hu
    have hrest : ∀ o ∈ rest,
        Assignment1.Cand_Valid cfg s o.1 o.2 ↔ Assignment1.Cand_Valid cfg u o.1 o.2 :=
      fun o2 h2 => hv o2 (List.mem_cons_of_mem _ h2)
    by_cases hvo : Assignment1.Cand_Valid cfg s o.1 o.2
    · have hvu : Assignment1.Cand_Valid cfg u o.1 o.2 := (hv o (List.mem_cons_self _ _)).mp hvo
      have hT := Try_Candidate_exact cfg frame_1 o.1 o.2 _ hs' hvo
      have hU := Try_Candidate_exact cfg frame_1 o.1 o.2 _ hu' hvu
      have hQ : Assignment1.Offset_MSE cfg frame_1 (Assignment1.With_Best s m0 nx0 ny0)
          (o.1, o.2) = Assignment1.Offset_MSE cfg frame_1 s o := rfl
      have hQu : Assignment1.Offset_MSE cfg frame_1 (Assignment1.With_Best u m0 nx0 ny0)
          (o.1, o.2) = Assignment1.Offset_MSE cfg frame_1 s o := by
        show Assignment1.Cand_MSE cfg u.this_macroblock.block frame_1 (u.least_MSE_x + o.1)
          (u.least_MSE_y + o.2) = Assignment1.Cand_MSE cfg s.this_macroblock.block frame_1
          (s.least_MSE_x + o.1) (s.least_MSE_y + o.2)
        rw [hloc.1, hloc.2]
        exact (Cand_MSE_congr cfg _ _ frame_1 _ _ hb).symm
      rw [hQ] at hT
      rw [hQu] at hU
      by_cases hlt : (FVal.val (Assignment1.Offset_MSE cfg frame_1 s o)).lt m0 = true
      · have hlt1 : (FVal.val (Assignment1.Offset_MSE cfg frame_1 s o)).lt
            (Assignment1.With_Best s m0 nx0 ny0).least_MSE = true := hlt
        have hlt2 : (FVal.val (Assignment1.Offset_MSE cfg frame_1 s o)).lt
            (Assignment1.With_Best u m0 nx0 ny0).least_MSE = true := hlt
        rw [if_pos hlt1] at hT
        rw [if_pos hlt2] at hU
        have hT' : Assignment1.Try_Candidate cfg frame_1 o.1 o.2
            (Assignment1.With_Best s m0 nx0 ny0) =
            some (Assignment1.With_Best s (FVal.val (Assignment1.Offset_MSE cfg frame_1 s o))
              (s.least_MSE_x + o.1) (s.least_MSE_y + o.2)) := hT
        have hU' : Assignment1.Try_Candidate cfg frame_1 o.1 o.2
            (Assignment1.With_Best u m0 nx0 ny0) =
            some (Assignment1.With_Best u (FVal.val (Assignment1.Offset_MSE cfg frame_1 s o))
              (s.least_MSE_x + o.1) (s.least_MSE_y + o.2)) := by
          rw [hU, hloc.1, hloc.2]
          rfl
        obtain ⟨m, nx, ny, h1, h2⟩ := ih hrest
          (FVal.val (Assignment1.Offset_MSE cfg frame_1 s o))
          (s.least_MSE_x + o.1) (s.least_MSE_y + o.2)
        exact ⟨m, nx, ny, by simp only [Assignment1.Scan_List, hT', Option.some_bind, h1],
          by simp only [Assignment1.Scan_List, hU', Option.some_bind, h2]⟩
      · have hlt1 : ¬ (FVal.val (Assignment1.Offset_MSE cfg frame_1 s o)).lt
            (Assignment1.With_Best s m0 nx0 ny0).least_MSE = true := hlt
        have hlt2 : ¬ (FVal.val (Assignment1.Offset_MSE cfg frame_1 s o)).lt
            (Assignment1.With_Best u m0 nx0 ny0).least_MSE = true := hlt
        rw [if_neg hlt1] at hT
        rw [if_neg hlt2] at hU
        obtain ⟨m, nx, ny, h1, h2⟩ := ih hrest m0 nx0 ny0
        exact ⟨m, nx, ny, by simp only [Assignment1.Scan_List, hT, Option.some_bind, h1],
          by simp only [Assignment1.Scan_List, hU, Option.some_bind, h2]⟩
    · have hvu : ¬ Assignment1.Cand_Valid cfg u o.1 o.2 :=
        fun h => hvo ((hv o (List.mem_cons_self _ _)).mpr h)
      have hT : Assignment1.Try_Candidate cfg frame_1 o.1 o.2
          (Assignment1.With_Best s m0 nx0 ny0) = some (Assignment1.With_Best s m0 nx0 ny0) :=
        (Try_Candidate_spec cfg frame_1 o.1 o.2 _ hs').1 hvo
      have hU : Assignment1.Try_Candidate cfg frame_1 o.1 o.2
          (Assignment1.With_Best u m0 nx0 ny0) = some (Assignment1.With_Best u m0 nx0 ny0) :=
        (Try_Candidate_spec cfg frame_1 o.1 o.2 _ hu').1 hvu
      obtain ⟨m, nx, ny, h1, h2⟩ := ih hrest m0 nx0 ny0
      exact ⟨m, nx, ny, by simp only [Assignment1.Scan_List, hT, Option.some_bind, h1],
        by simp only [Assignment1.Scan_List, hU, Option.some_bind, h2]⟩

/-- When the stop bounds of the window cut off no candidate of the step, a candidate
of the step passes the four bounds checks exactly when it lies inside the frame. -/
theorem valid_iff_frame (cfg : Config) (frame_1 : Image) (st : Assignment1.SearchState)
    (hOK : Assignment1.Search_OK cfg frame_1 st)
    (hfree : Assignment1.Stop_Free cfg frame_1 st) (o : Int × Int)
    (ho : o ∈ Assignment1.Nine_Offsets st.search_dist_x st.search_dist_y) :
    Assignment1.Cand_Valid cfg st o.1 o.2 ↔ Assignment1.Cand_In_Frame cfg frame_1 st o.1 o.2 := by
  obtain ⟨_, _, ⟨hs1, hs2⟩, ⟨hp1, hp2⟩⟩ := hOK
  obtain ⟨⟨_, b1⟩, ⟨_, b2⟩⟩ := Nine_Offsets_bound _ _ hp1.le hp2.le o ho
  obtain ⟨f1, f2⟩ := hfree
  unfold Assignment1.Cand_Valid Assignment1.Cand_In_Frame
  constructor
  · rintro ⟨⟨a1, a2⟩, ⟨a3, a4⟩⟩
    exact ⟨⟨a1, by omega⟩, ⟨a3, by omega⟩⟩
  · rintro ⟨⟨a1, a2⟩, ⟨a3, a4⟩⟩
    refine ⟨⟨a1, ?_⟩, ⟨a3, ?_⟩⟩
    · rcases f1 with h | h
      · rw [h]; exact a2
      · omega
    · rcases f2 with h | h
      · rw [h]; exact a4
      · omega

/-- One search step of Assignment 1 and one of Assignment 2, started with the same
least distortion, best location, running best and step distances on blocks that agree,
and with the same candidates passing the bounds checks: both return, and again with
the same least distortion, best location, running best and step distances. -/
theorem Search_Step_coupled (cfg : Config) (fuel : Nat) (frame_1 : Image) (n : Int)
    (ax ay : Int) (s : Assignment1.SearchState) (t : Assignment2.SearchState)
    (hs : Assignment1.Search_OK cfg frame_1 s)
    (hu : Assignment1.Search_OK cfg frame_1 (To_A1 ax ay t))
    (hn : n = 0 ∨ n = 1 ∨ n = 2)
    (hd : n = 0 → 2 ≤ s.search_dist_x ∧ 2 ≤ s.search_dist_y) (hf : 4 ≤ fuel)
    (hb : Block_Agree cfg s.this_macroblock.block t.macroblock)
    (hrun : Same_Run s t)
    (hv : ∀ o ∈ Assignment1.Nine_Offsets s.search_dist_x s.search_dist_y,
      Assignment1.Cand_Valid cfg s o.1 o.2 ↔ Assignment1.Cand_Valid cfg (To_A1 ax ay t) o.1 o.2) :
    ∃ s' t', Assignment1.Search_Step cfg fuel frame_1 n s = some s' ∧
      Assignment2.Search_Step cfg fuel frame_1 n t = some t' ∧ Same_Run s' t' := by
  obtain ⟨hm, ⟨hlx, hly⟩, ⟨hnx, hny⟩, ⟨hdx, hdy⟩⟩ := hrun
  obtain ⟨m, nx, ny, h1, h2⟩ := Scan_List_congr cfg frame_1
    (Assignment1.Nine_Offsets s.search_dist_x s.search_dist_y) s (To_A1 ax ay t) hs hu hb
    ⟨hlx, hly⟩ hv s.least_MSE s.new_least_MSE_x s.new_least_MSE_y
  rw [With_Best_self] at h1
  rw [hm, hnx, hny, hdx, hdy] at h2
  have h2' : Assignment1.Scan_List cfg frame_1
      (Assignment1.Nine_Offsets t.search_dist_x t.search_dist_y) (To_A1 ax ay t) =
      some (Assignment1.With_Best (To_A1 ax ay t) m nx ny) := h2
  have hS2 := A2_Scan_eq cfg fuel frame_1 ax ay t hu hf m nx ny h2'
  have hs1 : Assignment1.Search_OK cfg frame_1 (Assignment1.With_Best s m nx ny) := hs
  obtain ⟨s', hF, _, e1, e2, e3, _⟩ := Finish_Step_spec cfg frame_1 n _ hs1 hn hd
  have hdist := Finish_Step_dist cfg frame_1 n _ s' hF
  have hwin := Finish_Step_window cfg frame_1 n _ s' hF
  have hd2 : n = 0 → 2 ≤ (Assignment2.With_Best t m nx ny).search_dist_x ∧
      2 ≤ (Assignment2.With_Best t m nx ny).search_dist_y := by
    intro h0
    obtain ⟨a, b⟩ := hd h0
    rw [hdx] at a
    rw [hdy] at b
    exact ⟨a, b⟩
  obtain ⟨t', hF2, _, g1, g2, g3, d0, d1, d2⟩ := A2_Finish_Step_spec cfg frame_1 n
    (Assignment2.With_Best t m nx ny) hn hd2
  refine ⟨s', t', ?_, ?_, ?_, ⟨?_, ?_⟩, ⟨?_, ?_⟩, ?_⟩
  · unfold Assignment1.Search_Step
    rw [Scan_Candidates_eq cfg fuel frame_1 s hs.2.2.2.1 hs.2.2.2.2 hf, h1]
    exact hF
  · unfold Assignment2.Search_Step
    rw [hS2]
    exact hF2
  · rw [e1, g1]; rfl
  · rw [e2.1, g2.1]; rfl
  · rw [e2.2, g2.2]; rfl
  · rw [e3.1, g3.1]; rfl
  · rw [e3.2, g3.2]; rfl
  · rcases hn with rfl | rfl | rfl
    · obtain ⟨a1, a2⟩ := hdist.1 rfl
      obtain ⟨b1, b2⟩ := d0 rfl
      rw [a1, a2, b1, b2]
      exact ⟨by show _ = (t.search_dist_x + t.search_dist_x.tdiv 2 - 1).tdiv
                  (t.search_dist_x.tdiv 2)
                rw [← hdx]; rfl,
             by show _ = (t.search_dist_y + t.search_dist_y.tdiv 2 - 1).tdiv
                  (t.search_dist_y.tdiv 2)
                rw [← hdy]; rfl⟩
    · obtain ⟨a1, a2⟩ := hdist.2 rfl
      obtain ⟨b1, b2⟩ := d1 rfl
      rw [a1, a2, b1, b2]
      exact ⟨rfl, rfl⟩
    · obtain ⟨_, a1, a2⟩ := hwin.2 rfl
      obtain ⟨b1, b2⟩ := d2 rfl
      rw [a1, a2, b1, b2]
      exact ⟨hdx, hdy⟩

/-- One coupled search step with the facts that carry over to the next step: the
window of Assignment 1 is recomputed around the new best location and cuts off no
candidate inside the frame; the bounds of Assignment 2 stay as they are; the best
location moves to the running best the step started with or by at most the step
distance on each axis. -/
theorem Search_Step_coupled_inv (cfg : Config) (fuel : Nat) (frame_1 : Image) (n : Int)
    (ax ay : Int) (s : Assignment1.SearchState) (t : Assignment2.SearchState) (Bx By : Int)
    (hs : Assignment1.Search_OK cfg frame_1 s)
    (hu : Assignment1.Search_OK cfg frame_1 (To_A1 ax ay t))
    (hn : n = 0 ∨ n = 1 ∨ n = 2)
    (hd : n = 0 → 2 ≤ s.search_dist_x ∧ 2 ≤ s.search_dist_y) (hf : 4 ≤ fuel)
    (hb : Block_Agree cfg s.this_macroblock.block t.macroblock)
    (hrun : Same_Run s t)
    (hdd : s.search_dist_x = s.search_dist_y)
    (hfree : Assignment1.Stop_Free cfg frame_1 s)
    (hwin : (t.search_area_x_stop = frame_1.cols ∨
        Bx + cfg.block_width ≤ t.search_area_x_stop) ∧
      (t.search_area_y_stop = frame_1.rows ∨ By + cfg.block_height ≤ t.search_area_y_stop))
    (hbud : s.least_MSE_x + s.search_dist_x ≤ Bx ∧ s.least_MSE_y + s.search_dist_y ≤ By) :
    ∃ s' t', Assignment1.Search_Step cfg fuel frame_1 n s = some s' ∧
      Assignment2.Search_Step cfg fuel frame_1 n t = some t' ∧
      (Assignment1.Search_OK cfg frame_1 s' ∧
        Assignment1.Search_OK cfg frame_1 (To_A1 ax ay t')) ∧
      Block_Agree cfg s'.this_macroblock.block t'.macroblock ∧
      Same_Run s' t' ∧
      (n = 0 ∨ n = 1 → Assignment1.Stop_Free cfg frame_1 s') ∧
      ((t'.search_area_x_stop = frame_1.cols ∨
          Bx + cfg.block_width ≤ t'.search_area_x_stop) ∧
        (t'.search_area_y_stop = frame_1.rows ∨
          By + cfg.block_height ≤ t'.search_area_y_stop)) ∧
      ((s'.least_MSE_x = s.new_least_MSE_x ∨ s'.least_MSE_x ≤ s.least_MSE_x + s.search_dist_x) ∧
        (s'.least_MSE_y = s.new_least_MSE_y ∨
          s'.least_MSE_y ≤ s.least_MSE_y + s.search_dist_y)) ∧
      (s'.new_least_MSE_x = s'.least_MSE_x ∧ s'.new_least_MSE_y = s'.least_MSE_y) ∧
      (n = 0 → s'.search_dist_x =
          (s.search_dist_x + s.search_dist_x.tdiv 2 - 1).tdiv (s.search_dist_x.tdiv 2)) ∧
      (n = 1 → s'.search_dist_x = 1) ∧
      s'.search_dist_x = s'.search_dist_y := by
  have hrun0 := hrun
  obtain ⟨hm, ⟨hlx, hly⟩, ⟨hnx, hny⟩, ⟨hdx, hdy⟩⟩ := hrun
  -- the bounds of Assignment 2 cut off no candidate inside the frame
  have hfreeu : Assignment1.Stop_Free cfg frame_1 (To_A1 ax ay t) := by
    constructor
    · rcases hwin.1 with h | h
      · exact Or.inl h
      · right
        show t.least_MSE_x + t.search_dist_x + cfg.block_width ≤ t.search_area_x_stop
        omega
    · rcases hwin.2 with h | h
      · exact Or.inl h
      · right
        show t.least_MSE_y + t.search_dist_y + cfg.block_height ≤ t.search_area_y_stop
        omega
  have hv : ∀ o ∈ Assignment1.Nine_Offsets s.search_dist_x s.search_dist_y,
      Assignment1.Cand_Valid cfg s o.1 o.2 ↔
        Assignment1.Cand_Valid cfg (To_A1 ax ay t) o.1 o.2 := by
    intro o ho
    have ho2 : o ∈ Assignment1.Nine_Offsets (To_A1 ax ay t).search_dist_x
        (To_A1 ax ay t).search_dist_y := by
      show o ∈ Assignment1.Nine_Offsets t.search_dist_x t.search_dist_y
      rw [← hdx, ← hdy]
      exact ho
    rw [valid_iff_frame cfg frame_1 s hs hfree o ho,
      valid_iff_frame cfg frame_1 (To_A1 ax ay t) hu hfreeu o ho2]
    unfold Assignment1.Cand_In_Frame
    show _ ↔ (0 ≤ t.least_MSE_x + o.1 ∧ t.least_MSE_x + o.1 + cfg.block_width ≤ frame_1.cols) ∧
      (0 ≤ t.least_MSE_y + o.2 ∧ t.least_MSE_y + o.2 + cfg.block_height ≤ frame_1.rows)
    rw [hlx, hly]
  obtain ⟨s', t', h1, h2, hrun'⟩ := Search_Step_coupled cfg fuel frame_1 n ax ay s t hs hu hn hd
    hf hb hrun0 hv
  obtain ⟨s2, k1, ok1, ⟨kb, _, _⟩, knl, kcase, _, ⟨kd0, kd1⟩, ⟨kw, kw2⟩⟩ :=
    Search_Step_min cfg fuel frame_1 n s hs hn hd hf
  have es : s2 = s' := Option.some.inj (k1.symm.trans h1)
  subst es
  have hd2 : n = 0 → 2 ≤ t.search_dist_x ∧ 2 ≤ t.search_dist_y := by
    intro h0
    obtain ⟨a, b⟩ := hd h0
    rw [hdx] at a
    rw [hdy] at b
    exact ⟨a, b⟩
  obtain ⟨t2, j1, ok2, ⟨_, w2, _, w4, w5⟩, _⟩ :=
    A2_Search_Step_min cfg fuel frame_1 n ax ay t hu hn hd2 hf
  have et : t2 = t' := Option.some.inj (j1.symm.trans h2)
  subst et
  have hdd' : s2.search_dist_x = s2.search_dist_y := by
    rcases hn with rfl | rfl | rfl
    · obtain ⟨a1, a2⟩ := kd0 rfl
      rw [a1, a2, hdd]
    · obtain ⟨a1, a2⟩ := kd1 rfl
      rw [a1, a2]
    · obtain ⟨_, a1, a2⟩ := kw2 rfl
      rw [a1, a2, hdd]
  obtain ⟨_, hgr, hgc⟩ := extents_of_pos frame_1 hs.2.1.1
  refine ⟨s2, t2, h1, h2, ⟨ok1, ok2⟩, ?_, hrun', ?_, ?_, ?_, knl, ?_, ?_, hdd'⟩
  · rw [kb, w5]
    exact hb
  · intro h01
    have hwe := kw h01
    unfold Assignment1.Stop_Free
    rw [hwe, hgc, hgr, ← hdd']
    simp only [Assignment1.Set_Search_Area]
    constructor
    · split_ifs
      · exact Or.inl rfl
      · right; omega
    · split_ifs
      · exact Or.inl rfl
      · right; omega
  · rw [w2, w4]
    exact hwin
  · obtain ⟨_, _, _, ⟨hp1, hp2⟩⟩ := hs
    rcases kcase with ⟨_, e2, e3⟩ | ⟨o, ho, _, _, ⟨e2, e3⟩, _⟩
    · exact ⟨Or.inl e2, Or.inl e3⟩
    · obtain ⟨⟨_, b1⟩, ⟨_, b2⟩⟩ := Nine_Offsets_bound _ _ hp1.le hp2.le o ho
      exact ⟨Or.inr (by omega), Or.inr (by omega)⟩
  · intro h0
    exact (kd0 h0).1
  · intro h1'
    exact (kd1 h1').1

/-- The search of Assignment 2 for a block of the grid ends at the best location the
search of Assignment 1 ends at, when both radii are equal and at least 7 and the
frames have equal extents. -/
theorem Find_Best_coupled (cfg : Config) (fuel : Nat) (R T : Image)
    (vert horiz : Int) (mb : Assignment1.Macroblock)
    (hw : 0 < cfg.block_width) (hh : 0 < cfg.block_height)
    (heq : cfg.search_horizontal = cfg.search_vertical) (h7 : 7 ≤ cfg.search_horizontal)
    (hf : 4 ≤ fuel)
    (hext : R.chans = T.chans ∧ R.rows = T.rows ∧ R.cols = T.cols)
    (hv : 0 ≤ vert ∧ vert < T.get_rows.tdiv cfg.block_height)
    (hz : 0 ≤ horiz ∧ horiz < T.get_cols.tdiv cfg.block_width)
    (hIs : Assignment1.Is_Block_At cfg T vert horiz mb) :
    ∃ s3 t3, Assignment1.Three_Step_Search cfg fuel R mb = some s3 ∧
      Assignment2.Find_Best cfg fuel R T (horiz * cfg.block_width) (vert * cfg.block_height) =
        some t3 ∧
      (t3.least_MSE_x = s3.least_MSE_x ∧ t3.least_MSE_y = s3.least_MSE_y) := by
  have hsh : 4 ≤ cfg.search_horizontal := by omega
  have hsv : 4 ≤ cfg.search_vertical := by omega
  have hch : 0 < T.chans := chans_pos_of_grid cfg T horiz hw hz
  have hchR : 0 < R.chans := by omega
  obtain ⟨_, hTr, hTc⟩ := extents_of_pos T hch
  obtain ⟨_, hRr, hRc⟩ := extents_of_pos R hchR
  obtain ⟨_, hnh1, _⟩ := tdiv_block T.get_cols cfg.block_width (get_cols_nonneg T) hw
  obtain ⟨_, hnv1, _⟩ := tdiv_block T.get_rows cfg.block_height (get_rows_nonneg T) hh
  have m1 := mul_succ_le_of_lt horiz _ cfg.block_width hw hz.2
  have m2 := mul_succ_le_of_lt vert _ cfg.block_height hh hv.2
  have m3 : 0 ≤ horiz * cfg.block_width := Int.mul_nonneg hz.1 hw.le
  have m4 : 0 ≤ vert * cfg.block_height := Int.mul_nonneg hv.1 hh.le
  have e1 : (horiz + 1) * cfg.block_width = horiz * cfg.block_width + cfg.block_width := by ring
  have e2 : (vert + 1) * cfg.block_height = vert * cfg.block_height + cfg.block_height := by ring
  generalize hax : horiz * cfg.block_width = ax at *
  generalize hay : vert * cfg.block_height = ay at *
  -- the macroblock of Assignment 2
  obtain ⟨mbk, hmbk, ⟨c1, c2, c3⟩, hpix⟩ := Set_Image_Range_spec T 0 T.channels
    ax (ax + cfg.block_width) ay (ay + cfg.block_height)
    ⟨le_refl _, by unfold Image.channels; omega, by unfold Image.channels; omega⟩
    ⟨m4, by omega, by omega⟩ ⟨m3, by omega, by omega⟩
  have c1' : (mbk.chans : Int) = T.chans := by
    rw [c1]; unfold Image.channels; omega
  have hOKs := Search_OK_of_block cfg R T vert horiz mb hw hh hsh hsv hch hext hIs
  obtain ⟨⟨ex, ey⟩, ⟨dc, dr, dk⟩, hbp, ⟨_, hxs, _, hys⟩, _⟩ := hIs
  rw [hax] at ex hxs
  rw [hay] at ey hys
  have hd0x : 2 ≤ cfg.search_horizontal.tdiv 2 := first_dist _ hsh
  have hd0y : 2 ≤ cfg.search_vertical.tdiv 2 := first_dist _ hsv
  have hOKu : Assignment1.Search_OK cfg R
      (To_A1 ax ay (Assignment2.Search_Init cfg R mbk ax ay)) := by
    refine ⟨⟨hw, hh⟩, ⟨hchR, ?_, ?_, ?_⟩, ⟨?_, ?_⟩, ⟨?_, ?_⟩⟩
    · show mbk.chans = R.chans
      omega
    · show (mbk.rows : Int) = cfg.block_height
      omega
    · show (mbk.cols : Int) = cfg.block_width
      omega
    · show Assignment2.Get_Search_Area_Stop R.get_cols cfg.search_horizontal ax
        cfg.block_width ≤ (R.cols : Int)
      unfold Assignment2.Get_Search_Area_Stop
      simp only []
      split_ifs <;> omega
    · show Assignment2.Get_Search_Area_Stop R.get_rows cfg.search_vertical ay
        cfg.block_height ≤ (R.rows : Int)
      unfold Assignment2.Get_Search_Area_Stop
      simp only []
      split_ifs <;> omega
    · show 0 < cfg.search_horizontal.tdiv 2
      omega
    · show 0 < cfg.search_vertical.tdiv 2
      omega
  have hb0 : Block_Agree cfg (Assignment1.Search_Init cfg mb).this_macroblock.block
      (Assignment2.Search_Init cfg R mbk ax ay).macroblock := by
    show Block_Agree cfg mb.block mbk
    refine ⟨by omega, ?_⟩
    intro a b c ha hb hc
    rw [dc] at ha
    rw [hbp a b c ha hb hc, hpix a b c (by unfold Image.channels; omega) (by omega) (by omega),
      hax, hay]
    simp
  have hrun0 : Same_Run (Assignment1.Search_Init cfg mb)
      (Assignment2.Search_Init cfg R mbk ax ay) :=
    ⟨rfl, ⟨ex, ey⟩, ⟨rfl, rfl⟩, ⟨rfl, rfl⟩⟩
  have hfree0 : Assignment1.Stop_Free cfg R (Assignment1.Search_Init cfg mb) := by
    have hd : cfg.search_horizontal.tdiv 2 ≤ cfg.search_horizontal := by
      rw [Int.tdiv_eq_ediv (by omega) (by omega)]; omega
    have hd' : cfg.search_vertical.tdiv 2 ≤ cfg.search_vertical := by
      rw [Int.tdiv_eq_ediv (by omega) (by omega)]; omega
    constructor
    · show mb.search_location_x_stop = R.cols ∨ mb.block_location_x +
        cfg.search_horizontal.tdiv 2 + cfg.block_width ≤ mb.search_location_x_stop
      rw [hxs, ex, hTc, hext.2.2]
      rcases le_total (T.cols : Int) (ax + cfg.block_width + cfg.search_horizontal) with h | h
      · left; exact min_eq_left h
      · right; rw [min_eq_right h]; omega
    · show mb.search_location_y_stop = R.rows ∨ mb.block_location_y +
        cfg.search_vertical.tdiv 2 + cfg.block_height ≤ mb.search_location_y_stop
      rw [hys, ey, hTr, hext.2.1]
      rcases le_total (T.rows : Int) (ay + cfg.block_height + cfg.search_vertical) with h | h
      · left; exact min_eq_left h
      · right; rw [min_eq_right h]; omega
  have hwin0 : ((Assignment2.Search_Init cfg R mbk ax ay).search_area_x_stop = R.cols ∨
      (ax + cfg.search_horizontal) + cfg.block_width ≤
        (Assignment2.Search_Init cfg R mbk ax ay).search_area_x_stop) ∧
      ((Assignment2.Search_Init cfg R mbk ax ay).search_area_y_stop = R.rows ∨
        (ay + cfg.search_vertical) + cfg.block_height ≤
          (Assignment2.Search_Init cfg R mbk ax ay).search_area_y_stop) := by
    constructor
    · show Assignment2.Get_Search_Area_Stop R.get_cols cfg.search_horizontal ax
          cfg.block_width = R.cols ∨ _ ≤ Assignment2.Get_Search_Area_Stop R.get_cols
          cfg.search_horizontal ax cfg.block_width
      unfold Assignment2.Get_Search_Area_Stop
      simp only []
      split_ifs
      · exact Or.inl hRc
      · right; omega
    · show Assignment2.Get_Search_Area_Stop R.get_rows cfg.search_vertical ay
          cfg.block_height = R.rows ∨ _ ≤ Assignment2.Get_Search_Area_Stop R.get_rows
          cfg.search_vertical ay cfg.block_height
      unfold Assignment2.Get_Search_Area_Stop
      simp only []
      split_ifs
      · exact Or.inl hRr
      · right; omega
  -- the reach of the three steps
  obtain ⟨⟨nb1, nb2⟩, _, _⟩ := next_dist_bounds (cfg.search_horizontal.tdiv 2) hd0x
  have hreach := (Reach_le cfg.search_horizontal hsh).2 (by omega) (by omega)
  unfold Assignment1.Reach at hreach
  have hdd0 : (Assignment1.Search_Init cfg mb).search_dist_x =
      (Assignment1.Search_Init cfg mb).search_dist_y := by
    show cfg.search_horizontal.tdiv 2 = cfg.search_vertical.tdiv 2
    rw [heq]
  have hl0 : (Assignment1.Search_Init cfg mb).least_MSE_x = ax ∧
      (Assignment1.Search_Init cfg mb).least_MSE_y = ay := ⟨ex, ey⟩
  have hn0 : (Assignment1.Search_Init cfg mb).new_least_MSE_x = 0 ∧
      (Assignment1.Search_Init cfg mb).new_least_MSE_y = 0 := ⟨rfl, rfl⟩
  have hdv0 : (Assignment1.Search_Init cfg mb).search_dist_x = cfg.search_horizontal.tdiv 2 :=
    rfl
  have hhalf : cfg.search_horizontal.tdiv 2 ≤ cfg.search_horizontal := by
    rw [Int.tdiv_eq_ediv (by omega) (by omega)]; omega
  -- the first step
  obtain ⟨s1, t1, p1, q1, ⟨oks1, oku1⟩, hb1, hrun1, hfree1, hwin1, ⟨lx1, ly1⟩, ⟨nx1, ny1⟩,
    dd1, _, hdd1⟩ := Search_Step_coupled_inv cfg fuel R 0 ax ay _ _
      (ax + cfg.search_horizontal) (ay + cfg.search_vertical) hOKs hOKu (Or.inl rfl)
      (fun _ => ⟨hd0x, hd0y⟩) hf hb0 hrun0 hdd0 hfree0 hwin0
      (by rw [hl0.1, hl0.2, ← hdd0, hdv0]; constructor <;> omega)
  have hd1 := dd1 rfl
  rw [hdv0] at hd1
  rw [hl0.1, hn0.1, hdv0] at lx1
  rw [hl0.2, hn0.2, ← hdd0, hdv0] at ly1
  -- the second step
  obtain ⟨s2, t2, p2, q2, ⟨oks2, oku2⟩, hb2, hrun2, hfree2, hwin2, ⟨lx2, ly2⟩, ⟨nx2, ny2⟩,
    _, dd2, hdd2⟩ := Search_Step_coupled_inv cfg fuel R 1 ax ay s1 t1
      (ax + cfg.search_horizontal) (ay + cfg.search_vertical) oks1 oku1 (Or.inr (Or.inl rfl))
      (fun h => absurd h (by decide)) hf hb1 hrun1 hdd1 (hfree1 (Or.inl rfl)) hwin1
      (by rw [← hdd1, hd1]; constructor <;> omega)
  have hd2 := dd2 rfl
  rw [nx1, hd1] at lx2
  rw [ny1, ← hdd1, hd1] at ly2
  -- the third step
  obtain ⟨s3, t3, p3, q3, _, _, hrun3, _⟩ := Search_Step_coupled_inv cfg fuel R 2 ax ay s2 t2
      (ax + cfg.search_horizontal) (ay + cfg.search_vertical) oks2 oku2 (Or.inr (Or.inr rfl))
      (fun h => absurd h (by decide)) hf hb2 hrun2 hdd2 (hfree2 (Or.inr rfl)) hwin2
      (by rw [← hdd2, hd2]; constructor <;> omega)
  refine ⟨s3, t3, ?_, ?_, hrun3.2.1.1.symm, hrun3.2.1.2.symm⟩
  · unfold Assignment1.Three_Step_Search
    rw [forRange_three, p1, Option.some_bind, p2, Option.some_bind, p3]
  · unfold Assignment2.Find_Best
    rw [hmbk]
    simp only [Option.some_bind, Option.bind_eq_bind]
    rw [forRange_three, q1, Option.some_bind, q2, Option.some_bind, q3]


/-- The loop `forStride` from the `k`-th value on, with an invariant indexed by the
number of iterations done: with a positive step, `hi = n * step` and more fuel than
iterations left, the loop returns and the invariant holds after `n` iterations. -/
theorem forStride_from {σ : Type} (hi step : Int) (body : Int → σ → Option σ)
    (Inv : Nat → σ → Prop) (n : Nat) (hstep : 0 < step) (hhi : hi = (n : Int) * step)
    (hbody : ∀ (j : Nat) (s : σ), j < n → Inv j s →
      ∃ s', body ((j : Int) * step) s = some s' ∧ Inv (j + 1) s')
    (fuel : Nat) (k : Nat) (s : σ) (hk : k ≤ n) (hfuel : n - k < fuel) (h0 : Inv k s) :
    ∃ s', forStride hi step body fuel ((k : Int) * step) s = some s' ∧ Inv n s' := by
  induction fuel generalizing k s with
  | zero => omega
  | succ f ih =>
    simp only [forStride]
    by_cases hlt : k < n
    · have hc : (k : Int) * step < hi := by
        rw [hhi]
        exact Int.mul_lt_mul_of_pos_right (by exact_mod_cast hlt) hstep
      rw [if_pos hc]
      obtain ⟨s1, hb, hi1⟩ := hbody k s hlt h0
      rw [hb, Option.some_bind]
      have e : (k : Int) * step + step = ((k + 1 : Nat) : Int) * step := by
        push_cast; ring
      rw [e]
      exact ih (k + 1) s1 (by omega) (by omega) hi1
    · have hkn : k = n := by omega
      subst hkn
      rw [if_neg (by rw [hhi]; exact lt_irrefl _)]
      exact ⟨s, rfl, h0⟩

/-- The loop `forStride` from 0 with an invariant indexed by the number of iterations
done. -/
theorem forStride_spec {σ : Type} (hi step : Int) (body : Int → σ → Option σ)
    (Inv : Nat → σ → Prop) (n fuel : Nat) (s : σ) (hstep : 0 < step)
    (hhi : hi = (n : Int) * step) (hfuel : n < fuel) (h0 : Inv 0 s)
    (hbody : ∀ (j : Nat) (s : σ), j < n → Inv j s →
      ∃ s', body ((j : Int) * step) s = some s' ∧ Inv (j + 1) s') :
    ∃ s', forStride hi step body fuel 0 s = some s' ∧ Inv n s' := by
  have := forStride_from hi step body Inv n hstep hhi hbody fuel 0 s (Nat.zero_le _)
    (by omega) h0
  simpa using this

/-- Two images with the same extents and the same sample at every index are equal. -/
theorem Image_eq (A B : Image)
    (hd : A.chans = B.chans ∧ A.rows = B.rows ∧ A.cols = B.cols)
    (hp : ∀ a i j, A.pix a i j = B.pix a i j) : A = B := by
  cases A with
  | mk c1 r1 k1 p1 =>
    cases B with
    | mk c2 r2 k2 p2 =>
      obtain ⟨h1, h2, h3⟩ := hd
      have h1' : c1 = c2 := h1
      have h2' : r1 = r2 := h2
      have h3' : k1 = k2 := h3
      have h4 : p1 = p2 := by
        funext a i j
        exact hp a i j
      subst h1' h2' h3' h4
      rfl

/-- Every position of the block grid has a macroblock as `Set_Macroblocks` builds it. -/
theorem Is_Block_At_exists (cfg : Config) (T : Image) (vert horiz : Int)
    (hw : 0 < cfg.block_width) (hh : 0 < cfg.block_height)
    (hv : 0 ≤ vert ∧ vert < T.get_rows.tdiv cfg.block_height)
    (hz : 0 ≤ horiz ∧ horiz < T.get_cols.tdiv cfg.block_width) :
    ∃ mb, Assignment1.Is_Block_At cfg T vert horiz mb := by
  obtain ⟨blocks, _, _, hall⟩ := Set_Macroblocks_cover cfg T hw hh
  obtain ⟨mb, _, hIs⟩ := hall vert horiz hv hz
  exact ⟨mb, hIs⟩

/-- The search of Assignment 2 for a block of the grid returns, and the best location
it ends at lies inside the reference frame. -/
theorem Find_Best_inside (cfg : Config) (fuel : Nat) (R T : Image) (vert horiz : Int)
    (hw : 0 < cfg.block_width) (hh : 0 < cfg.block_height)
    (heq : cfg.search_horizontal = cfg.search_vertical) (h7 : 7 ≤ cfg.search_horizontal)
    (hf : 4 ≤ fuel)
    (hext : R.chans = T.chans ∧ R.rows = T.rows ∧ R.cols = T.cols)
    (hv : 0 ≤ vert ∧ vert < T.get_rows.tdiv cfg.block_height)
    (hz : 0 ≤ horiz ∧ horiz < T.get_cols.tdiv cfg.block_width) :
    ∃ t3, Assignment2.Find_Best cfg fuel R T (horiz * cfg.block_width)
        (vert * cfg.block_height) = some t3 ∧
      ((0 ≤ t3.least_MSE_x ∧ t3.least_MSE_x + cfg.block_width ≤ R.cols) ∧
        (0 ≤ t3.least_MSE_y ∧ t3.least_MSE_y + cfg.block_height ≤ R.rows)) := by
  obtain ⟨mb, hIs⟩ := Is_Block_At_exists cfg T vert horiz hw hh hv hz
  obtain ⟨s3, t3, h1, h2, e1, e2⟩ := Find_Best_coupled cfg fuel R T vert horiz mb hw hh heq h7
    hf hext hv hz hIs
  obtain ⟨_, _, s3', ⟨_, _, _, h3⟩, _, _, _, hin⟩ := Three_Step_Search_inv cfg fuel R T vert
    horiz mb hw hh (by omega) (by omega) hf hext hv hz hIs
  have es : s3' = s3 := Option.some.inj (h3.symm.trans h1)
  subst es
  refine ⟨t3, h2, ?_⟩
  rw [e1, e2]
  exact hin

/-- The body of the loop over the macroblocks of Assignment 2 at column `H` and row
`V` of the block grid: it returns, and the block at that position is painted. -/
theorem Match_Block_paints (cfg : Config) (fuel : Nat) (R T r0 : Image) (H V : Int)
    (r : Image)
    (hw : 0 < cfg.block_width) (hh : 0 < cfg.block_height)
    (heq : cfg.search_horizontal = cfg.search_vertical) (h7 : 7 ≤ cfg.search_horizontal)
    (hf : 4 ≤ fuel)
    (hext : R.chans = T.chans ∧ R.rows = T.rows ∧ R.cols = T.cols)
    (hout : r0.chans = T.chans ∧ r0.rows = T.rows ∧ r0.cols = T.cols)
    (hV : 0 ≤ V ∧ V < T.get_rows.tdiv cfg.block_height)
    (hH : 0 ≤ H ∧ H < T.get_cols.tdiv cfg.block_width)
    (hP : Assignment2.Painted cfg fuel R T r0 H V r) :
    ∃ r', Assignment2.Match_Block cfg fuel R T (H * cfg.block_width) (V * cfg.block_height) r =
        some r' ∧
      Assignment2.Painted cfg fuel R T r0 H (V + 1) r' := by
  obtain ⟨⟨d1, d2, d3⟩, hdone, hrest⟩ := hP
  obtain ⟨t3, hF, ⟨⟨a1, a2⟩, ⟨a3, a4⟩⟩⟩ := Find_Best_inside cfg fuel R T V H hw hh heq h7 hf
    hext hV hH
  have hch : 0 < T.chans := chans_pos_of_grid cfg T H hw hH
  obtain ⟨_, hTr, hTc⟩ := extents_of_pos T hch
  obtain ⟨_, hnh1, _⟩ := tdiv_block T.get_cols cfg.block_width (get_cols_nonneg T) hw
  obtain ⟨_, hnv1, _⟩ := tdiv_block T.get_rows cfg.block_height (get_rows_nonneg T) hh
  have m1 := mul_succ_le_of_lt H _ cfg.block_width hw hH.2
  have m2 := mul_succ_le_of_lt V _ cfg.block_height hh hV.2
  have m3 : 0 ≤ H * cfg.block_width := Int.mul_nonneg hH.1 hw.le
  have m4 : 0 ≤ V * cfg.block_height := Int.mul_nonneg hV.1 hh.le
  have e1 : (H + 1) * cfg.block_width = H * cfg.block_width + cfg.block_width := by ring
  have e2 : (V + 1) * cfg.block_height = V * cfg.block_height + cfg.block_height := by ring
  generalize hax : H * cfg.block_width = ax at *
  generalize hay : V * cfg.block_height = ay at *
  obtain ⟨r', hM, ⟨g1, g2, g3⟩, hpix⟩ := Modify_Image_Range_spec R r 0 r.channels
    (ax + (t3.least_MSE_x - ax)) (ax + (t3.least_MSE_x - ax) + cfg.block_width)
    (ay + (t3.least_MSE_y - ay)) (ay + (t3.least_MSE_y - ay) + cfg.block_height) ax ay
    ⟨le_refl _, by unfold Image.channels; omega, by unfold Image.channels; omega,
      by unfold Image.channels; omega⟩
    ⟨by omega, by omega, by omega⟩ ⟨by omega, by omega, by omega⟩
    ⟨m4, by omega⟩ ⟨m3, by omega⟩
  have hMB : Assignment2.Match_Block cfg fuel R T ax ay r = some r' := by
    unfold Assignment2.Match_Block
    rw [hF]
    exact hM
  have hrc : r.channels = (r0.chans : Int) := by
    unfold Image.channels; omega
  -- a sample lies in the block at one position of the grid only
  have huniq : ∀ h v i j, 0 ≤ h → 0 ≤ v →
      Assignment1.Covers cfg (h * cfg.block_width, v * cfg.block_height) i j →
      Assignment1.Covers cfg (ax, ay) i j → h = H ∧ v = V := by
    intro h v i j _ _ hc1 hc2
    obtain ⟨⟨b1, b2⟩, ⟨b3, b4⟩⟩ := hc1
    obtain ⟨⟨b5, b6⟩, ⟨b7, b8⟩⟩ := hc2
    rw [← hax] at b5 b6
    rw [← hay] at b7 b8
    exact ⟨block_index_unique cfg.block_width h H j hw ⟨b1, b2⟩ ⟨b5, b6⟩,
      block_index_unique cfg.block_height v V i hh ⟨b3, b4⟩ ⟨b7, b8⟩⟩
  have hnew : ∀ a i j, (0 ≤ a ∧ a < (r0.chans : Int)) → Assignment1.Covers cfg (ax, ay) i j →
      r'.pix a i j = R.pix a (i + (t3.least_MSE_y - ay)) (j + (t3.least_MSE_x - ax)) := by
    intro a i j ha hc
    obtain ⟨⟨b5, b6⟩, ⟨b7, b8⟩⟩ := hc
    have b5' : ax ≤ j := b5
    have b6' : j < ax + cfg.block_width := b6
    have b7' : ay ≤ i := b7
    have b8' : i < ay + cfg.block_height := b8
    rw [hpix a i j, if_pos ⟨by rw [hrc]; exact ha, ⟨b7', by omega⟩, ⟨b5', by omega⟩⟩]
    congr 1 <;> omega
  have hold : ∀ a i j, (¬ (0 ≤ a ∧ a < (r0.chans : Int)) ∨
      ¬ Assignment1.Covers cfg (ax, ay) i j) → r'.pix a i j = r.pix a i j := by
    intro a i j h
    rw [hpix a i j, if_neg]
    rintro ⟨c1, ⟨c2, c3⟩, ⟨c4, c5⟩⟩
    rcases h with h | h
    · apply h
      rw [← hrc]; exact c1
    · apply h
      exact ⟨⟨c4, by omega⟩, ⟨c2, by omega⟩⟩
  refine ⟨r', hMB, ⟨by omega, by omega, by omega⟩, ?_, ?_⟩
  · intro h v hr hd
    by_cases hcur : h = H ∧ v = V
    · obtain ⟨rfl, rfl⟩ := hcur
      rw [hax, hay]
      exact ⟨t3, hF, hnew⟩
    · have hd' : h < H ∨ (h = H ∧ v < V) := by
        rcases hd with h1 | ⟨h1, h2⟩
        · exact Or.inl h1
        · right
          refine ⟨h1, ?_⟩
          by_contra hc
          exact hcur ⟨h1, by omega⟩
      obtain ⟨st, hst, hp⟩ := hdone h v hr hd'
      refine ⟨st, hst, ?_⟩
      intro a i j ha hc
      rw [hold a i j (Or.inr (fun hc2 => hcur (huniq h v i j hr.1 hr.2.1 hc hc2)))]
      exact hp a i j ha hc
  · intro a i j h
    have h1 : r'.pix a i j = r.pix a i j := by
      apply hold
      rcases h with h | h
      · exact Or.inl h
      · right
        have := h H V ⟨hH.1, hV.1, hV.2⟩ (Or.inr ⟨rfl, by omega⟩)
        rw [hax, hay] at this
        exact this
    rw [h1]
    apply hrest
    rcases h with h | h
    · exact Or.inl h
    · right
      intro h' v' hr hd
      apply h h' v' hr
      rcases hd with h2 | ⟨h2, h3⟩
      · exact Or.inl h2
      · exact Or.inr ⟨h2, by omega⟩

/-- The state of the output frame depends on the position of the loops only through
the set of grid positions already done. -/
theorem Painted_congr (cfg : Config) (fuel : Nat) (R T r0 : Image) (H V H2 V2 : Int)
    (r : Image)
    (hiff : ∀ h v, (0 ≤ h ∧ 0 ≤ v ∧ v < T.get_rows.tdiv cfg.block_height) →
      ((h < H ∨ (h = H ∧ v < V)) ↔ (h < H2 ∨ (h = H2 ∧ v < V2))))
    (hP : Assignment2.Painted cfg fuel R T r0 H V r) :
    Assignment2.Painted cfg fuel R T r0 H2 V2 r := by
  obtain ⟨hd, hdone, hrest⟩ := hP
  refine ⟨hd, ?_, ?_⟩
  · intro h v hr hd2
    exact hdone h v hr ((hiff h v hr).mpr hd2)
  · intro a i j h
    apply hrest
    rcases h with h | h
    · exact Or.inl h
    · right
      intro h' v' hr hd1
      exact h h' v' hr ((hiff h' v' hr).mp hd1)

/-- The loop over the rows of macroblocks of Assignment 2 for column `H` of the block
grid: it returns, and the blocks of the column are painted. -/
theorem Column_paints (cfg : Config) (fuel : Nat) (R T r0 : Image) (H : Int) (r : Image)
    (hw : 0 < cfg.block_width) (hh : 0 < cfg.block_height)
    (heq : cfg.search_horizontal = cfg.search_vertical) (h7 : 7 ≤ cfg.search_horizontal)
    (hf : 4 ≤ fuel) (hfv : T.get_rows.tdiv cfg.block_height < fuel)
    (hext : R.chans = T.chans ∧ R.rows = T.rows ∧ R.cols = T.cols)
    (hout : r0.chans = T.chans ∧ r0.rows = T.rows ∧ r0.cols = T.cols)
    (hdh : cfg.block_height ∣ T.get_rows)
    (hH : 0 ≤ H ∧ H < T.get_cols.tdiv cfg.block_width)
    (hP : Assignment2.Painted cfg fuel R T r0 H 0 r) :
    ∃ r', forStride T.get_rows cfg.block_height (fun macroblock_y r2 =>
        Assignment2.Match_Block cfg fuel R T (H * cfg.block_width) macroblock_y r2) fuel 0 r =
        some r' ∧
      Assignment2.Painted cfg fuel R T r0 (H + 1) 0 r' := by
  obtain ⟨hnv0, _, _⟩ := tdiv_block T.get_rows cfg.block_height (get_rows_nonneg T) hh
  have hmul : T.get_rows = ((T.get_rows.tdiv cfg.block_height).toNat : Int) *
      cfg.block_height := by
    rw [Int.toNat_of_nonneg hnv0, Int.tdiv_eq_ediv (get_rows_nonneg T) hh.le]
    exact (Int.ediv_mul_cancel hdh).symm
  obtain ⟨r', hr', hP'⟩ := forStride_spec T.get_rows cfg.block_height
    (fun macroblock_y r2 =>
      Assignment2.Match_Block cfg fuel R T (H * cfg.block_width) macroblock_y r2)
    (fun k r2 => Assignment2.Painted cfg fuel R T r0 H (k : Int) r2)
    (T.get_rows.tdiv cfg.block_height).toNat fuel r hh hmul (by omega) hP (by
      intro j s hj hPj
      have hV : 0 ≤ (j : Int) ∧ (j : Int) < T.get_rows.tdiv cfg.block_height := by omega
      obtain ⟨s', hs', hP2⟩ := Match_Block_paints cfg fuel R T r0 H j s hw hh heq h7 hf hext
        hout hV hH hPj
      refine ⟨s', hs', ?_⟩
      have e : ((j + 1 : Nat) : Int) = (j : Int) + 1 := by push_cast; rfl
      show Assignment2.Painted cfg fuel R T r0 H ((j + 1 : Nat) : Int) s'
      rw [e]
      exact hP2)
  refine ⟨r', hr', ?_⟩
  have hP2 : Assignment2.Painted cfg fuel R T r0 H
      (((T.get_rows.tdiv cfg.block_height).toNat : Nat) : Int) r' := hP'
  rw [Int.toNat_of_nonneg hnv0] at hP2
  apply Painted_congr cfg fuel R T r0 H (T.get_rows.tdiv cfg.block_height) (H + 1) 0 r' _ hP2
  intro h v hr
  constructor
  · rintro (h1 | ⟨h1, _⟩)
    · exact Or.inl (by omega)
    · exact Or.inl (by omega)
  · rintro (h1 | ⟨_, h2⟩)
    · by_cases hc : h < H
      · exact Or.inl hc
      · exact Or.inr ⟨by omega, hr.2.2⟩
    · omega

/-- Function `Block_Match` of Assignment 2 with equal radii of at least 7 on frames of
equal extents that are multiples of the block size: it returns, and every block of the
grid is painted with the samples at the best location found by `Find_Best`. -/
theorem A2_Block_Match_paints (cfg : Config) (fuel : Nat) (R T r0 : Image)
    (hw : 0 < cfg.block_width) (hh : 0 < cfg.block_height)
    (heq : cfg.search_horizontal = cfg.search_vertical) (h7 : 7 ≤ cfg.search_horizontal)
    (hf : 4 ≤ fuel) (hfh : T.get_cols.tdiv cfg.block_width < fuel)
    (hfv : T.get_rows.tdiv cfg.block_height < fuel)
    (hext : R.chans = T.chans ∧ R.rows = T.rows ∧ R.cols = T.cols)
    (hout : r0.chans = T.chans ∧ r0.rows = T.rows ∧ r0.cols = T.cols)
    (hdw : cfg.block_width ∣ T.get_cols) (hdh : cfg.block_height ∣ T.get_rows) :
    ∃ out, Assignment2.Block_Match cfg fuel R T r0 = some out ∧
      Assignment2.Painted cfg fuel R T r0 (T.get_cols.tdiv cfg.block_width) 0 out := by
  obtain ⟨hnh0, _, _⟩ := tdiv_block T.get_cols cfg.block_width (get_cols_nonneg T) hw
  have hmul : T.get_cols = ((T.get_cols.tdiv cfg.block_width).toNat : Int) *
      cfg.block_width := by
    rw [Int.toNat_of_nonneg hnh0, Int.tdiv_eq_ediv (get_cols_nonneg T) hw.le]
    exact (Int.ediv_mul_cancel hdw).symm
  have hP0 : Assignment2.Painted cfg fuel R T r0 ((0 : Nat) : Int) 0 r0 := by
    refine ⟨⟨rfl, rfl, rfl⟩, ?_, fun _ _ _ _ => rfl⟩
    intro h v hr hd
    exfalso
    rcases hd with h1 | ⟨_, h2⟩
    · have : h < 0 := h1
      omega
    · omega
  obtain ⟨out, ho, hP⟩ := forStride_spec T.get_cols cfg.block_width
    (fun macroblock_x r =>
      forStride T.get_rows cfg.block_height (fun macroblock_y r2 =>
        Assignment2.Match_Block cfg fuel R T macroblock_x macroblock_y r2) fuel 0 r)
    (fun k r2 => Assignment2.Painted cfg fuel R T r0 (k : Int) 0 r2)
    (T.get_cols.tdiv cfg.block_width).toNat fuel r0 hw hmul (by omega) hP0 (by
      intro j s hj hPj
      have hH : 0 ≤ (j : Int) ∧ (j : Int) < T.get_cols.tdiv cfg.block_width := by omega
      obtain ⟨s', hs', hP2⟩ := Column_paints cfg fuel R T r0 j s hw hh heq h7 hf hfv hext
        hout hdh hH hPj
      refine ⟨s', hs', ?_⟩
      have e : ((j + 1 : Nat) : Int) = (j : Int) + 1 := by push_cast; rfl
      show Assignment2.Painted cfg fuel R T r0 ((j + 1 : Nat) : Int) 0 s'
      rw [e]
      exact hP2)
  refine ⟨out, ho, ?_⟩
  have hP2 : Assignment2.Painted cfg fuel R T r0
      (((T.get_cols.tdiv cfg.block_width).toNat : Nat) : Int) 0 out := hP
  rw [Int.toNat_of_nonneg hnh0] at hP2
  exact hP2

/-- The match of a macroblock of the grid by Assignment 1, with equal radii of at least
7: the motion vector points to the best location the search of Assignment 2 ends at. -/
theorem Match_Macroblock_coupled (cfg : Config) (fuel : Nat) (R T : Image)
    (vert horiz : Int) (mb : Assignment1.Macroblock)
    (hw : 0 < cfg.block_width) (hh : 0 < cfg.block_height)
    (heq : cfg.search_horizontal = cfg.search_vertical) (h7 : 7 ≤ cfg.search_horizontal)
    (hf : 4 ≤ fuel)
    (hext : R.chans = T.chans ∧ R.rows = T.rows ∧ R.cols = T.cols)
    (hv : 0 ≤ vert ∧ vert < T.get_rows.tdiv cfg.block_height)
    (hz : 0 ≤ horiz ∧ horiz < T.get_cols.tdiv cfg.block_width)
    (hIs : Assignment1.Is_Block_At cfg T vert horiz mb) :
    ∃ r, Assignment1.Match_Macroblock cfg fuel R mb = some r ∧
      ((r.1.block_location_x = mb.block_location_x ∧
          r.1.block_location_y = mb.block_location_y) ∧
        Assignment1.Source_In cfg R r.1 ∧
        ∃ t3, Assignment2.Find_Best cfg fuel R T mb.block_location_x mb.block_location_y =
            some t3 ∧
          r.1.motion_vector_x = t3.least_MSE_x - mb.block_location_x ∧
          r.1.motion_vector_y = t3.least_MSE_y - mb.block_location_y) := by
  obtain ⟨s3, t3, h1, h2, e1, e2⟩ := Find_Best_coupled cfg fuel R T vert horiz mb hw hh heq h7
    hf hext hv hz hIs
  obtain ⟨_, _, s3', ⟨_, _, _, h3⟩, _, _, ⟨kx, ky⟩, hin⟩ := Three_Step_Search_inv cfg fuel R T
    vert horiz mb hw hh (by omega) (by omega) hf hext hv hz hIs
  have es : s3' = s3 := Option.some.inj (h3.symm.trans h1)
  subst es
  have hM : Assignment1.Match_Macroblock cfg fuel R mb = some
      ({ s3'.this_macroblock with
          motion_vector_x := s3'.least_MSE_x - s3'.this_macroblock.block_location_x
          motion_vector_y := s3'.least_MSE_y - s3'.this_macroblock.block_location_y },
        s3'.least_MSE) := by
    simp only [Assignment1.Match_Macroblock, h1, Option.some_bind, Option.bind_eq_bind]
  obtain ⟨⟨ex, ey⟩, _⟩ := hIs
  refine ⟨_, hM, ⟨kx, ky⟩, ?_, t3, ?_, ?_, ?_⟩
  · show (0 ≤ s3'.this_macroblock.block_location_x +
          (s3'.least_MSE_x - s3'.this_macroblock.block_location_x) ∧
        s3'.this_macroblock.block_location_x +
          (s3'.least_MSE_x - s3'.this_macroblock.block_location_x) + cfg.block_width ≤ R.cols) ∧
      (0 ≤ s3'.this_macroblock.block_location_y +
          (s3'.least_MSE_y - s3'.this_macroblock.block_location_y) ∧
        s3'.this_macroblock.block_location_y +
          (s3'.least_MSE_y - s3'.this_macroblock.block_location_y) + cfg.block_height ≤ R.rows)
    obtain ⟨⟨a1, a2⟩, ⟨a3, a4⟩⟩ := hin
    exact ⟨⟨by omega, by omega⟩, ⟨by omega, by omega⟩⟩
  · rw [ex, ey]
    exact h2
  · show s3'.least_MSE_x - s3'.this_macroblock.block_location_x =
      t3.least_MSE_x - mb.block_location_x
    rw [kx, e1]
  · show s3'.least_MSE_y - s3'.this_macroblock.block_location_y =
      t3.least_MSE_y - mb.block_location_y
    rw [ky, e2]


/-- Claim C30: for frames `R` and `T` of equal extents that are multiples of the positive
block sizes, an output frame of the same extents and equal radii of at least 7,
`Block_Match` of Assignment 2 returns the same reconstructed frame as `Block_Match` of
Assignment 1 (which returns true), given fuel for the candidate loops and for the loops
over the columns and rows of macroblocks. -/
theorem C30_serial_same_frame (cfg : Config) (fuel : Nat) (R T recon : Image)
    (hw : 0 < cfg.block_width) (hh : 0 < cfg.block_height)
    (heq : cfg.search_horizontal = cfg.search_vertical) (h7 : 7 ≤ cfg.search_horizontal)
    (hf : 4 ≤ fuel) (hfh : T.get_cols.tdiv cfg.block_width < fuel)
    (hfv : T.get_rows.tdiv cfg.block_height < fuel)
    (hext : R.chans = T.chans ∧ R.rows = T.rows ∧ R.cols = T.cols)
    (hout : recon.chans = T.chans ∧ recon.rows = T.rows ∧ recon.cols = T.cols)
    (hdw : cfg.block_width ∣ T.get_cols) (hdh : cfg.block_height ∣ T.get_rows) :
    ∃ out, Assignment1.Block_Match cfg fuel R T recon = some (true, out) ∧
      Assignment2.Block_Match cfg fuel R T recon = some out := by
  -- Assignment 1
  obtain ⟨blocks, hb, hall, hcover⟩ := Set_Macroblocks_cover cfg T hw hh
  obtain ⟨ms, hms, hlen, hidx, hmem⟩ := Match_All_lift cfg fuel R T blocks
    (fun mb r => (r.1.block_location_x = mb.block_location_x ∧
        r.1.block_location_y = mb.block_location_y) ∧
      Assignment1.Source_In cfg R r.1 ∧
      ∃ t3, Assignment2.Find_Best cfg fuel R T mb.block_location_x mb.block_location_y =
          some t3 ∧
        r.1.motion_vector_x = t3.least_MSE_x - mb.block_location_x ∧
        r.1.motion_vector_y = t3.least_MSE_y - mb.block_location_y)
    hw hh hb (fun vert horiz mb hv hz hIs =>
      Match_Macroblock_coupled cfg fuel R T vert horiz mb hw hh heq h7 hf hext hv hz hIs)
  have hanch := same_anchors_of_index blocks ms hlen (by
    intro k mb hk
    obtain ⟨r, hr, hp, _⟩ := hidx k mb hk
    exact ⟨r, hr, hp⟩)
  obtain ⟨hdst, hdis⟩ := same_anchors_disjoint cfg T blocks (ms.map Prod.fst) hw hh hb hanch
  have hsrc : ∀ mb ∈ ms.map Prod.fst, Assignment1.Source_In cfg R mb := by
    intro mb hm
    obtain ⟨r, hr, rfl⟩ := List.mem_map.mp hm
    obtain ⟨_, _, _, hs, _⟩ := hmem r hr
    exact hs
  obtain ⟨out1, ho1, ⟨f1, f2, f3⟩, hcov1, hrest1⟩ := Reconstruct_Frame_exact cfg R
    (ms.map Prod.fst) recon hw hh (by omega) hsrc (by
      intro mb hmb
      have := hdst mb hmb
      unfold Assignment1.Dest_In at this ⊢
      rw [hout.2.1, hout.2.2]
      exact this)
    hdis
  obtain ⟨g1, g2⟩ := get_extents_eq R T hext
  have hB1 : Assignment1.Block_Match cfg fuel R T recon = some (true, out1) := by
    rw [Block_Match_eq cfg fuel R T recon blocks ms hw hh (by rw [g1]; exact hdw)
      (by rw [g2]; exact hdh) hb hms, ho1]
    rfl
  -- Assignment 2
  obtain ⟨out2, hB2, ⟨k1, k2, k3⟩, hcov2, hrest2⟩ := A2_Block_Match_paints cfg fuel R T recon
    hw hh heq h7 hf hfh hfv hext hout hdw hdh
  -- the two frames hold the same samples
  have hsame : out2 = out1 := by
    apply Image_eq out2 out1 ⟨by omega, by omega, by omega⟩
    intro a i j
    by_cases hchan : 0 ≤ a ∧ a < (recon.chans : Int)
    · by_cases hc : ∃ h v, (0 ≤ h ∧ h < T.get_cols.tdiv cfg.block_width) ∧
          (0 ≤ v ∧ v < T.get_rows.tdiv cfg.block_height) ∧
          Assignment1.Covers cfg (h * cfg.block_width, v * cfg.block_height) i j
      · obtain ⟨h, v, hz, hv, hcv⟩ := hc
        obtain ⟨st, hst, hp2⟩ := hcov2 h v ⟨hz.1, hv.1, hv.2⟩ (Or.inl hz.2)
        obtain ⟨mb, hk, hIs⟩ := hcover v h hv hz
        obtain ⟨r, hr, ⟨lx, ly⟩, _, t3, ht3, mx, my⟩ := hidx _ mb hk
        obtain ⟨⟨ex, ey⟩, _⟩ := hIs
        rw [ex, ey] at ht3
        rw [ex] at mx lx
        rw [ey] at my ly
        have et : t3 = st := Option.some.inj (ht3.symm.trans hst)
        subst et
        have hrm : r.1 ∈ ms.map Prod.fst :=
          List.mem_map_of_mem _ (List.mem_iff_getElem?.mpr ⟨_, hr⟩)
        have hcv1 : Assignment1.Covers cfg (Assignment1.Anchor r.1) i j := by
          unfold Assignment1.Anchor
          rw [lx, ly]
          exact hcv
        rw [hp2 a i j hchan hcv, hcov1 r.1 hrm a i j hchan hcv1, mx, my]
      · have h2 : out2.pix a i j = recon.pix a i j := by
          apply hrest2
          right
          intro h v hr hd hcv
          apply hc
          rcases hd with h1 | ⟨_, h1⟩
          · exact ⟨h, v, ⟨hr.1, h1⟩, ⟨hr.2.1, hr.2.2⟩, hcv⟩
          · omega
        have h1 : out1.pix a i j = recon.pix a i j := by
          apply hrest1
          right
          intro m hm hcv
          obtain ⟨r, hr, rfl⟩ := List.mem_map.mp hm
          obtain ⟨mb, hmb, ⟨lx, ly⟩, _⟩ := hmem r hr
          obtain ⟨k, hk⟩ := List.mem_iff_getElem?.mp hmb
          obtain ⟨vert, horiz, hv, hz, _, hIs⟩ := hall k mb hk
          obtain ⟨⟨ex, ey⟩, _⟩ := hIs
          apply hc
          refine ⟨horiz, vert, hz, hv, ?_⟩
          unfold Assignment1.Anchor at hcv
          rw [lx, ly, ex, ey] at hcv
          exact hcv
        rw [h2, h1]
    · rw [hrest2 a i j (Or.inl hchan), hrest1 a i j (Or.inl hchan)]
  rw [hsame] at hB2
  exact ⟨out1, hB1, hB2⟩

/-- Witness of C30: the frame of 16 by 16 with samples `16 * row + col` as reference, the
frame of 16 by 16 with all samples 0 as target and as output frame, blocks of 8 by 8,
both radii 8 and fuel 4. -/
theorem C30_serial_same_frame_witness :
    ∃ out, Assignment1.Block_Match cfg8s8 4 frame16 blank16 blank16 = some (true, out) ∧
      Assignment2.Block_Match cfg8s8 4 frame16 blank16 blank16 = some out :=
  C30_serial_same_frame cfg8s8 4 frame16 blank16 blank16 (by decide) (by decide) rfl
    (by decide) (le_refl 4) (by decide) (by decide) ⟨rfl, rfl, rfl⟩ ⟨rfl, rfl, rfl⟩
    (by decide) (by decide)


/-! ## The second step distance (C34) -/

/-- The update of the step distances of Assignment 2 after the first step, for step
distances of at least 2: it returns the values of the recurrence. -/
theorem A2_Update_Search_Dist_first (t : Assignment2.SearchState)
    (hx : 2 ≤ t.search_dist_x) (hy : 2 ≤ t.search_dist_y) :
    Assignment2.Update_Search_Dist 0 t = some
      { t with
        search_dist_x :=
          (t.search_dist_x + t.search_dist_x.tdiv 2 - 1).tdiv (t.search_dist_x.tdiv 2)
        search_dist_y :=
          (t.search_dist_y + t.search_dist_y.tdiv 2 - 1).tdiv (t.search_dist_y.tdiv 2) } := by
  obtain ⟨hx1, _⟩ := next_dist_pos t.search_dist_x hx
  obtain ⟨hy1, _⟩ := next_dist_pos t.search_dist_y hy
  simp only [Assignment2.Update_Search_Dist]
  rw [if_neg (by decide), if_pos (by decide), if_neg (by
    rintro (h | h)
    · exact hx1 h
    · exact hy1 h)]

/-- The update of the step distances of Assignment 1 after the first step, for step
distances of at least 2: it returns the values of the recurrence. -/
theorem A1_Update_Search_Dist_first (s : Assignment1.SearchState)
    (hx : 2 ≤ s.search_dist_x) (hy : 2 ≤ s.search_dist_y) :
    Assignment1.Update_Search_Dist 0 s = some
      { s with
        search_dist_x :=
          (s.search_dist_x + s.search_dist_x.tdiv 2 - 1).tdiv (s.search_dist_x.tdiv 2)
        search_dist_y :=
          (s.search_dist_y + s.search_dist_y.tdiv 2 - 1).tdiv (s.search_dist_y.tdiv 2) } := by
  obtain ⟨hx1, _⟩ := next_dist_pos s.search_dist_x hx
  obtain ⟨hy1, _⟩ := next_dist_pos s.search_dist_y hy
  simp only [Assignment1.Update_Search_Dist]
  rw [if_neg (by decide), if_pos (by decide), if_neg (by
    rintro (h | h)
    · exact hx1 h
    · exact hy1 h)]

/-- The recurrence as a value: 2 for an even step distance, 3 for an odd one. -/
theorem next_dist_ite (d : Int) (hd : 2 ≤ d) :
    (d + d.tdiv 2 - 1).tdiv (d.tdiv 2) = (if d % 2 = 0 then 2 else 3) := by
  obtain ⟨v0, v1⟩ := next_dist_value d hd
  rcases Int.emod_two_eq_zero_or_one d with h | h
  · rw [v0 h, if_pos h]
  · rw [v1 h, if_neg (by omega)]

/-- A step distance that is half a positive radius and lets the update after the first
step divide is at least 2. -/
theorem half_radius_ge_two (r : Int) (hr : 0 < r) (h : ¬ (r.tdiv 2).tdiv 2 = 0) :
    2 ≤ r.tdiv 2 := by
  have e1 : r.tdiv 2 = r / 2 := Int.tdiv_eq_ediv (by omega) (by omega)
  rw [e1] at h ⊢
  have e2 : (r / 2).tdiv 2 = r / 2 / 2 := Int.tdiv_eq_ediv (by omega) (by omega)
  rw [e2] at h
  omega

/-- Claim C34: for step distances `d >= 2` and `e >= 2`, the update after the first step
of both programs returns, and the new distances are 2 for an even and 3 for an odd
distance (the value of `(d + d/2 - 1) / (d/2)` with the integer division of C), hence at
most 3; and for every configuration with positive radii, whenever the update after the
first step of a search with the initial distances `radius/2` returns, the second step
distances are at most 3. -/
theorem C34_second_step_distance (d e : Int) (hd : 2 ≤ d) (he : 2 ≤ e) :
    ((d + d.tdiv 2 - 1).tdiv (d.tdiv 2) = (if d % 2 = 0 then 2 else 3) ∧
      (e + e.tdiv 2 - 1).tdiv (e.tdiv 2) = (if e % 2 = 0 then 2 else 3)) ∧
    (∀ s : Assignment1.SearchState, s.search_dist_x = d → s.search_dist_y = e →
      ∃ s2, Assignment1.Update_Search_Dist 0 s = some s2 ∧
        (s2.search_dist_x = (if d % 2 = 0 then 2 else 3) ∧
          s2.search_dist_y = (if e % 2 = 0 then 2 else 3)) ∧
        (s2.search_dist_x ≤ 3 ∧ s2.search_dist_y ≤ 3)) ∧
    (∀ t : Assignment2.SearchState, t.search_dist_x = d → t.search_dist_y = e →
      ∃ t2, Assignment2.Update_Search_Dist 0 t = some t2 ∧
        (t2.search_dist_x = (if d % 2 = 0 then 2 else 3) ∧
          t2.search_dist_y = (if e % 2 = 0 then 2 else 3)) ∧
        (t2.search_dist_x ≤ 3 ∧ t2.search_dist_y ≤ 3)) ∧
    (∀ (cfg : Config) (s s2 : Assignment1.SearchState),
      0 < cfg.search_horizontal → 0 < cfg.search_vertical →
      s.search_dist_x = cfg.search_horizontal.tdiv 2 →
      s.search_dist_y = cfg.search_vertical.tdiv 2 →
      Assignment1.Update_Search_Dist 0 s = some s2 →
      s2.search_dist_x ≤ 3 ∧ s2.search_dist_y ≤ 3) ∧
    (∀ (cfg : Config) (t t2 : Assignment2.SearchState),
      0 < cfg.search_horizontal → 0 < cfg.search_vertical →
      t.search_dist_x = cfg.search_horizontal.tdiv 2 →
      t.search_dist_y = cfg.search_vertical.tdiv 2 →
      Assignment2.Update_Search_Dist 0 t = some t2 →
      t2.search_dist_x ≤ 3 ∧ t2.search_dist_y ≤ 3) := by
  have hle : ∀ x : Int, (if x % 2 = 0 then (2 : Int) else 3) ≤ 3 := by
    intro x; split_ifs <;> omega
  refine ⟨⟨next_dist_ite d hd, next_dist_ite e he⟩, ?_, ?_, ?_, ?_⟩
  · intro s hx hy
    refine ⟨_, A1_Update_Search_Dist_first s (by omega) (by omega), ⟨?_, ?_⟩, ⟨?_, ?_⟩⟩
    · show (s.search_dist_x + s.search_dist_x.tdiv 2 - 1).tdiv (s.search_dist_x.tdiv 2) = _
      rw [hx]; exact next_dist_ite d hd
    · show (s.search_dist_y + s.search_dist_y.tdiv 2 - 1).tdiv (s.search_dist_y.tdiv 2) = _
      rw [hy]; exact next_dist_ite e he
    · show (s.search_dist_x + s.search_dist_x.tdiv 2 - 1).tdiv (s.search_dist_x.tdiv 2) ≤ 3
      rw [hx, next_dist_ite d hd]; exact hle d
    · show (s.search_dist_y + s.search_dist_y.tdiv 2 - 1).tdiv (s.search_dist_y.tdiv 2) ≤ 3
      rw [hy, next_dist_ite e he]; exact hle e
  · intro t hx hy
    refine ⟨_, A2_Update_Search_Dist_first t (by omega) (by omega), ⟨?_, ?_⟩, ⟨?_, ?_⟩⟩
    · show (t.search_dist_x + t.search_dist_x.tdiv 2 - 1).tdiv (t.search_dist_x.tdiv 2) = _
      rw [hx]; exact next_dist_ite d hd
    · show (t.search_dist_y + t.search_dist_y.tdiv 2 - 1).tdiv (t.search_dist_y.tdiv 2) = _
      rw [hy]; exact next_dist_ite e he
    · show (t.search_dist_x + t.search_dist_x.tdiv 2 - 1).tdiv (t.search_dist_x.tdiv 2) ≤ 3
      rw [hx, next_dist_ite d hd]; exact hle d
    · show (t.search_dist_y + t.search_dist_y.tdiv 2 - 1).tdiv (t.search_dist_y.tdiv 2) ≤ 3
      rw [hy, next_dist_ite e he]; exact hle e
  · intro cfg s s2 hsh hsv hx hy hU
    simp only [Assignment1.Update_Search_Dist] at hU
    rw [if_neg (by decide), if_pos (by decide)] at hU
    by_cases hz : s.search_dist_x.tdiv 2 = 0 ∨ s.search_dist_y.tdiv 2 = 0
    · rw [if_pos hz] at hU
      exact absurd hU (by simp)
    · rw [if_neg hz] at hU
      have := Option.some.inj hU
      subst this
      have h2x : 2 ≤ s.search_dist_x := by
        rw [hx]
        exact half_radius_ge_two _ hsh (by rw [← hx]; exact fun h => hz (Or.inl h))
      have h2y : 2 ≤ s.search_dist_y := by
        rw [hy]
        exact half_radius_ge_two _ hsv (by rw [← hy]; exact fun h => hz (Or.inr h))
      exact ⟨(next_dist_bounds _ h2x).1.2, (next_dist_bounds _ h2y).1.2⟩
  · intro cfg t t2 hsh hsv hx hy hU
    simp only [Assignment2.Update_Search_Dist] at hU
    rw [if_neg (by decide), if_pos (by decide)] at hU
    by_cases hz : t.search_dist_x.tdiv 2 = 0 ∨ t.search_dist_y.tdiv 2 = 0
    · rw [if_pos hz] at hU
      exact absurd hU (by simp)
    · rw [if_neg hz] at hU
      have := Option.some.inj hU
      subst this
      have h2x : 2 ≤ t.search_dist_x := by
        rw [hx]
        exact half_radius_ge_two _ hsh (by rw [← hx]; exact fun h => hz (Or.inl h))
      have h2y : 2 ≤ t.search_dist_y := by
        rw [hy]
        exact half_radius_ge_two _ hsv (by rw [← hy]; exact fun h => hz (Or.inr h))
      exact ⟨(next_dist_bounds _ h2x).1.2, (next_dist_bounds _ h2y).1.2⟩

/-- Witness of C34: the step distances 4 and 5. -/
theorem C34_second_step_distance_witness :
    (((4 : Int) + (4 : Int).tdiv 2 - 1).tdiv ((4 : Int).tdiv 2) =
        (if (4 : Int) % 2 = 0 then 2 else 3) ∧
      ((5 : Int) + (5 : Int).tdiv 2 - 1).tdiv ((5 : Int).tdiv 2) =
        (if (5 : Int) % 2 = 0 then 2 else 3)) ∧
    (∀ s : Assignment1.SearchState, s.search_dist_x = 4 → s.search_dist_y = 5 →
      ∃ s2, Assignment1.Update_Search_Dist 0 s = some s2 ∧
        (s2.search_dist_x = (if (4 : Int) % 2 = 0 then 2 else 3) ∧
          s2.search_dist_y = (if (5 : Int) % 2 = 0 then 2 else 3)) ∧
        (s2.search_dist_x ≤ 3 ∧ s2.search_dist_y ≤ 3)) ∧
    (∀ t : Assignment2.SearchState, t.search_dist_x = 4 → t.search_dist_y = 5 →
      ∃ t2, Assignment2.Update_Search_Dist 0 t = some t2 ∧
        (t2.search_dist_x = (if (4 : Int) % 2 = 0 then 2 else 3) ∧
          t2.search_dist_y = (if (5 : Int) % 2 = 0 then 2 else 3)) ∧
        (t2.search_dist_x ≤ 3 ∧ t2.search_dist_y ≤ 3)) ∧
    (∀ (cfg : Config) (s s2 : Assignment1.SearchState),
      0 < cfg.search_horizontal → 0 < cfg.search_vertical →
      s.search_dist_x = cfg.search_horizontal.tdiv 2 →
      s.search_dist_y = cfg.search_vertical.tdiv 2 →
      Assignment1.Update_Search_Dist 0 s = some s2 →
      s2.search_dist_x ≤ 3 ∧ s2.search_dist_y ≤ 3) ∧
    (∀ (cfg : Config) (t t2 : Assignment2.SearchState),
      0 < cfg.search_horizontal → 0 < cfg.search_vertical →
      t.search_dist_x = cfg.search_horizontal.tdiv 2 →
      t.search_dist_y = cfg.search_vertical.tdiv 2 →
      Assignment2.Update_Search_Dist 0 t = some t2 →
      t2.search_dist_x ≤ 3 ∧ t2.search_dist_y ≤ 3) :=
  C34_second_step_distance 4 5 (by decide) (by decide)


/-! ## The sign of the distortion (C32) -/

/-- Claim C32: for every pair of non-empty blocks `A` and `B` with the same channel, row
and column counts, `MSE A B` returns a value `q` with `q >= 0`, and `q = 0` if and only
if `A` and `B` hold the same sample at every channel, row and column. -/
theorem C32_MSE_nonneg_zero_iff (A B : Image)
    (hne : 0 < A.chans ∧ 0 < A.rows ∧ 0 < A.cols)
    (hd : A.chans = B.chans ∧ A.rows = B.rows ∧ A.cols = B.cols) :
    ∃ q : ℚ, MSE A B = some (FVal.val q) ∧ 0 ≤ q ∧
      (q = 0 ↔ ∀ a i j, A.inBounds a i j → A.pix a i j = B.pix a i j) := by
  obtain ⟨q, hq, h0, hiff⟩ := MSE_spec A B hne ⟨by omega, by omega, by omega⟩
  refine ⟨q, hq, h0, ?_⟩
  rw [hiff]
  constructor
  · intro h a i j hin
    exact h a i j hin.1 hin.2.1 hin.2.2
  · intro h a i j ha hi hj
    exact h a i j ⟨ha, hi, hj⟩

/-- Witness of C32: the blocks `blockA` and `blockB` of 2 rows and 2 columns. -/
theorem C32_MSE_nonneg_zero_iff_witness :
    ((0 < blockA.chans ∧ 0 < blockA.rows ∧ 0 < blockA.cols) ∧
      (blockA.chans = blockB.chans ∧ blockA.rows = blockB.rows ∧ blockA.cols = blockB.cols)) ∧
    ∃ q : ℚ, MSE blockA blockB = some (FVal.val q) ∧ 0 ≤ q ∧
      (q = 0 ↔ ∀ a i j, blockA.inBounds a i j → blockA.pix a i j = blockB.pix a i j) :=
  ⟨⟨⟨by decide, by decide, by decide⟩, ⟨rfl, rfl, rfl⟩⟩,
    C32_MSE_nonneg_zero_iff blockA blockB ⟨by decide, by decide, by decide⟩ ⟨rfl, rfl, rfl⟩⟩


/-! ## Ties between candidates (C31) -/

/-- The candidate loops on a list of offsets, with the place of the selected candidate
in the list: either no compared candidate is below the least distortion so far and the
running best is kept, or the running best moves to a compared candidate below the
least distortion so far that has the least distortion of all compared candidates of
the list and is strictly below every compared candidate before it in the list. -/
theorem Scan_List_first_min (cfg : Config) (frame_1 : Image) (l : List (Int × Int))
    (st : Assignment1.SearchState) (hOK : Assignment1.Search_OK cfg frame_1 st)
    (m0 : FVal) (nx0 ny0 : Int) :
    ∃ m nx ny, Assignment1.Scan_List cfg frame_1 l (Assignment1.With_Best st m0 nx0 ny0) =
        some (Assignment1.With_Best st m nx ny) ∧
      ((m = m0 ∧ nx = nx0 ∧ ny = ny0 ∧
          ∀ o ∈ l, Assignment1.Cand_Valid cfg st o.1 o.2 →
            (FVal.val (Assignment1.Offset_MSE cfg frame_1 st o)).lt m0 = false) ∨
        ∃ (i : Nat) (o : Int × Int), l[i]? = some o ∧
          Assignment1.Cand_Valid cfg st o.1 o.2 ∧
          (FVal.val (Assignment1.Offset_MSE cfg frame_1 st o)).lt m0 = true ∧
          m = FVal.val (Assignment1.Offset_MSE cfg frame_1 st o) ∧
          (nx = st.least_MSE_x + o.1 ∧ ny = st.least_MSE_y + o.2) ∧
          (∀ o2 ∈ l, Assignment1.Cand_Valid cfg st o2.1 o2.2 →
            Assignment1.Offset_MSE cfg frame_1 st o ≤ Assignment1.Offset_MSE cfg frame_1 st o2) ∧
          (∀ (j : Nat) (o2 : Int × Int), j < i → l[j]? = some o2 →
            Assignment1.Cand_Valid cfg st o2.1 o2.2 →
            Assignment1.Offset_MSE cfg frame_1 st o < Assignment1.Offset_MSE cfg frame_1 st o2)) := by
  induction l generalizing m0 nx0 ny0 with
  | nil =>
    exact ⟨m0, nx0, ny0, rfl, Or.inl ⟨rfl, rfl, rfl, by intro o ho; simp at ho⟩⟩
  | cons a rest ih =>
    have hOK' : Assignment1.Search_OK cfg frame_1 (Assignment1.With_Best st m0 nx0 ny0) := hOK
    by_cases hv : Assignment1.Cand_Valid cfg st a.1 a.2
    · have hT := Try_Candidate_exact cfg frame_1 a.1 a.2 _ hOK' hv
      have hQ : Assignment1.Offset_MSE cfg frame_1 (Assignment1.With_Best st m0 nx0 ny0)
          (a.1, a.2) = Assignment1.Offset_MSE cfg frame_1 st a := rfl
      rw [hQ] at hT
      by_cases hlt : (FVal.val (Assignment1.Offset_MSE cfg frame_1 st a)).lt m0 = true
      · have hlt' : (FVal.val (Assignment1.Offset_MSE cfg frame_1 st a)).lt
            (Assignment1.With_Best st m0 nx0 ny0).least_MSE = true := hlt
        rw [if_pos hlt'] at hT
        have hT' : Assignment1.Try_Candidate cfg frame_1 a.1 a.2
            (Assignment1.With_Best st m0 nx0 ny0) =
            some (Assignment1.With_Best st (FVal.val (Assignment1.Offset_MSE cfg frame_1 st a))
              (st.least_MSE_x + a.1) (st.least_MSE_y + a.2)) := hT
        obtain ⟨m, nx, ny, h, hcase⟩ := ih
          (FVal.val (Assignment1.Offset_MSE cfg frame_1 st a))
          (st.least_MSE_x + a.1) (st.least_MSE_y + a.2)
        refine ⟨m, nx, ny, by simp only [Assignment1.Scan_List, hT', Option.some_bind, h], ?_⟩
        right
        rcases hcase with ⟨e1, e2, e3, hno⟩ | ⟨i, o, hi, hvo, hlo, e1, e2, hmin, hfirst⟩
        · refine ⟨0, a, List.getElem?_cons_zero, hv, hlt, e1, ⟨e2, e3⟩, ?_, ?_⟩
          · intro o2 ho2 hv2
            rcases List.mem_cons.mp ho2 with rfl | hmem
            · exact le_refl _
            · have := hno o2 hmem hv2
              rw [FVal_lt_val, decide_eq_false_iff_not] at this
              exact not_lt.mp this
          · intro j o2 hj
            exact absurd hj (Nat.not_lt_zero j)
        · rw [FVal_lt_val, decide_eq_true_eq] at hlo
          refine ⟨i + 1, o, by rw [List.getElem?_cons_succ]; exact hi, hvo, ?_, e1, e2, ?_, ?_⟩
          · cases m0 with
            | nan => exact absurd hlt (by simp [FVal.lt])
            | val v =>
              rw [FVal_lt_val, decide_eq_true_eq] at hlt ⊢
              exact lt_trans hlo hlt
          · intro o2 ho2 hv2
            rcases List.mem_cons.mp ho2 with rfl | hmem
            · exact hlo.le
            · exact hmin o2 hmem hv2
          · intro j o2 hj hj2 hv2
            cases j with
            | zero =>
              rw [List.getElem?_cons_zero] at hj2
              have e : a = o2 := Option.some.inj hj2
              rw [← e]
              exact hlo
            | succ k =>
              rw [List.getElem?_cons_succ] at hj2
              exact hfirst k o2 (by omega) hj2 hv2
      · have hlt' : ¬ (FVal.val (Assignment1.Offset_MSE cfg frame_1 st a)).lt
            (Assignment1.With_Best st m0 nx0 ny0).least_MSE = true := hlt
        rw [if_neg hlt'] at hT
        obtain ⟨m, nx, ny, h, hcase⟩ := ih m0 nx0 ny0
        refine ⟨m, nx, ny, by simp only [Assignment1.Scan_List, hT, Option.some_bind, h], ?_⟩
        rcases hcase with ⟨e1, e2, e3, hno⟩ | ⟨i, o, hi, hvo, hlo, e1, e2, hmin, hfirst⟩
        · left
          refine ⟨e1, e2, e3, ?_⟩
          intro o2 ho2 hv2
          rcases List.mem_cons.mp ho2 with rfl | hmem
          · exact Bool.eq_false_iff.mpr hlt
          · exact hno o2 hmem hv2
        · right
          have hoa : Assignment1.Offset_MSE cfg frame_1 st o <
              Assignment1.Offset_MSE cfg frame_1 st a := by
            cases m0 with
            | nan => exact absurd hlo (by simp [FVal.lt])
            | val v =>
              rw [FVal_lt_val, decide_eq_true_eq] at hlo hlt
              exact lt_of_lt_of_le hlo (not_lt.mp hlt)
          refine ⟨i + 1, o, by rw [List.getElem?_cons_succ]; exact hi, hvo, hlo, e1, e2, ?_, ?_⟩
          · intro o2 ho2 hv2
            rcases List.mem_cons.mp ho2 with rfl | hmem
            · exact hoa.le
            · exact hmin o2 hmem hv2
          · intro j o2 hj hj2 hv2
            cases j with
            | zero =>
              rw [List.getElem?_cons_zero] at hj2
              have e : a = o2 := Option.some.inj hj2
              rw [← e]
              exact hoa
            | succ k =>
              rw [List.getElem?_cons_succ] at hj2
              exact hfirst k o2 (by omega) hj2 hv2
    · have hT : Assignment1.Try_Candidate cfg frame_1 a.1 a.2
          (Assignment1.With_Best st m0 nx0 ny0) = some (Assignment1.With_Best st m0 nx0 ny0) :=
        (Try_Candidate_spec cfg frame_1 a.1 a.2 _ hOK').1 hv
      obtain ⟨m, nx, ny, h, hcase⟩ := ih m0 nx0 ny0
      refine ⟨m, nx, ny, by simp only [Assignment1.Scan_List, hT, Option.some_bind, h], ?_⟩
      rcases hcase with ⟨e1, e2, e3, hno⟩ | ⟨i, o, hi, hvo, hlo, e1, e2, hmin, hfirst⟩
      · left
        refine ⟨e1, e2, e3, ?_⟩
        intro o2 ho2 hv2
        rcases List.mem_cons.mp ho2 with rfl | hmem
        · exact absurd hv2 hv
        · exact hno o2 hmem hv2
      · right
        refine ⟨i + 1, o, by rw [List.getElem?_cons_succ]; exact hi, hvo, hlo, e1, e2, ?_, ?_⟩
        · intro o2 ho2 hv2
          rcases List.mem_cons.mp ho2 with rfl | hmem
          · exact absurd hv2 hv
          · exact hmin o2 hmem hv2
        · intro j o2 hj hj2 hv2
          cases j with
          | zero =>
            rw [List.getElem?_cons_zero] at hj2
            have e : a = o2 := Option.some.inj hj2
            rw [← e] at hv2
            exact absurd hv2 hv
          | succ k =>
            rw [List.getElem?_cons_succ] at hj2
            exact hfirst k o2 (by omega) hj2 hv2

/-- A search step returns and follows the rule for ties. -/
theorem Search_Step_first_min (cfg : Config) (fuel : Nat) (frame_1 : Image) (n : Int)
    (st : Assignment1.SearchState) (hOK : Assignment1.Search_OK cfg frame_1 st)
    (hn : n = 0 ∨ n = 1 ∨ n = 2)
    (hd : n = 0 → 2 ≤ st.search_dist_x ∧ 2 ≤ st.search_dist_y) (hf : 4 ≤ fuel) :
    ∃ st', Assignment1.Search_Step cfg fuel frame_1 n st = some st' ∧
      Assignment1.Tie_Rule cfg frame_1 st st' := by
  obtain ⟨m, nx, ny, hscan, hcase⟩ := Scan_List_first_min cfg frame_1
    (Assignment1.Nine_Offsets st.search_dist_x st.search_dist_y) st hOK
    st.least_MSE st.new_least_MSE_x st.new_least_MSE_y
  rw [With_Best_self] at hscan
  have hOK1 : Assignment1.Search_OK cfg frame_1 (Assignment1.With_Best st m nx ny) := hOK
  obtain ⟨st', hF, _, hm, hl, _⟩ := Finish_Step_spec cfg frame_1 n _ hOK1 hn hd
  have hm' : st'.least_MSE = m := hm
  have hl' : st'.least_MSE_x = nx ∧ st'.least_MSE_y = ny := hl
  refine ⟨st', ?_, ?_⟩
  · unfold Assignment1.Search_Step
    rw [Scan_Candidates_eq cfg fuel frame_1 st hOK.2.2.2.1 hOK.2.2.2.2 hf, hscan]
    exact hF
  · rcases hcase with ⟨e1, e2, e3, hno⟩ | ⟨i, o, hi, hvo, hlo, e1, ⟨e2, e3⟩, hmin, hfirst⟩
    · exact Or.inl ⟨by rw [hm', e1], ⟨by rw [hl'.1, e2], by rw [hl'.2, e3]⟩, hno⟩
    · exact Or.inr ⟨i, o, hi, hvo, hlo, by rw [hm', e1], ⟨by rw [hl'.1, e2], by rw [hl'.2, e3]⟩,
        hmin, hfirst⟩

/-- Claim C31 (amended), Assignment 1, with frames of equal extents, positive block sizes
and radii of at least 4, the distortion of a candidate being the `float` value `MSE`
returns for it (`Cand_MSE`), not the exact mean of the squared differences.  A compared
candidate replaces the running best only when its distortion is strictly below the least
distortion so far; and for every block each of the three steps follows the rule for ties:
when a candidate is selected it is the first in scan order (the nine offsets with the
column offset in the outer loop) that attains the least distortion of the compared
candidates of the step, and it is strictly below the least distortion of the earlier
steps; otherwise the step keeps the least distortion. -/
theorem C31_ties_keep_earlier (cfg : Config) (fuel : Nat) (R T : Image)
    (hw : 0 < cfg.block_width) (hh : 0 < cfg.block_height)
    (hsh : 4 ≤ cfg.search_horizontal) (hsv : 4 ≤ cfg.search_vertical) (hf : 4 ≤ fuel)
    (hext : R.chans = T.chans ∧ R.rows = T.rows ∧ R.cols = T.cols) :
    (∀ (st : Assignment1.SearchState) (x y : Int), Assignment1.Search_OK cfg R st →
      Assignment1.Cand_Valid cfg st x y →
      Assignment1.Try_Candidate cfg R x y st =
        some (if (FVal.val (Assignment1.Offset_MSE cfg R st (x, y))).lt st.least_MSE then
          Assignment1.With_Best st (FVal.val (Assignment1.Offset_MSE cfg R st (x, y)))
            (st.least_MSE_x + x) (st.least_MSE_y + y)
        else st)) ∧
    ∃ blocks, Assignment1.Set_Macroblocks cfg T [] = some blocks ∧
      ∀ mb ∈ blocks, ∃ s1 s2 s3,
        (Assignment1.Search_Step cfg fuel R 0 (Assignment1.Search_Init cfg mb) = some s1 ∧
          Assignment1.Search_Step cfg fuel R 1 s1 = some s2 ∧
          Assignment1.Search_Step cfg fuel R 2 s2 = some s3 ∧
          Assignment1.Three_Step_Search cfg fuel R mb = some s3) ∧
        Assignment1.Tie_Rule cfg R (Assignment1.Search_Init cfg mb) s1 ∧
        Assignment1.Tie_Rule cfg R s1 s2 ∧ Assignment1.Tie_Rule cfg R s2 s3 := by
  refine ⟨fun st x y hOK hv => Try_Candidate_exact cfg R x y st hOK hv, ?_⟩
  obtain ⟨blocks, hb, hall, _⟩ := Set_Macroblocks_cover cfg T hw hh
  refine ⟨blocks, hb, ?_⟩
  intro mb hmem
  obtain ⟨k, hk⟩ := List.mem_iff_getElem?.mp hmem
  obtain ⟨vert, horiz, hv, hz, _, hIs⟩ := hall k mb hk
  obtain ⟨s1, s2, s3, ⟨h1, h2, h3, h4⟩, ⟨ok0, ok1, ok2⟩, _⟩ :=
    Three_Step_Search_inv cfg fuel R T vert horiz mb hw hh hsh hsv hf hext hv hz hIs
  obtain ⟨s1', g1, t1⟩ := Search_Step_first_min cfg fuel R 0 _ ok0 (Or.inl rfl)
    (fun _ => ⟨first_dist _ hsh, first_dist _ hsv⟩) hf
  obtain ⟨s2', g2, t2⟩ := Search_Step_first_min cfg fuel R 1 s1 ok1 (Or.inr (Or.inl rfl))
    (fun h => absurd h (by decide)) hf
  obtain ⟨s3', g3, t3⟩ := Search_Step_first_min cfg fuel R 2 s2 ok2 (Or.inr (Or.inr rfl))
    (fun h => absurd h (by decide)) hf
  have e1 : s1' = s1 := Option.some.inj (g1.symm.trans h1)
  have e2 : s2' = s2 := Option.some.inj (g2.symm.trans h2)
  have e3 : s3' = s3 := Option.some.inj (g3.symm.trans h3)
  subst e1 e2 e3
  exact ⟨s1', s2', s3', ⟨h1, h2, h3, h4⟩, t1, t2, t3⟩

/-- Witness of C31: the frame of 16 by 16 matched against itself with blocks of 8 by 8
and both radii 4. -/
theorem C31_ties_keep_earlier_witness :
    (∀ (st : Assignment1.SearchState) (x y : Int), Assignment1.Search_OK cfg8 frame16 st →
      Assignment1.Cand_Valid cfg8 st x y →
      Assignment1.Try_Candidate cfg8 frame16 x y st =
        some (if (FVal.val (Assignment1.Offset_MSE cfg8 frame16 st (x, y))).lt st.least_MSE then
          Assignment1.With_Best st (FVal.val (Assignment1.Offset_MSE cfg8 frame16 st (x, y)))
            (st.least_MSE_x + x) (st.least_MSE_y + y)
        else st)) ∧
    ∃ blocks, Assignment1.Set_Macroblocks cfg8 frame16 [] = some blocks ∧
      ∀ mb ∈ blocks, ∃ s1 s2 s3,
        (Assignment1.Search_Step cfg8 4 frame16 0 (Assignment1.Search_Init cfg8 mb) =
            some s1 ∧
          Assignment1.Search_Step cfg8 4 frame16 1 s1 = some s2 ∧
          Assignment1.Search_Step cfg8 4 frame16 2 s2 = some s3 ∧
          Assignment1.Three_Step_Search cfg8 4 frame16 mb = some s3) ∧
        Assignment1.Tie_Rule cfg8 frame16 (Assignment1.Search_Init cfg8 mb) s1 ∧
        Assignment1.Tie_Rule cfg8 frame16 s1 s2 ∧ Assignment1.Tie_Rule cfg8 frame16 s2 s3 :=
  C31_ties_keep_earlier cfg8 4 frame16 frame16 (by decide) (by decide) (by decide)
    (by decide) (le_refl 4) ⟨rfl, rfl, rfl⟩


/-! ## The data format chosen by `load` (C33) -/

/-- The flag `binary` is true for every descriptor: one of `descriptor >= 4` and
`descriptor <= 6` always holds. -/
theorem load_format_binary (descriptor : Int) : (load_format descriptor).2 = true := by
  unfold load_format
  simp only []
  rw [if_pos (by omega)]

/-- No input whose first line is `P1` is loaded: the flag `binary` is set, and the
assertion `!binary` for bitmaps fails. -/
theorem load_P1_fails (fuel : Nat) (rest : List Nat) :
    Image.load fuel ⟨80 :: 49 :: 10 :: rest, false, false⟩ = none := by
  have hg : getline ⟨80 :: 49 :: 10 :: rest, false, false⟩ [] =
      (⟨rest, false, false⟩, [80, 49]) := by
    simp [getline, IStream.good, split_line]
  have hd : (istringstream [49]).read_int.2 = some 1 := by decide
  unfold Image.load
  simp only [hg, List.head?_cons, List.tail_cons, hd]
  rw [if_neg (by decide), if_neg (by simp), if_neg (by decide)]
  simp only [load_format_binary]
  cases skip_comments fuel ⟨rest, false, false⟩ [80, 49] with
  | none => rfl
  | some r2 =>
    simp only []
    cases (istringstream r2.2).read_int.2 with
    | none => rfl
    | some cols =>
      cases (istringstream r2.2).read_int.1.read_int.2 with
      | none => rfl
      | some rows => simp

/-- Claim C33, as the code behaves: `load` sets the flag `binary` for every descriptor,
so every sample is taken with `get()` as one byte (for a range up to 255), also for the
descriptors 1, 2 and 3 of the plain formats.  No input that starts with the line `P1`
is loaded.  The plain greymap `P2`, `2 1`, `255`, `7 9` is loaded with the samples 55
and 32, the bytes of the characters `7` and space, not 7 and 9; the raw greymap `P5`
with the bytes 7 and 9 is loaded with the samples 7 and 9. -/
theorem C33_ascii_read_as_binary :
    (∀ descriptor : Int, (load_format descriptor).2 = true) ∧
    (∀ (descriptor m_maxval i j c : Int) (st : IStream × Image), m_maxval ≤ 255 →
      load_sample (load_format descriptor).2 m_maxval i j c st =
        if st.1.get.1 ≥ 0 ∧ st.1.get.1 ≤ m_maxval then
          (st.2.write c i j st.1.get.1).map (fun im => (st.1.get.2, im))
        else none) ∧
    (∀ (fuel : Nat) (rest : List Nat),
      Image.load fuel ⟨80 :: 49 :: 10 :: rest, false, false⟩ = none) ∧
    (Image.load 4 pgm_ascii).map
        (fun im => (im.chans, im.rows, im.cols, im.pix 0 0 0, im.pix 0 0 1)) =
      some (1, 1, 2, 55, 32) ∧
    (Image.load 4 pgm_raw).map
        (fun im => (im.chans, im.rows, im.cols, im.pix 0 0 0, im.pix 0 0 1)) =
      some (1, 1, 2, 7, 9) := by
  refine ⟨load_format_binary, ?_, load_P1_fails, by decide, by decide⟩
  intro descriptor m_maxval i j c st hm
  have hn : ¬ m_maxval > 255 := by omega
  rw [load_format_binary]
  unfold load_sample
  simp only [if_true, if_neg hn]

/-! ## Candidates that differ only below the precision of `float` (C25, C28, C31) -/

theorem F32_two_pow_26 : F32 (2 ^ 26) = 2 ^ 26 :=
  fl_round_exact 24 _ 26 (2 ^ 23) (by norm_num) (by norm_num) (by norm_num)

/-- The sum of `2^26` and 1 is rounded to `2^26`: the numbers of type `float` next to
`2^26` are 8 apart. -/
theorem F32_absorbs_one : F32 (2 ^ 26 + 1) = 2 ^ 26 := by
  have := fl_round_near 24 (2 ^ 26 + 1) 26 (2 ^ 23) (by norm_num) (by norm_num)
    (by norm_num) (by norm_num)
  unfold F32
  rw [this]
  norm_num

theorem F32_three : F32 3 = 3 := by
  have := F32_int 3 (by norm_num) (by norm_num)
  simpa using this

/-- The third of `2^26` is rounded to 22369622. -/
theorem F32_third_of_two_pow_26 : F32 (2 ^ 26 / 3) = 22369622 := by
  have := fl_round_near 24 (2 ^ 26 / 3) 24 11184811 (by norm_num) (by norm_num)
    (by norm_num) (by norm_num)
  unfold F32
  rw [this]
  norm_num

/-- The three loops of `MSE` over three channels of one sample each. -/
theorem Float_Sum_311 (d : Int → Int → Int → Int) :
    Float_Sum d 3 1 1 =
      F32 (F32 (F32 (0 + F32 (F64 ((((d 0 0 0 : Int) : ℚ)) ^ 2))) +
        F32 (F64 ((((d 1 0 0 : Int) : ℚ)) ^ 2))) + F32 (F64 ((((d 2 0 0 : Int) : ℚ)) ^ 2))) := by
  simp [Float_Sum, foldRange, foldN]

/-- The value of `MSE` for three channels of one sample each with the squared differences
`2^26`, 0 or 1, and 0: the 1 is lost in the `float` addition. -/
theorem tie_value (d : Int → Int → Int → Int) (h0 : d 0 0 0 ^ 2 = 2 ^ 26)
    (h1 : d 1 0 0 ^ 2 = 1 ∨ d 1 0 0 ^ 2 = 0) (h2 : d 2 0 0 ^ 2 = 0) :
    Float_Mean d 3 1 1 = 22369622 := by
  have t0 : F32 (F64 ((((d 0 0 0 : Int) : ℚ)) ^ 2)) = 2 ^ 26 := by
    have e : (((d 0 0 0 : Int) : ℚ)) ^ 2 = ((d 0 0 0 ^ 2 : Int) : ℚ) := by push_cast; rfl
    rw [e, F64_int _ (sq_nonneg _) (by rw [h0]; norm_num), h0]
    push_cast
    exact F32_two_pow_26
  have t2 : F32 (F64 ((((d 2 0 0 : Int) : ℚ)) ^ 2)) = 0 := by
    rw [sq_term_exact _ (by rw [h2]; norm_num), h2]
    simp
  have hs : Float_Sum d 3 1 1 = 2 ^ 26 := by
    rw [Float_Sum_311, t0, t2, zero_add, F32_two_pow_26, add_zero]
    rcases h1 with h1 | h1
    · rw [sq_term_exact _ (by rw [h1]; norm_num), h1]
      push_cast
      rw [F32_absorbs_one, F32_two_pow_26]
    · rw [sq_term_exact _ (by rw [h1]; norm_num), h1]
      push_cast
      rw [add_zero, F32_two_pow_26, F32_two_pow_26]
  unfold Float_Mean
  rw [hs]
  have e3 : (((3 * 1 * 1 : Int) : Int) : ℚ) = 3 := by norm_num
  rw [e3, F32_three, F32_third_of_two_pow_26]

/-- The mean of the squared differences over three channels of one sample each. -/
theorem Mean_Square_311 (d : Int → Int → Int → Int) :
    Mean_Square d 3 1 1 =
      ((((d 0 0 0 : Int) : ℚ)) ^ 2 + (((d 1 0 0 : Int) : ℚ)) ^ 2 +
        (((d 2 0 0 : Int) : ℚ)) ^ 2) / 3 := by
  unfold Mean_Square
  have e1 : Finset.Ico (0 : Int) 3 = {0, 1, 2} := by decide
  have e2 : Finset.Ico (0 : Int) 1 = {0} := by decide
  rw [e1, e2, Finset.sum_product, Finset.sum_insert (by decide), Finset.sum_insert (by decide),
    Finset.sum_singleton, Finset.sum_product, Finset.sum_singleton, Finset.sum_singleton,
    Finset.sum_product, Finset.sum_singleton, Finset.sum_singleton,
    Finset.sum_product, Finset.sum_singleton, Finset.sum_singleton]
  norm_num
  ring

/-- A step in which every candidate has the same distortion, below the least distortion
so far: the step ends at the first candidate of the scan order that passes the bounds
checks. -/
theorem Search_Step_flat_first (cfg : Config) (fuel : Nat) (frame_1 : Image) (n : Int)
    (st : Assignment1.SearchState) (hOK : Assignment1.Search_OK cfg frame_1 st)
    (hn : n = 0 ∨ n = 1 ∨ n = 2)
    (hd : n = 0 → 2 ≤ st.search_dist_x ∧ 2 ≤ st.search_dist_y) (hf : 4 ≤ fuel)
    (μ q0 : ℚ) (hQ : ∀ o, Assignment1.Offset_MSE cfg frame_1 st o = μ)
    (hm : st.least_MSE = FVal.val q0) (hlt : μ < q0)
    (i1 : Nat) (o1 : Int × Int)
    (h1 : (Assignment1.Nine_Offsets st.search_dist_x st.search_dist_y)[i1]? = some o1)
    (hv1 : Assignment1.Cand_Valid cfg st o1.1 o1.2)
    (hbefore : ∀ (j : Nat) (o2 : Int × Int), j < i1 →
      (Assignment1.Nine_Offsets st.search_dist_x st.search_dist_y)[j]? = some o2 →
      ¬ Assignment1.Cand_Valid cfg st o2.1 o2.2) :
    ∃ st', Assignment1.Search_Step cfg fuel frame_1 n st = some st' ∧
      Assignment1.Search_OK cfg frame_1 st' ∧
      st'.this_macroblock.block = st.this_macroblock.block ∧
      (st'.this_macroblock.block_location_x = st.this_macroblock.block_location_x ∧
        st'.this_macroblock.block_location_y = st.this_macroblock.block_location_y) ∧
      (st'.new_least_MSE_x = st'.least_MSE_x ∧ st'.new_least_MSE_y = st'.least_MSE_y) ∧
      st'.least_MSE = FVal.val μ ∧
      (st'.least_MSE_x = st.least_MSE_x + o1.1 ∧ st'.least_MSE_y = st.least_MSE_y + o1.2) := by
  obtain ⟨st', hS, hOK', hk, hnl, _, _, _, _⟩ :=
    Search_Step_min cfg fuel frame_1 n st hOK hn hd hf
  obtain ⟨st2, hS2, hT⟩ := Search_Step_first_min cfg fuel frame_1 n st hOK hn hd hf
  rw [hS] at hS2
  have hst : st' = st2 := Option.some.inj hS2
  rw [← hst] at hT
  have hmem1 : o1 ∈ Assignment1.Nine_Offsets st.search_dist_x st.search_dist_y :=
    List.mem_iff_getElem?.mpr ⟨i1, h1⟩
  rcases hT with ⟨_, _, hnone⟩ | ⟨i, o, hi, hv, _, hleast, hloc, _, hearlier⟩
  · exfalso
    have := hnone o1 hmem1 hv1
    rw [hQ, hm, FVal_lt_val, decide_eq_false_iff_not] at this
    exact this hlt
  · have hii : i = i1 := by
      rcases lt_trichotomy i i1 with h | h | h
      · exact absurd hv (hbefore i o h hi)
      · exact h
      · have := hearlier i1 o1 h h1 hv1
        rw [hQ, hQ] at this
        exact absurd this (lt_irrefl _)
    rw [hii, h1] at hi
    have ho : o1 = o := Option.some.inj hi
    rw [← ho] at hleast hloc
    rw [hQ] at hleast
    exact ⟨st', hS, hOK', hk.1, hk.2, hnl, hleast, hloc⟩

/-- A step in which no candidate has a distortion below the least distortion so far: the
step keeps the least distortion and ends at the running best it started with. -/
theorem Search_Step_flat_keep (cfg : Config) (fuel : Nat) (frame_1 : Image) (n : Int)
    (st : Assignment1.SearchState) (hOK : Assignment1.Search_OK cfg frame_1 st)
    (hn : n = 0 ∨ n = 1 ∨ n = 2)
    (hd : n = 0 → 2 ≤ st.search_dist_x ∧ 2 ≤ st.search_dist_y) (hf : 4 ≤ fuel)
    (μ q0 : ℚ) (hQ : ∀ o, Assignment1.Offset_MSE cfg frame_1 st o = μ)
    (hm : st.least_MSE = FVal.val q0) (hle : q0 ≤ μ) :
    ∃ st', Assignment1.Search_Step cfg fuel frame_1 n st = some st' ∧
      Assignment1.Search_OK cfg frame_1 st' ∧
      st'.this_macroblock.block = st.this_macroblock.block ∧
      (st'.this_macroblock.block_location_x = st.this_macroblock.block_location_x ∧
        st'.this_macroblock.block_location_y = st.this_macroblock.block_location_y) ∧
      (st'.new_least_MSE_x = st'.least_MSE_x ∧ st'.new_least_MSE_y = st'.least_MSE_y) ∧
      st'.least_MSE = FVal.val q0 ∧
      (st'.least_MSE_x = st.new_least_MSE_x ∧ st'.least_MSE_y = st.new_least_MSE_y) := by
  obtain ⟨st', hS, hOK', hk, hnl, hdisj, _, _, _⟩ :=
    Search_Step_min cfg fuel frame_1 n st hOK hn hd hf
  rcases hdisj with ⟨e, ex, ey⟩ | ⟨o, _, _, _, _, hlt⟩
  · exact ⟨st', hS, hOK', hk.1, hk.2, hnl, by rw [e, hm], ex, ey⟩
  · exfalso
    rw [hQ, hm, FVal_lt_val, decide_eq_true_eq] at hlt
    exact absurd hlt (not_lt.mpr hle)
/-- The search for a block of `tie_tgt` in `tie_ref`: every candidate has the distortion
22369622 in `float`, wherever it lies. -/
theorem tie_state (st : Assignment1.SearchState)
    (hb : st.this_macroblock.block.chans = 3 ∧
      ∀ c : Int, (0 ≤ c ∧ c < 3) → st.this_macroblock.block.pix c 0 0 = 0) :
    ∀ o : Int × Int, Assignment1.Offset_MSE cfg1 tie_ref st o = 22369622 := by
  intro o
  unfold Assignment1.Offset_MSE Assignment1.Cand_MSE
  rw [hb.1]
  apply tie_value
  · show (st.this_macroblock.block.pix 0 0 0 - 8192) ^ 2 = 2 ^ 26
    rw [hb.2 0 (by decide)]
    norm_num
  · show (st.this_macroblock.block.pix 1 0 0 -
        (if st.least_MSE_x + o.1 + 0 = 4 then (0 : Int) else 1)) ^ 2 = 1 ∨
      (st.this_macroblock.block.pix 1 0 0 -
        (if st.least_MSE_x + o.1 + 0 = 4 then (0 : Int) else 1)) ^ 2 = 0
    rw [hb.2 1 (by decide)]
    split_ifs
    · right; norm_num
    · left; norm_num
  · show (st.this_macroblock.block.pix 2 0 0 - 0) ^ 2 = 0
    rw [hb.2 2 (by decide)]
    norm_num

/-- The exact mean square error between a block of `tie_tgt` and the pixel of `tie_ref`
at column `x`: a third of `2^26` at column 4 and a third of `2^26 + 1` elsewhere. -/
theorem tie_exact (block : Image)
    (hb : block.chans = 3 ∧ ∀ c : Int, (0 ≤ c ∧ c < 3) → block.pix c 0 0 = 0) (x y : Int) :
    Assignment1.Exact_MSE cfg1 block tie_ref x y = if x = 4 then 2 ^ 26 / 3 else (2 ^ 26 + 1) / 3 := by
  unfold Assignment1.Exact_MSE
  rw [hb.1]
  have e := Mean_Square_311 (fun channel row col =>
    block.pix channel row col - tie_ref.pix channel (y + row) (x + col))
  have e3 : cfg1.block_height = 1 := rfl
  have e4 : cfg1.block_width = 1 := rfl
  rw [e3, e4]
  have e5 : (((3 : Nat) : Int)) = 3 := rfl
  rw [e5, e]
  show ((((block.pix 0 0 0 - 8192 : Int) : ℚ)) ^ 2 +
    (((block.pix 1 0 0 - (if x + 0 = 4 then (0 : Int) else 1) : Int) : ℚ)) ^ 2 +
    (((block.pix 2 0 0 - 0 : Int) : ℚ)) ^ 2) / 3 = _
  rw [hb.2 0 (by decide), hb.2 1 (by decide), hb.2 2 (by decide), add_zero]
  split_ifs <;> norm_num

/-- The three steps for the block of `tie_tgt` at column 4 in `tie_ref` with radius 4:
the first step moves the best location to column 2, the first candidate compared, and
the other two steps leave it there, since no candidate has a distortion below
22369622. -/
theorem tie_search (fuel : Nat) (hf : 4 ≤ fuel) (mb : Assignment1.Macroblock)
    (hIs : Assignment1.Is_Block_At cfg1 tie_tgt 0 4 mb) :
    ∃ s1 s3, Assignment1.Search_Step cfg1 fuel tie_ref 0 (Assignment1.Search_Init cfg1 mb) =
        some s1 ∧
      (s1.least_MSE_x = 2 ∧ s1.least_MSE_y = 0) ∧ s1.least_MSE = FVal.val 22369622 ∧
      Assignment1.Three_Step_Search cfg1 fuel tie_ref mb = some s3 ∧
      (s3.least_MSE_x = 2 ∧ s3.least_MSE_y = 0) ∧ s3.least_MSE = FVal.val 22369622 ∧
      s3.this_macroblock.block = mb.block ∧
      (s3.this_macroblock.block_location_x = 4 ∧ s3.this_macroblock.block_location_y = 0) ∧
      Assignment1.Cand_Valid cfg1 (Assignment1.Search_Init cfg1 mb) 0 0 ∧
      Assignment1.Cand_Valid cfg1 (Assignment1.Search_Init cfg1 mb) (-2) 0 := by
  have hOK0 := Search_OK_of_block cfg1 tie_ref tie_tgt 0 4 mb (by decide) (by decide)
    (by decide) (by decide) (by decide) ⟨rfl, rfl, rfl⟩ hIs
  obtain ⟨⟨ex, ey⟩, ⟨dc, dr, dk⟩, hpix, ⟨_, hxs, _, hys⟩, _⟩ := hIs
  have hx0 : mb.block_location_x = 4 := by rw [ex]; decide
  have hy0 : mb.block_location_y = 0 := by rw [ey]; decide
  have hxs' : mb.search_location_x_stop = 7 := by rw [hxs]; decide
  have hys' : mb.search_location_y_stop = 1 := by rw [hys]; decide
  have hblock : mb.block.chans = 3 ∧ ∀ c : Int, (0 ≤ c ∧ c < 3) → mb.block.pix c 0 0 = 0 := by
    constructor
    · exact dc
    · intro c hc
      rw [hpix c 0 0 hc (by decide) (by decide)]
      rfl
  have hvalid : ∀ x y : Int, Assignment1.Cand_Valid cfg1 (Assignment1.Search_Init cfg1 mb) x y ↔
      (0 ≤ 4 + x ∧ 4 + x + 1 ≤ 7) ∧ (0 ≤ 0 + y ∧ 0 + y + 1 ≤ 1) := by
    intro x y
    show ((0 ≤ mb.block_location_x + x ∧
        mb.block_location_x + x + cfg1.block_width ≤ mb.search_location_x_stop) ∧
      (0 ≤ mb.block_location_y + y ∧
        mb.block_location_y + y + cfg1.block_height ≤ mb.search_location_y_stop)) ↔ _
    rw [hx0, hy0, hxs', hys']
    rfl
  have hv00 : Assignment1.Cand_Valid cfg1 (Assignment1.Search_Init cfg1 mb) 0 0 :=
    (hvalid 0 0).mpr (by decide)
  have hv20 : Assignment1.Cand_Valid cfg1 (Assignment1.Search_Init cfg1 mb) (-2) 0 :=
    (hvalid (-2) 0).mpr (by decide)
  -- the first step: every candidate is below `FLT_MAX`, the first one compared is kept
  obtain ⟨s1, hS1, hOK1, hb1, hk1, hn1, hm1, hl1⟩ :=
    Search_Step_flat_first cfg1 fuel tie_ref 0 (Assignment1.Search_Init cfg1 mb) hOK0
      (Or.inl rfl)
      (fun _ => ⟨(by decide : (2 : Int) ≤ cfg1.search_horizontal.tdiv 2),
        (by decide : (2 : Int) ≤ cfg1.search_vertical.tdiv 2)⟩) hf 22369622 FLT_MAX
      (tie_state _ hblock) rfl (by unfold FLT_MAX; norm_num) 1 (-2, 0) rfl hv20
      (by
        intro j o2 hj ho2
        have hj0 : j = 0 := by omega
        rw [hj0] at ho2
        have e : o2 = (-2, -2) := (Option.some.inj ho2).symm
        rw [e, hvalid]
        decide)
  have hlx1 : s1.least_MSE_x = 2 := by
    rw [hl1.1]
    show mb.block_location_x + -2 = 2
    rw [hx0]
    decide
  have hly1 : s1.least_MSE_y = 0 := by
    rw [hl1.2]
    show mb.block_location_y + 0 = 0
    rw [hy0]
    decide
  have hblock1 : s1.this_macroblock.block.chans = 3 ∧
      ∀ c : Int, (0 ≤ c ∧ c < 3) → s1.this_macroblock.block.pix c 0 0 = 0 := by
    rw [hb1]
    exact hblock
  -- the second step: no candidate is below the least distortion
  obtain ⟨s2, hS2, hOK2, hb2, hk2, hn2, hm2, hl2⟩ :=
    Search_Step_flat_keep cfg1 fuel tie_ref 1 s1 hOK1 (Or.inr (Or.inl rfl))
      (fun h => absurd h (by decide)) hf 22369622 22369622 (tie_state _ hblock1) hm1 (le_refl _)
  have hblock2 : s2.this_macroblock.block.chans = 3 ∧
      ∀ c : Int, (0 ≤ c ∧ c < 3) → s2.this_macroblock.block.pix c 0 0 = 0 := by
    rw [hb2]
    exact hblock1
  -- the third step: no candidate is below the least distortion
  obtain ⟨s3, hS3, _, hb3, hk3, _, hm3, hl3⟩ :=
    Search_Step_flat_keep cfg1 fuel tie_ref 2 s2 hOK2 (Or.inr (Or.inr rfl))
      (fun h => absurd h (by decide)) hf 22369622 22369622 (tie_state _ hblock2) hm2 (le_refl _)
  refine ⟨s1, s3, hS1, ⟨hlx1, hly1⟩, hm1, ?_, ⟨?_, ?_⟩, hm3, ?_, ⟨?_, ?_⟩, hv00, hv20⟩
  · unfold Assignment1.Three_Step_Search
    rw [forRange_three, hS1]
    simp only [Option.some_bind]
    rw [hS2]
    simp only [Option.some_bind]
    exact hS3
  · rw [hl3.1, hn2.1, hl2.1, hn1.1]; exact hlx1
  · rw [hl3.2, hn2.2, hl2.2, hn1.2]; exact hly1
  · rw [hb3, hb2, hb1]; rfl
  · rw [hk3.1, hk2.1, hk1.1]; exact hx0
  · rw [hk3.2, hk2.2, hk1.2]; exact hy0
/-- The block of `tie_tgt` at column 4, as `Set_Macroblocks` builds it. -/
theorem tie_block :
    ∃ blocks mb, Assignment1.Set_Macroblocks cfg1 tie_tgt [] = some blocks ∧
      blocks[4]? = some mb ∧ Assignment1.Is_Block_At cfg1 tie_tgt 0 4 mb ∧
      (∀ (k : Nat) (mb : Assignment1.Macroblock), blocks[k]? = some mb →
        ∃ vert horiz, (0 ≤ vert ∧ vert < tie_tgt.get_rows.tdiv cfg1.block_height) ∧
          (0 ≤ horiz ∧ horiz < tie_tgt.get_cols.tdiv cfg1.block_width) ∧
          (k : Int) = vert * tie_tgt.get_cols.tdiv cfg1.block_width + horiz ∧
          Assignment1.Is_Block_At cfg1 tie_tgt vert horiz mb) := by
  obtain ⟨blocks, hb, hall, hcover⟩ := Set_Macroblocks_cover cfg1 tie_tgt (by decide) (by decide)
  obtain ⟨mb, hk, hIs⟩ := hcover 0 4 ⟨le_refl _, by decide⟩ ⟨by decide, by decide⟩
  have e : (0 * tie_tgt.get_cols.tdiv cfg1.block_width + 4).toNat = 4 := by decide
  rw [e] at hk
  exact ⟨blocks, mb, hb, hk, hIs, hall⟩

/-- Counterexample to C25 with the distortion read as the mean of the squared
differences: frames of three channels, one row and 7 columns, blocks of one pixel, both
radii 4, samples between 0 and 8192.  The target frame is 0 everywhere; the pixels of
the reference frame are `(8192, 1, 0)` except the one at column 4, which is
`(8192, 0, 0)`.  For the block at column 4 the first step compares the candidates at
columns 2, 4 and 6; in `float` the sum `2^26 + 1` is rounded to `2^26`, so that `MSE`
returns 22369622 for all three and the first one, at column 2, is kept.  Its mean square
error `(2^26 + 1) / 3` is above `2^26 / 3`, the one of the compared candidate at
offset `(0, 0)`. -/
theorem C25_counterexample_rounded_tie :
    (((0 : Int) < cfg1.block_width ∧ (0 : Int) < cfg1.block_height) ∧
      ((4 : Int) ≤ cfg1.search_horizontal ∧ (4 : Int) ≤ cfg1.search_vertical) ∧
      (tie_ref.chans = tie_tgt.chans ∧ tie_ref.rows = tie_tgt.rows ∧
        tie_ref.cols = tie_tgt.cols)) ∧
    ∃ blocks mb, Assignment1.Set_Macroblocks cfg1 tie_tgt [] = some blocks ∧
      blocks[4]? = some mb ∧
      ∀ fuel, 4 ≤ fuel → ∃ s1,
        Assignment1.Search_Step cfg1 fuel tie_ref 0 (Assignment1.Search_Init cfg1 mb) =
          some s1 ∧
        ((Assignment1.Search_Init cfg1 mb).least_MSE_x = 4 ∧
          (Assignment1.Search_Init cfg1 mb).least_MSE_y = 0) ∧
        (s1.least_MSE_x = 2 ∧ s1.least_MSE_y = 0) ∧
        (((0 : Int), (0 : Int)) ∈ Assignment1.Nine_Offsets
            (Assignment1.Search_Init cfg1 mb).search_dist_x
            (Assignment1.Search_Init cfg1 mb).search_dist_y ∧
          Assignment1.Cand_Valid cfg1 (Assignment1.Search_Init cfg1 mb) 0 0) ∧
        Assignment1.Exact_MSE cfg1 mb.block tie_ref 4 0 = 2 ^ 26 / 3 ∧
        Assignment1.Exact_MSE cfg1 mb.block tie_ref 2 0 = (2 ^ 26 + 1) / 3 ∧
        Assignment1.Exact_MSE cfg1 mb.block tie_ref
            ((Assignment1.Search_Init cfg1 mb).least_MSE_x + 0)
            ((Assignment1.Search_Init cfg1 mb).least_MSE_y + 0) <
          Assignment1.Exact_MSE cfg1 mb.block tie_ref s1.least_MSE_x s1.least_MSE_y := by
  refine ⟨⟨⟨by decide, by decide⟩, ⟨by decide, by decide⟩, ⟨rfl, rfl, rfl⟩⟩, ?_⟩
  obtain ⟨blocks, mb, hb, hk, hIs, _⟩ := tie_block
  refine ⟨blocks, mb, hb, hk, ?_⟩
  intro fuel hf
  obtain ⟨s1, s3, hS1, ⟨hx1, hy1⟩, _, _, _, _, _, _, hv00, _⟩ := tie_search fuel hf mb hIs
  obtain ⟨⟨ex, ey⟩, ⟨dc, _, _⟩, hpix, _, _⟩ := hIs
  have hblock : mb.block.chans = 3 ∧ ∀ c : Int, (0 ≤ c ∧ c < 3) → mb.block.pix c 0 0 = 0 :=
    ⟨dc, fun c hc => by rw [hpix c 0 0 hc (by decide) (by decide)]; rfl⟩
  have hx0 : (Assignment1.Search_Init cfg1 mb).least_MSE_x = 4 := by
    show mb.block_location_x = 4
    rw [ex]; decide
  have hy0 : (Assignment1.Search_Init cfg1 mb).least_MSE_y = 0 := by
    show mb.block_location_y = 0
    rw [ey]; decide
  have e4 : Assignment1.Exact_MSE cfg1 mb.block tie_ref 4 0 = 2 ^ 26 / 3 := by
    rw [tie_exact mb.block hblock 4 0, if_pos rfl]
  have e2 : Assignment1.Exact_MSE cfg1 mb.block tie_ref 2 0 = (2 ^ 26 + 1) / 3 := by
    rw [tie_exact mb.block hblock 2 0, if_neg (by decide)]
  refine ⟨s1, hS1, ⟨hx0, hy0⟩, ⟨hx1, hy1⟩, ⟨by simp [Assignment1.Nine_Offsets], hv00⟩, e4, e2, ?_⟩
  rw [hx0, hy0, hx1, hy1]
  show Assignment1.Exact_MSE cfg1 mb.block tie_ref (4 + 0) (0 + 0) < _
  have e : ((4 : Int) + 0) = 4 := rfl
  have e' : ((0 : Int) + 0) = 0 := rfl
  rw [e, e', e4, e2]
  norm_num

/-- Counterexample to C28 with the distortion read as the mean of the squared
differences: for the frames `tie_ref` and `tie_tgt`, blocks of one pixel and both radii
4, `Block_Match` gives the block at column 4 the motion vector `(-2, 0)`, although the
mean square error at the final best location, `(2^26 + 1) / 3`, is above the one at zero
displacement, `2^26 / 3`; in `float` both are 22369622. -/
theorem C28_counterexample_rounded_tie :
    (((0 : Int) < cfg1.block_width ∧ (0 : Int) < cfg1.block_height) ∧
      ((4 : Int) ≤ cfg1.search_horizontal ∧ (4 : Int) ≤ cfg1.search_vertical) ∧
      (tie_ref.chans = tie_tgt.chans ∧ tie_ref.rows = tie_tgt.rows ∧
        tie_ref.cols = tie_tgt.cols)) ∧
    ∃ blocks mb, Assignment1.Set_Macroblocks cfg1 tie_tgt [] = some blocks ∧
      blocks[4]? = some mb ∧
      ∀ fuel, 4 ≤ fuel → ∃ ms r, Assignment1.Match_All cfg1 fuel tie_ref blocks = some ms ∧
        ms[4]? = some r ∧
        (r.1.motion_vector_x = -2 ∧ r.1.motion_vector_y = 0) ∧
        r.2 = FVal.val 22369622 ∧
        Assignment1.Cand_MSE cfg1 mb.block tie_ref mb.block_location_x mb.block_location_y =
          22369622 ∧
        Assignment1.Exact_MSE cfg1 mb.block tie_ref mb.block_location_x mb.block_location_y <
          Assignment1.Exact_MSE cfg1 mb.block tie_ref
            (mb.block_location_x + r.1.motion_vector_x)
            (mb.block_location_y + r.1.motion_vector_y) := by
  refine ⟨⟨⟨by decide, by decide⟩, ⟨by decide, by decide⟩, ⟨rfl, rfl, rfl⟩⟩, ?_⟩
  obtain ⟨blocks, mb, hb, hk, hIs, hall⟩ := tie_block
  refine ⟨blocks, mb, hb, hk, ?_⟩
  intro fuel hf
  obtain ⟨ms, hms, _, hall2⟩ := Match_All_total cfg1 fuel tie_ref tie_tgt blocks (by decide)
    (by decide) (by decide) (by decide) hf ⟨rfl, rfl, rfl⟩ hall
  obtain ⟨r, hr4, hr⟩ := hall2 4 mb hk
  obtain ⟨s1, st, _, _, _, hst, ⟨hx, hy⟩, hm, _, ⟨hlx, hly⟩, _, _⟩ := tie_search fuel hf mb hIs
  obtain ⟨⟨ex, ey⟩, ⟨dc, _, _⟩, hpix, _, _⟩ := hIs
  have hblock : mb.block.chans = 3 ∧ ∀ c : Int, (0 ≤ c ∧ c < 3) → mb.block.pix c 0 0 = 0 :=
    ⟨dc, fun c hc => by rw [hpix c 0 0 hc (by decide) (by decide)]; rfl⟩
  have hx0 : mb.block_location_x = 4 := by rw [ex]; decide
  have hy0 : mb.block_location_y = 0 := by rw [ey]; decide
  have hM : Assignment1.Match_Macroblock cfg1 fuel tie_ref mb = some
      ({ st.this_macroblock with
          motion_vector_x := st.least_MSE_x - st.this_macroblock.block_location_x
          motion_vector_y := st.least_MSE_y - st.this_macroblock.block_location_y },
        st.least_MSE) := by
    simp only [Assignment1.Match_Macroblock, hst, Option.some_bind, Option.bind_eq_bind]
  rw [hM] at hr
  have hr' := Option.some.inj hr
  have hmx : r.1.motion_vector_x = -2 := by
    rw [← hr']
    show st.least_MSE_x - st.this_macroblock.block_location_x = -2
    rw [hx, hlx]
    decide
  have hmy : r.1.motion_vector_y = 0 := by
    rw [← hr']
    show st.least_MSE_y - st.this_macroblock.block_location_y = 0
    rw [hy, hly]
    decide
  have hr2 : r.2 = FVal.val 22369622 := by
    rw [← hr']
    exact hm
  have hQ := tie_state (Assignment1.Search_Init cfg1 mb) hblock (0, 0)
  have hc : Assignment1.Cand_MSE cfg1 mb.block tie_ref mb.block_location_x
      mb.block_location_y = 22369622 := by
    have e : Assignment1.Offset_MSE cfg1 tie_ref (Assignment1.Search_Init cfg1 mb) (0, 0) =
        Assignment1.Cand_MSE cfg1 mb.block tie_ref (mb.block_location_x + 0)
          (mb.block_location_y + 0) := rfl
    rw [e, add_zero, add_zero] at hQ
    exact hQ
  refine ⟨ms, r, hms, hr4, ⟨hmx, hmy⟩, hr2, hc, ?_⟩
  rw [hmx, hmy, hx0, hy0]
  have e1 : ((4 : Int) + -2) = 2 := rfl
  have e2 : ((0 : Int) + 0) = 0 := rfl
  rw [e1, e2, tie_exact mb.block hblock 4 0, tie_exact mb.block hblock 2 0, if_pos rfl,
    if_neg (by decide)]
  norm_num

/-- Counterexample to C31 with the distortion read as the mean of the squared
differences: for the frames `tie_ref` and `tie_tgt`, blocks of one pixel and both radii
4, the first step for the block at column 4 selects the candidate at offset `(-2, 0)`,
at place 1 of the scan order.  The candidate at offset `(0, 0)`, at place 4, is compared
and has a strictly lower mean square error, so the selected candidate does not attain
the minimum of the step; in `float` the two distortions are equal and the earlier
candidate is kept. -/
theorem C31_counterexample_rounded_tie :
    (((0 : Int) < cfg1.block_width ∧ (0 : Int) < cfg1.block_height) ∧
      ((4 : Int) ≤ cfg1.search_horizontal ∧ (4 : Int) ≤ cfg1.search_vertical) ∧
      (tie_ref.chans = tie_tgt.chans ∧ tie_ref.rows = tie_tgt.rows ∧
        tie_ref.cols = tie_tgt.cols)) ∧
    ∃ blocks mb, Assignment1.Set_Macroblocks cfg1 tie_tgt [] = some blocks ∧
      blocks[4]? = some mb ∧
      ∀ fuel, 4 ≤ fuel → ∃ s1,
        Assignment1.Search_Step cfg1 fuel tie_ref 0 (Assignment1.Search_Init cfg1 mb) =
          some s1 ∧
        ((Assignment1.Nine_Offsets (Assignment1.Search_Init cfg1 mb).search_dist_x
            (Assignment1.Search_Init cfg1 mb).search_dist_y)[1]? = some (-2, 0) ∧
          (Assignment1.Nine_Offsets (Assignment1.Search_Init cfg1 mb).search_dist_x
            (Assignment1.Search_Init cfg1 mb).search_dist_y)[4]? = some (0, 0)) ∧
        (Assignment1.Cand_Valid cfg1 (Assignment1.Search_Init cfg1 mb) (-2) 0 ∧
          Assignment1.Cand_Valid cfg1 (Assignment1.Search_Init cfg1 mb) 0 0) ∧
        (s1.least_MSE_x = (Assignment1.Search_Init cfg1 mb).least_MSE_x + -2 ∧
          s1.least_MSE_y = (Assignment1.Search_Init cfg1 mb).least_MSE_y + 0) ∧
        Assignment1.Offset_MSE cfg1 tie_ref (Assignment1.Search_Init cfg1 mb) (0, 0) =
          Assignment1.Offset_MSE cfg1 tie_ref (Assignment1.Search_Init cfg1 mb) (-2, 0) ∧
        Assignment1.Exact_MSE cfg1 mb.block tie_ref
            ((Assignment1.Search_Init cfg1 mb).least_MSE_x + 0)
            ((Assignment1.Search_Init cfg1 mb).least_MSE_y + 0) <
          Assignment1.Exact_MSE cfg1 mb.block tie_ref
            ((Assignment1.Search_Init cfg1 mb).least_MSE_x + -2)
            ((Assignment1.Search_Init cfg1 mb).least_MSE_y + 0) := by
  refine ⟨⟨⟨by decide, by decide⟩, ⟨by decide, by decide⟩, ⟨rfl, rfl, rfl⟩⟩, ?_⟩
  obtain ⟨blocks, mb, hb, hk, hIs, _⟩ := tie_block
  refine ⟨blocks, mb, hb, hk, ?_⟩
  intro fuel hf
  obtain ⟨s1, s3, hS1, ⟨hx1, hy1⟩, _, _, _, _, _, _, hv00, hv20⟩ := tie_search fuel hf mb hIs
  obtain ⟨⟨ex, ey⟩, ⟨dc, _, _⟩, hpix, _, _⟩ := hIs
  have hblock : mb.block.chans = 3 ∧ ∀ c : Int, (0 ≤ c ∧ c < 3) → mb.block.pix c 0 0 = 0 :=
    ⟨dc, fun c hc => by rw [hpix c 0 0 hc (by decide) (by decide)]; rfl⟩
  have hx0 : (Assignment1.Search_Init cfg1 mb).least_MSE_x = 4 := by
    show mb.block_location_x = 4
    rw [ex]; decide
  have hy0 : (Assignment1.Search_Init cfg1 mb).least_MSE_y = 0 := by
    show mb.block_location_y = 0
    rw [ey]; decide
  refine ⟨s1, hS1, ⟨rfl, rfl⟩, ⟨hv20, hv00⟩, ⟨?_, ?_⟩, ?_, ?_⟩
  · rw [hx1, hx0]; rfl
  · rw [hy1, hy0]; rfl
  · rw [tie_state _ hblock (0, 0), tie_state _ hblock (-2, 0)]
  · rw [hx0, hy0]
    have e1 : ((4 : Int) + -2) = 2 := rfl
    have e2 : ((0 : Int) + 0) = 0 := rfl
    have e3 : ((4 : Int) + 0) = 4 := rfl
    rw [e1, e2, e3, tie_exact mb.block hblock 4 0, tie_exact mb.block hblock 2 0, if_pos rfl,
      if_neg (by decide)]
    norm_num

end BMA
